import Mathlib

/-!
# D2RSG zone placement and connectivity engine

A shallow embedding of `TemplateZone` (src/templatezone.cpp): the tile grid owned by the map
generator, the connectivity search `connectPath`, the object placement routines, the corridor
generator and `fill`, followed by theorems about them.

Conventions of the embedding:
* `std::set<Position>` and `std::vector<Position>` are lists; a set is a list kept free of
  duplicates by `setInsert`, and `eraseIfPresent` removes every occurrence.  A set is walked in
  the order of its list.
* `std::map<Position, T>` is a function `Position → Option T`.
* Search costs are stored by the source as `float` but only ever hold small whole numbers
  (path lengths, squared distances); they are natural numbers here.  A missing entry of
  `distances` (`bestDistanceSoFar = INT_MAX` in the source) is `none`, and so is the initial
  value +infinity of the nearest-object distance.
* The tile reads and the tile write of the map generator are total functions of the position.
* Loops that the source writes as `while` take a fuel argument and return `none` when the fuel
  runs out; for `connectPath` the theorems show that the fuel it supplies is enough.
* A thrown `std::runtime_error` is `Except.error`.
-/

namespace D2RSG

/-! ## Positions -/

/-- Integer grid coordinate `(x, y)`. -/
structure Position where
  x : Int
  y : Int
deriving DecidableEq, Repr

namespace Position

instance : Add Position := ⟨fun a b => ⟨a.x + b.x, a.y + b.y⟩⟩

/-- Modelled from the spec: `Position::isValid` (position.h is not part of the sources); the
sentinel `(-1, -1)` and every other position with a negative coordinate is not valid. -/
def isValid (p : Position) : Bool := decide (0 ≤ p.x) && decide (0 ≤ p.y)

/-- Modelled from the spec: `Position::distanceSquared`, the squared Euclidean distance. -/
def distanceSquared (a b : Position) : Nat :=
  ((a.x - b.x) * (a.x - b.x) + (a.y - b.y) * (a.y - b.y)).toNat

end Position

/-- The sentinel `Position{-1, -1}` used as "no parent" and "not found". -/
def invalidPosition : Position := ⟨-1, -1⟩

/-! ## Placeable elements and scenario objects -/

/-- Modelled from the spec: `MapElement`, the abstract placeable (mapelement.h is not part of the
sources): "position (top-left anchor), integer size, entrance offset (relative to anchor), set
of blocked offsets (footprint), set of entrance-approach offsets, and a per-direction
visitable-from predicate". -/
structure MapElement where
  position : Position
  size : Position
  entranceOffset : Position
  blockedOffsets : List Position
  entranceOffsets : List Position
  visitableFrom : Position → Bool

namespace MapElement

/-- The setter `MapElement::setPosition`. -/
def setPosition (e : MapElement) (p : Position) : MapElement := { e with position := p }

/-- The getter `MapElement::getSize`. -/
def getSize (e : MapElement) : Position := e.size

/-- The getter `MapElement::getEntranceOffset`. -/
def getEntranceOffset (e : MapElement) : Position := e.entranceOffset

/-- Modelled from the spec: `MapElement::getEntrance`, the entrance offset applied to the
anchor. -/
def getEntrance (e : MapElement) : Position := e.position + e.entranceOffset

/-- The getter `MapElement::getBlockedOffsets`. -/
def getBlockedOffsets (e : MapElement) : List Position := e.blockedOffsets

/-- Modelled from the spec: `MapElement::getBlockedPositions`, the blocked offsets applied to the
anchor. -/
def getBlockedPositions (e : MapElement) : List Position :=
  e.blockedOffsets.map fun offset => e.position + offset

/-- The getter `MapElement::getEntranceOffsets`. -/
def getEntranceOffsets (e : MapElement) : List Position := e.entranceOffsets

/-- The predicate `MapElement::isVisitableFrom`. -/
def isVisitableFrom (e : MapElement) (direction : Position) : Bool := e.visitableFrom direction

end MapElement

/-- The object kinds of `CMidgardID::Type` that `placeScenarioObject` tells apart; every other
kind is `Other`. -/
inductive ObjectType where
  | Fortification
  | Stack
  | Crystal
  | Ruin
  | Other
deriving DecidableEq, Repr

/-- A `ScenarioObject`: its id, the kind of its id, and its `MapElement` part when the object is
a map element (`dynamic_cast<MapElement*>` succeeds). -/
structure ScenarioObject where
  id : Nat
  type : ObjectType
  mapElement : Option MapElement

/-! ## Tile grid (the map generator) -/

/-- Occupancy state of a tile (`TileType`). -/
inductive TileType where
  | Free
  | Possible
  | Blocked
  | Used
deriving DecidableEq, Repr

/-- The part of `MapGenerator` (and of its `map`) that the zone code reads and writes: the map
extent, the occupancy state and zone id of every tile, the nearest-object distance field
(`none` is the initial value, +infinity), the stored objects, and the two border tests of the
map, which are taken as given. -/
structure MapGenerator where
  width : Nat
  height : Nat
  tiles : Position → TileType
  zoneIds : Position → Int
  nearestObjectDistance : Position → Option Nat
  /-- The objects stored by `insertObject`, latest last. -/
  objects : List ScenarioObject
  /-- The id the next call of `createId` hands out. -/
  nextId : Nat
  /-- The test `Map::isAtTheBorder(position)`; map.cpp is not part of the sources. -/
  atBorder : Position → Bool
  /-- The test `Map::isAtTheBorder(mapElement, position)`. -/
  atBorderFor : MapElement → Position → Bool
  /-- Whether `foreachNeighbor` and `foreachDirectNeighbor` read their position argument anew
  for every direction (a `const Position&` bound to a variable that the visitor changes) or once
  (a copy); mapgenerator.h is not part of the sources.  Only `crunchPath` passes a variable
  that its visitor changes. -/
  aliasesPosition : Bool
  /-- The road flag of every tile, read by `isRoad` and written by `setRoad`. -/
  roads : Position → Bool
  /-- The flag `visitable` of the tiles of the map (`map->getTile(p).visitable`): the tile is
  the entrance of an object. -/
  visitable : Position → Bool
  /-- The answer of `Map::canMoveBetween(from, to)`; map.cpp is not part of the sources. -/
  canMoveBetweenAt : Position → Position → Bool
  /-- The answer of `MapGenerator::shouldBeBlocked(position)`, "tile eligible for later
  blocking"; mapgenerator.h is not part of the sources. -/
  shouldBeBlockedAt : Position → Bool

namespace MapGenerator

/-- Modelled from the spec: `Map::isInTheMap`, "is tile inside map bounds". -/
def isInTheMap (m : MapGenerator) (p : Position) : Bool :=
  decide (0 ≤ p.x) && decide (p.x < (m.width : Int)) &&
    (decide (0 ≤ p.y) && decide (p.y < (m.height : Int)))

/-- Modelled from the spec: `MapGenerator::isFree`, the tile state is Free. -/
def isFree (m : MapGenerator) (p : Position) : Bool := decide (m.tiles p = TileType.Free)

/-- Modelled from the spec: `MapGenerator::isPossible`, the tile state is Possible. -/
def isPossible (m : MapGenerator) (p : Position) : Bool := decide (m.tiles p = TileType.Possible)

/-- Modelled from the spec: `MapGenerator::isBlocked`, the tile cannot be passed: its state is
Blocked or Used ("no paths through blocked or occupied tiles"). -/
def isBlocked (m : MapGenerator) (p : Position) : Bool :=
  decide (m.tiles p = TileType.Blocked) || decide (m.tiles p = TileType.Used)

/-- The call `mapGenerator->map->isAtTheBorder(position)`. -/
def isAtTheBorder (m : MapGenerator) (p : Position) : Bool := m.atBorder p

/-- The call `mapGenerator->map->isAtTheBorder(mapElement, position)`. -/
def isAtTheBorderFor (m : MapGenerator) (e : MapElement) (p : Position) : Bool :=
  m.atBorderFor e p

/-- Modelled from the spec: `MapGenerator::insertObject`, the object is stored in the scenario
map. -/
def insertObject (m : MapGenerator) (o : ScenarioObject) : MapGenerator :=
  { m with objects := m.objects ++ [o] }

/-- Modelled from the spec: `MapGenerator::createId`, a fresh object id ("ID allocation" is an
external collaborator). -/
def createId (m : MapGenerator) : Nat × MapGenerator :=
  (m.nextId, { m with nextId := m.nextId + 1 })

/-- Zone id of a tile, `MapGenerator::getZoneId`. -/
def getZoneId (m : MapGenerator) (p : Position) : Int := m.zoneIds p

/-- Modelled from the spec: `MapGenerator::isRoad`, the road flag of the tile. -/
def isRoad (m : MapGenerator) (p : Position) : Bool := m.roads p

/-- Modelled from the spec: `MapGenerator::setRoad`, the write of the road flag of a tile. -/
def setRoad (m : MapGenerator) (p : Position) (value : Bool) : MapGenerator :=
  { m with roads := fun q => if q = p then value else m.roads q }

/-- Modelled from the spec: `Map::canMoveBetween`, whether the map lets a road step from one
tile to the other. -/
def canMoveBetween (m : MapGenerator) (source destination : Position) : Bool :=
  m.canMoveBetweenAt source destination

/-- Modelled from the spec: `MapGenerator::shouldBeBlocked`, the tile is eligible for later
blocking. -/
def shouldBeBlocked (m : MapGenerator) (p : Position) : Bool := m.shouldBeBlockedAt p

/-- Modelled from the spec: `MapGenerator::setOccupied`, the tile-state write. -/
def setOccupied (m : MapGenerator) (p : Position) (value : TileType) : MapGenerator :=
  { m with tiles := fun q => if q = p then value else m.tiles q }

/-- Stored nearest-object distance of a tile, `MapGenerator::getNearestObjectDistance`. -/
def getNearestObjectDistance (m : MapGenerator) (p : Position) : Option Nat :=
  m.nearestObjectDistance p

/-- Modelled from the spec: `MapGenerator::setNearestObjectDistance`, the distance-field write. -/
def setNearestObjectDistance (m : MapGenerator) (p : Position) (value : Option Nat) :
    MapGenerator :=
  { m with nearestObjectDistance := fun q => if q = p then value else m.nearestObjectDistance q }

/-- Offsets of the four direct neighbours, in enumeration order. -/
def directOffsets : List Position := [⟨0, 1⟩, ⟨0, -1⟩, ⟨-1, 0⟩, ⟨1, 0⟩]

/-- Offsets of the four diagonal neighbours, in enumeration order. -/
def diagonalOffsets : List Position := [⟨1, 1⟩, ⟨-1, 1⟩, ⟨1, -1⟩, ⟨-1, -1⟩]

/-- Modelled from the spec: the tiles visited by `MapGenerator::foreachDirectNeighbor`, the
direct neighbours of `p` that are inside the map, each once. -/
def directNeighbors (m : MapGenerator) (p : Position) : List Position :=
  (directOffsets.map fun d => p + d).filter m.isInTheMap

/-- Modelled from the spec: the tiles visited by `MapGenerator::foreachDiagonalNeighbor`. -/
def diagonalNeighbors (m : MapGenerator) (p : Position) : List Position :=
  (diagonalOffsets.map fun d => p + d).filter m.isInTheMap

/-- Modelled from the spec: the tiles visited by `MapGenerator::foreachNeighbor`, all eight
neighbours of `p` that are inside the map, each once. -/
def allNeighbors (m : MapGenerator) (p : Position) : List Position :=
  ((directOffsets ++ diagonalOffsets).map fun d => p + d).filter m.isInTheMap

/-- The directions a search walks over: the direct ones when `onlyStraight`, all eight
otherwise. -/
def neighborOffsets (onlyStraight : Bool) : List Position :=
  if onlyStraight then directOffsets else directOffsets ++ diagonalOffsets

/-- The neighbour enumeration a search uses: direct neighbours when `onlyStraight`, all eight
otherwise. -/
def neighbors (m : MapGenerator) (onlyStraight : Bool) (p : Position) : List Position :=
  if onlyStraight then m.directNeighbors p else m.allNeighbors p

/-- Every tile of the map, column by column. -/
def allTiles (m : MapGenerator) : List Position :=
  (List.range m.width).flatMap fun (x : Nat) =>
    (List.range m.height).map fun (y : Nat) => (⟨(x : Int), (y : Int)⟩ : Position)

end MapGenerator

/-! ## Containers -/

/-- Insertion into a `std::set`: nothing happens when the element is already present.  The list
keeps the order of insertion; a `std::set` is walked in the order of `Position::operator<`,
which is not part of the sources, so that a choice among equally good elements of a set may
fall on another element than in the list. -/
def setInsert (s : List Position) (p : Position) : List Position :=
  if p ∈ s then s else s ++ [p]

/-- The helper `eraseIfPresent` of containers.h on a set. -/
def eraseIfPresent (s : List Position) (p : Position) : List Position :=
  s.filter fun q => decide (q ≠ p)

/-- Modelled from the spec: `PriorityQueue`, "a priority queue ordered by accumulated cost, ties
broken by insertion order".  The queue is the list of its entries in insertion order. -/
abbrev PriorityQueue := List (Position × Nat)

namespace PriorityQueue

/-- The entry `top()` returns: the first inserted entry among those of least cost. -/
def top : PriorityQueue → Option (Position × Nat)
  | [] => none
  | a :: rest => some (rest.foldl (fun best c => if c.2 < best.2 then c else best) a)

/-- The queue after `pop()`. -/
def pop (q : PriorityQueue) : PriorityQueue :=
  match top q with
  | none => q
  | some e => q.erase e

/-- The queue after `push(e)`. -/
def push (q : PriorityQueue) (e : Position × Nat) : PriorityQueue := q ++ [e]

end PriorityQueue

/-! ## The zone -/

/-- The resources of `ResourceType`: gold, which the sources name, and the other resources,
told apart by a number. -/
inductive ResourceType where
  | Gold
  | Mana (kind : Nat)
deriving DecidableEq, Repr

/-- An entry of the zone setting `ruins`; the cash range is the part `placeRuins` reads. -/
structure RuinInfo where
  cashMin : Nat
  cashMax : Nat

/-- The zone kinds of `TemplateZoneType`: the four the sources name, and `Treasure` for every
other kind. -/
inductive TemplateZoneType where
  | PlayerStart
  | AiStart
  | Treasure
  | Junction
  | Water
deriving DecidableEq, Repr

/-- The part of `TemplateZone` used by the search and placement code.  `requestedPositions` is
keyed by the id of the object; `tileInfo` lists the tiles of the zone in the iteration order of
the set. -/
structure TemplateZone where
  id : Int
  type : TemplateZoneType
  pos : Position
  tileInfo : List Position
  possibleTiles : List Position
  freePaths : List Position
  roadNodes : List Position
  roads : List Position
  requiredObjects : List (ScenarioObject × Int)
  closeObjects : List (ScenarioObject × Int)
  requestedPositions : Nat → Option Position
  ruins : List RuinInfo
  mines : List (ResourceType × Nat)

/-! ## Connectivity search: `TemplateZone::connectPath` -/

/-- Local state of the search loop of `connectPath`. -/
structure SearchState where
  closed : List Position
  queue : PriorityQueue
  cameFrom : Position → Option Position
  distances : Position → Option Nat

/-- How the search loop of `connectPath` ended: it popped a Free tile, or the queue ran empty. -/
inductive SearchOutcome where
  | reached (node : Position) (st : SearchState)
  | exhausted (st : SearchState)

/-- The state before the first iteration: `cameFrom[source] = (-1, -1)`, `distances[source] = 0`
and `open.push({source, 0})`. -/
def connectPathInit (source : Position) : SearchState :=
  { closed := []
    queue := PriorityQueue.push [] (source, 0)
    cameFrom := fun q => if q = source then some invalidPosition else none
    distances := fun q => if q = source then some 0 else none }

/-- The lambda `functor` of `connectPath`, applied to the neighbour `pos` of `currentNode`. -/
def connectPathVisit (m : MapGenerator) (z : TemplateZone) (currentNode : Position)
    (st : SearchState) (pos : Position) : SearchState :=
  if pos ∈ st.closed then st
  else if m.isBlocked pos || decide (m.getZoneId pos ≠ z.id) then st
  else
    let distance := (st.distances currentNode).getD 0 + 1
    let better : Bool :=
      match st.distances pos with
      | some bestDistanceSoFar => decide (distance < bestDistanceSoFar)
      | none => true
    if better then
      { st with
        cameFrom := fun q => if q = pos then some currentNode else st.cameFrom q
        queue := PriorityQueue.push st.queue (pos, distance)
        distances := fun q => if q = pos then some distance else st.distances q }
    else st

/-- The `while (!open.empty())` loop of `connectPath`. -/
def connectPathLoop (m : MapGenerator) (z : TemplateZone) (onlyStraight : Bool) :
    Nat → SearchState → Option SearchOutcome
  | 0, _ => none
  | fuel + 1, st =>
    match PriorityQueue.top st.queue with
    | none => some (SearchOutcome.exhausted st)
    | some node =>
      let currentNode := node.1
      let st1 : SearchState :=
        { st with queue := PriorityQueue.pop st.queue, closed := setInsert st.closed currentNode }
      if m.isFree currentNode then some (SearchOutcome.reached currentNode st1)
      else
        connectPathLoop m z onlyStraight fuel
          ((m.neighbors onlyStraight currentNode).foldl (connectPathVisit m z currentNode) st1)

/-- The search of `connectPath` run from `source`. -/
def connectPathSearch (m : MapGenerator) (z : TemplateZone) (source : Position)
    (onlyStraight : Bool) : Option SearchOutcome :=
  connectPathLoop m z onlyStraight (m.width * m.height + 2) (connectPathInit source)

/-- The backtracking loop `while (cameFrom[backTracking].isValid())`: every tile on the way gets
Free; the loop stops at the tile whose parent is not valid. -/
def backtrackFree (cameFrom : Position → Option Position) :
    Nat → Position → MapGenerator → Option MapGenerator
  | 0, _, _ => none
  | fuel + 1, backTracking, m =>
    match cameFrom backTracking with
    | none => some m
    | some parent =>
      if parent.isValid then
        backtrackFree cameFrom fuel parent (m.setOccupied backTracking TileType.Free)
      else some m

/-- The tiles the backtracking loop walks over, from the reached tile down to and including the
tile whose parent is not valid. -/
def parentChain (cameFrom : Position → Option Position) : Nat → Position → List Position
  | 0, _ => []
  | fuel + 1, backTracking =>
    match cameFrom backTracking with
    | none => [backTracking]
    | some parent =>
      if parent.isValid then backTracking :: parentChain cameFrom fuel parent
      else [backTracking]

/-- The sealing loop at the end of `connectPath`, on the grid. -/
def sealTiles (m : MapGenerator) (closed : List Position) : MapGenerator :=
  closed.foldl (fun g tile => if g.isPossible tile then g.setOccupied tile TileType.Blocked else g)
    m

/-- The sealing loop at the end of `connectPath`, on the possible-tile set of the zone. -/
def sealPossible (possibleTiles : List Position) (closed : List Position) : List Position :=
  closed.foldl eraseIfPresent possibleTiles

/-- What a call of `connectPath` leaves behind: the returned flag, the grid and the zone. -/
structure ConnectResult where
  result : Bool
  gen : MapGenerator
  zone : TemplateZone

/-- The function `TemplateZone::connectPath(source, onlyStraight)`. -/
def connectPath (m : MapGenerator) (z : TemplateZone) (source : Position) (onlyStraight : Bool) :
    Option ConnectResult :=
  match connectPathSearch m z source onlyStraight with
  | none => none
  | some (SearchOutcome.reached node st) =>
    match backtrackFree st.cameFrom ((st.distances node).getD 0 + 1) node m with
    | none => none
    | some g => some { result := true, gen := g, zone := z }
  | some (SearchOutcome.exhausted st) =>
    some { result := false
           gen := sealTiles m st.closed
           zone := { z with possibleTiles := sealPossible z.possibleTiles st.closed } }

/-! ## Object placement -/

/-- Outcome of one placement attempt (`ObjectPlacingResult`). -/
inductive ObjectPlacingResult where
  | Success
  | CannotFit
  | SealedOff
deriving DecidableEq, Repr

/-- The pairs `(x, y)` in the order of the two nested loops of `getAccessibleOffset`. -/
def accessDirections : List Position :=
  [⟨-1, -1⟩, ⟨-1, 0⟩, ⟨-1, 1⟩, ⟨0, -1⟩, ⟨0, 0⟩, ⟨0, 1⟩, ⟨1, -1⟩, ⟨1, 0⟩, ⟨1, 1⟩]

/-- The function `TemplateZone::getAccessibleOffset`: the last tile next to the entrance, in loop
order, from which the element can be visited, or `(-1, -1)`. -/
def getAccessibleOffset (m : MapGenerator) (z : TemplateZone) (mapElement : MapElement)
    (position : Position) : Position :=
  let blocked := mapElement.getBlockedOffsets
  accessDirections.foldl
    (fun result d =>
      if d.x = 0 ∧ d.y = 0 then result
      else
        let offset := d + mapElement.getEntranceOffset
        if offset ∈ blocked then result
        else
          let nearbyPos := position + offset
          if !m.isInTheMap nearbyPos then result
          else if mapElement.isVisitableFrom d && !m.isBlocked nearbyPos
              && decide (nearbyPos ∈ z.tileInfo) then nearbyPos
          else result)
    invalidPosition

/-- The function `TemplateZone::isAccessibleFromSomewhere`. -/
def isAccessibleFromSomewhere (m : MapGenerator) (z : TemplateZone) (mapElement : MapElement)
    (position : Position) : Bool :=
  (getAccessibleOffset m z mapElement position).isValid

/-- The function `TemplateZone::isEntranceAccessible`. -/
def isEntranceAccessible (m : MapGenerator) (mapElement : MapElement) (position : Position) :
    Bool :=
  let entrance := position + mapElement.getEntranceOffset
  mapElement.getEntranceOffsets.all fun offset =>
    let entranceTile := entrance + offset
    m.isInTheMap entranceTile && !m.isBlocked entranceTile

/-- The function `TemplateZone::areAllTilesAvailable`. -/
def areAllTilesAvailable (m : MapGenerator) (z : TemplateZone) (_mapElement : MapElement)
    (position : Position) (blockedOffsets : List Position) : Bool :=
  blockedOffsets.all fun offset =>
    let t := position + offset
    !(!m.isInTheMap t || !m.isPossible t || decide (m.getZoneId t ≠ z.id))

/-- The first statements of `tryToPlaceObjectAndConnectToPath`: the entrance of the element and
the tiles of its footprint that are in the map are set Blocked. -/
def blockFootprint (m : MapGenerator) (mapElement : MapElement) : MapGenerator :=
  mapElement.getBlockedPositions.foldl
    (fun g tile => if g.isInTheMap tile then g.setOccupied tile TileType.Blocked else g)
    (m.setOccupied mapElement.getEntrance TileType.Blocked)

/-- What a call of `tryToPlaceObjectAndConnectToPath` leaves behind. -/
structure PlacingOutcome where
  result : ObjectPlacingResult
  element : MapElement
  gen : MapGenerator
  zone : TemplateZone

/-- The function `TemplateZone::tryToPlaceObjectAndConnectToPath`. -/
def tryToPlaceObjectAndConnectToPath (m : MapGenerator) (z : TemplateZone)
    (mapElement : MapElement) (position : Position) : Option PlacingOutcome :=
  let element := mapElement.setPosition position
  let g := blockFootprint m element
  let accessibleOffset := getAccessibleOffset g z element position
  if !accessibleOffset.isValid then
    some { result := ObjectPlacingResult.CannotFit, element := element, gen := g, zone := z }
  else
    match connectPath g z accessibleOffset true with
    | none => none
    | some r =>
      if !r.result then
        some { result := ObjectPlacingResult.SealedOff, element := element, gen := r.gen,
               zone := r.zone }
      else
        some { result := ObjectPlacingResult.Success, element := element, gen := r.gen,
               zone := r.zone }

/-- Number of low bits a float cannot keep of the integer `n`: the least `s` with
`n / 2^s < 2^24`, a float having a significand of 24 bits; `fuel` bounds the count. -/
def droppedBits : Nat → Nat → Nat
  | 0, _ => 0
  | fuel + 1, n => if n < 16777216 then 0 else droppedBits fuel (n / 2) + 1

/-- The value of `static_cast<float>(n)` for a non-negative integer `n`: an integer below 2^24 is
kept; a larger one is rounded to the nearest multiple of `2^s`, `s` being the number of bits
that do not fit the significand, and halfway between two such multiples the one with the even
significand is taken.  The largest float, above 2^127, is out of the reach of the squared
distance of two positions with `int` coordinates, so no case for +infinity is needed. -/
def castToFloat (n : Nat) : Nat :=
  let unit := 2 ^ droppedBits n n
  let significand := n / unit
  let remainder := n % unit
  if 2 * remainder < unit then significand * unit
  else if 2 * remainder = unit ∧ significand % 2 = 0 then significand * unit
  else (significand + 1) * unit

/-- The function `TemplateZone::updateDistances`; the stored distances are floats that hold
non-negative integers or +infinity, and the minimum with the initial value +infinity is the new
distance. -/
def updateDistances (m : MapGenerator) (z : TemplateZone) (position : Position) : MapGenerator :=
  z.possibleTiles.foldl
    (fun g tile =>
      let distance := castToFloat (position.distanceSquared tile)
      let currentDistance := g.getNearestObjectDistance tile
      g.setNearestObjectDistance tile
        (some (match currentDistance with
          | none => distance
          | some current => min distance current)))
    m

/-- The function `TemplateZone::addRoadNode`. -/
def addRoadNode (z : TemplateZone) (position : Position) : TemplateZone :=
  { z with roadNodes := setInsert z.roadNodes position }

/-- The loop shared by the four `placeObject` overloads: the blocked positions of the element
together with its entrance are set Used. -/
def markUsed (m : MapGenerator) (element : MapElement) : MapGenerator :=
  (setInsert element.getBlockedPositions element.getEntrance).foldl
    (fun g tile => g.setOccupied tile TileType.Used) m

/-- The overload `placeObject(std::unique_ptr<Fortification>&&, position, terrain,
updateDistance)`; terrain painting is left out, the grid does not record terrain. -/
def placeFortification (m : MapGenerator) (z : TemplateZone) (id : Nat)
    (fortification : MapElement) (position : Position) (updateDistance : Bool) :
    Except String (MapGenerator × TemplateZone) :=
  if !m.isInTheMap position then Except.error "Position of fort is outside of the map"
  else
    let fortification := fortification.setPosition position
    if !m.isInTheMap fortification.getEntrance then
      Except.error "Entrance of fort is outside of the map"
    else
      let g := markUsed m fortification
      let g := if updateDistance then updateDistances g z position else g
      let z := addRoadNode z fortification.getEntrance
      Except.ok (g.insertObject ⟨id, ObjectType.Fortification, some fortification⟩, z)

/-- The overload `placeObject(std::unique_ptr<Stack>&&, position, updateDistance)`. -/
def placeStack (m : MapGenerator) (z : TemplateZone) (id : Nat) (stack : MapElement)
    (position : Position) (updateDistance : Bool) : Except String (MapGenerator × TemplateZone) :=
  if !m.isInTheMap position then Except.error "Position of stack is outside of the map"
  else
    let stack := stack.setPosition position
    let g := markUsed m stack
    let g := if updateDistance then updateDistances g z position else g
    Except.ok (g.insertObject ⟨id, ObjectType.Stack, some stack⟩, z)

/-- The overload `placeObject(std::unique_ptr<Crystal>&&, position, updateDistance)`. -/
def placeCrystal (m : MapGenerator) (z : TemplateZone) (id : Nat) (crystal : MapElement)
    (position : Position) (updateDistance : Bool) : Except String (MapGenerator × TemplateZone) :=
  if !m.isInTheMap position then Except.error "Position of crystal is outside of the map"
  else
    let crystal := crystal.setPosition position
    let g := markUsed m crystal
    let g := if updateDistance then updateDistances g z position else g
    Except.ok (g.insertObject ⟨id, ObjectType.Crystal, some crystal⟩, z)

/-- The overload `placeObject(std::unique_ptr<Ruin>&&, position, updateDistance)`. -/
def placeRuin (m : MapGenerator) (z : TemplateZone) (id : Nat) (ruin : MapElement)
    (position : Position) (updateDistance : Bool) : Except String (MapGenerator × TemplateZone) :=
  if !m.isInTheMap position then Except.error "Position of ruin is outside of the map"
  else
    let ruin := ruin.setPosition position
    if !m.isInTheMap ruin.getEntrance then
      Except.error "Entrance of ruin is outside of the map"
    else
      let g := markUsed m ruin
      let g := if updateDistance then updateDistances g z position else g
      Except.ok (g.insertObject ⟨id, ObjectType.Ruin, some ruin⟩, z)

/-- The four classes of object for which `placeObject` is overloaded. -/
inductive PlaceableKind where
  | fortification
  | stack
  | crystal
  | ruin
deriving DecidableEq, Repr

/-- The overloaded `TemplateZone::placeObject`, the overload picked by the class of the
object. -/
def placeObject (kind : PlaceableKind) (m : MapGenerator) (z : TemplateZone) (id : Nat)
    (element : MapElement) (position : Position) (updateDistance : Bool) :
    Except String (MapGenerator × TemplateZone) :=
  match kind with
  | PlaceableKind.fortification => placeFortification m z id element position updateDistance
  | PlaceableKind.stack => placeStack m z id element position updateDistance
  | PlaceableKind.crystal => placeCrystal m z id element position updateDistance
  | PlaceableKind.ruin => placeRuin m z id element position updateDistance

/-- The function `TemplateZone::placeScenarioObject`: the switch over the kind of the object id;
`dynamic_unique_cast` throws when the object is not of the class its id promises, and a kind
without a case places nothing. -/
def placeScenarioObject (m : MapGenerator) (z : TemplateZone) (object : ScenarioObject)
    (position : Position) : Except String (MapGenerator × TemplateZone) :=
  match object.type, object.mapElement with
  | ObjectType.Fortification, some e =>
    placeObject PlaceableKind.fortification m z object.id e position true
  | ObjectType.Stack, some e => placeObject PlaceableKind.stack m z object.id e position true
  | ObjectType.Crystal, some e => placeObject PlaceableKind.crystal m z object.id e position true
  | ObjectType.Ruin, some e => placeObject PlaceableKind.ruin m z object.id e position true
  | ObjectType.Other, _ => Except.ok (m, z)
  | _, none => Except.error "std::bad_cast"

/-! ## Tile selection and the placement passes -/

/-- The comparison `distance >= minDistance` of a stored distance with an `int`; the initial
value +infinity passes. -/
def distanceAtLeast (distance : Option Nat) (minDistance : Int) : Bool :=
  match distance with
  | none => true
  | some d => decide (minDistance ≤ (d : Int))

/-- The comparison `distance > bestDistance` of two stored distances. -/
def distanceGreater (distance bestDistance : Option Nat) : Bool :=
  match distance, bestDistance with
  | none, none => false
  | none, some _ => true
  | some _, none => false
  | some d, some b => decide (b < d)

/-- The locals `bestDistance`, `position` and `result` of `findPlaceForObject`. -/
structure PlaceSearch where
  bestDistance : Option Nat
  position : Position
  result : Bool

/-- The body of the loop over `tileInfo` in `findPlaceForObject`. -/
def findPlaceStep (m : MapGenerator) (z : TemplateZone) (mapElement : MapElement)
    (minDistance : Int) (st : PlaceSearch) (tile : Position) : PlaceSearch :=
  if m.isAtTheBorderFor mapElement tile then st
  else if !isAccessibleFromSomewhere m z mapElement tile then st
  else if !isEntranceAccessible m mapElement tile then st
  else
    let distance := m.getNearestObjectDistance tile
    let isPossible := m.isPossible tile
    let distanceMoreThanMin := distanceAtLeast distance minDistance
    let distanceMoreThanBest := distanceGreater distance st.bestDistance
    if isPossible && distanceMoreThanMin && distanceMoreThanBest then
      if areAllTilesAvailable m z mapElement tile mapElement.getBlockedOffsets then
        { bestDistance := distance, position := tile, result := true }
      else st
    else st

/-- What `findPlaceForObject` leaves behind: the returned flag, the output parameter `position`
and the grid. -/
structure FindResult where
  result : Bool
  position : Position
  gen : MapGenerator

/-- The function `TemplateZone::findPlaceForObject`; `position` is the in-out parameter. -/
def findPlaceForObject (m : MapGenerator) (z : TemplateZone) (mapElement : MapElement)
    (minDistance : Int) (position : Position) : FindResult :=
  let st := z.tileInfo.foldl (findPlaceStep m z mapElement minDistance)
    { bestDistance := some 0, position := position, result := false }
  if st.result then
    { result := true, position := st.position
      gen := m.setOccupied st.position TileType.Blocked }
  else { result := false, position := st.position, gen := m }

/-- State handed from one pending object to the next: whether the function is still running
(`false` once it has executed `return false`), the grid and the zone. -/
structure PassResult where
  proceed : Bool
  gen : MapGenerator
  zone : TemplateZone

/-- The `while (true)` retry loop of `createRequiredObjects` for one required object. -/
def placeRequiredLoop (object : ScenarioObject) :
    Nat → MapElement → Position → MapGenerator → TemplateZone →
      Option (Except String PassResult)
  | 0, _, _, _, _ => none
  | fuel + 1, mapElement, position, m, z =>
    let elementSize := mapElement.getSize.x
    let minDistance := elementSize * 2
    let found := findPlaceForObject m z mapElement minDistance position
    if !found.result then some (Except.ok { proceed := false, gen := found.gen, zone := z })
    else
      match tryToPlaceObjectAndConnectToPath found.gen z mapElement found.position with
      | none => none
      | some out =>
        if out.result = ObjectPlacingResult.Success then
          match placeScenarioObject out.gen out.zone
              { object with mapElement := some out.element } found.position with
          | Except.error e => some (Except.error e)
          | Except.ok r => some (Except.ok { proceed := true, gen := r.1, zone := r.2 })
        else placeRequiredLoop object fuel out.element found.position out.gen out.zone

/-- The loop of `createRequiredObjects` over the required objects. -/
def placeRequiredObjects :
    List (ScenarioObject × Int) → MapGenerator → TemplateZone → Option (Except String PassResult)
  | [], m, z => some (Except.ok { proceed := true, gen := m, zone := z })
  | pair :: rest, m, z =>
    match pair.1.mapElement with
    | none => some (Except.ok { proceed := false, gen := m, zone := z })
    | some mapElement =>
      match placeRequiredLoop pair.1 (z.tileInfo.length + 1) mapElement invalidPosition m z with
      | none => none
      | some (Except.error e) => some (Except.error e)
      | some (Except.ok r) =>
        if r.proceed then placeRequiredObjects rest r.gen r.zone else some (Except.ok r)

/-- The locals of the scan over the candidate tiles of a close object. -/
structure CloseScan where
  attempt : Bool
  finished : Bool
  element : MapElement
  gen : MapGenerator
  zone : TemplateZone

/-- The loop `for (const auto& tile : tiles)` of `createRequiredObjects` for a close object. -/
def closeScan (object : ScenarioObject) (tilesBlockedByObject : List Position) :
    List Position → CloseScan → Option (Except String CloseScan)
  | [], st => some (Except.ok st)
  | tile :: rest, st =>
    if !areAllTilesAvailable st.gen st.zone st.element tile tilesBlockedByObject then
      closeScan object tilesBlockedByObject rest st
    else
      match tryToPlaceObjectAndConnectToPath st.gen st.zone st.element tile with
      | none => none
      | some out =>
        match out.result with
        | ObjectPlacingResult.Success =>
          match placeScenarioObject out.gen out.zone
              { object with mapElement := some out.element } tile with
          | Except.error e => some (Except.error e)
          | Except.ok r =>
            some (Except.ok { attempt := true, finished := true, element := out.element,
                              gen := r.1, zone := r.2 })
        | ObjectPlacingResult.CannotFit =>
          closeScan object tilesBlockedByObject rest
            { attempt := true, finished := st.finished, element := out.element,
              gen := out.gen, zone := out.zone }
        | ObjectPlacingResult.SealedOff =>
          some (Except.ok { attempt := true, finished := st.finished, element := out.element,
                            gen := out.gen, zone := out.zone })

/-- The loop `while (!finished && attempt)` of `createRequiredObjects` for one close object.
`sortCloser gen tilesBlockedByObject targetPosition tiles` stands for `std::sort(tiles,
isCloser)`: the comparator works on floating-point scores, so the order it produces is taken
as given. -/
def placeCloseLoop
    (sortCloser : MapGenerator → List Position → Position → List Position → List Position)
    (object : ScenarioObject) (tilesBlockedByObject : List Position) :
    Nat → MapElement → MapGenerator → TemplateZone → Option (Except String PassResult)
  | 0, _, _, _ => none
  | fuel + 1, mapElement, m, z =>
    let tiles := z.possibleTiles.filter fun tile =>
      !(m.isAtTheBorder tile || m.isAtTheBorderFor mapElement tile
        || !isAccessibleFromSomewhere m z mapElement tile)
    let targetPosition := (z.requestedPositions object.id).getD z.pos
    let tiles := sortCloser m tilesBlockedByObject targetPosition tiles
    if tiles.isEmpty then some (Except.ok { proceed := false, gen := m, zone := z })
    else
      match closeScan object tilesBlockedByObject tiles
          { attempt := false, finished := false, element := mapElement, gen := m, zone := z } with
      | none => none
      | some (Except.error e) => some (Except.error e)
      | some (Except.ok st) =>
        if !st.finished && st.attempt then
          placeCloseLoop sortCloser object tilesBlockedByObject fuel st.element st.gen st.zone
        else some (Except.ok { proceed := true, gen := st.gen, zone := st.zone })

/-- The loop of `createRequiredObjects` over the close objects. -/
def placeCloseObjects
    (sortCloser : MapGenerator → List Position → Position → List Position → List Position) :
    List (ScenarioObject × Int) → MapGenerator → TemplateZone → Option (Except String PassResult)
  | [], m, z => some (Except.ok { proceed := true, gen := m, zone := z })
  | pair :: rest, m, z =>
    match pair.1.mapElement with
    | none => some (Except.ok { proceed := false, gen := m, zone := z })
    | some mapElement =>
      match placeCloseLoop sortCloser pair.1 mapElement.getBlockedOffsets
          (m.width * m.height + 1) mapElement m z with
      | none => none
      | some (Except.error e) => some (Except.error e)
      | some (Except.ok r) =>
        if r.proceed then placeCloseObjects sortCloser rest r.gen r.zone
        else some (Except.ok r)

/-- What a call of `createRequiredObjects` leaves behind. -/
structure CreateResult where
  result : Bool
  gen : MapGenerator
  zone : TemplateZone

/-- The function `TemplateZone::createRequiredObjects`.  The outer `Option` is `none` when a
loop ran out of fuel, `Except.error` is a thrown `std::runtime_error`. -/
def createRequiredObjects
    (sortCloser : MapGenerator → List Position → Position → List Position → List Position)
    (m : MapGenerator) (z : TemplateZone) : Option (Except String CreateResult) :=
  match placeRequiredObjects z.requiredObjects m z with
  | none => none
  | some (Except.error e) => some (Except.error e)
  | some (Except.ok r) =>
    if !r.proceed then some (Except.ok { result := false, gen := r.gen, zone := r.zone })
    else
      match placeCloseObjects sortCloser z.closeObjects r.gen r.zone with
      | none => none
      | some (Except.error e) => some (Except.error e)
      | some (Except.ok c) =>
        if !c.proceed then some (Except.ok { result := false, gen := c.gen, zone := c.zone })
        else
          some (Except.ok
            { result := true, gen := c.gen
              zone := { c.zone with requiredObjects := [], closeObjects := [] } })

/-- The function `TemplateZone::addFreePath`. -/
def addFreePath (m : MapGenerator) (z : TemplateZone) (position : Position) :
    MapGenerator × TemplateZone :=
  (m.setOccupied position TileType.Free, { z with freePaths := setInsert z.freePaths position })

/-- The function `TemplateZone::initFreeTiles`. -/
def initFreeTiles (m : MapGenerator) (z : TemplateZone) : MapGenerator × TemplateZone :=
  let z1 := { z with
    possibleTiles := (z.tileInfo.filter m.isPossible).foldl setInsert z.possibleTiles }
  if z1.freePaths.isEmpty then addFreePath m z1 z1.pos else (m, z1)

/-! ## Corridors: `crunchPath` and `fractalize` -/

/-- The locals of `crunchPath` that its lambdas write, together with the grid and the sink
`clearedTiles`. -/
structure CrunchState where
  result : Bool
  finished : Bool
  currentPosition : Position
  distance : Nat
  gen : MapGenerator
  clearedTiles : Option (List Position)

/-- The insertion `if (clearedTiles) clearedTiles->insert(position)`. -/
def insertCleared (clearedTiles : Option (List Position)) (position : Position) :
    Option (List Position) :=
  clearedTiles.map fun s => setInsert s position

/-- The lambda `processNeighbors` of `crunchPath`; `finished` is the local `end`. -/
def processNeighbors (z : TemplateZone) (destination : Position) (st : CrunchState)
    (position : Position) : CrunchState :=
  if st.result then st
  else
    let st1 : CrunchState :=
      if position = destination then { st with result := true, finished := true } else st
    if position.distanceSquared destination ≥ st1.distance then st1
    else if st1.gen.isBlocked position then st1
    else if st1.gen.getZoneId position ≠ z.id then st1
    else if st1.gen.isPossible position then
      { st1 with
        gen := st1.gen.setOccupied position TileType.Free
        clearedTiles := insertCleared st1.clearedTiles position
        currentPosition := position
        distance := position.distanceSquared destination }
    else if st1.gen.isFree position then { st1 with finished := true, result := true }
    else st1

/-- The locals written by the second lambda of `crunchPath`; `lastDistance` is the inner local of
that name, twice the distance at first. -/
structure FallbackState where
  lastDistance : Nat
  anotherPosition : Position
  clearedTiles : Option (List Position)

/-- The lambda `functor` of `crunchPath`, which looks for any Possible neighbour. -/
def crunchFallback (m : MapGenerator) (z : TemplateZone) (destination currentPosition : Position)
    (st : FallbackState) (position : Position) : FallbackState :=
  if currentPosition.distanceSquared destination ≥ st.lastDistance then st
  else if m.getZoneId position ≠ z.id then st
  else if !m.isPossible position then st
  else
    { lastDistance := currentPosition.distanceSquared destination
      anotherPosition := position
      clearedTiles := insertCleared st.clearedTiles position }

/-- The call `foreachNeighbor(currentPosition, processNeighbors)` of `crunchPath` (or its
direct variant): the visitor moves `currentPosition`, so the tile visited for a direction is the
neighbour of the moved position when the enumeration reads its argument through the reference,
and the neighbour of `start`, the position at the time of the call, when it works on a copy. -/
def visitNeighbors (z : TemplateZone) (destination : Position) (onlyStraight : Bool)
    (start : Position) (st : CrunchState) : CrunchState :=
  (MapGenerator.neighborOffsets onlyStraight).foldl
    (fun s direction =>
      let position := (if s.gen.aliasesPosition then s.currentPosition else start) + direction
      if s.gen.isInTheMap position then processNeighbors z destination s position else s)
    st

/-- One pass through the body of the `while (!end)` loop of `crunchPath`, entered with `end`
false: the state it leaves and whether it ran to the end of the body, that is without
`break`. -/
def crunchPathIteration (z : TemplateZone) (destination : Position) (onlyStraight : Bool)
    (st : CrunchState) : CrunchState × Bool :=
  if st.currentPosition = destination then ({ st with result := true }, false)
  else
    let lastDistance := st.distance
    let st1 := visitNeighbors z destination onlyStraight st.currentPosition st
    if !(st1.result || decide (st1.distance < lastDistance)) then
      let fb := (st1.gen.neighbors onlyStraight st1.currentPosition).foldl
        (crunchFallback st1.gen z destination st1.currentPosition)
        { lastDistance := 2 * st1.distance, anotherPosition := invalidPosition,
          clearedTiles := st1.clearedTiles }
      if fb.anotherPosition.isValid then
        ({ st1 with
            clearedTiles := insertCleared fb.clearedTiles fb.anotherPosition
            gen := st1.gen.setOccupied fb.anotherPosition TileType.Free
            currentPosition := fb.anotherPosition }, true)
      else ({ st1 with clearedTiles := fb.clearedTiles }, false)
    else (st1, true)

/-- The `while (!end)` loop of `crunchPath`. -/
def crunchPathLoop (z : TemplateZone) (destination : Position) (onlyStraight : Bool) :
    Nat → CrunchState → Option CrunchState
  | 0, _ => none
  | fuel + 1, st =>
    if st.finished then some st
    else
      let next := crunchPathIteration z destination onlyStraight st
      if next.2 then crunchPathLoop z destination onlyStraight fuel next.1 else some next.1

/-- The state in which `crunchPath` enters its loop. -/
def crunchPathInit (m : MapGenerator) (source destination : Position)
    (clearedTiles : Option (List Position)) : CrunchState :=
  { result := false, finished := false, currentPosition := source
    distance := source.distanceSquared destination, gen := m
    clearedTiles := clearedTiles }

/-- What a call of `crunchPath` leaves behind. -/
structure CrunchResult where
  result : Bool
  gen : MapGenerator
  clearedTiles : Option (List Position)

/-- The function `TemplateZone::crunchPath`; `clearedTiles` is `none` for a null pointer. -/
def crunchPath (m : MapGenerator) (z : TemplateZone) (source destination : Position)
    (onlyStraight : Bool) (clearedTiles : Option (List Position)) : Option CrunchResult :=
  (crunchPathLoop z destination onlyStraight (m.width * m.height + 2)
    (crunchPathInit m source destination clearedTiles)).map
    fun st => { result := st.result, gen := st.gen, clearedTiles := st.clearedTiles }

/-- Modelled from the spec: the helper `findClosestTile`, the tile of the container nearest to
`destination` by squared distance, the first such in iteration order, or `(-1, -1)` for an empty
container. -/
def findClosestTile (container : List Position) (destination : Position) : Position :=
  (container.foldl
    (fun (best : Position × Option Nat) tile =>
      let currentDistance := destination.distanceSquared tile
      match best.2 with
      | none => (tile, some currentDistance)
      | some distance => if currentDistance < distance then (tile, some currentDistance) else best)
    (invalidPosition, none)).1

/-- The loop over `clearedTiles` for one candidate tile of `fractalize`: the running minimum
`currentDistance` (`none` for the initial 1e10) and whether the loop left through `break`, the
tile then being within the minimal distance 75 of a cleared tile. -/
def closestClearedScan (tileToMakePath : Position) :
    List Position → Option Nat → Option Nat × Bool
  | [], currentDistance => (currentDistance, false)
  | clearTile :: rest, currentDistance =>
    let distance := tileToMakePath.distanceSquared clearTile
    let current : Nat :=
      match currentDistance with
      | none => distance
      | some c => if distance < c then distance else c
    if current ≤ 75 then (some current, true)
    else closestClearedScan tileToMakePath rest (some current)

/-- The test `currentDistance > minDistance` of `fractalize`, the minimal distance being 75, on
the running minimum a scan of the cleared tiles has left; the initial 1e10 passes. -/
def farEnough (currentDistance : Option Nat) : Bool :=
  match currentDistance with
  | none => true
  | some c => decide (75 < c)

/-- The loop `for (const auto& tileToMakePath : tilesToMakePath)` of `fractalize`: the node
found, if any, and the tiles to ignore collected on the way. -/
def findNode (clearedTiles : List Position) :
    List Position → List Position → Option Position × List Position
  | [], tilesToIgnore => (none, tilesToIgnore)
  | tileToMakePath :: rest, tilesToIgnore =>
    let scan := closestClearedScan tileToMakePath clearedTiles none
    let tilesToIgnore := if scan.2 then setInsert tilesToIgnore tileToMakePath else tilesToIgnore
    if farEnough scan.1 then (some tileToMakePath, tilesToIgnore)
    else findNode clearedTiles rest tilesToIgnore

/-- The loop `while (!possibleTiles.empty())` of `fractalize` on its locals `possibleTiles`,
`clearedTiles` and `nodes`; `randomShuffle k` is the outcome of the k-th shuffle. -/
def selectNodes (randomShuffle : Nat → List Position → List Position) :
    Nat → Nat → List Position → List Position → List Position →
      Option (List Position × List Position)
  | 0, _, _, _, _ => none
  | fuel + 1, k, possibleTiles, clearedTiles, nodes =>
    if possibleTiles.isEmpty then some (nodes, clearedTiles)
    else
      let tilesToMakePath := randomShuffle k possibleTiles
      let found := findNode clearedTiles tilesToMakePath []
      let possibleTiles := found.2.foldl eraseIfPresent possibleTiles
      match found.1 with
      | none => some (nodes, clearedTiles)
      | some nodeFound =>
        if !nodeFound.isValid then some (nodes ++ [nodeFound], clearedTiles ++ [nodeFound])
        else
          selectNodes randomShuffle fuel (k + 1) possibleTiles (clearedTiles ++ [nodeFound])
            (nodes ++ [nodeFound])

/-- The nodes ordered by squared distance to `node`, as `std::sort` with the comparator of
`fractalize` orders them; nodes at equal distance keep their order. -/
def sortByDistance (node : Position) (nodes : List Position) : List Position :=
  nodes.insertionSort fun a b => node.distanceSquared a ≤ node.distanceSquared b

/-- The body of the loop "cut straight paths towards the center" of `fractalize` for one node
and the calls of `crunchPath` it makes. -/
def connectNode (z : TemplateZone) (nodes : List Position) (g : MapGenerator)
    (freePaths : List Position) (node : Position) : Option (MapGenerator × List Position) :=
  let subnodes := sortByDistance node nodes
  let nearbyNodes := (subnodes.drop 1).take 2
  match crunchPath g z node (findClosestTile freePaths node) true (some freePaths) with
  | none => none
  | some r =>
    nearbyNodes.foldl
      (fun acc nearbyNode =>
        match acc with
        | none => none
        | some (g1, paths) =>
          match crunchPath g1 z node nearbyNode true (some paths) with
          | none => none
          | some r1 => some (r1.gen, r1.clearedTiles.getD paths))
      (some (r.gen, r.clearedTiles.getD freePaths))

/-- The last loop of `fractalize`: a Possible tile of the zone outside the free paths with no
free path at squared distance below 18.75, that is at most 18, gets Blocked. -/
def blockDistantTiles (z : TemplateZone) (freePaths : List Position) (m : MapGenerator) :
    MapGenerator :=
  z.tileInfo.foldl
    (fun g tile =>
      if !g.isPossible tile then g
      else if tile ∈ freePaths then g
      else if freePaths.any fun clearTile => decide (tile.distanceSquared clearTile ≤ 18) then g
      else g.setOccupied tile TileType.Blocked)
    m

/-- The first loop of `fractalize`: the Free tiles of the zone join the free-path set, a list in
the order of insertion; `findClosestTile` may therefore take another of several equally near
free paths than it takes in the sorted set. -/
def collectFreePaths (m : MapGenerator) (z : TemplateZone) : List Position :=
  (z.tileInfo.filter m.isFree).foldl setInsert z.freePaths

/-- The nodes `fractalize` selects: none for a junction, the outcome of the selection loop
otherwise. -/
def fractalizeNodes (randomShuffle : Nat → List Position → List Position) (m : MapGenerator)
    (z : TemplateZone) : Option (List Position) :=
  if z.type ≠ TemplateZoneType.Junction then
    (selectNodes randomShuffle (z.tileInfo.length + 1) 0
      ((z.tileInfo.filter m.isPossible).foldl setInsert []) (collectFreePaths m z) []).map
      fun selected => selected.1
  else some []

/-- The loop "cut straight paths towards the center" of `fractalize` over the nodes. -/
def carveCorridors (z : TemplateZone) (nodes : List Position) (m : MapGenerator)
    (freePaths : List Position) : Option (MapGenerator × List Position) :=
  nodes.foldl
    (fun acc node =>
      match acc with
      | none => none
      | some (g, paths) => connectNode z nodes g paths node)
    (some (m, freePaths))

/-- The loop "make sure they are clear" of `fractalize`. -/
def clearNodes (nodes : List Position) (m : MapGenerator) : MapGenerator :=
  nodes.foldl (fun g node => g.setOccupied node TileType.Free) m

/-- The function `TemplateZone::fractalize`.  A failed `assert(!clearedTiles.empty())` is the
error. -/
def fractalize (randomShuffle : Nat → List Position → List Position) (m : MapGenerator)
    (z : TemplateZone) : Option (Except String (MapGenerator × TemplateZone)) :=
  let freePaths := collectFreePaths m z
  if freePaths.isEmpty then some (Except.error "Assertion failed: !clearedTiles.empty()")
  else
    match fractalizeNodes randomShuffle m z with
    | none => none
    | some nodes =>
      match carveCorridors z nodes m freePaths with
      | none => none
      | some (g, paths) =>
        some (Except.ok (blockDistantTiles z paths (clearNodes nodes g),
          { z with freePaths := paths }))

/-! ## Filling the zone -/

/-- The collaborators of `fill` that the sources do not contain: the outcome of the k-th
`randomShuffle`, the order `std::sort` with the floating-point comparator `isCloser` produces,
the native resource of the owner of the zone, and the map elements as which the classes `Ruin`
and `Crystal` construct themselves. -/
structure Collaborators where
  randomShuffle : Nat → List Position → List Position
  sortCloser : MapGenerator → List Position → Position → List Position → List Position
  nativeResource : ResourceType
  ruinElement : MapElement
  crystalElement : MapElement

/-- The function `TemplateZone::addRequiredObject`. -/
def addRequiredObject (z : TemplateZone) (object : ScenarioObject) (guardStrength : Int) :
    TemplateZone :=
  { z with requiredObjects := z.requiredObjects ++ [(object, guardStrength)] }

/-- The function `TemplateZone::addCloseObject`. -/
def addCloseObject (z : TemplateZone) (object : ScenarioObject) (guardStrength : Int) :
    TemplateZone :=
  { z with closeObjects := z.closeObjects ++ [(object, guardStrength)] }

/-- The function `TemplateZone::placeRuins`: for every entry of `ruins` a ruin with one guarding
unit is created and added as required object; cash, title and image do not matter here. -/
def placeRuins (env : Collaborators) (m : MapGenerator) (z : TemplateZone) :
    MapGenerator × TemplateZone :=
  z.ruins.foldl
    (fun (acc : MapGenerator × TemplateZone) _ruinInfo =>
      let ruinId := acc.1.createId
      let unitId := ruinId.2.createId
      let g := unitId.2.insertObject ⟨unitId.1, ObjectType.Other, none⟩
      (g, addRequiredObject acc.2 ⟨ruinId.1, ObjectType.Ruin, some env.ruinElement⟩ 0))
    (m, z)

/-- The inner loop of `placeMines` for one resource, from index `i` on. -/
def placeMinesOf (env : Collaborators) (resourceType : ResourceType) :
    Nat → Nat → MapGenerator × TemplateZone → MapGenerator × TemplateZone
  | 0, _, acc => acc
  | remaining + 1, i, acc =>
    let crystalId := acc.1.createId
    let crystal : ScenarioObject := ⟨crystalId.1, ObjectType.Crystal, some env.crystalElement⟩
    let z :=
      if i = 0 ∧ (resourceType = env.nativeResource ∨ resourceType = ResourceType.Gold) then
        addCloseObject acc.2 crystal 0
      else addRequiredObject acc.2 crystal 0
    placeMinesOf env resourceType remaining (i + 1) (crystalId.2, z)

/-- The function `TemplateZone::placeMines`. -/
def placeMines (env : Collaborators) (m : MapGenerator) (z : TemplateZone) :
    MapGenerator × TemplateZone :=
  z.mines.foldl (fun acc mineInfo => placeMinesOf env mineInfo.1 mineInfo.2 0 acc) (m, z)

/-- The function `TemplateZone::fill`.  `initTerrain` only paints terrain, which the grid does
not record; `addAllPossibleObjects`, `connectLater` and `createTreasures` have empty bodies.
The value returned by `createRequiredObjects` is not looked at; the result `Except.ok` stands
for reaching the last statement, "Zone filled successfully". -/
def fill (env : Collaborators) (m : MapGenerator) (z : TemplateZone) :
    Option (Except String (MapGenerator × TemplateZone)) :=
  let s1 := initFreeTiles m z
  match fractalize env.randomShuffle s1.1 s1.2 with
  | none => none
  | some (Except.error e) => some (Except.error e)
  | some (Except.ok s2) =>
    let s3 := placeRuins env s2.1 s2.2
    let s4 := placeMines env s3.1 s3.2
    match createRequiredObjects env.sortCloser s4.1 s4.2 with
    | none => none
    | some (Except.error e) => some (Except.error e)
    | some (Except.ok r) => some (Except.ok (r.gen, r.zone))

/-! ## Specification vocabulary for the connectivity search -/

/-- A tile the search of `connectPath` may step onto: not blocked and of this zone. -/
def passable (m : MapGenerator) (z : TemplateZone) (p : Position) : Prop :=
  m.isBlocked p = false ∧ m.getZoneId p = z.id

/-- Number of map tiles that have no entry in `distances` yet. -/
def unseen (m : MapGenerator) (st : SearchState) : Nat :=
  (m.allTiles.filter fun p => (st.distances p).isNone).length

/-- Invariant of the search loop of `connectPath` at the head of an iteration. -/
structure SearchInv (m : MapGenerator) (z : TemplateZone) (os : Bool) (source : Position)
    (st : SearchState) : Prop where
  src_dist : st.distances source = some 0
  src_from : st.cameFrom source = some invalidPosition
  queue_dist : ∀ e ∈ st.queue, st.distances e.1 = some e.2
  bound : ∀ p k, st.distances p = some k → ∀ e ∈ st.queue, k ≤ e.2 + 1
  covered : ∀ p k, st.distances p = some k → p ∈ st.closed ∨ (p, k) ∈ st.queue
  closed_dist : ∀ c ∈ st.closed, st.distances c ≠ none
  closed_notFree : ∀ c ∈ st.closed, m.isFree c = false
  expanded : ∀ c ∈ st.closed, ∀ n ∈ m.neighbors os c, passable m z n → st.distances n ≠ none
  parent : ∀ p k, st.distances p = some k → p ≠ source →
    ∃ par, st.cameFrom p = some par ∧ st.distances par = some (k - 1) ∧ 1 ≤ k ∧
      p ∈ m.neighbors os par ∧ passable m z p

/-- Invariant of the search loop of `connectPath` while the neighbours of `cur`, popped at cost
`kc`, are being visited. -/
structure ExpandInv (m : MapGenerator) (z : TemplateZone) (os : Bool) (source : Position)
    (cur : Position) (kc : Nat) (st : SearchState) : Prop where
  src_dist : st.distances source = some 0
  src_from : st.cameFrom source = some invalidPosition
  queue_dist : ∀ e ∈ st.queue, st.distances e.1 = some e.2
  cur_dist : st.distances cur = some kc
  cur_closed : cur ∈ st.closed
  queue_low : ∀ e ∈ st.queue, kc ≤ e.2
  dist_high : ∀ p k, st.distances p = some k → k ≤ kc + 1
  covered : ∀ p k, st.distances p = some k → p ∈ st.closed ∨ (p, k) ∈ st.queue
  closed_dist : ∀ c ∈ st.closed, st.distances c ≠ none
  closed_notFree : ∀ c ∈ st.closed, m.isFree c = false
  expanded : ∀ c ∈ st.closed, c ≠ cur →
    ∀ n ∈ m.neighbors os c, passable m z n → st.distances n ≠ none
  parent : ∀ p k, st.distances p = some k → p ≠ source →
    ∃ par, st.cameFrom p = some par ∧ st.distances par = some (k - 1) ∧ 1 ≤ k ∧
      p ∈ m.neighbors os par ∧ passable m z p

/-- The state after the visit of a neighbour that gets pushed. -/
def visitPush (st : SearchState) (cur n : Position) (kc : Nat) : SearchState :=
  { st with
    cameFrom := fun q => if q = n then some cur else st.cameFrom q
    queue := PriorityQueue.push st.queue (n, kc + 1)
    distances := fun q => if q = n then some (kc + 1) else st.distances q }

/-- The parent pointers recorded by the search form a tree rooted at the source in which every
step goes to a passable neighbour and the recorded cost is the depth. -/
structure TreeInv (m : MapGenerator) (z : TemplateZone) (os : Bool) (source : Position)
    (st : SearchState) : Prop where
  src_dist : st.distances source = some 0
  src_from : st.cameFrom source = some invalidPosition
  parent : ∀ p k, st.distances p = some k → p ≠ source →
    ∃ par, st.cameFrom p = some par ∧ st.distances par = some (k - 1) ∧ 1 ≤ k ∧
      p ∈ m.neighbors os par ∧ passable m z p

/-- What the search loop of `connectPath` guarantees about its outcome. -/
def SearchPost (m : MapGenerator) (z : TemplateZone) (os : Bool) (source : Position) :
    SearchOutcome → Prop
  | SearchOutcome.reached node st =>
    m.isFree node = true ∧ (∃ k, st.distances node = some k) ∧ TreeInv m z os source st
  | SearchOutcome.exhausted st => SearchInv m z os source st ∧ st.queue = []

/-- One step of the search of `connectPath`: onto a neighbour that is passable. -/
def canStep (m : MapGenerator) (z : TemplateZone) (os : Bool) (a b : Position) : Prop :=
  b ∈ m.neighbors os a ∧ passable m z b

/-! ## Example maps, zones and objects -/

/-- A map of the given extent, all of zone 1 and all Possible, without objects; a tile is at the
border when it lies on the outer ring of the map, and an element is at the border when its
anchor or the opposite corner of its bounding square is; the neighbour enumerations work on a
copy of their position argument; no tile is a road or visitable, every move between two tiles
is allowed and no tile should be blocked. -/
def blankGen (width height : Nat) : MapGenerator :=
  { width := width
    height := height
    tiles := fun _ => TileType.Possible
    zoneIds := fun _ => 1
    nearestObjectDistance := fun _ => none
    objects := []
    nextId := 100
    atBorder := fun p =>
      decide (p.x ≤ 0) || decide (p.y ≤ 0) || decide ((width : Int) ≤ p.x + 1) ||
        decide ((height : Int) ≤ p.y + 1)
    atBorderFor := fun e p =>
      decide (p.x ≤ 0) || decide (p.y ≤ 0) || decide ((width : Int) ≤ p.x + e.size.x) ||
        decide ((height : Int) ≤ p.y + e.size.y)
    aliasesPosition := false
    roads := fun _ => false
    visitable := fun _ => false
    canMoveBetweenAt := fun _ _ => true
    shouldBeBlockedAt := fun _ => false }

/-- A zone with id 1 of kind Treasure over the given tiles, all of them in the possible-tile
set, with no free path, road node, pending object, ruin or mine. -/
def blankZone (pos : Position) (tiles : List Position) : TemplateZone :=
  { id := 1
    type := TemplateZoneType.Treasure
    pos := pos
    tileInfo := tiles
    possibleTiles := tiles
    freePaths := []
    roadNodes := []
    roads := []
    requiredObjects := []
    closeObjects := []
    requestedPositions := fun _ => none
    ruins := []
    mines := [] }

/-- A 2x1 map of one zone: tile (0,0) is Possible and tile (1,0) is Free. -/
def corridorGen : MapGenerator :=
  { blankGen 2 1 with
    tiles := fun p => if p = ⟨1, 0⟩ then TileType.Free else TileType.Possible }

/-- A 2x1 map of one zone whose two tiles are Possible: no tile is Free. -/
def sealedGen : MapGenerator := blankGen 2 1

/-- The zone of the 2x1 maps: both tiles, both in the possible-tile set. -/
def corridorZone : TemplateZone := blankZone ⟨1, 0⟩ [⟨0, 0⟩, ⟨1, 0⟩]

/-- An element of one tile: anchor, entrance and footprint coincide, and it can be visited from
every direction. -/
def unitElement : MapElement :=
  { position := ⟨0, 0⟩
    size := ⟨1, 1⟩
    entranceOffset := ⟨0, 0⟩
    blockedOffsets := [⟨0, 0⟩]
    entranceOffsets := []
    visitableFrom := fun _ => true }

/-- A 3x3 map of one zone: the centre (1,1) is Possible, the eight tiles around it are
Blocked. -/
def walledGen : MapGenerator :=
  { blankGen 3 3 with
    tiles := fun p => if p = ⟨1, 1⟩ then TileType.Possible else TileType.Blocked }

/-- The zone of the 3x3 maps: all nine tiles. -/
def squareZone : TemplateZone :=
  blankZone ⟨1, 1⟩
    [⟨0, 0⟩, ⟨0, 1⟩, ⟨0, 2⟩, ⟨1, 0⟩, ⟨1, 1⟩, ⟨1, 2⟩, ⟨2, 0⟩, ⟨2, 1⟩, ⟨2, 2⟩]

/-- A crystal of one tile with id 7. -/
def crystalObject : ScenarioObject :=
  { id := 7, type := ObjectType.Crystal, mapElement := some unitElement }

/-- A 5x5 map of one zone: the nine inner tiles are Free, the sixteen tiles of the outer ring
are Possible. -/
def hollowGen : MapGenerator :=
  { blankGen 5 5 with
    tiles := fun p =>
      if 1 ≤ p.x ∧ p.x ≤ 3 ∧ 1 ≤ p.y ∧ p.y ≤ 3 then TileType.Free else TileType.Possible }

/-- The zone of the 5x5 map: all twenty-five tiles, all still in the possible-tile set, with one
pending close object, the crystal of one tile. -/
def closeObjectZone : TemplateZone :=
  { blankZone ⟨2, 2⟩ (blankGen 5 5).allTiles with closeObjects := [(crystalObject, 0)] }

/-- The order `std::sort` leaves the candidate tiles in when it does not move any of them. -/
def keepOrder (_gen : MapGenerator) (_tilesBlockedByObject : List Position)
    (_targetPosition : Position) (tiles : List Position) : List Position := tiles

/-- Collaborators for the examples: no shuffle or sort moves a tile, gold is the native
resource, and ruins and crystals are elements of one tile. -/
def plainCollaborators : Collaborators :=
  { randomShuffle := fun _ tiles => tiles
    sortCloser := keepOrder
    nativeResource := ResourceType.Gold
    ruinElement := unitElement
    crystalElement := unitElement }

/-- The zone of the 3x3 maps before `fill`: its possible-tile set is still empty and the crystal
of one tile has been added as required object. -/
def requiredObjectZone : TemplateZone :=
  addRequiredObject { squareZone with possibleTiles := [] } crystalObject 0

/-- Order of stored nearest-object distances, `none` being +infinity. -/
def distanceLe (a b : Option Nat) : Prop :=
  match a, b with
  | _, none => True
  | none, some _ => False
  | some x, some y => x ≤ y

/-- The value `std::min(distance, currentDistance)` that `updateDistances` stores. -/
def minDistanceWith (distance : Nat) (currentDistance : Option Nat) : Nat :=
  match currentDistance with
  | none => distance
  | some current => min distance current

/-- One object to place: the overload, the id, the element and the position. -/
structure Placement where
  kind : PlaceableKind
  id : Nat
  element : MapElement
  position : Position

/-- Successive calls of `placeObject` with distance updating enabled, one per placement, stopping
at the first error. -/
def placeObjects :
    List Placement → MapGenerator → TemplateZone → Except String (MapGenerator × TemplateZone)
  | [], m, z => Except.ok (m, z)
  | p :: rest, m, z =>
    match placeObject p.kind m z p.id p.element p.position true with
    | Except.error e => Except.error e
    | Except.ok r => placeObjects rest r.1 r.2

/-- Two one-tile objects for the 2x1 corridor map: a crystal at (0,0) and a stack at (1,0). -/
def corridorPlacements : List Placement :=
  [⟨PlaceableKind.crystal, 7, unitElement, ⟨0, 0⟩⟩, ⟨PlaceableKind.stack, 8, unitElement, ⟨1, 0⟩⟩]

/-- The 2x1 corridor map and its zone after `initFreeTiles`, the possible-tile set being empty
before the call: the set then holds the Possible tile (0,0) only. -/
def corridorInit : MapGenerator × TemplateZone :=
  initFreeTiles corridorGen { corridorZone with possibleTiles := [] }

/-- The tiles `findPlaceForObject` can select: not at the border for the footprint of the
element, accessible from somewhere, entrance accessible, Possible, whole footprint available, and
stored distance at least the minimum distance. -/
def qualifies (m : MapGenerator) (z : TemplateZone) (mapElement : MapElement) (minDistance : Int)
    (tile : Position) : Bool :=
  !m.isAtTheBorderFor mapElement tile &&
    isAccessibleFromSomewhere m z mapElement tile &&
    isEntranceAccessible m mapElement tile &&
    m.isPossible tile &&
    areAllTilesAvailable m z mapElement tile mapElement.getBlockedOffsets &&
    distanceAtLeast (m.getNearestObjectDistance tile) minDistance

/-- A 5x5 map of one zone: the centre (2,2) is Free, the other twenty-four tiles are Possible;
the distance field is +infinity everywhere. -/
def centreFreeGen : MapGenerator :=
  { blankGen 5 5 with
    tiles := fun p => if p = ⟨2, 2⟩ then TileType.Free else TileType.Possible }

/-- The zone of the 5x5 map: all twenty-five tiles, centre (2,2). -/
def centreZone : TemplateZone := blankZone ⟨2, 2⟩ (blankGen 5 5).allTiles

/-- Invariant of the scan of `findPlaceForObject` over the tiles seen so far. -/
structure PlaceInv (m : MapGenerator) (z : TemplateZone) (mapElement : MapElement)
    (minDistance : Int) (position : Position) (seen : List Position) (st : PlaceSearch) :
    Prop where
  untouched : st.result = false → st.bestDistance = some 0 ∧ st.position = position
  selected : st.result = true →
    st.position ∈ seen ∧ qualifies m z mapElement minDistance st.position = true ∧
    st.bestDistance = m.getNearestObjectDistance st.position
  best : ∀ t ∈ seen, qualifies m z mapElement minDistance t = true →
    distanceGreater (m.getNearestObjectDistance t) st.bestDistance = false

/-- A tile that a corridor call turned Free: Possible in the grid `m` before the call, Free in
the grid `g` after it. -/
def Freed (m g : MapGenerator) (t : Position) : Prop :=
  m.tiles t = TileType.Possible ∧ g.tiles t = TileType.Free

/-- The set consisting of the source of a `crunchPath` call and the tiles it turned Free. -/
def Corridor (m g : MapGenerator) (source t : Position) : Prop :=
  t = source ∨ Freed m g t

/-- One step inside the corridor: `b` is a neighbour of `a` in the neighbour mode in use and
belongs to the corridor. -/
def CorridorStep (m g : MapGenerator) (onlyStraight : Bool) (source a b : Position) : Prop :=
  b ∈ m.neighbors onlyStraight a ∧ Corridor m g source b

/-- The corridor has joined the destination or the existing network: it contains the
destination, or a tile adjacent to the destination, or a tile adjacent to a tile that was Free
before the call. -/
def Joined (m g : MapGenerator) (onlyStraight : Bool) (source destination : Position) : Prop :=
  ∃ a, Corridor m g source a ∧
    (a = destination ∨ destination ∈ m.neighbors onlyStraight a ∨
      ∃ f ∈ m.neighbors onlyStraight a, m.tiles f = TileType.Free)

/-- Number of Possible tiles of the map, the measure of the loop of `crunchPath`. -/
def possibleCount (m g : MapGenerator) : Nat :=
  (m.allTiles.filter fun t => g.isPossible t).length

/-- One turn of the `while (!end)` loop of `crunchPath` that does not leave it through `break`:
from a state with `end` false the body runs to its end and leaves the second state. -/
def CrunchTurn (z : TemplateZone) (destination : Position) (onlyStraight : Bool)
    (a b : CrunchState) : Prop :=
  a.finished = false ∧ crunchPathIteration z destination onlyStraight a = (b, true)

/-- The zone of a map of one row of `n` tiles: all its tiles, centre (0,0). -/
def rowZone (n : Nat) : TemplateZone := blankZone ⟨0, 0⟩ (blankGen n 1).allTiles

/-- What a visit of the neighbours may change between two states of `crunchPath`. -/
structure Advance (m : MapGenerator) (st st1 : CrunchState) : Prop where
  tiles : ∀ t, st1.gen.tiles t = st.gen.tiles t ∨
    (st.gen.tiles t = TileType.Possible ∧ st1.gen.tiles t = TileType.Free ∧
      m.isInTheMap t = true)
  dist_le : st1.distance ≤ st.distance
  dist_lt : st1.distance < st.distance →
    ∃ t, m.isInTheMap t = true ∧ st.gen.tiles t = TileType.Possible ∧
      st1.gen.tiles t = TileType.Free
  result : st.result = true → st1.result = true
  same : st1.result = false → st1.distance = st.distance → st1 = st
  res_fin : (st.result = true → st.finished = true) → st1.result = true → st1.finished = true

/-- Invariant of the loop of `crunchPath`, relating the state to the grid `m` at the time of the
call. -/
structure CrunchInv (m : MapGenerator) (z : TemplateZone) (source destination : Position)
    (os : Bool) (st : CrunchState) : Prop where
  gen_eq : st.gen = { m with tiles := st.gen.tiles }
  frame : ∀ t, st.gen.tiles t = m.tiles t ∨
    (Freed m st.gen t ∧ m.isInTheMap t = true ∧ m.getZoneId t = z.id)
  cur : Corridor m st.gen source st.currentPosition
  conn : ∀ t, Corridor m st.gen source t →
    Relation.ReflTransGen (CorridorStep m st.gen os source) source t
  far : ∀ t, Corridor m st.gen source t → st.distance ≤ t.distanceSquared destination
  joined : st.result = true → Joined m st.gen os source destination

/-- Number of tiles of a list that are farther than the minimal distance from every cleared
tile, the measure of the node selection loop of `fractalize`. -/
def farCount (clearedTiles tiles : List Position) : Nat :=
  (tiles.filter fun t => farEnough (closestClearedScan t clearedTiles none).1).length

/-- Invariant of the corridor loops of `fractalize`, relating the grid `g` they have reached to
the grid `m` at the time of the call and the selected nodes: only tile states differ, tiles
change from Possible to Free only, and every Free tile is linked to a tile that was Free before
or to a node by steps to direct neighbours that are Free or nodes. -/
structure CarveInv (m : MapGenerator) (nodes : List Position) (g : MapGenerator) : Prop where
  gen_eq : g = { m with tiles := g.tiles }
  frame : ∀ t, g.tiles t = m.tiles t ∨
    (m.tiles t = TileType.Possible ∧ g.tiles t = TileType.Free)
  reach : ∀ t, g.tiles t = TileType.Free →
    ∃ s, (m.tiles s = TileType.Free ∨ s ∈ nodes) ∧
      Relation.ReflTransGen
        (fun a b => b ∈ m.directNeighbors a ∧ (g.tiles b = TileType.Free ∨ b ∈ nodes)) s t

/-- A map of one row of ten tiles: (0,0) is Free, (5,0) is Blocked and the other tiles are
Possible; the flag says whether the neighbour enumerations read their position argument
through the reference. -/
def wallRowGen (aliases : Bool) : MapGenerator :=
  { blankGen 10 1 with
    tiles := fun p =>
      if p = ⟨0, 0⟩ then TileType.Free
      else if p = ⟨5, 0⟩ then TileType.Blocked else TileType.Possible
    aliasesPosition := aliases }

/-- A map of one row of ten tiles: (0,0) is Free and the other tiles are Possible. -/
def openRowGen : MapGenerator :=
  { blankGen 10 1 with
    tiles := fun p => if p = ⟨0, 0⟩ then TileType.Free else TileType.Possible }

/-- The zone of the 2x1 maps as a junction. -/
def junctionZone : TemplateZone := { corridorZone with type := TemplateZoneType.Junction }

/-- The tiles of the sink `clearedTiles` of a state of `crunchPath` are Free. -/
def SinkFree (st : CrunchState) : Prop :=
  ∀ c, st.clearedTiles = some c → ∀ t ∈ c, st.gen.tiles t = TileType.Free

/-- A map of one row of six tiles: (0,0) is Free, (1,0) is Blocked and the other tiles are
Possible; the flag says whether the neighbour enumerations read their position argument
through the reference. -/
def detourGen (aliases : Bool) : MapGenerator :=
  { blankGen 6 1 with
    tiles := fun p =>
      if p = ⟨0, 0⟩ then TileType.Free
      else if p = ⟨1, 0⟩ then TileType.Blocked else TileType.Possible
    aliasesPosition := aliases }

/-! ## Weighted searches: `connectWithCenter`, `createRoad` and `connectRoads` -/

/-- The test `distance < bestDistanceSoFar` of the weighted searches; the best distance so far
is the largest number when the tile has no entry in `distances`. -/
def improves (distance : Nat) (bestDistanceSoFar : Option Nat) : Bool :=
  match bestDistanceSoFar with
  | some best => decide (distance < best)
  | none => true

/-- The state before the first iteration of a search: `cameFrom[source] = (-1, -1)`, the queue
holds `{source, 0}` and `distances[source] = 0`. -/
def searchInit (source : Position) : SearchState :=
  { closed := []
    queue := PriorityQueue.push [] (source, 0)
    cameFrom := fun q => if q = source then some invalidPosition else none
    distances := fun q => if q = source then some 0 else none }

/-- The local `movementCost` of the lambda of `connectWithCenter` for the tile `p`: 1 for a Free
tile, 2 for a Possible one, 3 for a tile that should be blocked when `passThroughBlocked` is
set; `none` stands for the `return` of the last branch. -/
def movementCost (m : MapGenerator) (passThroughBlocked : Bool) (p : Position) : Option Nat :=
  if m.isFree p then some 1
  else if m.isPossible p then some 2
  else if passThroughBlocked && m.shouldBeBlocked p then some 3
  else none

/-- The lambda `functor` of `connectWithCenter`, applied to the neighbour `p` of
`currentNode`. -/
def connectWithCenterVisit (m : MapGenerator) (z : TemplateZone) (passThroughBlocked : Bool)
    (currentNode : Position) (st : SearchState) (p : Position) : SearchState :=
  if p ∈ st.closed then st
  else if m.getZoneId p ≠ z.id then st
  else
    match movementCost m passThroughBlocked p with
    | none => st
    | some cost =>
      let distance := (st.distances currentNode).getD 0 + cost
      if improves distance (st.distances p) then
        { st with
          cameFrom := fun q => if q = p then some currentNode else st.cameFrom q
          queue := PriorityQueue.push st.queue (p, distance)
          distances := fun q => if q = p then some distance else st.distances q }
      else st

/-- The `while (!queue.empty())` loop of `connectWithCenter`; the goal is the centre `pos` of
the zone. -/
def connectWithCenterLoop (m : MapGenerator) (z : TemplateZone)
    (onlyStraight passThroughBlocked : Bool) : Nat → SearchState → Option SearchOutcome
  | 0, _ => none
  | fuel + 1, st =>
    match PriorityQueue.top st.queue with
    | none => some (SearchOutcome.exhausted st)
    | some node =>
      let currentNode := node.1
      let st1 : SearchState :=
        { st with queue := PriorityQueue.pop st.queue, closed := setInsert st.closed currentNode }
      if currentNode = z.pos then some (SearchOutcome.reached currentNode st1)
      else
        connectWithCenterLoop m z onlyStraight passThroughBlocked fuel
          ((m.neighbors onlyStraight currentNode).foldl
            (connectWithCenterVisit m z passThroughBlocked currentNode) st1)

/-- Number of turns after which a weighted search whose steps cost at most `maxCost` has
emptied its queue: no cost exceeds `maxCost` times the number of tiles the search can close,
and every push lowers the cost of a tile of the map. -/
def searchFuel (m : MapGenerator) (maxCost : Nat) : Nat :=
  m.width * m.height * (maxCost * (m.width * m.height + 1) + 1) + 2

/-- The function `TemplateZone::connectWithCenter(position, onlyStraight,
passThroughBlocked)`: on success the tiles of the way back to `position`, `position` itself
left out, are set Free; on failure the function returns false and nothing else happens. -/
def connectWithCenter (m : MapGenerator) (z : TemplateZone) (position : Position)
    (onlyStraight passThroughBlocked : Bool) : Option ConnectResult :=
  match connectWithCenterLoop m z onlyStraight passThroughBlocked (searchFuel m 3)
      (searchInit position) with
  | none => none
  | some (SearchOutcome.reached node st) =>
    match backtrackFree st.cameFrom ((st.distances node).getD 0 + 1) node m with
    | none => none
    | some g => some { result := true, gen := g, zone := z }
  | some (SearchOutcome.exhausted _) => some { result := false, gen := m, zone := z }

/-- The lambda `functor` of `createRoad`, applied to the neighbour `p` of `currentNode`; the
costs are counted in tenths, `nodeCost` is `node.second` and `movementCost` is 10 for the pass
over the direct neighbours and 21 for the pass over the diagonal ones.  The flag is the local
`directNeighbourFound`. -/
def createRoadVisit (m : MapGenerator) (z : TemplateZone) (destination currentNode : Position)
    (nodeCost movementCost : Nat) (acc : SearchState × Bool) (p : Position) :
    SearchState × Bool :=
  if p ∈ acc.1.closed then acc
  else
    let distance := nodeCost + movementCost
    if !improves distance (acc.1.distances p) then acc
    else
      let canMoveBetween := m.canMoveBetween currentNode p
      let emptyPath := m.isFree p && m.isFree currentNode
      let visitable := (m.visitable p || m.visitable currentNode) && canMoveBetween
      let completed := decide (p = destination)
      if emptyPath || visitable || completed then
        if decide (m.getZoneId p = z.id) || completed then
          ({ acc.1 with
              cameFrom := fun q => if q = p then some currentNode else acc.1.cameFrom q
              distances := fun q => if q = p then some distance else acc.1.distances q
              queue := PriorityQueue.push acc.1.queue (p, distance) }, true)
        else acc
      else acc

/-- The `while (!queue.empty())` loop of `createRoad`: the goal is the destination or a tile
that is a road already; the diagonal neighbours are visited only when the pass over the direct
ones has pushed nothing. -/
def createRoadLoop (m : MapGenerator) (z : TemplateZone) (destination : Position) :
    Nat → SearchState → Option SearchOutcome
  | 0, _ => none
  | fuel + 1, st =>
    match PriorityQueue.top st.queue with
    | none => some (SearchOutcome.exhausted st)
    | some node =>
      let currentNode := node.1
      let st1 : SearchState :=
        { st with queue := PriorityQueue.pop st.queue, closed := setInsert st.closed currentNode }
      if currentNode = destination ∨ m.isRoad currentNode = true then
        some (SearchOutcome.reached currentNode st1)
      else
        let direct := (m.directNeighbors currentNode).foldl
          (createRoadVisit m z destination currentNode node.2 10) (st1, false)
        let st2 :=
          if direct.2 then direct.1
          else ((m.diagonalNeighbors currentNode).foldl
            (createRoadVisit m z destination currentNode node.2 21) direct).1
        createRoadLoop m z destination fuel st2

/-- The backtracking loop of `createRoad`: every tile on the way back joins `roads` and gets
its road flag; the loop stops at the tile whose parent is not valid. -/
def backtrackRoad (cameFrom : Position → Option Position) :
    Nat → Position → MapGenerator × List Position → Option (MapGenerator × List Position)
  | 0, _, _ => none
  | fuel + 1, backtracking, acc =>
    match cameFrom backtracking with
    | none => some acc
    | some parent =>
      if parent.isValid then
        backtrackRoad cameFrom fuel parent
          (acc.1.setRoad backtracking true, setInsert acc.2 backtracking)
      else some acc

/-- The function `TemplateZone::createRoad(source, destination)`. -/
def createRoad (m : MapGenerator) (z : TemplateZone) (source destination : Position) :
    Option ConnectResult :=
  let g := m.setRoad source false
  match createRoadLoop g z destination (searchFuel g 21) (searchInit source) with
  | none => none
  | some (SearchOutcome.reached node st) =>
    match backtrackRoad st.cameFrom ((st.distances node).getD 0 + 1) node (g, z.roads) with
    | none => none
    | some r => some { result := true, gen := r.1, zone := { z with roads := r.2 } }
  | some (SearchOutcome.exhausted _) => some { result := false, gen := g, zone := z }

/-- The call `*std::min_element(first, last, comparator)` of `connectRoads`: the first of the
candidates at least squared distance from `node`. -/
def nearestNode (node : Position) : List Position → Option Position
  | [] => none
  | a :: rest =>
    some (rest.foldl
      (fun best c => if node.distanceSquared c < node.distanceSquared best then c else best) a)

/-- The `while (!roadNodesCopy.empty())` loop of `connectRoads` on its locals `roadNodesCopy`
and `processed`; the sets are lists in the order of insertion, so that `*begin()` and the choice
of `std::min_element` among equally near nodes may differ from those of the sorted sets. -/
def connectRoadsLoop :
    Nat → List Position → List Position → MapGenerator × TemplateZone →
      Option (MapGenerator × TemplateZone)
  | 0, _, _, _ => none
  | fuel + 1, roadNodesCopy, processed, acc =>
    match roadNodesCopy with
    | [] => some acc
    | node :: rest =>
      let cross :=
        if !processed.isEmpty then nearestNode node processed
        else if !rest.isEmpty then nearestNode node rest
        else none
      match cross with
      | none => some acc
      | some cross =>
        match createRoad acc.1 acc.2 node cross with
        | none => none
        | some r =>
          if r.result then
            connectRoadsLoop fuel (eraseIfPresent rest cross)
              (setInsert (setInsert processed cross) node) (r.gen, r.zone)
          else connectRoadsLoop fuel rest (setInsert processed node) (r.gen, r.zone)

/-- The function `TemplateZone::connectRoads`. -/
def connectRoads (m : MapGenerator) (z : TemplateZone) : Option (MapGenerator × TemplateZone) :=
  connectRoadsLoop (z.roadNodes.length + 1) z.roadNodes [] (m, z)

/-- A map of one row of three tiles, all Possible but for the Blocked tile (1,0). -/
def barredRowGen : MapGenerator :=
  { blankGen 3 1 with
    tiles := fun p => if p = ⟨1, 0⟩ then TileType.Blocked else TileType.Possible }

/-- The zone of the row of three tiles with centre (2,0). -/
def barredRowZone : TemplateZone := { rowZone 3 with pos := ⟨2, 0⟩ }

/-- The state of a search after the three writes of a visit that improves the tile `p`: the
parent, the queue entry and the distance. -/
def relaxTile (st : SearchState) (currentNode p : Position) (distance : Nat) : SearchState :=
  { st with
    cameFrom := fun q => if q = p then some currentNode else st.cameFrom q
    queue := PriorityQueue.push st.queue (p, distance)
    distances := fun q => if q = p then some distance else st.distances q }

/-- The state of a search after `queue.pop()` and `closed.insert(currentNode)`. -/
def closeTop (st : SearchState) (currentNode : Position) : SearchState :=
  { st with queue := PriorityQueue.pop st.queue, closed := setInsert st.closed currentNode }

/-- What the steps of a weighted search have in common: a step leads to a tile of the map and
costs at least 1 and at most `maxCost`. -/
structure EdgeSpec (m : MapGenerator) (maxCost : Nat)
    (edge : Position → Position → Nat → Prop) : Prop where
  in_map : ∀ a b w, edge a b w → m.isInTheMap b = true
  positive : ∀ a b w, edge a b w → 1 ≤ w
  le_max : ∀ a b w, edge a b w → w ≤ maxCost

/-- Number of closed tiles other than `p`. -/
def closedOthers (st : SearchState) (p : Position) : Nat :=
  (st.closed.filter fun c => decide (c ≠ p)).length

/-- Invariant of a weighted search from `source` whose steps are `edge`: it holds at the head of
the loop and between the visits of the neighbours. -/
structure WeightedInv (m : MapGenerator) (maxCost : Nat)
    (edge : Position → Position → Nat → Prop) (source : Position) (st : SearchState) :
    Prop where
  src_dist : st.distances source = some 0
  src_from : st.cameFrom source = some invalidPosition
  started : source ∈ st.closed ∨
    (st.closed = [] ∧ st.queue = [(source, 0)] ∧ ∀ p, p ≠ source → st.distances p = none)
  queue_dist : ∀ e ∈ st.queue, ∃ d, st.distances e.1 = some d ∧ d ≤ e.2
  covered : ∀ p d, st.distances p = some d → p ∈ st.closed ∨ (p, d) ∈ st.queue
  closed_dist : ∀ c ∈ st.closed, ∃ d, st.distances c = some d
  nodup : st.closed.Nodup
  in_map : ∀ p d, st.distances p = some d → p = source ∨ m.isInTheMap p = true
  parent : ∀ p d, st.distances p = some d → p ≠ source →
    ∃ par w dpar, st.cameFrom p = some par ∧ par ∈ st.closed ∧ st.distances par = some dpar ∧
      edge par p w ∧ dpar + w ≤ d
  key_bound : ∀ e ∈ st.queue, e.2 ≤ maxCost * closedOthers st e.1
  dist_bound : ∀ p d, st.distances p = some d → d ≤ maxCost * closedOthers st p

/-- The potential of a tile: its distance, or one more than the bound when it has none. -/
def tilePotential (bound : Nat) (distance : Option Nat) : Nat :=
  match distance with
  | none => bound + 1
  | some d => d

/-- The measure of a weighted search: the length of the queue plus the potentials of the tiles
of the map. -/
def searchPotential (m : MapGenerator) (bound : Nat) (st : SearchState) : Nat :=
  st.queue.length + (m.allTiles.map fun t => tilePotential bound (st.distances t)).sum

/-- A step of the search of `connectWithCenter`: onto a neighbour, in the neighbour mode in use,
that belongs to the zone and has the movement cost `w`. -/
def centerEdge (m : MapGenerator) (z : TemplateZone) (onlyStraight passThroughBlocked : Bool)
    (a b : Position) (w : Nat) : Prop :=
  b ∈ m.neighbors onlyStraight a ∧ m.getZoneId b = z.id ∧
    movementCost m passThroughBlocked b = some w

/-- A walk from `source` along the steps `edge`, with the sum of the costs of its steps. -/
inductive Walk (edge : Position → Position → Nat → Prop) (source : Position) :
    Position → Nat → Prop where
  | start : Walk edge source source 0
  | step {b d : Position} {c w : Nat} :
    Walk edge source b c → edge b d w → Walk edge source d (c + w)

/-- Invariant of the search of `connectWithCenter`.  `settled c p` says for which pairs the
step from the closed tile `c` to `p` has been looked at: all pairs at the head of the loop, and
during the visits of the neighbours of the current node the pairs of the other closed tiles and
those of the neighbours visited so far. -/
structure CenterInv (m : MapGenerator) (z : TemplateZone) (os ptb : Bool) (source : Position)
    (settled : Position → Position → Prop) (st : SearchState) : Prop where
  weighted : WeightedInv m 3 (centerEdge m z os ptb) source st
  parent_eq : ∀ p d, st.distances p = some d → p ≠ source →
    ∃ par w dpar, st.cameFrom p = some par ∧ par ∈ st.closed ∧ st.distances par = some dpar ∧
      centerEdge m z os ptb par p w ∧ d = dpar + w
  optimal : ∀ c ∈ st.closed, ∀ d, st.distances c = some d →
    ∀ x, Walk (centerEdge m z os ptb) source c x → d ≤ x
  relaxed : ∀ c ∈ st.closed, ∀ dc, st.distances c = some dc →
    ∀ p w, centerEdge m z os ptb c p w → settled c p →
      ∃ dp, st.distances p = some dp ∧ dp ≤ dc + w

/-- What the search loop of `connectWithCenter` guarantees about its outcome. -/
def CenterPost (m : MapGenerator) (z : TemplateZone) (os ptb : Bool) (source : Position) :
    SearchOutcome → Prop
  | SearchOutcome.reached node st =>
    node = z.pos ∧ node ∈ st.closed ∧
      CenterInv m z os ptb source (fun c _ => c ≠ node) st
  | SearchOutcome.exhausted st =>
    st.queue = [] ∧ CenterInv m z os ptb source (fun _ _ => True) st

/-- The cost of entering the tile `p` on a way to the centre of the zone: 1 for a Free tile, 2
for a Possible one, 3 for a tile that should be blocked when `passThroughBlocked` is set; a tile
of another zone and any other tile cannot be entered. -/
def enterCost (m : MapGenerator) (z : TemplateZone) (passThroughBlocked : Bool) (p : Position) :
    Option Nat :=
  if m.getZoneId p ≠ z.id then none
  else if m.tiles p = TileType.Free then some 1
  else if m.tiles p = TileType.Possible then some 2
  else if passThroughBlocked = true ∧ m.shouldBeBlocked p = true then some 3
  else none

/-- The last tile of the chain that starts at `a` and goes on through `rest`. -/
def chainEnd : Position → List Position → Position
  | a, [] => a
  | _, b :: rest => chainEnd b rest

/-- The total cost of the chain that starts at `a` and goes on through `rest`: the sum of the
costs of entering the tiles of `rest`; `none` when some tile is not a neighbour of the tile
before it or cannot be entered. -/
def chainCost (m : MapGenerator) (z : TemplateZone) (onlyStraight passThroughBlocked : Bool) :
    Position → List Position → Option Nat
  | _, [] => some 0
  | a, b :: rest =>
    if b ∈ m.neighbors onlyStraight a then
      match enterCost m z passThroughBlocked b,
        chainCost m z onlyStraight passThroughBlocked b rest with
      | some w, some c => some (w + c)
      | _, _ => none
    else none

/-- A call of one of the six functions that work on the grid of a zone, with its arguments. -/
inductive GridCall where
  | connectPath (source : Position) (onlyStraight : Bool)
  | connectWithCenter (position : Position) (onlyStraight passThroughBlocked : Bool)
  | crunchPath (source destination : Position) (onlyStraight : Bool)
      (clearedTiles : Option (List Position))
  | fractalize (randomShuffle : Nat → List Position → List Position)
  | findPlaceForObject (mapElement : MapElement) (minDistance : Int) (position : Position)
  | tryToPlaceObjectAndConnectToPath (mapElement : MapElement) (position : Position)

/-- The grid a call leaves behind when it is made on the grid `m` and the zone `z`; a failed
assertion of `fractalize` leaves the grid as it is. -/
def gridAfter (m : MapGenerator) (z : TemplateZone) : GridCall → Option MapGenerator
  | GridCall.connectPath source onlyStraight =>
    (connectPath m z source onlyStraight).map fun r => r.gen
  | GridCall.connectWithCenter position onlyStraight passThroughBlocked =>
    (connectWithCenter m z position onlyStraight passThroughBlocked).map fun r => r.gen
  | GridCall.crunchPath source destination onlyStraight clearedTiles =>
    (crunchPath m z source destination onlyStraight clearedTiles).map fun r => r.gen
  | GridCall.fractalize randomShuffle =>
    match fractalize randomShuffle m z with
    | none => none
    | some (Except.error _) => some m
    | some (Except.ok r) => some r.1
  | GridCall.findPlaceForObject mapElement minDistance position =>
    some (findPlaceForObject m z mapElement minDistance position).gen
  | GridCall.tryToPlaceObjectAndConnectToPath mapElement position =>
    (tryToPlaceObjectAndConnectToPath m z mapElement position).map fun r => r.gen

/-- The shuffle handed to `fractalize` returns tiles of the list it is given. -/
def shufflesWithin : GridCall → Prop
  | GridCall.fractalize randomShuffle => ∀ k l, ∀ x ∈ randomShuffle k l, x ∈ l
  | _ => True

/-- The tiles a call passes through although they are Used or Blocked: the tiles that should be
blocked, for `connectWithCenter` with `passThroughBlocked` set. -/
def passesThrough (m : MapGenerator) (t : Position) : GridCall → Prop
  | GridCall.connectWithCenter _ _ passThroughBlocked =>
    passThroughBlocked = true ∧ m.shouldBeBlocked t = true
  | _ => False

/-- The tiles a call sets Blocked whatever their state: the entrance and the footprint of the
element, for `tryToPlaceObjectAndConnectToPath`. -/
def blocksAnyway (t : Position) : GridCall → Prop
  | GridCall.tryToPlaceObjectAndConnectToPath mapElement position =>
    t = (mapElement.setPosition position).getEntrance ∨
      t ∈ (mapElement.setPosition position).getBlockedPositions
  | _ => False

/-- A row of four tiles, all Possible, every one of which should be blocked. -/
def eligibleRowGen : MapGenerator := { blankGen 4 1 with shouldBeBlockedAt := fun _ => true }

/-- A row of three tiles, all Possible but for the Used tile (1,0). -/
def usedRowGen : MapGenerator :=
  { blankGen 3 1 with
    tiles := fun p => if p = ⟨1, 0⟩ then TileType.Used else TileType.Possible }

/-- The test of the lambda of `createRoad` on the step from `a` to its neighbour `b`: the path
is empty, or a visitable tile is left or entered and the map allows the move, or the step
completes the road; and `b` belongs to the zone unless it completes the road. -/
def roadMove (m : MapGenerator) (z : TemplateZone) (destination a b : Position) : Bool :=
  ((m.isFree b && m.isFree a) || ((m.visitable b || m.visitable a) && m.canMoveBetween a b) ||
      decide (b = destination)) &&
    (decide (m.getZoneId b = z.id) || decide (b = destination))

/-- A step of the search of `createRoad` with its cost in tenths: onto a direct neighbour for
10 or onto a diagonal one for 21, when the lambda accepts the move. -/
def roadEdge (m : MapGenerator) (z : TemplateZone) (destination a b : Position) (w : Nat) :
    Prop :=
  ((b ∈ m.directNeighbors a ∧ w = 10) ∨ (b ∈ m.diagonalNeighbors a ∧ w = 21)) ∧
    roadMove m z destination a b = true

/-- Invariant of the search of `createRoad`.  No closed tile is a goal, and `settled c p` says
for which pairs the step from the closed tile `c` to its direct neighbour `p` has been looked
at. -/
structure RoadInv (m : MapGenerator) (z : TemplateZone) (destination source : Position)
    (settled : Position → Position → Prop) (st : SearchState) : Prop where
  weighted : WeightedInv m 21 (roadEdge m z destination) source st
  not_goal : ∀ c ∈ st.closed, c ≠ destination ∧ m.isRoad c = false
  expanded : ∀ c ∈ st.closed, ∀ p ∈ m.directNeighbors c,
    roadMove m z destination c p = true → settled c p → ∃ d, st.distances p = some d

/-- A step that `createRoad` can take from `a` at the cost of a direct step: onto a direct
neighbour, when the lambda accepts the move. -/
def directRoadMove (m : MapGenerator) (z : TemplateZone) (destination a b : Position) : Prop :=
  b ∈ m.directNeighbors a ∧ roadMove m z destination a b = true

/-- What the search loop of `createRoad` guarantees about its outcome. -/
def RoadPost (m : MapGenerator) (z : TemplateZone) (destination source : Position) :
    SearchOutcome → Prop
  | SearchOutcome.reached node st =>
    (node = destination ∨ m.isRoad node = true) ∧ node ∈ st.closed ∧
      WeightedInv m 21 (roadEdge m z destination) source st
  | SearchOutcome.exhausted st =>
    st.queue = [] ∧ RoadInv m z destination source (fun _ _ => True) st

/-- Two tiles are adjacent on the map: one is among the eight neighbours of the other. -/
def adjacent (m : MapGenerator) (a b : Position) : Prop :=
  b ∈ m.neighbors false a ∨ a ∈ m.neighbors false b

/-- Two tiles are linked inside the set `s`: a chain of adjacent tiles of `s` leads from one to
the other. -/
def Linked (m : MapGenerator) (s : Position → Prop) (a b : Position) : Prop :=
  Relation.ReflTransGen (fun x y => s x ∧ s y ∧ adjacent m x y) a b

/-- The set `s` of tiles is a single connected set: any two of its tiles are linked inside
it. -/
def RoadsJoined (m : MapGenerator) (s : Position → Prop) : Prop :=
  ∀ a b, s a → s b → Linked m s a b

/-- A step of a path "through non-Blocked tiles of the same zone": onto one of the eight
neighbours that is not Blocked and belongs to the zone. -/
def openStep (m : MapGenerator) (z : TemplateZone) (a b : Position) : Prop :=
  b ∈ m.neighbors false a ∧ m.tiles b ≠ TileType.Blocked ∧ m.getZoneId b = z.id

/-- The zone of the row of three tiles with the road nodes (0,0) and (2,0). -/
def twoNodeZone : TemplateZone := { rowZone 3 with roadNodes := [⟨0, 0⟩, ⟨2, 0⟩] }

/-- A row of `n` Free tiles; `road` tells which tiles are flagged as road. -/
def freeRowGen (n : Nat) (road : Position → Bool) : MapGenerator :=
  { blankGen n 1 with tiles := fun _ => TileType.Free, roads := road }

/-- The zone of the row of five tiles with the road nodes (1,0) and (4,0). -/
def farNodeZone : TemplateZone := { rowZone 5 with roadNodes := [⟨1, 0⟩, ⟨4, 0⟩] }

/-- The tiles that a state of `crunchPath` holds in its sink `clearedTiles` beyond those of
`before` are Free. -/
def SinkAdded (before : List Position) (st : CrunchState) : Prop :=
  ∀ c, st.clearedTiles = some c → ∀ t ∈ c, t ∈ before ∨ st.gen.tiles t = TileType.Free

/-- The overload of `placeObject` for a fortification with the state it leaves behind: the
message of the exception, if one is thrown, and the grid and the zone at that moment or at the
return. -/
def placeFortificationState (m : MapGenerator) (z : TemplateZone) (id : Nat)
    (fortification : MapElement) (position : Position) (updateDistance : Bool) :
    Option String × MapGenerator × TemplateZone :=
  if !m.isInTheMap position then (some "Position of fort is outside of the map", m, z)
  else
    let fortification := fortification.setPosition position
    if !m.isInTheMap fortification.getEntrance then
      (some "Entrance of fort is outside of the map", m, z)
    else
      let g := markUsed m fortification
      let g := if updateDistance then updateDistances g z position else g
      let z := addRoadNode z fortification.getEntrance
      (none, g.insertObject ⟨id, ObjectType.Fortification, some fortification⟩, z)

/-- The overload of `placeObject` for a stack with the state it leaves behind. -/
def placeStackState (m : MapGenerator) (z : TemplateZone) (id : Nat) (stack : MapElement)
    (position : Position) (updateDistance : Bool) :
    Option String × MapGenerator × TemplateZone :=
  if !m.isInTheMap position then (some "Position of stack is outside of the map", m, z)
  else
    let stack := stack.setPosition position
    let g := markUsed m stack
    let g := if updateDistance then updateDistances g z position else g
    (none, g.insertObject ⟨id, ObjectType.Stack, some stack⟩, z)

/-- The overload of `placeObject` for a crystal with the state it leaves behind. -/
def placeCrystalState (m : MapGenerator) (z : TemplateZone) (id : Nat) (crystal : MapElement)
    (position : Position) (updateDistance : Bool) :
    Option String × MapGenerator × TemplateZone :=
  if !m.isInTheMap position then (some "Position of crystal is outside of the map", m, z)
  else
    let crystal := crystal.setPosition position
    let g := markUsed m crystal
    let g := if updateDistance then updateDistances g z position else g
    (none, g.insertObject ⟨id, ObjectType.Crystal, some crystal⟩, z)

/-- The overload of `placeObject` for a ruin with the state it leaves behind. -/
def placeRuinState (m : MapGenerator) (z : TemplateZone) (id : Nat) (ruin : MapElement)
    (position : Position) (updateDistance : Bool) :
    Option String × MapGenerator × TemplateZone :=
  if !m.isInTheMap position then (some "Position of ruin is outside of the map", m, z)
  else
    let ruin := ruin.setPosition position
    if !m.isInTheMap ruin.getEntrance then
      (some "Entrance of ruin is outside of the map", m, z)
    else
      let g := markUsed m ruin
      let g := if updateDistance then updateDistances g z position else g
      (none, g.insertObject ⟨id, ObjectType.Ruin, some ruin⟩, z)

/-- The overloaded `placeObject` with the state it leaves behind. -/
def placeObjectState (kind : PlaceableKind) (m : MapGenerator) (z : TemplateZone) (id : Nat)
    (element : MapElement) (position : Position) (updateDistance : Bool) :
    Option String × MapGenerator × TemplateZone :=
  match kind with
  | PlaceableKind.fortification => placeFortificationState m z id element position updateDistance
  | PlaceableKind.stack => placeStackState m z id element position updateDistance
  | PlaceableKind.crystal => placeCrystalState m z id element position updateDistance
  | PlaceableKind.ruin => placeRuinState m z id element position updateDistance

/-- The state after the tile of the popped entry `node` has been expanded in `createRoad`: the
pass of the lambda over the direct neighbours with `movementCost` 1, and the pass over the
diagonal neighbours with `movementCost` 2.1 when `directNeighbourFound` is still false; the
costs are counted in tenths. -/
def expandRoadNode (m : MapGenerator) (z : TemplateZone) (destination : Position)
    (node : Position × Nat) (st1 : SearchState) : SearchState :=
  let direct := (m.directNeighbors node.1).foldl
    (createRoadVisit m z destination node.1 node.2 10) (st1, false)
  if direct.2 then direct.1
  else ((m.diagonalNeighbors node.1).foldl
    (createRoadVisit m z destination node.1 node.2 21) direct).1

/-- The lambda of `createRoad`, run in the state `st` for the neighbour `p` of the popped entry
`node` at the step cost `cost`, enqueues `p`: the tile is not closed, the new distance is below
the recorded one, and the move is accepted. -/
def roadAccepts (m : MapGenerator) (z : TemplateZone) (destination : Position)
    (node : Position × Nat) (cost : Nat) (st : SearchState) (p : Position) : Prop :=
  p ∉ st.closed ∧ improves (node.2 + cost) (st.distances p) = true ∧
    roadMove m z destination node.1 p = true

/-- The set in which a round of `connectRoads` looks for the target of the taken node: the
processed nodes, or the nodes still unprocessed when no node has been processed yet. -/
def roadCandidates (processed rest : List Position) : List Position :=
  if processed = [] then rest else processed

/-- The number of tiles of the zone that are Possible on the grid. -/
def zonePossible (m : MapGenerator) (z : TemplateZone) : Nat :=
  (z.tileInfo.filter m.isPossible).length

/-- Invariant of a search that closes tiles in the order of their least cost: the recorded
distance of a tile is the cost of the way along its parents, the distance of a closed tile is
at most the cost of every walk to it, and the steps out of closed tiles that have been looked
at, those of `settled`, have left a distance at their target that is at most the distance of
the closed tile plus the cost of the step. -/
structure LeastInv (m : MapGenerator) (maxCost : Nat) (edge : Position → Position → Nat → Prop)
    (source : Position) (settled : Position → Position → Prop) (st : SearchState) : Prop where
  weighted : WeightedInv m maxCost edge source st
  parent_eq : ∀ p d, st.distances p = some d → p ≠ source →
    ∃ par w dpar, st.cameFrom p = some par ∧ par ∈ st.closed ∧ st.distances par = some dpar ∧
      edge par p w ∧ d = dpar + w
  optimal : ∀ c ∈ st.closed, ∀ d, st.distances c = some d →
    ∀ x, Walk edge source c x → d ≤ x
  relaxed : ∀ c ∈ st.closed, ∀ dc, st.distances c = some dc →
    ∀ p w, edge c p w → settled c p → ∃ dp, st.distances p = some dp ∧ dp ≤ dc + w

/-- A step of the search of `connectPath`: onto a neighbour, in the neighbour mode in use, that
is not blocked and belongs to the zone; every step costs 1. -/
def pathEdge (m : MapGenerator) (z : TemplateZone) (onlyStraight : Bool) (a b : Position)
    (w : Nat) : Prop :=
  b ∈ m.neighbors onlyStraight a ∧ passable m z b ∧ w = 1

/-! # Lemmas and theorems -/

/-! ## Lemmas: the priority queue -/

theorem PriorityQueue.foldl_min_mem (rest : List (Position × Nat)) (a : Position × Nat) :
    rest.foldl (fun best c => if c.2 < best.2 then c else best) a ∈ a :: rest := by
  induction rest generalizing a with
  | nil => simp
  | cons b rest ih =>
    simp only [List.foldl_cons]
    have h := ih (if b.2 < a.2 then b else a)
    rcases List.mem_cons.1 h with h1 | h1
    · rw [h1]
      split <;> simp
    · exact List.mem_cons_of_mem _ (List.mem_cons_of_mem _ h1)

theorem PriorityQueue.foldl_min_le (rest : List (Position × Nat)) (a : Position × Nat) :
    ∀ x ∈ a :: rest, (rest.foldl (fun best c => if c.2 < best.2 then c else best) a).2 ≤ x.2 := by
  induction rest generalizing a with
  | nil => simp
  | cons b rest ih =>
    intro x hx
    simp only [List.foldl_cons]
    have h := ih (if b.2 < a.2 then b else a)
    have h0 := h _ (List.mem_cons_self _ _)
    rcases List.mem_cons.1 hx with rfl | hx
    · refine le_trans h0 ?_
      split <;> omega
    · rcases List.mem_cons.1 hx with rfl | hx
      · refine le_trans h0 ?_
        split <;> omega
      · exact h x (List.mem_cons_of_mem _ hx)

theorem PriorityQueue.top_eq_none {q : PriorityQueue} (h : PriorityQueue.top q = none) : q = [] := by
  cases q with
  | nil => rfl
  | cons a rest => simp [PriorityQueue.top] at h

theorem PriorityQueue.top_mem {q : PriorityQueue} {e : Position × Nat}
    (h : PriorityQueue.top q = some e) : e ∈ q := by
  cases q with
  | nil => simp [PriorityQueue.top] at h
  | cons a rest =>
    simp only [PriorityQueue.top, Option.some.injEq] at h
    rw [← h]
    exact PriorityQueue.foldl_min_mem rest a

theorem PriorityQueue.top_le {q : PriorityQueue} {e : Position × Nat}
    (h : PriorityQueue.top q = some e) : ∀ f ∈ q, e.2 ≤ f.2 := by
  cases q with
  | nil => simp [PriorityQueue.top] at h
  | cons a rest =>
    simp only [PriorityQueue.top, Option.some.injEq] at h
    rw [← h]
    exact PriorityQueue.foldl_min_le rest a

theorem PriorityQueue.mem_pop {q : PriorityQueue} {f : Position × Nat}
    (h : f ∈ PriorityQueue.pop q) : f ∈ q := by
  unfold PriorityQueue.pop at h
  split at h
  · exact h
  · exact List.mem_of_mem_erase h

theorem PriorityQueue.mem_top_or_pop {q : PriorityQueue} {e f : Position × Nat}
    (h : PriorityQueue.top q = some e) (hf : f ∈ q) : f = e ∨ f ∈ PriorityQueue.pop q := by
  unfold PriorityQueue.pop
  rw [h]
  by_cases hfe : f = e
  · exact Or.inl hfe
  · exact Or.inr ((List.mem_erase_of_ne hfe).2 hf)

theorem PriorityQueue.length_pop {q : PriorityQueue} {e : Position × Nat}
    (h : PriorityQueue.top q = some e) : (PriorityQueue.pop q).length + 1 = q.length := by
  unfold PriorityQueue.pop
  rw [h]
  have hm := PriorityQueue.top_mem h
  have hl := List.length_erase_of_mem hm
  have hpos : 0 < q.length := List.length_pos_of_mem hm
  simp only [] at hl ⊢
  omega

/-! ## Lemmas: the map -/

theorem MapGenerator.length_allTiles (m : MapGenerator) :
    m.allTiles.length = m.width * m.height := by
  unfold MapGenerator.allTiles
  generalize m.width = w
  induction w with
  | zero => simp
  | succ n ih =>
    rw [List.range_succ, List.flatMap_append, List.length_append, ih]
    simp [Nat.succ_mul]

theorem MapGenerator.mem_allTiles (m : MapGenerator) (p : Position)
    (h : m.isInTheMap p = true) : p ∈ m.allTiles := by
  unfold MapGenerator.isInTheMap at h
  simp only [Bool.and_eq_true, decide_eq_true_eq] at h
  obtain ⟨⟨hx0, hx1⟩, hy0, hy1⟩ := h
  unfold MapGenerator.allTiles
  rw [List.mem_flatMap]
  refine ⟨p.x.toNat, ?_, ?_⟩
  · rw [List.mem_range]; omega
  · rw [List.mem_map]
    refine ⟨p.y.toNat, ?_, ?_⟩
    · rw [List.mem_range]; omega
    · cases p with
      | mk x y =>
        simp only [Position.mk.injEq] at *
        constructor <;> omega

theorem MapGenerator.isInTheMap_of_mem_neighbors (m : MapGenerator) (os : Bool)
    (c n : Position) (h : n ∈ m.neighbors os c) : m.isInTheMap n = true := by
  unfold MapGenerator.neighbors at h
  split at h
  · exact (List.mem_filter.1 h).2
  · exact (List.mem_filter.1 h).2

theorem length_filter_update_le (l : List Position) (f : Position → Bool) (n : Position) :
    (l.filter fun p => if p = n then false else f p).length ≤ (l.filter f).length := by
  induction l with
  | nil => simp
  | cons b l ihl =>
    rw [List.filter_cons, List.filter_cons]
    by_cases hb : b = n
    · rw [if_pos hb, if_neg (by simp)]
      split
      · exact Nat.le_succ_of_le ihl
      · exact ihl
    · rw [if_neg hb]
      split
      · exact Nat.succ_le_succ ihl
      · exact ihl

theorem length_filter_update (l : List Position) (f : Position → Bool) (n : Position)
    (hn : n ∈ l) (hf : f n = true) :
    (l.filter fun p => if p = n then false else f p).length + 1 ≤ (l.filter f).length := by
  induction l with
  | nil => simp at hn
  | cons a l ih =>
    rw [List.filter_cons, List.filter_cons]
    by_cases ha : a = n
    · rw [if_pos ha, if_neg (by simp), ha, if_pos hf]
      exact Nat.succ_le_succ (length_filter_update_le l f n)
    · have hn1 : n ∈ l := by
        rcases List.mem_cons.1 hn with h | h
        · exact absurd h.symm ha
        · exact h
      rw [if_neg ha]
      split
      · exact Nat.succ_le_succ (ih hn1)
      · exact ih hn1

/-! ## Lemmas: the search loop of `connectPath` -/

theorem connectPathVisit_cases {m : MapGenerator} {z : TemplateZone} {os : Bool}
    {source cur : Position} {kc : Nat} {st : SearchState}
    (h : ExpandInv m z os source cur kc st) (n : Position) :
    (connectPathVisit m z cur st n = st ∧ (passable m z n → st.distances n ≠ none)) ∨
    (st.distances n = none ∧ n ∉ st.closed ∧ passable m z n ∧
      connectPathVisit m z cur st n = visitPush st cur n kc) := by
  unfold connectPathVisit
  by_cases hc : n ∈ st.closed
  · left
    rw [if_pos hc]
    exact ⟨rfl, fun _ => h.closed_dist n hc⟩
  · rw [if_neg hc]
    by_cases hb : (m.isBlocked n || decide (m.getZoneId n ≠ z.id)) = true
    · left
      rw [if_pos hb]
      refine ⟨rfl, fun hp => ?_⟩
      unfold passable at hp
      simp [hp.1, hp.2] at hb
    · rw [if_neg hb]
      have hp : passable m z n := by
        unfold passable
        simp only [Bool.or_eq_true, decide_eq_true_eq, not_or, Bool.not_eq_true, ne_eq,
          Decidable.not_not] at hb
        exact hb
      cases hd : st.distances n with
      | none =>
        right
        refine ⟨rfl, hc, hp, ?_⟩
        simp only [h.cur_dist, Option.getD_some, if_true]
        rfl
      | some best =>
        left
        have hbest := h.dist_high n best hd
        simp only [h.cur_dist, Option.getD_some, decide_eq_true_eq]
        rw [if_neg (by omega)]
        exact ⟨rfl, fun _ => by simp⟩

theorem ExpandInv.visitPush_inv {m : MapGenerator} {z : TemplateZone} {os : Bool}
    {source cur : Position} {kc : Nat} {st : SearchState}
    (h : ExpandInv m z os source cur kc st) {n : Position} (hn : n ∈ m.neighbors os cur)
    (hd : st.distances n = none) (hp : passable m z n) :
    ExpandInv m z os source cur kc (visitPush st cur n kc) := by
  have hns : n ≠ source := by
    intro e; rw [e, h.src_dist] at hd; cases hd
  have hnc : n ≠ cur := by
    intro e; rw [e, h.cur_dist] at hd; cases hd
  have keep : ∀ p k, (visitPush st cur n kc).distances p = some k →
      (p = n ∧ k = kc + 1) ∨ (p ≠ n ∧ st.distances p = some k) := by
    intro p k hk
    simp only [visitPush] at hk
    by_cases hpn : p = n
    · rw [if_pos hpn] at hk
      exact Or.inl ⟨hpn, by cases hk; rfl⟩
    · rw [if_neg hpn] at hk
      exact Or.inr ⟨hpn, hk⟩
  have old : ∀ p k, st.distances p = some k → (visitPush st cur n kc).distances p = some k := by
    intro p k hk
    simp only [visitPush]
    rw [if_neg]
    · exact hk
    · intro e; rw [e, hd] at hk; cases hk
  constructor
  · exact old _ _ h.src_dist
  · simp only [visitPush]
    rw [if_neg (Ne.symm hns)]
    exact h.src_from
  · intro e he
    simp only [visitPush, PriorityQueue.push, List.mem_append, List.mem_singleton] at he
    rcases he with he | he
    · exact old _ _ (h.queue_dist e he)
    · subst he
      simp [visitPush]
  · exact old _ _ h.cur_dist
  · exact h.cur_closed
  · intro e he
    simp only [visitPush, PriorityQueue.push, List.mem_append, List.mem_singleton] at he
    rcases he with he | he
    · exact h.queue_low e he
    · subst he
      simp
  · intro p k hk
    rcases keep p k hk with ⟨_, rfl⟩ | ⟨_, hk1⟩
    · exact le_refl _
    · exact h.dist_high p k hk1
  · intro p k hk
    rcases keep p k hk with ⟨rfl, rfl⟩ | ⟨_, hk1⟩
    · right
      simp [visitPush, PriorityQueue.push]
    · rcases h.covered p k hk1 with hc | hq
      · exact Or.inl hc
      · right
        simp only [visitPush, PriorityQueue.push, List.mem_append, List.mem_singleton]
        exact Or.inl hq
  · intro c hc
    have := h.closed_dist c hc
    cases hk : st.distances c with
    | none => exact absurd hk this
    | some k => rw [old c k hk]; simp
  · exact h.closed_notFree
  · intro c hc hcc x hx hpx
    have := h.expanded c hc hcc x hx hpx
    cases hk : st.distances x with
    | none => exact absurd hk this
    | some k => rw [old x k hk]; simp
  · intro p k hk hps
    rcases keep p k hk with ⟨rfl, rfl⟩ | ⟨hpn, hk1⟩
    · refine ⟨cur, ?_, ?_, by omega, hn, hp⟩
      · simp [visitPush]
      · simpa using old _ _ h.cur_dist
    · obtain ⟨par, h1, h2, h3, h4, h5⟩ := h.parent p k hk1 hps
      refine ⟨par, ?_, old _ _ h2, h3, h4, h5⟩
      simp only [visitPush]
      rw [if_neg hpn]
      exact h1

theorem mem_setInsert (s : List Position) (p q : Position) :
    q ∈ setInsert s p ↔ q ∈ s ∨ q = p := by
  unfold setInsert
  split
  · constructor
    · exact Or.inl
    · rintro (h | h)
      · exact h
      · rw [h]; assumption
  · simp

theorem unseen_visitPush (m : MapGenerator) (st : SearchState) (cur n : Position) (kc : Nat)
    (hn : m.isInTheMap n = true) (hd : st.distances n = none) :
    unseen m (visitPush st cur n kc) + 1 ≤ unseen m st := by
  unfold unseen
  have hf : (fun p => ((visitPush st cur n kc).distances p).isNone) =
      fun p => if p = n then false else (st.distances p).isNone := by
    funext p
    simp only [visitPush]
    split <;> rfl
  rw [hf]
  exact length_filter_update m.allTiles (fun p => (st.distances p).isNone) n
    (m.mem_allTiles n hn) (by simp [hd])

theorem connectPath_expand {m : MapGenerator} {z : TemplateZone} {os : Bool}
    {source cur : Position} {kc : Nat} :
    ∀ (l : List Position) (st : SearchState), (∀ n ∈ l, n ∈ m.neighbors os cur) →
      ExpandInv m z os source cur kc st →
      ExpandInv m z os source cur kc (l.foldl (connectPathVisit m z cur) st) ∧
      (∀ p, st.distances p ≠ none → (l.foldl (connectPathVisit m z cur) st).distances p ≠ none) ∧
      (∀ n ∈ l, passable m z n → (l.foldl (connectPathVisit m z cur) st).distances n ≠ none) ∧
      unseen m (l.foldl (connectPathVisit m z cur) st) +
          (l.foldl (connectPathVisit m z cur) st).queue.length ≤
        unseen m st + st.queue.length ∧
      (l.foldl (connectPathVisit m z cur) st).closed = st.closed := by
  intro l
  induction l with
  | nil =>
    intro st _ h
    exact ⟨h, fun _ hp => hp, fun n hn => by simp at hn, le_refl _, rfl⟩
  | cons a l ih =>
    intro st hl h
    have ha : a ∈ m.neighbors os cur := hl a (List.mem_cons_self _ _)
    have hl1 : ∀ n ∈ l, n ∈ m.neighbors os cur := fun n hn => hl n (List.mem_cons_of_mem _ hn)
    rw [List.foldl_cons]
    rcases connectPathVisit_cases h a with ⟨heq, hdone⟩ | ⟨hd, _, hp, heq⟩
    · rw [heq]
      obtain ⟨i1, i2, i3, i4, i5⟩ := ih st hl1 h
      refine ⟨i1, i2, ?_, i4, i5⟩
      intro n hn hpn
      rcases List.mem_cons.1 hn with rfl | hn
      · exact i2 _ (hdone hpn)
      · exact i3 n hn hpn
    · rw [heq]
      have hinv := h.visitPush_inv ha hd hp
      obtain ⟨i1, i2, i3, i4, i5⟩ := ih (visitPush st cur a kc) hl1 hinv
      have hmono : ∀ p, st.distances p ≠ none → (visitPush st cur a kc).distances p ≠ none := by
        intro p hp1
        simp only [visitPush]
        split
        · simp
        · exact hp1
      have hmeas := unseen_visitPush m st cur a kc (m.isInTheMap_of_mem_neighbors os cur a ha) hd
      refine ⟨i1, fun p hp1 => i2 p (hmono p hp1), ?_, ?_, ?_⟩
      · intro n hn hpn
        rcases List.mem_cons.1 hn with rfl | hn
        · apply i2
          simp [visitPush]
        · exact i3 n hn hpn
      · have hq : (visitPush st cur a kc).queue.length = st.queue.length + 1 := by
          simp [visitPush, PriorityQueue.push]
        omega
      · rw [i5]; rfl

theorem SearchInv.pop_inv {m : MapGenerator} {z : TemplateZone} {os : Bool}
    {source : Position} {st : SearchState} (h : SearchInv m z os source st)
    {e : Position × Nat} (htop : PriorityQueue.top st.queue = some e)
    (hfree : m.isFree e.1 = false) :
    ExpandInv m z os source e.1 e.2
      { st with queue := PriorityQueue.pop st.queue, closed := setInsert st.closed e.1 } := by
  have hmem := PriorityQueue.top_mem htop
  constructor
  · exact h.src_dist
  · exact h.src_from
  · intro f hf
    exact h.queue_dist f (PriorityQueue.mem_pop hf)
  · exact h.queue_dist e hmem
  · exact (mem_setInsert _ _ _).2 (Or.inr rfl)
  · intro f hf
    exact PriorityQueue.top_le htop f (PriorityQueue.mem_pop hf)
  · intro p k hk
    exact h.bound p k hk e hmem
  · intro p k hk
    rcases h.covered p k hk with hc | hq
    · exact Or.inl ((mem_setInsert _ _ _).2 (Or.inl hc))
    · rcases PriorityQueue.mem_top_or_pop htop hq with he | hpop
      · left
        refine (mem_setInsert _ _ _).2 (Or.inr ?_)
        rw [← he]
      · exact Or.inr hpop
  · intro c hc
    rcases (mem_setInsert _ _ _).1 hc with hc | rfl
    · exact h.closed_dist c hc
    · rw [h.queue_dist e hmem]; simp
  · intro c hc
    rcases (mem_setInsert _ _ _).1 hc with hc | rfl
    · exact h.closed_notFree c hc
    · exact hfree
  · intro c hc hne
    rcases (mem_setInsert _ _ _).1 hc with hc | rfl
    · exact h.expanded c hc
    · exact absurd rfl hne
  · exact h.parent

theorem ExpandInv.toSearchInv {m : MapGenerator} {z : TemplateZone} {os : Bool}
    {source cur : Position} {kc : Nat} {st : SearchState}
    (h : ExpandInv m z os source cur kc st)
    (hexp : ∀ n ∈ m.neighbors os cur, passable m z n → st.distances n ≠ none) :
    SearchInv m z os source st := by
  constructor
  · exact h.src_dist
  · exact h.src_from
  · exact h.queue_dist
  · intro p k hk e he
    have h1 := h.dist_high p k hk
    have h2 := h.queue_low e he
    omega
  · exact h.covered
  · exact h.closed_dist
  · exact h.closed_notFree
  · intro c hc n hn hp
    by_cases hcc : c = cur
    · subst hcc
      exact hexp n hn hp
    · exact h.expanded c hc hcc n hn hp
  · exact h.parent

theorem connectPathLoop_spec (m : MapGenerator) (z : TemplateZone) (os : Bool)
    (source : Position) :
    ∀ (fuel : Nat) (st : SearchState), SearchInv m z os source st →
      unseen m st + st.queue.length < fuel →
      ∃ out, connectPathLoop m z os fuel st = some out ∧ SearchPost m z os source out := by
  intro fuel
  induction fuel with
  | zero => intro st _ hlt; omega
  | succ fuel ih =>
    intro st h hlt
    unfold connectPathLoop
    cases htop : PriorityQueue.top st.queue with
    | none =>
      exact ⟨SearchOutcome.exhausted st, rfl, h, PriorityQueue.top_eq_none htop⟩
    | some e =>
      simp only []
      by_cases hfree : m.isFree e.1 = true
      · rw [if_pos hfree]
        refine ⟨_, rfl, hfree, ⟨e.2, h.queue_dist e (PriorityQueue.top_mem htop)⟩, ?_⟩
        exact ⟨h.src_dist, h.src_from, h.parent⟩
      · rw [if_neg hfree]
        have hfree1 : m.isFree e.1 = false := by simpa using hfree
        have hpop := h.pop_inv htop hfree1
        obtain ⟨i1, _, i3, i4, _⟩ :=
          connectPath_expand (m.neighbors os e.1) _ (fun n hn => hn) hpop
        apply ih _ (i1.toSearchInv i3)
        have hlen := PriorityQueue.length_pop htop
        have hun : ∀ (q : PriorityQueue) (c : List Position),
            unseen m { st with queue := q, closed := c } = unseen m st := fun _ _ => rfl
        simp only [] at i4
        rw [hun] at i4
        omega

theorem connectPathInit_inv (m : MapGenerator) (z : TemplateZone) (os : Bool)
    (source : Position) : SearchInv m z os source (connectPathInit source) := by
  constructor
  · simp [connectPathInit]
  · simp [connectPathInit]
  · intro e he
    simp only [connectPathInit, PriorityQueue.push, List.nil_append, List.mem_singleton] at he
    subst he
    simp [connectPathInit]
  · intro p k hk e he
    simp only [connectPathInit] at hk
    split at hk
    · cases hk; omega
    · cases hk
  · intro p k hk
    simp only [connectPathInit] at hk
    split at hk
    · rename_i hps
      cases hk
      right
      simp [connectPathInit, PriorityQueue.push, hps]
    · cases hk
  · intro c hc
    simp [connectPathInit] at hc
  · intro c hc
    simp [connectPathInit] at hc
  · intro c hc
    simp [connectPathInit] at hc
  · intro p k hk hps
    simp only [connectPathInit] at hk
    rw [if_neg hps] at hk
    cases hk

theorem connectPathSearch_spec (m : MapGenerator) (z : TemplateZone) (source : Position)
    (os : Bool) :
    ∃ out, connectPathSearch m z source os = some out ∧ SearchPost m z os source out := by
  unfold connectPathSearch
  apply connectPathLoop_spec m z os source _ _ (connectPathInit_inv m z os source)
  have h1 : unseen m (connectPathInit source) ≤ m.width * m.height := by
    unfold unseen
    rw [← m.length_allTiles]
    exact List.length_filter_le _ _
  have h2 : (connectPathInit source).queue.length = 1 := by
    simp [connectPathInit, PriorityQueue.push]
  omega

theorem TreeInv.reach {m : MapGenerator} {z : TemplateZone} {os : Bool} {source : Position}
    {st : SearchState} (h : TreeInv m z os source st) :
    ∀ (k : Nat) (p : Position), st.distances p = some k →
      Relation.ReflTransGen (canStep m z os) source p := by
  intro k
  induction k with
  | zero =>
    intro p hp
    by_cases hps : p = source
    · rw [hps]
    · obtain ⟨_, _, _, h1, _⟩ := h.parent p 0 hp hps
      omega
  | succ k ih =>
    intro p hp
    by_cases hps : p = source
    · rw [hps]
    · obtain ⟨par, _, hpar, _, hn, hpass⟩ := h.parent p (k + 1) hp hps
      exact Relation.ReflTransGen.tail (ih par hpar) ⟨hn, hpass⟩

theorem SearchInv.source_closed {m : MapGenerator} {z : TemplateZone} {os : Bool}
    {source : Position} {st : SearchState} (h : SearchInv m z os source st)
    (hq : st.queue = []) : source ∈ st.closed := by
  rcases h.covered source 0 h.src_dist with hc | hc
  · exact hc
  · rw [hq] at hc; cases hc

theorem SearchInv.reach_closed {m : MapGenerator} {z : TemplateZone} {os : Bool}
    {source : Position} {st : SearchState} (h : SearchInv m z os source st)
    (hq : st.queue = []) (t : Position)
    (ht : Relation.ReflTransGen (canStep m z os) source t) : t ∈ st.closed := by
  induction ht with
  | refl => exact h.source_closed hq
  | @tail b c _ hstep ih =>
    have hd := h.expanded b ih c hstep.1 hstep.2
    cases hk : st.distances c with
    | none => exact absurd hk hd
    | some k =>
      rcases h.covered c k hk with hc | hc
      · exact hc
      · rw [hq] at hc; cases hc

theorem chain_canStep_iff (m : MapGenerator) (z : TemplateZone) (os : Bool) :
    ∀ (l : List Position) (a : Position),
      List.Chain (canStep m z os) a l ↔
        List.Chain (fun a b => b ∈ m.neighbors os a) a l ∧ ∀ t ∈ l, passable m z t := by
  intro l
  induction l with
  | nil => intro a; simp
  | cons b l ih =>
    intro a
    rw [List.chain_cons, List.chain_cons, ih b]
    unfold canStep
    constructor
    · rintro ⟨⟨h1, h2⟩, h3, h4⟩
      refine ⟨⟨h1, h3⟩, ?_⟩
      intro t ht
      rcases List.mem_cons.1 ht with rfl | ht
      · exact h2
      · exact h4 t ht
    · rintro ⟨⟨h1, h3⟩, h4⟩
      exact ⟨⟨h1, h4 b (List.mem_cons_self _ _)⟩, h3, fun t ht => h4 t (List.mem_cons_of_mem _ ht)⟩

theorem Position.isValid_of_isInTheMap (m : MapGenerator) (p : Position)
    (h : m.isInTheMap p = true) : p.isValid = true := by
  unfold MapGenerator.isInTheMap at h
  unfold Position.isValid
  simp only [Bool.and_eq_true, decide_eq_true_eq] at h ⊢
  exact ⟨h.1.1, h.2.1⟩

theorem invalidPosition_not_valid : invalidPosition.isValid = false := by decide

theorem backtrackFree_total {m : MapGenerator} {z : TemplateZone} {os : Bool}
    {source : Position} {st : SearchState} (h : TreeInv m z os source st) :
    ∀ (k : Nat) (node : Position) (g : MapGenerator), st.distances node = some k →
      ∃ g1, backtrackFree st.cameFrom (k + 1) node g = some g1 := by
  intro k
  induction k with
  | zero =>
    intro node g hk
    by_cases hps : node = source
    · subst hps
      unfold backtrackFree
      rw [h.src_from]
      simp [invalidPosition_not_valid]
    · obtain ⟨_, _, _, h1, _⟩ := h.parent node 0 hk hps
      omega
  | succ k ih =>
    intro node g hk
    by_cases hps : node = source
    · subst hps
      unfold backtrackFree
      rw [h.src_from]
      simp [invalidPosition_not_valid]
    · obtain ⟨par, hfrom, hpar, _, _, _⟩ := h.parent node (k + 1) hk hps
      unfold backtrackFree
      rw [hfrom]
      simp only []
      split
      · exact ih par _ hpar
      · exact ⟨g, rfl⟩

theorem connectPath_total (m : MapGenerator) (z : TemplateZone) (source : Position)
    (os : Bool) : ∃ r, connectPath m z source os = some r := by
  obtain ⟨out, hout, hpost⟩ := connectPathSearch_spec m z source os
  unfold connectPath
  rw [hout]
  cases out with
  | reached node st =>
    obtain ⟨_, ⟨k, hk⟩, htree⟩ := hpost
    obtain ⟨g1, hg1⟩ := backtrackFree_total htree k node m hk
    simp only [hk, Option.getD_some, hg1]
    exact ⟨_, rfl⟩
  | exhausted st => exact ⟨_, rfl⟩

theorem connectPath_result_true (m : MapGenerator) (z : TemplateZone) (source : Position)
    (os : Bool) (r : ConnectResult) (h : connectPath m z source os = some r) :
    r.result = true ↔ ∃ node st, connectPathSearch m z source os =
      some (SearchOutcome.reached node st) := by
  unfold connectPath at h
  cases hs : connectPathSearch m z source os with
  | none => rw [hs] at h; cases h
  | some out =>
    rw [hs] at h
    cases out with
    | reached node st =>
      simp only [] at h
      split at h
      · cases h
      · cases h
        simp
    | exhausted st =>
      simp only [Option.some.injEq] at h
      rw [← h]
      simp

theorem sealTiles_tiles :
    ∀ (l : List Position) (m : MapGenerator) (t : Position),
      (sealTiles m l).tiles t =
        if t ∈ l ∧ m.tiles t = TileType.Possible then TileType.Blocked else m.tiles t := by
  intro l
  induction l with
  | nil => intro m t; simp [sealTiles]
  | cons a l ih =>
    intro m t
    have hstep : sealTiles m (a :: l) =
        sealTiles (if m.isPossible a then m.setOccupied a TileType.Blocked else m) l := rfl
    rw [hstep, ih]
    by_cases hp : m.isPossible a = true
    · rw [if_pos hp]
      have hpa : m.tiles a = TileType.Possible := by
        simpa [MapGenerator.isPossible] using hp
      by_cases hta : t = a
      · subst hta
        simp [MapGenerator.setOccupied, hpa]
      · simp [MapGenerator.setOccupied, hta]
    · rw [if_neg hp]
      have hpa : m.tiles a ≠ TileType.Possible := by
        simpa [MapGenerator.isPossible] using hp
      by_cases hta : t = a
      · subst hta
        simp [hpa]
      · simp [hta]

theorem mem_eraseIfPresent (s : List Position) (p t : Position) :
    t ∈ eraseIfPresent s p ↔ t ∈ s ∧ t ≠ p := by
  simp [eraseIfPresent]

theorem mem_sealPossible :
    ∀ (l s : List Position) (t : Position), t ∈ sealPossible s l ↔ t ∈ s ∧ t ∉ l := by
  intro l
  induction l with
  | nil => intro s t; simp [sealPossible]
  | cons a l ih =>
    intro s t
    have hstep : sealPossible s (a :: l) = sealPossible (eraseIfPresent s a) l := rfl
    rw [hstep, ih, mem_eraseIfPresent]
    simp only [List.mem_cons, not_or]
    tauto

theorem backtrackFree_spec {m : MapGenerator} {z : TemplateZone} {os : Bool}
    {source : Position} {st : SearchState} (h : TreeInv m z os source st)
    (hsrc : m.isInTheMap source = true) :
    ∀ (k : Nat) (node : Position) (g : MapGenerator), st.distances node = some k →
      ∃ g1, backtrackFree st.cameFrom (k + 1) node g = some g1 ∧
        (∀ t, g1.tiles t =
          if t ∈ parentChain st.cameFrom (k + 1) node ∧ t ≠ source then TileType.Free
          else g.tiles t) ∧
        (parentChain st.cameFrom (k + 1) node).head? = some node ∧
        (parentChain st.cameFrom (k + 1) node).getLast? = some source ∧
        List.Chain' (fun a b => a ∈ m.neighbors os b) (parentChain st.cameFrom (k + 1) node) := by
  have hvalid : ∀ (p : Position) (j : Nat), st.distances p = some j → p.isValid = true := by
    intro p j hj
    by_cases hps : p = source
    · rw [hps]; exact Position.isValid_of_isInTheMap m source hsrc
    · obtain ⟨par, _, _, _, hn, _⟩ := h.parent p j hj hps
      exact Position.isValid_of_isInTheMap m p (m.isInTheMap_of_mem_neighbors os par p hn)
  have hsource : ∀ (j : Nat) (g : MapGenerator),
      backtrackFree st.cameFrom (j + 1) source g = some g ∧
        parentChain st.cameFrom (j + 1) source = [source] := by
    intro j g
    unfold backtrackFree parentChain
    rw [h.src_from]
    simp [invalidPosition_not_valid]
  intro k
  induction k with
  | zero =>
    intro node g hk
    by_cases hps : node = source
    · subst hps
      obtain ⟨h1, h2⟩ := hsource 0 g
      refine ⟨g, h1, ?_⟩
      rw [h2]
      simp
    · obtain ⟨_, _, _, h1, _⟩ := h.parent node 0 hk hps
      omega
  | succ k ih =>
    intro node g hk
    by_cases hps : node = source
    · subst hps
      obtain ⟨h1, h2⟩ := hsource (k + 1) g
      refine ⟨g, h1, ?_⟩
      rw [h2]
      simp
    · obtain ⟨par, hfrom, hpar, _, hn, _⟩ := h.parent node (k + 1) hk hps
      have hpv := hvalid par _ hpar
      simp only [Nat.add_sub_cancel] at hpar
      obtain ⟨g1, hg1, htiles, hhead, hlast, hchain⟩ :=
        ih par (g.setOccupied node TileType.Free) hpar
      have hb : backtrackFree st.cameFrom (k + 1 + 1) node g =
          backtrackFree st.cameFrom (k + 1) par (g.setOccupied node TileType.Free) := by
        conv_lhs => unfold backtrackFree
        rw [hfrom]
        simp [hpv]
      have hc : parentChain st.cameFrom (k + 1 + 1) node =
          node :: parentChain st.cameFrom (k + 1) par := by
        conv_lhs => unfold parentChain
        rw [hfrom]
        simp [hpv]
      refine ⟨g1, by rw [hb]; exact hg1, ?_, ?_, ?_, ?_⟩
      · intro t
        rw [htiles t, hc]
        by_cases htn : t = node
        · subst htn
          simp [MapGenerator.setOccupied, hps]
        · simp [MapGenerator.setOccupied, htn]
      · rw [hc]; rfl
      · rw [hc]
        cases hpc : parentChain st.cameFrom (k + 1) par with
        | nil => rw [hpc] at hhead; cases hhead
        | cons b l =>
          rw [hpc] at hlast
          rw [List.getLast?_cons_cons]
          exact hlast
      · rw [hc, List.chain'_cons']
        refine ⟨?_, hchain⟩
        intro y hy
        rw [hhead] at hy
        cases hy
        exact hn

/-! ## The connectivity search (C1 to C4) -/

/-- C1 fails as stated: on the 2x1 corridor map the zone has the Free tile (1,0), the source
(0,0) is Possible and of the zone, `connectPath` returns true, and afterwards the source is
still Possible, not Free. -/
theorem connectPath_source_left_possible :
    corridorGen.tiles ⟨1, 0⟩ = TileType.Free ∧ corridorGen.getZoneId ⟨1, 0⟩ = corridorZone.id ∧
    corridorGen.tiles ⟨0, 0⟩ = TileType.Possible ∧
    corridorGen.getZoneId ⟨0, 0⟩ = corridorZone.id ∧
    ∃ r, connectPath corridorGen corridorZone ⟨0, 0⟩ true = some r ∧ r.result = true ∧
      r.gen.tiles ⟨0, 0⟩ = TileType.Possible ∧ r.gen.tiles ⟨0, 0⟩ ≠ TileType.Free := by
  refine ⟨by decide, by decide, by decide, by decide, ?_⟩
  refine ⟨{ result := true
            gen := corridorGen.setOccupied ⟨1, 0⟩ TileType.Free
            zone := corridorZone }, by rfl, rfl, by decide, by decide⟩

/-- C1, amended: from a source tile of the map that is Possible (whether or not the zone has a
Free tile), `connectPath` returns.  Either it returns true: then the parent chain leads from the reached tile, which was
Free, through neighbours to the source, every tile of that chain other than the source is Free
afterwards, and the source keeps its state, Possible.  Or it returns false: then the source is
in the closed set and every tile of the closed set is Blocked afterwards. -/
theorem connectPath_possible_source (m : MapGenerator) (z : TemplateZone) (source : Position)
    (onlyStraight : Bool) (hmap : m.isInTheMap source = true)
    (hposs : m.tiles source = TileType.Possible) :
    ∃ r, connectPath m z source onlyStraight = some r ∧
      ((r.result = true ∧
          ∃ node st, connectPathSearch m z source onlyStraight =
              some (SearchOutcome.reached node st) ∧
            m.isFree node = true ∧
            (parentChain st.cameFrom ((st.distances node).getD 0 + 1) node).head? = some node ∧
            (parentChain st.cameFrom ((st.distances node).getD 0 + 1) node).getLast? =
              some source ∧
            List.Chain' (fun a b => a ∈ m.neighbors onlyStraight b)
              (parentChain st.cameFrom ((st.distances node).getD 0 + 1) node) ∧
            (∀ t ∈ parentChain st.cameFrom ((st.distances node).getD 0 + 1) node,
              t ≠ source → r.gen.tiles t = TileType.Free) ∧
            r.gen.tiles source = TileType.Possible) ∨
        (r.result = false ∧
          ∃ st, connectPathSearch m z source onlyStraight =
              some (SearchOutcome.exhausted st) ∧
            source ∈ st.closed ∧ ∀ t ∈ st.closed, r.gen.tiles t = TileType.Blocked)) := by
  obtain ⟨out, hout, hpost⟩ := connectPathSearch_spec m z source onlyStraight
  unfold connectPath
  rw [hout]
  cases out with
  | reached node st =>
    obtain ⟨hfree, ⟨k, hk⟩, htree⟩ := hpost
    obtain ⟨g1, hg1, htiles, hhead, hlast, hchain⟩ := backtrackFree_spec htree hmap k node m hk
    have hkk : (st.distances node).getD 0 + 1 = k + 1 := by rw [hk]; rfl
    simp only [hk, Option.getD_some, hg1]
    refine ⟨_, rfl, Or.inl ⟨rfl, node, st, rfl, hfree, ?_⟩⟩
    rw [hkk]
    refine ⟨hhead, hlast, hchain, ?_, ?_⟩
    · intro t ht hts
      simp only [htiles t, ht, hts, ne_eq, not_false_eq_true, and_self, if_true]
    · simp only [htiles source, ne_eq, not_true_eq_false, and_false, if_false]
      exact hposs
  | exhausted st =>
    obtain ⟨hinv, hq⟩ := hpost
    refine ⟨_, rfl, Or.inr ⟨rfl, st, rfl, hinv.source_closed hq, ?_⟩⟩
    intro t ht
    have hp : m.tiles t = TileType.Possible := by
      by_cases hts : t = source
      · rw [hts]; exact hposs
      · have hnf := hinv.closed_notFree t ht
        cases hd : st.distances t with
        | none => exact absurd hd (hinv.closed_dist t ht)
        | some j =>
          obtain ⟨_, _, _, _, _, hpass⟩ := hinv.parent t j hd hts
          have hb := hpass.1
          simp only [MapGenerator.isFree, decide_eq_false_iff_not] at hnf
          simp only [MapGenerator.isBlocked, Bool.or_eq_false_iff, decide_eq_false_iff_not] at hb
          cases hstate : m.tiles t with
          | Free => exact absurd hstate hnf
          | Possible => rfl
          | Blocked => exact absurd hstate hb.1
          | Used => exact absurd hstate hb.2
    simp only [sealTiles_tiles, ht, hp, and_self, if_true]

/-- Witness for C1, amended: the Possible tile (0,0) of the 2x1 corridor map. -/
theorem connectPath_possible_source_witness :
    ∃ r, connectPath corridorGen corridorZone ⟨0, 0⟩ true = some r ∧
      ((r.result = true ∧
          ∃ node st, connectPathSearch corridorGen corridorZone ⟨0, 0⟩ true =
              some (SearchOutcome.reached node st) ∧
            corridorGen.isFree node = true ∧
            (parentChain st.cameFrom ((st.distances node).getD 0 + 1) node).head? = some node ∧
            (parentChain st.cameFrom ((st.distances node).getD 0 + 1) node).getLast? =
              some ⟨0, 0⟩ ∧
            List.Chain' (fun a b => a ∈ corridorGen.neighbors true b)
              (parentChain st.cameFrom ((st.distances node).getD 0 + 1) node) ∧
            (∀ t ∈ parentChain st.cameFrom ((st.distances node).getD 0 + 1) node,
              t ≠ ⟨0, 0⟩ → r.gen.tiles t = TileType.Free) ∧
            r.gen.tiles ⟨0, 0⟩ = TileType.Possible) ∨
        (r.result = false ∧
          ∃ st, connectPathSearch corridorGen corridorZone ⟨0, 0⟩ true =
              some (SearchOutcome.exhausted st) ∧
            (⟨0, 0⟩ : Position) ∈ st.closed ∧
            ∀ t ∈ st.closed, r.gen.tiles t = TileType.Blocked)) :=
  connectPath_possible_source corridorGen corridorZone ⟨0, 0⟩ true (by decide) (by decide)

/-- C2: `connectPath` returns, and it returns true exactly when the source is Free or a chain of
neighbouring tiles (direct neighbours when `onlyStraight`, all eight otherwise) leads from the
source over tiles of the zone that are not blocked to a Free tile. -/
theorem connectPath_true_iff_chain (m : MapGenerator) (z : TemplateZone) (source : Position)
    (onlyStraight : Bool) :
    ∃ r, connectPath m z source onlyStraight = some r ∧
      (r.result = true ↔
        (m.isFree source = true ∨
          ∃ (chain : List Position) (last : Position),
            List.Chain (fun a b => b ∈ m.neighbors onlyStraight a) source chain ∧
            (∀ t ∈ chain, m.getZoneId t = z.id ∧ m.isBlocked t = false) ∧
            chain.getLast? = some last ∧ m.isFree last = true)) := by
  obtain ⟨r, hr⟩ := connectPath_total m z source onlyStraight
  refine ⟨r, hr, ?_⟩
  rw [connectPath_result_true m z source onlyStraight r hr]
  obtain ⟨out, hout, hpost⟩ := connectPathSearch_spec m z source onlyStraight
  rw [hout]
  cases out with
  | reached node st =>
    obtain ⟨hfree, ⟨k, hk⟩, htree⟩ := hpost
    constructor
    · intro _
      obtain ⟨l, hl, hlast⟩ := List.exists_chain_of_relationReflTransGen (htree.reach k node hk)
      cases l with
      | nil =>
        left
        simp only [List.getLast_singleton] at hlast
        rw [hlast]
        exact hfree
      | cons b l =>
        right
        refine ⟨b :: l, node, ?_, ?_, ?_, hfree⟩
        · exact ((chain_canStep_iff m z onlyStraight _ _).1 hl).1
        · intro t ht
          have := ((chain_canStep_iff m z onlyStraight _ _).1 hl).2 t ht
          exact ⟨this.2, this.1⟩
        · rw [List.getLast?_eq_getLast _ (List.cons_ne_nil _ _)]
          rw [List.getLast_cons (List.cons_ne_nil _ _)] at hlast
          rw [hlast]
    · intro _
      exact ⟨node, st, rfl⟩
  | exhausted st =>
    obtain ⟨hinv, hq⟩ := hpost
    constructor
    · rintro ⟨node, st1, h⟩
      cases h
    · intro h
      exfalso
      rcases h with h | ⟨chain, last, hchain, hpass, hlast, hfree⟩
      · have := hinv.closed_notFree source (hinv.source_closed hq)
        rw [h] at this
        cases this
      · have hne : chain ≠ [] := by
          intro e
          rw [e] at hlast
          cases hlast
        have hc : List.Chain (canStep m z onlyStraight) source chain :=
          (chain_canStep_iff m z onlyStraight _ _).2
            ⟨hchain, fun t ht => ⟨(hpass t ht).2, (hpass t ht).1⟩⟩
        have hl : (source :: chain).getLast (List.cons_ne_nil _ _) = last := by
          rw [List.getLast_cons hne]
          rw [List.getLast?_eq_getLast _ hne] at hlast
          exact Option.some.inj hlast
        have hreach := List.relationReflTransGen_of_exists_chain chain hc hl
        have := hinv.closed_notFree last (hinv.reach_closed hq last hreach)
        rw [hfree] at this
        cases this

/-- C3: when `connectPath` returns false, every tile of its closed set that was Possible is
Blocked afterwards, no tile of the closed set is left in the possible-tile set, and outside the
closed set no tile changes state and none leaves (or enters) the possible-tile set. -/
theorem connectPath_false_seals (m : MapGenerator) (z : TemplateZone) (source : Position)
    (onlyStraight : Bool) (r : ConnectResult)
    (h : connectPath m z source onlyStraight = some r) (hfalse : r.result = false) :
    ∃ st, connectPathSearch m z source onlyStraight = some (SearchOutcome.exhausted st) ∧
      (∀ t ∈ st.closed, m.tiles t = TileType.Possible → r.gen.tiles t = TileType.Blocked) ∧
      (∀ t ∈ st.closed, t ∉ r.zone.possibleTiles) ∧
      (∀ t, t ∉ st.closed →
        r.gen.tiles t = m.tiles t ∧ (t ∈ r.zone.possibleTiles ↔ t ∈ z.possibleTiles)) := by
  unfold connectPath at h
  cases hs : connectPathSearch m z source onlyStraight with
  | none => rw [hs] at h; cases h
  | some out =>
    rw [hs] at h
    cases out with
    | reached node st =>
      simp only [] at h
      split at h
      · cases h
      · cases h
        cases hfalse
    | exhausted st =>
      simp only [Option.some.injEq] at h
      subst h
      refine ⟨st, rfl, ?_, ?_, ?_⟩
      · intro t ht hp
        simp only [sealTiles_tiles, ht, hp, and_self, if_true]
      · intro t ht hmem
        exact ((mem_sealPossible _ _ _).1 hmem).2 ht
      · intro t ht
        constructor
        · simp only [sealTiles_tiles, ht, false_and, if_false]
        · simp only [mem_sealPossible, ht, not_false_eq_true, and_true]

/-- Witness for C3: on the 2x1 map without a Free tile the search from (0,0) fails. -/
theorem connectPath_false_seals_witness :
    ∃ st, connectPathSearch sealedGen corridorZone ⟨0, 0⟩ true =
        some (SearchOutcome.exhausted st) ∧
      (∀ t ∈ st.closed, sealedGen.tiles t = TileType.Possible →
        (sealTiles sealedGen [⟨0, 0⟩, ⟨1, 0⟩]).tiles t = TileType.Blocked) ∧
      (∀ t ∈ st.closed, t ∉ sealPossible corridorZone.possibleTiles [⟨0, 0⟩, ⟨1, 0⟩]) ∧
      (∀ t, t ∉ st.closed →
        (sealTiles sealedGen [⟨0, 0⟩, ⟨1, 0⟩]).tiles t = sealedGen.tiles t ∧
        (t ∈ sealPossible corridorZone.possibleTiles [⟨0, 0⟩, ⟨1, 0⟩] ↔
          t ∈ corridorZone.possibleTiles)) :=
  connectPath_false_seals sealedGen corridorZone ⟨0, 0⟩ true
    { result := false
      gen := sealTiles sealedGen [⟨0, 0⟩, ⟨1, 0⟩]
      zone := { corridorZone with
        possibleTiles := sealPossible corridorZone.possibleTiles [⟨0, 0⟩, ⟨1, 0⟩] } }
    rfl rfl

/-- C4: from a source tile that is already Free `connectPath` returns true and leaves the grid
and the zone, its possible-tile set included, exactly as they were. -/
theorem connectPath_free_source_noop (m : MapGenerator) (z : TemplateZone) (source : Position)
    (onlyStraight : Bool) (h : m.tiles source = TileType.Free) :
    connectPath m z source onlyStraight = some { result := true, gen := m, zone := z } := by
  have hfree : m.isFree source = true := by simp [MapGenerator.isFree, h]
  have hsearch : connectPathSearch m z source onlyStraight =
      some (SearchOutcome.reached source
        { connectPathInit source with
          queue := PriorityQueue.pop (connectPathInit source).queue
          closed := setInsert (connectPathInit source).closed source }) := by
    unfold connectPathSearch connectPathLoop
    simp [connectPathInit, PriorityQueue.push, PriorityQueue.top, hfree]
  unfold connectPath
  rw [hsearch]
  simp [connectPathInit, backtrackFree, invalidPosition_not_valid]

/-- Witness for C4: the Free tile (1,0) of the 2x1 corridor map. -/
theorem connectPath_free_source_noop_witness :
    connectPath corridorGen corridorZone ⟨1, 0⟩ true =
      some { result := true, gen := corridorGen, zone := corridorZone } :=
  connectPath_free_source_noop corridorGen corridorZone ⟨1, 0⟩ true (by decide)

/-! ## The placement passes and `fill` (C5, C6) -/

theorem closeScan_none_available (object : ScenarioObject) (tilesBlockedByObject : List Position)
    (st : CloseScan) :
    ∀ (tiles : List Position),
      (∀ tile ∈ tiles,
        areAllTilesAvailable st.gen st.zone st.element tile tilesBlockedByObject = false) →
      closeScan object tilesBlockedByObject tiles st = some (Except.ok st) := by
  intro tiles
  induction tiles with
  | nil => intro _; rfl
  | cons tile rest ih =>
    intro h
    unfold closeScan
    rw [h tile (List.mem_cons_self _ _)]
    simp only [Bool.not_false, if_true]
    exact ih fun t ht => h t (List.mem_cons_of_mem _ ht)

/-- The defect behind C5 in general: when the candidate tiles of a close object are not empty
but none of them is available, the retry loop makes no attempt and ends, and the pass goes on to
the next object with grid and zone untouched: the object is dropped without a failure. -/
theorem placeCloseLoop_none_available
    (sortCloser : MapGenerator → List Position → Position → List Position → List Position)
    (object : ScenarioObject) (tilesBlockedByObject : List Position) (fuel : Nat)
    (mapElement : MapElement) (m : MapGenerator) (z : TemplateZone)
    (hne : (sortCloser m tilesBlockedByObject
        ((z.requestedPositions object.id).getD z.pos)
        (z.possibleTiles.filter fun tile =>
          !(m.isAtTheBorder tile || m.isAtTheBorderFor mapElement tile
            || !isAccessibleFromSomewhere m z mapElement tile))).isEmpty = false)
    (hnone : ∀ tile ∈ sortCloser m tilesBlockedByObject
        ((z.requestedPositions object.id).getD z.pos)
        (z.possibleTiles.filter fun tile =>
          !(m.isAtTheBorder tile || m.isAtTheBorderFor mapElement tile
            || !isAccessibleFromSomewhere m z mapElement tile)),
      areAllTilesAvailable m z mapElement tile tilesBlockedByObject = false) :
    placeCloseLoop sortCloser object tilesBlockedByObject (fuel + 1) mapElement m z =
      some (Except.ok { proceed := true, gen := m, zone := z }) := by
  unfold placeCloseLoop
  simp only [hne, Bool.false_eq_true, if_false]
  rw [closeScan_none_available object tilesBlockedByObject
    { attempt := false, finished := false, element := mapElement, gen := m, zone := z } _ hnone]
  simp

/-- The defect behind C6 in general: whatever flag `createRequiredObjects` returns at the state
`fill` has reached, `fill` ends normally with the grid and zone that call left behind. -/
theorem fill_of_createRequiredObjects (env : Collaborators) (m : MapGenerator)
    (z : TemplateZone) (s : MapGenerator × TemplateZone) (r : CreateResult)
    (hfrac : fractalize env.randomShuffle (initFreeTiles m z).1 (initFreeTiles m z).2 =
      some (Except.ok s))
    (hcreate : createRequiredObjects env.sortCloser
      (placeMines env (placeRuins env s.1 s.2).1 (placeRuins env s.1 s.2).2).1
      (placeMines env (placeRuins env s.1 s.2).1 (placeRuins env s.1 s.2).2).2 =
      some (Except.ok r)) :
    fill env m z = some (Except.ok (r.gen, r.zone)) := by
  unfold fill
  simp only [hfrac, hcreate]

/-- C5, the code at the failing input: on the 5x5 map whose inner tiles are Free the candidate
tiles for the close crystal are the nine inner tiles, none of which is Possible;
`createRequiredObjects` makes no attempt, returns true and has cleared the close list, and no
object has been placed. -/
theorem createRequiredObjects_leaves_close_object :
    closeObjectZone.closeObjects.map (fun pair => pair.1.id) = [7] ∧
    hollowGen.objects.map (fun o => o.id) = [] ∧
    (closeObjectZone.possibleTiles.filter fun tile =>
      !(hollowGen.isAtTheBorder tile || hollowGen.isAtTheBorderFor unitElement tile
        || !isAccessibleFromSomewhere hollowGen closeObjectZone unitElement tile)) =
      [⟨1, 1⟩, ⟨1, 2⟩, ⟨1, 3⟩, ⟨2, 1⟩, ⟨2, 2⟩, ⟨2, 3⟩, ⟨3, 1⟩, ⟨3, 2⟩, ⟨3, 3⟩] ∧
    ∃ r, createRequiredObjects keepOrder hollowGen closeObjectZone = some (Except.ok r) ∧
      r.result = true ∧ r.gen.objects.map (fun o => o.id) = [] ∧
      r.zone.closeObjects.map (fun pair => pair.1.id) = [] :=
  ⟨rfl, rfl, by decide, _, rfl, rfl, rfl, rfl⟩

/-- C6, the code at the failing input: `fill` on the walled 3x3 map with one required crystal.
After `initFreeTiles` and `fractalize` the centre is Free and no tile is Possible, so
`createRequiredObjects` finds no place and returns false for lack of space; `fill`
nevertheless runs to its end and reports the zone as filled, with the crystal still pending and
no object placed. -/
theorem fill_ignores_lack_of_space :
    ∃ s r,
      fractalize plainCollaborators.randomShuffle
          (initFreeTiles walledGen requiredObjectZone).1
          (initFreeTiles walledGen requiredObjectZone).2 = some (Except.ok s) ∧
      createRequiredObjects plainCollaborators.sortCloser
          (placeMines plainCollaborators (placeRuins plainCollaborators s.1 s.2).1
            (placeRuins plainCollaborators s.1 s.2).2).1
          (placeMines plainCollaborators (placeRuins plainCollaborators s.1 s.2).1
            (placeRuins plainCollaborators s.1 s.2).2).2 = some (Except.ok r) ∧
      r.result = false ∧
      fill plainCollaborators walledGen requiredObjectZone = some (Except.ok (r.gen, r.zone)) ∧
      r.zone.requiredObjects.map (fun pair => pair.1.id) = [7] ∧
      r.gen.objects.map (fun o => o.id) = [] :=
  ⟨_, _, rfl, rfl, rfl, rfl, rfl, rfl⟩

/-! ## Placement of one object (C7 to C10) -/

theorem setOccupied_isInTheMap (m : MapGenerator) (p : Position) (v : TileType) (t : Position) :
    (m.setOccupied p v).isInTheMap t = m.isInTheMap t := rfl

theorem blockLoop_spec :
    ∀ (l : List Position) (g : MapGenerator) (t : Position),
      (l.foldl (fun g tile =>
          if g.isInTheMap tile then g.setOccupied tile TileType.Blocked else g) g).tiles t =
        (if t ∈ l ∧ g.isInTheMap t = true then TileType.Blocked else g.tiles t) ∧
      ∀ q, (l.foldl (fun g tile =>
          if g.isInTheMap tile then g.setOccupied tile TileType.Blocked else g) g).isInTheMap q =
        g.isInTheMap q := by
  intro l
  induction l with
  | nil => intro g t; simp
  | cons a l ih =>
    intro g t
    rw [List.foldl_cons]
    by_cases ha : g.isInTheMap a = true
    · rw [if_pos ha]
      obtain ⟨h1, h2⟩ := ih (g.setOccupied a TileType.Blocked) t
      refine ⟨?_, fun q => by rw [(ih (g.setOccupied a TileType.Blocked) q).2]; rfl⟩
      rw [h1, setOccupied_isInTheMap]
      by_cases hta : t = a
      · subst hta
        simp [MapGenerator.setOccupied, ha]
      · simp [MapGenerator.setOccupied, hta]
    · rw [if_neg ha]
      obtain ⟨h1, h2⟩ := ih g t
      refine ⟨?_, h2⟩
      rw [h1]
      by_cases hta : t = a
      · subst hta
        simp [ha]
      · simp [hta]

theorem blockFootprint_tiles (m : MapGenerator) (e : MapElement) (t : Position) :
    (blockFootprint m e).tiles t =
      if t = e.getEntrance ∨ (t ∈ e.getBlockedPositions ∧ m.isInTheMap t = true) then
        TileType.Blocked
      else m.tiles t := by
  unfold blockFootprint
  rw [(blockLoop_spec _ _ t).1, setOccupied_isInTheMap]
  by_cases hte : t = e.getEntrance
  · simp [MapGenerator.setOccupied, hte]
  · simp [MapGenerator.setOccupied, hte]

/-- C7: `tryToPlaceObjectAndConnectToPath` returns, and with the entrance and the in-map
footprint tiles set Blocked it returns CannotFit exactly when `getAccessibleOffset` finds no
valid tile, otherwise SealedOff exactly when `connectPath` from the accessible tile over direct
neighbours returns false, and otherwise Success. -/
theorem tryToPlaceObjectAndConnectToPath_result (m : MapGenerator) (z : TemplateZone)
    (mapElement : MapElement) (position : Position) :
    ∃ out r,
      tryToPlaceObjectAndConnectToPath m z mapElement position = some out ∧
      connectPath (blockFootprint m (mapElement.setPosition position)) z
        (getAccessibleOffset (blockFootprint m (mapElement.setPosition position)) z
          (mapElement.setPosition position) position) true = some r ∧
      (out.result = ObjectPlacingResult.CannotFit ↔
        (getAccessibleOffset (blockFootprint m (mapElement.setPosition position)) z
          (mapElement.setPosition position) position).isValid = false) ∧
      (out.result = ObjectPlacingResult.SealedOff ↔
        (getAccessibleOffset (blockFootprint m (mapElement.setPosition position)) z
          (mapElement.setPosition position) position).isValid = true ∧ r.result = false) ∧
      (out.result = ObjectPlacingResult.Success ↔
        (getAccessibleOffset (blockFootprint m (mapElement.setPosition position)) z
          (mapElement.setPosition position) position).isValid = true ∧ r.result = true) := by
  obtain ⟨r, hr⟩ := connectPath_total (blockFootprint m (mapElement.setPosition position)) z
    (getAccessibleOffset (blockFootprint m (mapElement.setPosition position)) z
      (mapElement.setPosition position) position) true
  unfold tryToPlaceObjectAndConnectToPath
  simp only [hr]
  cases hv : (getAccessibleOffset (blockFootprint m (mapElement.setPosition position)) z
      (mapElement.setPosition position) position).isValid with
  | false => exact ⟨_, r, rfl, rfl, by simp⟩
  | true =>
    cases hres : r.result with
    | false =>
      refine ⟨{ result := ObjectPlacingResult.SealedOff
                element := mapElement.setPosition position, gen := r.gen, zone := r.zone },
        r, by simp, rfl, by simp [hres]⟩
    | true =>
      refine ⟨{ result := ObjectPlacingResult.Success
                element := mapElement.setPosition position, gen := r.gen, zone := r.zone },
        r, by simp, rfl, by simp [hres]⟩

/-- C8 fails as stated: on the walled 3x3 map the one-tile element cannot be reached at the
centre, `tryToPlaceObjectAndConnectToPath` returns CannotFit, and the centre tile, Possible
before the call, is Blocked after it. -/
theorem tryToPlace_cannotFit_changes_grid :
    walledGen.tiles ⟨1, 1⟩ = TileType.Possible ∧
    ∃ out, tryToPlaceObjectAndConnectToPath walledGen squareZone unitElement ⟨1, 1⟩ = some out ∧
      out.result = ObjectPlacingResult.CannotFit ∧ out.gen.tiles ⟨1, 1⟩ = TileType.Blocked := by
  refine ⟨by decide, ?_⟩
  exact ⟨{ result := ObjectPlacingResult.CannotFit
           element := unitElement.setPosition ⟨1, 1⟩
           gen := blockFootprint walledGen (unitElement.setPosition ⟨1, 1⟩)
           zone := squareZone }, by rfl, rfl, by decide⟩

/-- C8, amended: when `tryToPlaceObjectAndConnectToPath` returns CannotFit the zone, its
possible-tile set included, is unchanged, the entrance of the element and the tiles of its
footprint that are in the map are Blocked, and every other tile keeps its state. -/
theorem tryToPlace_cannotFit_frame (m : MapGenerator) (z : TemplateZone)
    (mapElement : MapElement) (position : Position) (out : PlacingOutcome)
    (h : tryToPlaceObjectAndConnectToPath m z mapElement position = some out)
    (hres : out.result = ObjectPlacingResult.CannotFit) :
    out.zone = z ∧
    ∀ t, out.gen.tiles t =
      if t = (mapElement.setPosition position).getEntrance ∨
          (t ∈ (mapElement.setPosition position).getBlockedPositions ∧ m.isInTheMap t = true)
      then TileType.Blocked else m.tiles t := by
  unfold tryToPlaceObjectAndConnectToPath at h
  simp only [] at h
  split at h
  · cases h
    exact ⟨rfl, fun t => blockFootprint_tiles m _ t⟩
  · split at h
    · cases h
    · split at h
      · cases h; cases hres
      · cases h; cases hres

/-- Witness for C8, amended: the one-tile element at the centre of the walled 3x3 map. -/
theorem tryToPlace_cannotFit_frame_witness :
    squareZone = squareZone ∧
    ∀ t, (blockFootprint walledGen (unitElement.setPosition ⟨1, 1⟩)).tiles t =
      if t = (unitElement.setPosition ⟨1, 1⟩).getEntrance ∨
          (t ∈ (unitElement.setPosition ⟨1, 1⟩).getBlockedPositions ∧
            walledGen.isInTheMap t = true)
      then TileType.Blocked else walledGen.tiles t :=
  tryToPlace_cannotFit_frame walledGen squareZone unitElement ⟨1, 1⟩
    { result := ObjectPlacingResult.CannotFit
      element := unitElement.setPosition ⟨1, 1⟩
      gen := blockFootprint walledGen (unitElement.setPosition ⟨1, 1⟩)
      zone := squareZone } (by rfl) rfl

theorem usedLoop_tiles :
    ∀ (l : List Position) (g : MapGenerator) (t : Position),
      (l.foldl (fun g tile => g.setOccupied tile TileType.Used) g).tiles t =
        if t ∈ l then TileType.Used else g.tiles t := by
  intro l
  induction l with
  | nil => intro g t; simp
  | cons a l ih =>
    intro g t
    rw [List.foldl_cons, ih]
    by_cases hta : t = a
    · subst hta
      simp [MapGenerator.setOccupied]
    · simp [MapGenerator.setOccupied, hta]

theorem markUsed_tiles (m : MapGenerator) (e : MapElement) (t : Position) :
    (markUsed m e).tiles t =
      if t ∈ e.getBlockedPositions ∨ t = e.getEntrance then TileType.Used else m.tiles t := by
  unfold markUsed
  rw [usedLoop_tiles]
  simp only [mem_setInsert]

theorem updateDistances_tiles (m : MapGenerator) (z : TemplateZone) (p : Position) :
    (updateDistances m z p).tiles = m.tiles := by
  unfold updateDistances
  generalize z.possibleTiles = l
  induction l generalizing m with
  | nil => rfl
  | cons a l ih =>
    rw [List.foldl_cons, ih]
    rfl

theorem distanceStep_tiles (m : MapGenerator) (z : TemplateZone) (p : Position) (b : Bool) :
    (if b then updateDistances m z p else m).tiles = m.tiles := by
  cases b
  · rfl
  · exact updateDistances_tiles m z p

/-- What every overload of `placeObject` does to the grid and the zone once its checks have
passed. -/
theorem placeObject_ok (kind : PlaceableKind) (m : MapGenerator) (z : TemplateZone) (id : Nat)
    (element : MapElement) (position : Position) (updateDistance : Bool)
    (r : MapGenerator × TemplateZone)
    (h : placeObject kind m z id element position updateDistance = Except.ok r) :
    r.1.tiles = (markUsed m (element.setPosition position)).tiles ∧
    r.2 = if kind = PlaceableKind.fortification then
        addRoadNode z (element.setPosition position).getEntrance
      else z := by
  cases kind
  · simp only [placeObject, placeFortification] at h
    split at h
    · cases h
    · split at h
      · cases h
      · cases h
        exact ⟨distanceStep_tiles _ _ _ _, by simp⟩
  · simp only [placeObject, placeStack] at h
    split at h
    · cases h
    · cases h
      exact ⟨distanceStep_tiles _ _ _ _, by simp⟩
  · simp only [placeObject, placeCrystal] at h
    split at h
    · cases h
    · cases h
      exact ⟨distanceStep_tiles _ _ _ _, by simp⟩
  · simp only [placeObject, placeRuin] at h
    split at h
    · cases h
    · split at h
      · cases h
      · cases h
        exact ⟨distanceStep_tiles _ _ _ _, by simp⟩

/-- C9: after `placeObject` has returned normally for a fortification, stack, crystal or ruin,
every tile of the footprint of the element (its blocked positions at the new anchor) has state
Used, and so has its entrance tile. -/
theorem placeObject_marks_used (kind : PlaceableKind) (m : MapGenerator) (z : TemplateZone)
    (id : Nat) (element : MapElement) (position : Position) (updateDistance : Bool)
    (r : MapGenerator × TemplateZone)
    (h : placeObject kind m z id element position updateDistance = Except.ok r) :
    (∀ t ∈ (element.setPosition position).getBlockedPositions, r.1.tiles t = TileType.Used) ∧
    r.1.tiles (element.setPosition position).getEntrance = TileType.Used := by
  obtain ⟨h1, _⟩ := placeObject_ok kind m z id element position updateDistance r h
  rw [h1]
  constructor
  · intro t ht
    rw [markUsed_tiles]
    simp [ht]
  · rw [markUsed_tiles]
    simp

/-- Witness for C9: a crystal of one tile placed at the centre of the blank 3x3 map. -/
theorem placeObject_marks_used_witness :
    (∀ t ∈ (unitElement.setPosition ⟨1, 1⟩).getBlockedPositions,
      (((updateDistances (markUsed (blankGen 3 3) (unitElement.setPosition ⟨1, 1⟩)) squareZone
        ⟨1, 1⟩).insertObject ⟨7, ObjectType.Crystal, some (unitElement.setPosition ⟨1, 1⟩)⟩),
        squareZone).1.tiles t = TileType.Used) ∧
    (((updateDistances (markUsed (blankGen 3 3) (unitElement.setPosition ⟨1, 1⟩)) squareZone
        ⟨1, 1⟩).insertObject ⟨7, ObjectType.Crystal, some (unitElement.setPosition ⟨1, 1⟩)⟩),
        squareZone).1.tiles (unitElement.setPosition ⟨1, 1⟩).getEntrance = TileType.Used :=
  placeObject_marks_used PlaceableKind.crystal (blankGen 3 3) squareZone 7 unitElement ⟨1, 1⟩
    true _ rfl

/-- C10 fails as stated: a crystal placed through `placeScenarioObject` at the centre of the
blank 3x3 map is placed successfully, and its entrance (1,1) is not in the road-node set of the
zone, which is still empty. -/
theorem placeScenarioObject_crystal_no_road_node :
    ∃ r, placeScenarioObject (blankGen 3 3) squareZone crystalObject ⟨1, 1⟩ = Except.ok r ∧
      (unitElement.setPosition ⟨1, 1⟩).getEntrance = ⟨1, 1⟩ ∧
      r.1.tiles ⟨1, 1⟩ = TileType.Used ∧
      (⟨1, 1⟩ : Position) ∉ r.2.roadNodes ∧ r.2.roadNodes = [] :=
  ⟨_, rfl, rfl, by decide, by decide, rfl⟩

/-- C10, amended: after `placeObject` has returned normally for a fortification, the entrance of
the fortification is in the road-node set of the zone; for a stack, a crystal or a ruin
`placeObject` leaves the zone, its road-node set included, as it was. -/
theorem placeObject_road_node (kind : PlaceableKind) (m : MapGenerator) (z : TemplateZone)
    (id : Nat) (element : MapElement) (position : Position) (updateDistance : Bool)
    (r : MapGenerator × TemplateZone)
    (h : placeObject kind m z id element position updateDistance = Except.ok r) :
    (kind = PlaceableKind.fortification →
      (element.setPosition position).getEntrance ∈ r.2.roadNodes) ∧
    (kind ≠ PlaceableKind.fortification → r.2 = z) := by
  obtain ⟨_, h2⟩ := placeObject_ok kind m z id element position updateDistance r h
  constructor
  · intro hk
    rw [h2, if_pos hk]
    simp [addRoadNode, mem_setInsert]
  · intro hk
    rw [h2, if_neg hk]

/-- Witness for C10, amended: a fortification of one tile placed at the centre of the blank 3x3
map. -/
theorem placeObject_road_node_witness :
    (PlaceableKind.fortification = PlaceableKind.fortification →
      (unitElement.setPosition ⟨1, 1⟩).getEntrance ∈
        (addRoadNode squareZone (unitElement.setPosition ⟨1, 1⟩).getEntrance).roadNodes) ∧
    (PlaceableKind.fortification ≠ PlaceableKind.fortification →
      addRoadNode squareZone (unitElement.setPosition ⟨1, 1⟩).getEntrance = squareZone) :=
  placeObject_road_node PlaceableKind.fortification (blankGen 3 3) squareZone 3 unitElement
    ⟨1, 1⟩ true
    ((updateDistances (markUsed (blankGen 3 3) (unitElement.setPosition ⟨1, 1⟩)) squareZone
        ⟨1, 1⟩).insertObject ⟨3, ObjectType.Fortification, some (unitElement.setPosition ⟨1, 1⟩)⟩,
      addRoadNode squareZone (unitElement.setPosition ⟨1, 1⟩).getEntrance)
    rfl

/-! ## Placement checks, the distance field and tile selection (C11 to C16) -/

theorem updateLoop_distance (position : Position) :
    ∀ (l : List Position) (m : MapGenerator) (t : Position),
      (l.foldl
        (fun g tile =>
          let distance := castToFloat (position.distanceSquared tile)
          let currentDistance := g.getNearestObjectDistance tile
          g.setNearestObjectDistance tile
            (some (match currentDistance with
              | none => distance
              | some current => min distance current)))
        m).nearestObjectDistance t =
      if t ∈ l then
        some (minDistanceWith (castToFloat (position.distanceSquared t)) (m.nearestObjectDistance t))
      else m.nearestObjectDistance t := by
  intro l
  induction l with
  | nil => intro m t; simp
  | cons a l ih =>
    intro m t
    rw [List.foldl_cons, ih]
    by_cases hta : t = a
    · subst hta
      simp only [List.mem_cons, true_or, if_true]
      simp only [MapGenerator.setNearestObjectDistance, MapGenerator.getNearestObjectDistance,
        if_true]
      cases hd : m.nearestObjectDistance t with
      | none => simp [minDistanceWith]
      | some c => simp [minDistanceWith]
    · have h1 : (m.setNearestObjectDistance a
          (some (match m.getNearestObjectDistance a with
            | none => castToFloat (position.distanceSquared a)
            | some current => min (castToFloat (position.distanceSquared a)) current))).nearestObjectDistance t
          = m.nearestObjectDistance t := by
        simp [MapGenerator.setNearestObjectDistance, hta]
      simp only [List.mem_cons, hta, false_or]
      rw [h1]

theorem updateDistances_distance (m : MapGenerator) (z : TemplateZone) (position t : Position) :
    (updateDistances m z position).nearestObjectDistance t =
      if t ∈ z.possibleTiles then
        some (minDistanceWith (castToFloat (position.distanceSquared t)) (m.nearestObjectDistance t))
      else m.nearestObjectDistance t := by
  unfold updateDistances
  exact updateLoop_distance position z.possibleTiles m t

theorem distanceLe_minDistanceWith (distance : Nat) (current : Option Nat) :
    distanceLe (some (minDistanceWith distance current)) current := by
  cases current with
  | none => simp [distanceLe]
  | some c => simp [distanceLe, minDistanceWith]

theorem distanceLe_refl (a : Option Nat) : distanceLe a a := by
  cases a <;> simp [distanceLe]

theorem castToFloat_exact (n : Nat) (h : n ≤ 16777216) : castToFloat n = n := by
  rcases Nat.lt_or_eq_of_le h with hlt | heq
  · have hbits : droppedBits n n = 0 := by
      cases n with
      | zero => rfl
      | succ k => simp [droppedBits, hlt]
    simp [castToFloat, hbits, Nat.mod_one]
  · subst heq
    decide

/-- C12 fails as stated: on the map of one row of 4098 tiles, all of them in the possible-tile
set and all storing +infinity, `updateDistances((0,0))` stores 16785408 for the tile (4097,0),
whose squared distance from (0,0) is 4097 * 4097 = 16785409: the squared distance goes through
`static_cast<float>`, and no float lies strictly between 16785408 and 16785410. -/
theorem updateDistances_rounds_distance :
    (⟨4097, 0⟩ : Position) ∈ (rowZone 4098).possibleTiles ∧
    (blankGen 4098 1).getNearestObjectDistance ⟨4097, 0⟩ = none ∧
    (⟨0, 0⟩ : Position).distanceSquared ⟨4097, 0⟩ = 16785409 ∧
    (updateDistances (blankGen 4098 1) (rowZone 4098) ⟨0, 0⟩).getNearestObjectDistance
      ⟨4097, 0⟩ = some 16785408 := by
  have hmem : (⟨4097, 0⟩ : Position) ∈ (rowZone 4098).possibleTiles := by
    simp only [rowZone, blankZone]
    exact MapGenerator.mem_allTiles (blankGen 4098 1) ⟨4097, 0⟩ (by decide)
  refine ⟨hmem, rfl, by decide, ?_⟩
  simp only [MapGenerator.getNearestObjectDistance, updateDistances_distance, hmem, if_true]
  decide

/-- C12 (amended): `updateDistances(p)` stores for every tile of the possible-tile set of the
zone the minimum of its old stored distance and its squared distance from `p` converted to
float, which is the squared distance itself whenever that is at most 2^24 = 16777216; it leaves
the stored distance of every other tile as it was, and so never increases a stored distance. -/
theorem updateDistances_min (m : MapGenerator) (z : TemplateZone) (position : Position) :
    (∀ t ∈ z.possibleTiles,
      (updateDistances m z position).getNearestObjectDistance t =
        some (minDistanceWith (castToFloat (position.distanceSquared t))
          (m.getNearestObjectDistance t))) ∧
    (∀ t ∈ z.possibleTiles, position.distanceSquared t ≤ 16777216 →
      (updateDistances m z position).getNearestObjectDistance t =
        some (minDistanceWith (position.distanceSquared t) (m.getNearestObjectDistance t))) ∧
    (∀ t, t ∉ z.possibleTiles →
      (updateDistances m z position).getNearestObjectDistance t =
        m.getNearestObjectDistance t) ∧
    ∀ t, distanceLe ((updateDistances m z position).getNearestObjectDistance t)
      (m.getNearestObjectDistance t) := by
  refine ⟨?_, ?_, ?_, ?_⟩
  · intro t ht
    simp only [MapGenerator.getNearestObjectDistance, updateDistances_distance, ht, if_true]
  · intro t ht hsmall
    simp only [MapGenerator.getNearestObjectDistance, updateDistances_distance, ht, if_true,
      castToFloat_exact _ hsmall]
  · intro t ht
    simp only [MapGenerator.getNearestObjectDistance, updateDistances_distance, ht, if_false]
  · intro t
    simp only [MapGenerator.getNearestObjectDistance, updateDistances_distance]
    split
    · exact distanceLe_minDistanceWith _ _
    · exact distanceLe_refl _

/-- Witness for C12, amended: on the 2x1 corridor map `updateDistances((0,0))` stores for the
tile (1,0) of the possible-tile set its squared distance 1, which a float holds as it is. -/
theorem updateDistances_min_witness :
    (⟨1, 0⟩ : Position) ∈ corridorZone.possibleTiles ∧
    (⟨0, 0⟩ : Position).distanceSquared ⟨1, 0⟩ ≤ 16777216 ∧
    (updateDistances corridorGen corridorZone ⟨0, 0⟩).getNearestObjectDistance ⟨1, 0⟩ =
      some (minDistanceWith ((⟨0, 0⟩ : Position).distanceSquared ⟨1, 0⟩)
        (corridorGen.getNearestObjectDistance ⟨1, 0⟩)) :=
  ⟨by decide, by decide,
    (updateDistances_min corridorGen corridorZone ⟨0, 0⟩).2.1 ⟨1, 0⟩ (by decide) (by decide)⟩

theorem usedLoop_distance :
    ∀ (l : List Position) (g : MapGenerator),
      (l.foldl (fun g tile => g.setOccupied tile TileType.Used) g).nearestObjectDistance =
        g.nearestObjectDistance := by
  intro l
  induction l with
  | nil => intro g; rfl
  | cons a l ih =>
    intro g
    rw [List.foldl_cons, ih]
    rfl

theorem markUsed_distance (m : MapGenerator) (e : MapElement) :
    (markUsed m e).nearestObjectDistance = m.nearestObjectDistance := by
  unfold markUsed
  exact usedLoop_distance _ m

/-- The distance field and the possible-tile set after a `placeObject` call with distance
updating enabled that returned normally. -/
theorem placeObject_distance (kind : PlaceableKind) (m : MapGenerator) (z : TemplateZone)
    (id : Nat) (element : MapElement) (position : Position) (r : MapGenerator × TemplateZone)
    (h : placeObject kind m z id element position true = Except.ok r) :
    r.2.possibleTiles = z.possibleTiles ∧
    ∀ t, r.1.nearestObjectDistance t =
      if t ∈ z.possibleTiles then
        some (minDistanceWith (castToFloat (position.distanceSquared t)) (m.nearestObjectDistance t))
      else m.nearestObjectDistance t := by
  have key : ∀ (e : MapElement) (o : ScenarioObject) (t : Position),
      ((updateDistances (markUsed m e) z position).insertObject o).nearestObjectDistance t =
        if t ∈ z.possibleTiles then
          some (minDistanceWith (castToFloat (position.distanceSquared t)) (m.nearestObjectDistance t))
        else m.nearestObjectDistance t := by
    intro e o t
    have h1 : ((updateDistances (markUsed m e) z position).insertObject o).nearestObjectDistance t
        = (updateDistances (markUsed m e) z position).nearestObjectDistance t := rfl
    rw [h1, updateDistances_distance, markUsed_distance]
  cases kind
  · simp only [placeObject, placeFortification] at h
    split at h
    · cases h
    · split at h
      · cases h
      · cases h
        exact ⟨rfl, fun t => key _ _ t⟩
  · simp only [placeObject, placeStack] at h
    split at h
    · cases h
    · cases h
      exact ⟨rfl, fun t => key _ _ t⟩
  · simp only [placeObject, placeCrystal] at h
    split at h
    · cases h
    · cases h
      exact ⟨rfl, fun t => key _ _ t⟩
  · simp only [placeObject, placeRuin] at h
    split at h
    · cases h
    · split at h
      · cases h
      · cases h
        exact ⟨rfl, fun t => key _ _ t⟩

/-- The distance field after a run of placements, for an arbitrary field at the start: tiles
outside the possible-tile set keep their stored distance, tiles inside store a value that is at
most every squared distance to a placement point and is either the old value or one of those
squared distances. -/
theorem placeObjects_distance :
    ∀ (ps : List Placement) (m : MapGenerator) (z : TemplateZone)
      (r : MapGenerator × TemplateZone),
      placeObjects ps m z = Except.ok r →
      r.2.possibleTiles = z.possibleTiles ∧
      (∀ t, t ∉ z.possibleTiles → r.1.nearestObjectDistance t = m.nearestObjectDistance t) ∧
      ∀ t, t ∈ z.possibleTiles → ps ≠ [] →
        ∃ k, r.1.nearestObjectDistance t = some k ∧
          (m.nearestObjectDistance t = some k ∨ ∃ p ∈ ps, castToFloat (p.position.distanceSquared t) = k) ∧
          (∀ p ∈ ps, k ≤ castToFloat (p.position.distanceSquared t)) ∧
          ∀ c, m.nearestObjectDistance t = some c → k ≤ c := by
  intro ps
  induction ps with
  | nil =>
    intro m z r h
    simp only [placeObjects] at h
    cases h
    exact ⟨rfl, fun _ _ => rfl, fun _ _ hne => absurd rfl hne⟩
  | cons p rest ih =>
    intro m z r h
    simp only [placeObjects] at h
    split at h
    · cases h
    · rename_i r1 hr1
      have hp := placeObject_distance p.kind m z p.id p.element p.position r1 hr1
      have hrest := ih r1.1 r1.2 r h
      rw [hp.1] at hrest
      refine ⟨hrest.1, ?_, ?_⟩
      · intro t ht
        rw [hrest.2.1 t ht, hp.2 t, if_neg ht]
      · intro t ht _
        have h1 : r1.1.nearestObjectDistance t =
            some (minDistanceWith (castToFloat (p.position.distanceSquared t)) (m.nearestObjectDistance t)) := by
          rw [hp.2 t, if_pos ht]
        have hmin : minDistanceWith (castToFloat (p.position.distanceSquared t)) (m.nearestObjectDistance t)
            ≤ castToFloat (p.position.distanceSquared t) := by
          cases m.nearestObjectDistance t <;> simp [minDistanceWith]
        have hminc : ∀ c, m.nearestObjectDistance t = some c →
            minDistanceWith (castToFloat (p.position.distanceSquared t)) (m.nearestObjectDistance t) ≤ c := by
          intro c hc
          rw [hc]
          simp [minDistanceWith]
        have hor : m.nearestObjectDistance t =
              some (minDistanceWith (castToFloat (p.position.distanceSquared t)) (m.nearestObjectDistance t)) ∨
            castToFloat (p.position.distanceSquared t) =
              minDistanceWith (castToFloat (p.position.distanceSquared t)) (m.nearestObjectDistance t) := by
          cases hc : m.nearestObjectDistance t with
          | none => right; simp [minDistanceWith]
          | some c =>
            simp only [minDistanceWith]
            rcases Nat.le_total (castToFloat (p.position.distanceSquared t)) c with hle | hle
            · right; rw [Nat.min_eq_left hle]
            · left; rw [Nat.min_eq_right hle]
        by_cases hnil : rest = []
        · subst hnil
          simp only [placeObjects] at h
          cases h
          refine ⟨_, h1, ?_, ?_, hminc⟩
          · rcases hor with h2 | h2
            · exact Or.inl h2
            · exact Or.inr ⟨p, List.mem_cons_self _ _, h2⟩
          · intro q hq
            simp only [List.mem_singleton] at hq
            subst hq
            exact hmin
        · obtain ⟨k, hk, hsrc, hle, hold⟩ := hrest.2.2 t ht hnil
          have hk1 := hold _ h1
          refine ⟨k, hk, ?_, ?_, ?_⟩
          · rcases hsrc with h2 | ⟨q, hq, h2⟩
            · rw [h1] at h2
              cases h2
              rcases hor with h3 | h3
              · exact Or.inl h3
              · exact Or.inr ⟨p, List.mem_cons_self _ _, h3⟩
            · exact Or.inr ⟨q, List.mem_cons_of_mem _ hq, h2⟩
          · intro q hq
            rcases List.mem_cons.1 hq with h2 | h2
            · subst h2
              exact Nat.le_trans hk1 hmin
            · exact hle q h2
          · intro c hc
            exact Nat.le_trans hk1 (hminc c hc)

/-- Counterexample to C13, in two parts.  In the 2x1 corridor zone after `initFreeTiles`, whose
distance field is +infinity everywhere, placing a crystal at (0,0) with distance updating enabled
leaves the stored distance of the zone tile (1,0) at +infinity, although its squared distance to
the placement point is 1: the Free tile (1,0) is not in the possible-tile set.  And on the map
of one row of 4098 tiles, all in the possible-tile set and all storing +infinity, placing a
crystal at (0,0) stores 16785408 for the tile (4097,0), whose squared distance to the placement
point is 16785409: the stored distance is a float. -/
theorem placeObject_skips_free_tile :
    ((∀ t, corridorInit.1.getNearestObjectDistance t = none) ∧
      (⟨1, 0⟩ : Position) ∈ corridorInit.2.tileInfo ∧
      corridorInit.2.possibleTiles = [⟨0, 0⟩] ∧
      (⟨0, 0⟩ : Position).distanceSquared ⟨1, 0⟩ = 1 ∧
      ∃ r, placeObject PlaceableKind.crystal corridorInit.1 corridorInit.2 7 unitElement ⟨0, 0⟩
          true = Except.ok r ∧
        r.1.getNearestObjectDistance ⟨0, 0⟩ = some 0 ∧
        r.1.getNearestObjectDistance ⟨1, 0⟩ = none) ∧
    ((∀ t, (blankGen 4098 1).getNearestObjectDistance t = none) ∧
      (⟨4097, 0⟩ : Position) ∈ (rowZone 4098).possibleTiles ∧
      (⟨0, 0⟩ : Position).distanceSquared ⟨4097, 0⟩ = 16785409 ∧
      ∃ r, placeObject PlaceableKind.crystal (blankGen 4098 1) (rowZone 4098) 7 unitElement
          ⟨0, 0⟩ true = Except.ok r ∧
        r.1.getNearestObjectDistance ⟨4097, 0⟩ = some 16785408) := by
  have hmem : (⟨4097, 0⟩ : Position) ∈ (rowZone 4098).possibleTiles := by
    simp only [rowZone, blankZone]
    exact MapGenerator.mem_allTiles (blankGen 4098 1) ⟨4097, 0⟩ (by decide)
  refine ⟨⟨fun _ => rfl, by decide, by decide, by decide, _, rfl, rfl, rfl⟩,
    fun _ => rfl, hmem, by decide, _, rfl, ?_⟩
  have h := (placeObject_distance PlaceableKind.crystal (blankGen 4098 1) (rowZone 4098) 7
    unitElement ⟨0, 0⟩ _ rfl).2 ⟨4097, 0⟩
  rw [if_pos hmem] at h
  exact h.trans (by decide)

/-- C13 (amended): starting from a distance field that is +infinity everywhere, after the objects
of a list have been placed one after the other with distance updating enabled, the possible-tile
set of the zone is the one before, every tile of that set stores the minimum, over the placement
points, of its squared distance to the point converted to float (a value attained at one of them
and at most the value for each), which is the minimum squared distance to the placement points
when none of these squared distances exceeds 2^24 = 16777216; and every tile outside that set
still stores +infinity, as does every tile when nothing was placed. -/
theorem placeObjects_min_distance (ps : List Placement) (m : MapGenerator) (z : TemplateZone)
    (r : MapGenerator × TemplateZone)
    (hstart : ∀ t, m.getNearestObjectDistance t = none)
    (hrun : placeObjects ps m z = Except.ok r) :
    r.2.possibleTiles = z.possibleTiles ∧
    (∀ t, t ∈ z.possibleTiles → ps ≠ [] →
      ∃ k, r.1.getNearestObjectDistance t = some k ∧
        (∃ p ∈ ps, castToFloat (p.position.distanceSquared t) = k) ∧
        (∀ p ∈ ps, k ≤ castToFloat (p.position.distanceSquared t)) ∧
        ((∀ p ∈ ps, p.position.distanceSquared t ≤ 16777216) →
          (∃ p ∈ ps, p.position.distanceSquared t = k) ∧
          ∀ p ∈ ps, k ≤ p.position.distanceSquared t)) ∧
    (∀ t, t ∉ z.possibleTiles ∨ ps = [] → r.1.getNearestObjectDistance t = none) := by
  have h := placeObjects_distance ps m z r hrun
  refine ⟨h.1, ?_, ?_⟩
  · intro t ht hne
    obtain ⟨k, hk, hsrc, hle, _⟩ := h.2.2 t ht hne
    have hsrc2 : ∃ p ∈ ps, castToFloat (p.position.distanceSquared t) = k := by
      rcases hsrc with h2 | h2
      · have := hstart t
        simp only [MapGenerator.getNearestObjectDistance] at this
        rw [this] at h2
        cases h2
      · exact h2
    refine ⟨k, hk, hsrc2, hle, ?_⟩
    intro hsmall
    obtain ⟨p, hp, hpk⟩ := hsrc2
    refine ⟨⟨p, hp, ?_⟩, ?_⟩
    · rw [← hpk, castToFloat_exact _ (hsmall p hp)]
    · intro q hq
      have := hle q hq
      rw [castToFloat_exact _ (hsmall q hq)] at this
      exact this
  · intro t ht
    rcases ht with ht | ht
    · have := h.2.1 t ht
      simp only [MapGenerator.getNearestObjectDistance]
      rw [this]
      exact hstart t
    · subst ht
      simp only [placeObjects] at hrun
      cases hrun
      exact hstart t

/-- Witness for C13, amended: a crystal at (0,0) and a stack at (1,0) of the 2x1 corridor map,
both tiles being in the possible-tile set; each tile then stores distance 0. -/
theorem placeObjects_min_distance_witness :
    (∀ t, corridorGen.getNearestObjectDistance t = none) ∧
    ∃ r, placeObjects corridorPlacements corridorGen corridorZone = Except.ok r ∧
      r.1.getNearestObjectDistance ⟨0, 0⟩ = some 0 ∧
      r.2.possibleTiles = corridorZone.possibleTiles ∧
      (∀ t, t ∈ corridorZone.possibleTiles → corridorPlacements ≠ [] →
        ∃ k, r.1.getNearestObjectDistance t = some k ∧
          (∃ p ∈ corridorPlacements, castToFloat (p.position.distanceSquared t) = k) ∧
          (∀ p ∈ corridorPlacements, k ≤ castToFloat (p.position.distanceSquared t)) ∧
          ((∀ p ∈ corridorPlacements, p.position.distanceSquared t ≤ 16777216) →
            (∃ p ∈ corridorPlacements, p.position.distanceSquared t = k) ∧
            ∀ p ∈ corridorPlacements, k ≤ p.position.distanceSquared t)) ∧
      (∀ t, t ∉ corridorZone.possibleTiles ∨ corridorPlacements = [] →
        r.1.getNearestObjectDistance t = none) :=
  ⟨fun _ => rfl, _, rfl, rfl,
    placeObjects_min_distance corridorPlacements corridorGen corridorZone _ (fun _ => rfl) rfl⟩

theorem distanceGreater_irrefl (a : Option Nat) : distanceGreater a a = false := by
  cases a <;> simp [distanceGreater]

theorem distanceGreater_trans_false (a b c : Option Nat) (hab : distanceGreater a b = false)
    (hcb : distanceGreater c b = true) : distanceGreater a c = false := by
  cases a <;> cases b <;> cases c <;> simp_all [distanceGreater]
  omega

/-- One step of the scan of `findPlaceForObject` in terms of `qualifies`: the tile replaces the
best one exactly when it qualifies and its stored distance is greater than the best so far. -/
theorem findPlaceStep_eq (m : MapGenerator) (z : TemplateZone) (mapElement : MapElement)
    (minDistance : Int) (st : PlaceSearch) (tile : Position) :
    findPlaceStep m z mapElement minDistance st tile =
      if qualifies m z mapElement minDistance tile &&
          distanceGreater (m.getNearestObjectDistance tile) st.bestDistance then
        { bestDistance := m.getNearestObjectDistance tile, position := tile, result := true }
      else st := by
  unfold findPlaceStep qualifies
  dsimp only
  split_ifs <;> simp_all

theorem PlaceInv.step {m : MapGenerator} {z : TemplateZone} {mapElement : MapElement}
    {minDistance : Int} {position : Position} {seen : List Position} {st : PlaceSearch}
    (inv : PlaceInv m z mapElement minDistance position seen st) (tile : Position) :
    PlaceInv m z mapElement minDistance position (seen ++ [tile])
      (findPlaceStep m z mapElement minDistance st tile) := by
  rw [findPlaceStep_eq]
  by_cases hq : qualifies m z mapElement minDistance tile = true
  · cases hg : distanceGreater (m.getNearestObjectDistance tile) st.bestDistance with
    | true =>
      simp only [hq, Bool.and_self, if_true]
      refine ⟨fun h => (by cases h), fun _ => ⟨by simp, hq, rfl⟩, ?_⟩
      intro t ht hqt
      rcases List.mem_append.1 ht with h1 | h1
      · exact distanceGreater_trans_false _ _ _ (inv.best t h1 hqt) hg
      · simp only [List.mem_singleton] at h1
        subst h1
        exact distanceGreater_irrefl _
    | false =>
      simp only [hq, Bool.and_false, if_false]
      refine ⟨inv.untouched, fun h => ?_, ?_⟩
      · obtain ⟨h1, h2, h3⟩ := inv.selected h
        exact ⟨List.mem_append_left _ h1, h2, h3⟩
      · intro t ht hqt
        rcases List.mem_append.1 ht with h1 | h1
        · exact inv.best t h1 hqt
        · simp only [List.mem_singleton] at h1
          subst h1
          exact hg
  · have hq2 : qualifies m z mapElement minDistance tile = false := by
      cases h : qualifies m z mapElement minDistance tile
      · rfl
      · exact absurd h hq
    simp only [hq2, Bool.false_and, if_false]
    refine ⟨inv.untouched, fun h => ?_, ?_⟩
    · obtain ⟨h1, h2, h3⟩ := inv.selected h
      exact ⟨List.mem_append_left _ h1, h2, h3⟩
    · intro t ht hqt
      rcases List.mem_append.1 ht with h1 | h1
      · exact inv.best t h1 hqt
      · simp only [List.mem_singleton] at h1
        subst h1
        rw [hq2] at hqt
        cases hqt

theorem PlaceInv.scan {m : MapGenerator} {z : TemplateZone} {mapElement : MapElement}
    {minDistance : Int} {position : Position} :
    ∀ (tiles seen : List Position) (st : PlaceSearch),
      PlaceInv m z mapElement minDistance position seen st →
      PlaceInv m z mapElement minDistance position (seen ++ tiles)
        (tiles.foldl (findPlaceStep m z mapElement minDistance) st) := by
  intro tiles
  induction tiles with
  | nil => intro seen st inv; simpa using inv
  | cons a rest ih =>
    intro seen st inv
    have := ih (seen ++ [a]) _ (inv.step a)
    simpa using this

/-- The invariant holds for the whole scan of `findPlaceForObject`. -/
theorem findPlace_scan_inv (m : MapGenerator) (z : TemplateZone) (mapElement : MapElement)
    (minDistance : Int) (position : Position) :
    PlaceInv m z mapElement minDistance position z.tileInfo
      (z.tileInfo.foldl (findPlaceStep m z mapElement minDistance)
        { bestDistance := some 0, position := position, result := false }) := by
  have h0 : PlaceInv m z mapElement minDistance position []
      { bestDistance := some 0, position := position, result := false } :=
    ⟨fun _ => ⟨rfl, rfl⟩, fun h => (by cases h), fun t ht => (by cases ht)⟩
  simpa using PlaceInv.scan z.tileInfo [] _ h0

theorem findPlaceForObject_result (m : MapGenerator) (z : TemplateZone) (mapElement : MapElement)
    (minDistance : Int) (position : Position) :
    (findPlaceForObject m z mapElement minDistance position).result =
        (z.tileInfo.foldl (findPlaceStep m z mapElement minDistance)
          { bestDistance := some 0, position := position, result := false }).result ∧
    (findPlaceForObject m z mapElement minDistance position).position =
        (z.tileInfo.foldl (findPlaceStep m z mapElement minDistance)
          { bestDistance := some 0, position := position, result := false }).position := by
  unfold findPlaceForObject
  dsimp only
  split <;> simp_all

/-- C15: when `findPlaceForObject` returns true, the selected tile was Possible, is Blocked
afterwards and every other tile keeps its state; when it returns false, the grid is the one
before the call and the output position is the one passed in. -/
theorem findPlaceForObject_frame (m : MapGenerator) (z : TemplateZone) (mapElement : MapElement)
    (minDistance : Int) (position : Position) :
    ((findPlaceForObject m z mapElement minDistance position).result = true →
      m.tiles (findPlaceForObject m z mapElement minDistance position).position
        = TileType.Possible ∧
      (findPlaceForObject m z mapElement minDistance position).gen.tiles
        (findPlaceForObject m z mapElement minDistance position).position = TileType.Blocked ∧
      ∀ t, t ≠ (findPlaceForObject m z mapElement minDistance position).position →
        (findPlaceForObject m z mapElement minDistance position).gen.tiles t = m.tiles t) ∧
    ((findPlaceForObject m z mapElement minDistance position).result = false →
      (findPlaceForObject m z mapElement minDistance position).gen = m ∧
      (findPlaceForObject m z mapElement minDistance position).position = position) := by
  have inv := findPlace_scan_inv m z mapElement minDistance position
  unfold findPlaceForObject
  dsimp only
  cases hr : (z.tileInfo.foldl (findPlaceStep m z mapElement minDistance)
      { bestDistance := some 0, position := position, result := false }).result with
  | true =>
    simp only [if_true, true_implies]
    refine ⟨⟨?_, ?_, ?_⟩, fun h => by cases h⟩
    · have hq := (inv.selected hr).2.1
      simp only [qualifies, Bool.and_eq_true, MapGenerator.isPossible, decide_eq_true_eq] at hq
      exact hq.1.1.2
    · simp [MapGenerator.setOccupied]
    · intro t ht
      simp [MapGenerator.setOccupied, ht]
  | false =>
    simp only [Bool.false_eq_true, if_false, true_implies, false_implies, true_and]
    exact (inv.untouched hr).2

/-- Witness for C15: on the 5x5 map with a Free centre the call returns true, on the walled 3x3
map, where no tile qualifies, it returns false. -/
theorem findPlaceForObject_frame_witness :
    ((findPlaceForObject centreFreeGen centreZone unitElement 2 invalidPosition).result = true ∧
      centreFreeGen.tiles
        (findPlaceForObject centreFreeGen centreZone unitElement 2 invalidPosition).position
        = TileType.Possible) ∧
    ((findPlaceForObject walledGen squareZone unitElement 2 invalidPosition).result = false ∧
      (findPlaceForObject walledGen squareZone unitElement 2 invalidPosition).gen = walledGen) :=
  ⟨⟨rfl, ((findPlaceForObject_frame centreFreeGen centreZone unitElement 2 invalidPosition).1
      rfl).1⟩,
    ⟨rfl, ((findPlaceForObject_frame walledGen squareZone unitElement 2 invalidPosition).2
      rfl).1⟩⟩

/-- C16 fails as stated: on the 5x5 map that is one zone, Possible everywhere but for its Free
centre (2,2) and with no object placed, `findPlaceForObject` for the one-tile element and minimum
distance 2 returns true and selects (1,1), at squared distance 2 from the centre; every zone
tile that qualifies is at squared distance less than 4 from the centre, so the order of the scan
does not matter. -/
theorem findPlaceForObject_near_centre :
    centreFreeGen.tiles ⟨2, 2⟩ = TileType.Free ∧
    (∀ t ∈ centreZone.tileInfo, t ≠ ⟨2, 2⟩ → centreFreeGen.tiles t = TileType.Possible) ∧
    (findPlaceForObject centreFreeGen centreZone unitElement 2 invalidPosition).result = true ∧
    (findPlaceForObject centreFreeGen centreZone unitElement 2 invalidPosition).position
      = ⟨1, 1⟩ ∧
    (⟨1, 1⟩ : Position).distanceSquared ⟨2, 2⟩ = 2 ∧
    ∀ t ∈ centreZone.tileInfo, qualifies centreFreeGen centreZone unitElement 2 t = true →
      t.distanceSquared ⟨2, 2⟩ < 4 :=
  ⟨rfl, by decide, rfl, rfl, rfl, by decide⟩

/-- C16 (amended): the floor of `findPlaceForObject` is on the stored nearest-object distance.
When the call returns true, the selected tile is a tile of the zone that is Possible and not at
the border for the footprint of the element, and its stored nearest-object distance, +infinity
while no object has been placed, is at least the minimum distance; the distance to the centre
of the zone plays no part. -/
theorem findPlaceForObject_floor (m : MapGenerator) (z : TemplateZone) (mapElement : MapElement)
    (minDistance : Int) (position : Position)
    (h : (findPlaceForObject m z mapElement minDistance position).result = true) :
    (findPlaceForObject m z mapElement minDistance position).position ∈ z.tileInfo ∧
    m.isPossible (findPlaceForObject m z mapElement minDistance position).position = true ∧
    m.isAtTheBorderFor mapElement
      (findPlaceForObject m z mapElement minDistance position).position = false ∧
    distanceAtLeast
      (m.getNearestObjectDistance
        (findPlaceForObject m z mapElement minDistance position).position) minDistance = true := by
  have inv := findPlace_scan_inv m z mapElement minDistance position
  obtain ⟨hres, hpos⟩ := findPlaceForObject_result m z mapElement minDistance position
  rw [hres] at h
  rw [hpos]
  obtain ⟨h1, h2, _⟩ := inv.selected h
  simp only [qualifies, Bool.and_eq_true, Bool.not_eq_true'] at h2
  exact ⟨h1, h2.1.1.2, h2.1.1.1.1.1, h2.2⟩

/-- Witness for C16, amended: the 5x5 scenario, where the selected tile (1,1) stores +infinity. -/
theorem findPlaceForObject_floor_witness :
    (findPlaceForObject centreFreeGen centreZone unitElement 2 invalidPosition).result = true ∧
    centreFreeGen.getNearestObjectDistance
      (findPlaceForObject centreFreeGen centreZone unitElement 2 invalidPosition).position
      = none ∧
    distanceAtLeast
      (centreFreeGen.getNearestObjectDistance
        (findPlaceForObject centreFreeGen centreZone unitElement 2 invalidPosition).position)
      2 = true :=
  ⟨rfl, rfl,
    (findPlaceForObject_floor centreFreeGen centreZone unitElement 2 invalidPosition rfl).2.2.2⟩

/-! ## Lemmas: the loop of `crunchPath` -/

theorem MapGenerator.mem_neighbors_iff (m : MapGenerator) (os : Bool) (p n : Position) :
    n ∈ m.neighbors os p ↔
      ∃ direction ∈ MapGenerator.neighborOffsets os, n = p + direction ∧ m.isInTheMap n = true := by
  unfold MapGenerator.neighbors MapGenerator.neighborOffsets MapGenerator.directNeighbors
    MapGenerator.allNeighbors
  cases os
  · simp only [Bool.false_eq_true, if_false, List.mem_filter, List.mem_map]
    constructor
    · rintro ⟨⟨d, hd, rfl⟩, h⟩
      exact ⟨d, hd, rfl, h⟩
    · rintro ⟨d, hd, rfl, h⟩
      exact ⟨⟨d, hd, rfl⟩, h⟩
  · simp only [if_true, List.mem_filter, List.mem_map]
    constructor
    · rintro ⟨⟨d, hd, rfl⟩, h⟩
      exact ⟨d, hd, rfl, h⟩
    · rintro ⟨d, hd, rfl, h⟩
      exact ⟨⟨d, hd, rfl⟩, h⟩

theorem length_filter_lt_of_imp (l : List Position) (p q : Position → Bool)
    (himp : ∀ x ∈ l, q x = true → p x = true) (x : Position) (hx : x ∈ l) (hp : p x = true)
    (hq : q x = false) : (l.filter q).length < (l.filter p).length := by
  induction l with
  | nil => cases hx
  | cons a l ih =>
    have hle : (l.filter q).length ≤ (l.filter p).length := by
      clear ih hx
      induction l with
      | nil => simp
      | cons b l ihl =>
        have hb := himp b (List.mem_cons_of_mem _ (List.mem_cons_self _ _))
        have himp2 : ∀ x ∈ a :: l, q x = true → p x = true := by
          intro y hy
          rcases List.mem_cons.1 hy with h | h
          · subst h; exact himp y (List.mem_cons_self _ _)
          · exact himp y (List.mem_cons_of_mem _ (List.mem_cons_of_mem _ h))
        have := ihl himp2
        rw [List.filter_cons, List.filter_cons]
        cases hqb : q b with
        | true => rw [hb hqb]; simpa using this
        | false =>
          simp only [Bool.false_eq_true, if_false]
          split
          · exact Nat.le_succ_of_le this
          · exact this
    rw [List.filter_cons, List.filter_cons]
    rcases List.mem_cons.1 hx with h | h
    · subst h
      rw [hp, hq]
      simp only [if_true, Bool.false_eq_true, if_false, List.length_cons]
      omega
    · have := ih (fun y hy => himp y (List.mem_cons_of_mem _ hy)) h
      cases hqa : q a with
      | true =>
        rw [himp a (List.mem_cons_self _ _) hqa]
        simpa using this
      | false =>
        simp only [Bool.false_eq_true, if_false]
        split
        · simp only [List.length_cons]; omega
        · exact this

theorem Advance.refl (m : MapGenerator) (st : CrunchState) : Advance m st st :=
  ⟨fun _ => Or.inl rfl, Nat.le_refl _, fun h => absurd h (Nat.lt_irrefl _), fun h => h,
    fun _ _ => rfl, fun h => h⟩

theorem Advance.trans {m : MapGenerator} {a b c : CrunchState} (hab : Advance m a b)
    (hbc : Advance m b c) : Advance m a c := by
  refine ⟨?_, Nat.le_trans hbc.dist_le hab.dist_le, ?_, fun h => hbc.result (hab.result h), ?_,
    fun h => hbc.res_fin (hab.res_fin h)⟩
  · intro t
    rcases hab.tiles t with h1 | ⟨h1, h2, h3⟩
    · rcases hbc.tiles t with h4 | ⟨h4, h5, h6⟩
      · exact Or.inl (h4.trans h1)
      · exact Or.inr ⟨h1 ▸ h4, h5, h6⟩
    · rcases hbc.tiles t with h4 | ⟨h4, _, _⟩
      · exact Or.inr ⟨h1, h4.trans h2, h3⟩
      · rw [h2] at h4; cases h4
  · intro hlt
    by_cases h1 : b.distance < a.distance
    · obtain ⟨t, ht, hp, hf⟩ := hab.dist_lt h1
      refine ⟨t, ht, hp, ?_⟩
      rcases hbc.tiles t with h4 | ⟨h4, _, _⟩
      · exact h4.trans hf
      · rw [hf] at h4; cases h4
    · have h2 : c.distance < b.distance := by
        have := hab.dist_le
        omega
      obtain ⟨t, ht, hp, hf⟩ := hbc.dist_lt h2
      refine ⟨t, ht, ?_, hf⟩
      rcases hab.tiles t with h4 | ⟨_, h4, _⟩
      · exact h4 ▸ hp
      · rw [h4] at hp; cases hp
  · intro hres hdist
    have h1 : b.result = false := by
      cases h : b.result with
      | false => rfl
      | true => rw [hbc.result h] at hres; cases hres
    have h2 : b.distance = a.distance := by
      have := hab.dist_le
      have := hbc.dist_le
      omega
    have h3 := hab.same h1 h2
    have h4 := hbc.same hres (by rw [hdist, h2])
    rw [h4, h3]

theorem corridor_mono {m g g1 : MapGenerator} {source t : Position}
    (hmono : ∀ t, g.tiles t = TileType.Free → g1.tiles t = TileType.Free)
    (h : Corridor m g source t) : Corridor m g1 source t := by
  rcases h with h | h
  · exact Or.inl h
  · exact Or.inr ⟨h.1, hmono t h.2⟩

theorem corridor_reach_mono {m g g1 : MapGenerator} {os : Bool} {source t : Position}
    (hmono : ∀ t, g.tiles t = TileType.Free → g1.tiles t = TileType.Free)
    (h : Relation.ReflTransGen (CorridorStep m g os source) source t) :
    Relation.ReflTransGen (CorridorStep m g1 os source) source t :=
  Relation.ReflTransGen.mono (fun _ _ hab => ⟨hab.1, corridor_mono hmono hab.2⟩) h

theorem joined_mono {m g g1 : MapGenerator} {os : Bool} {source destination : Position}
    (hmono : ∀ t, g.tiles t = TileType.Free → g1.tiles t = TileType.Free)
    (h : Joined m g os source destination) : Joined m g1 os source destination := by
  obtain ⟨a, ha, hj⟩ := h
  exact ⟨a, corridor_mono hmono ha, hj⟩

theorem CrunchInv.isInTheMap {m : MapGenerator} {z : TemplateZone} {source destination : Position}
    {os : Bool} {st : CrunchState} (inv : CrunchInv m z source destination os st)
    (t : Position) : st.gen.isInTheMap t = m.isInTheMap t := by
  rw [inv.gen_eq]
  rfl

theorem CrunchInv.getZoneId {m : MapGenerator} {z : TemplateZone} {source destination : Position}
    {os : Bool} {st : CrunchState} (inv : CrunchInv m z source destination os st)
    (t : Position) : st.gen.getZoneId t = m.getZoneId t := by
  rw [inv.gen_eq]
  rfl

theorem CrunchInv.aliasesPosition {m : MapGenerator} {z : TemplateZone}
    {source destination : Position} {os : Bool} {st : CrunchState}
    (inv : CrunchInv m z source destination os st) :
    st.gen.aliasesPosition = m.aliasesPosition := by
  rw [inv.gen_eq]

theorem CrunchInv.neighbors {m : MapGenerator} {z : TemplateZone}
    {source destination : Position} {os : Bool} {st : CrunchState}
    (inv : CrunchInv m z source destination os st) (b : Bool) (t : Position) :
    st.gen.neighbors b t = m.neighbors b t := by
  rw [inv.gen_eq]
  rfl

/-- The state after a tile that is Possible has been set Free and made the current position. -/
theorem CrunchInv.free_tile {m : MapGenerator} {z : TemplateZone} {source destination : Position}
    {os : Bool} {st : CrunchState} (inv : CrunchInv m z source destination os st)
    (base position : Position) (hbase : Corridor m st.gen source base)
    (hn : position ∈ m.neighbors os base)
    (hposs : st.gen.tiles position = TileType.Possible)
    (hzone : m.getZoneId position = z.id)
    (st1 : CrunchState)
    (hgen : st1.gen = st.gen.setOccupied position TileType.Free)
    (hcur : st1.currentPosition = position)
    (hdist : st1.distance ≤ st.distance)
    (hdist1 : st1.distance ≤ position.distanceSquared destination)
    (hres : st1.result = true → Joined m st.gen os source destination) :
    CrunchInv m z source destination os st1 := by
  have hmap := m.isInTheMap_of_mem_neighbors os base position hn
  have hmono : ∀ t, st.gen.tiles t = TileType.Free → st1.gen.tiles t = TileType.Free := by
    intro t ht
    rw [hgen]
    simp only [MapGenerator.setOccupied]
    split
    · rfl
    · exact ht
  have hmp : m.tiles position = TileType.Possible := by
    rcases inv.frame position with h | ⟨h, _⟩
    · rw [← h]; exact hposs
    · rw [h.2] at hposs; cases hposs
  have hfreed : Freed m st1.gen position := by
    refine ⟨hmp, ?_⟩
    rw [hgen]
    simp [MapGenerator.setOccupied]
  have hold : ∀ t, t ≠ position → st1.gen.tiles t = st.gen.tiles t := by
    intro t ht
    rw [hgen]
    simp [MapGenerator.setOccupied, ht]
  refine ⟨?_, ?_, ?_, ?_, ?_, ?_⟩
  · rw [hgen, inv.gen_eq]
    rfl
  · intro t
    by_cases ht : t = position
    · subst ht
      exact Or.inr ⟨hfreed, hmap, hzone⟩
    · rw [hold t ht]
      rcases inv.frame t with h | ⟨h, h2⟩
      · exact Or.inl h
      · exact Or.inr ⟨⟨h.1, by rw [hold t ht]; exact h.2⟩, h2⟩
  · rw [hcur]
    exact Or.inr hfreed
  · intro t ht
    by_cases htp : t = position
    · subst htp
      exact Relation.ReflTransGen.tail (corridor_reach_mono hmono (inv.conn base hbase))
        ⟨hn, Or.inr hfreed⟩
    · have : Corridor m st.gen source t := by
        rcases ht with h | h
        · exact Or.inl h
        · exact Or.inr ⟨h.1, by rw [← hold t htp]; exact h.2⟩
      exact corridor_reach_mono hmono (inv.conn t this)
  · intro t ht
    by_cases htp : t = position
    · subst htp
      exact hdist1
    · have : Corridor m st.gen source t := by
        rcases ht with h | h
        · exact Or.inl h
        · exact Or.inr ⟨h.1, by rw [← hold t htp]; exact h.2⟩
      exact Nat.le_trans hdist (inv.far t this)
  · intro h
    exact joined_mono hmono (hres h)

theorem processNeighbors_spec {m : MapGenerator} {z : TemplateZone}
    {source destination : Position} {os : Bool} {st : CrunchState}
    (inv : CrunchInv m z source destination os st)
    (base position : Position) (hbase : Corridor m st.gen source base)
    (hn : position ∈ m.neighbors os base) :
    CrunchInv m z source destination os (processNeighbors z destination st position) ∧
    Advance m st (processNeighbors z destination st position) ∧
    ((processNeighbors z destination st position).result = false →
      (processNeighbors z destination st position).distance = st.distance →
      st.gen.tiles position = TileType.Possible → m.getZoneId position = z.id →
      st.distance ≤ position.distanceSquared destination) := by
  have hmap := m.isInTheMap_of_mem_neighbors os base position hn
  unfold processNeighbors
  by_cases hres : st.result = true
  · rw [if_pos hres]
    exact ⟨inv, Advance.refl m st, fun h => by rw [hres] at h; cases h⟩
  rw [if_neg hres]
  have hresf : st.result = false := by
    cases h : st.result
    · rfl
    · exact absurd h hres
  -- the state after the test for the destination
  have key : ∀ st1 : CrunchState,
      st1 = (if position = destination then { st with result := true, finished := true }
        else st) →
      CrunchInv m z source destination os st1 ∧ Advance m st st1 ∧
      st1.gen = st.gen ∧ st1.distance = st.distance ∧
      (st1.result = true → st1.finished = true) ∧
      (st1.result = true → Joined m st.gen os source destination) := by
    intro st1 h1
    by_cases hd : position = destination
    · rw [if_pos hd] at h1
      subst h1
      have hj : Joined m st.gen os source destination :=
        ⟨base, hbase, Or.inr (Or.inl (hd ▸ hn))⟩
      refine ⟨⟨inv.gen_eq, inv.frame, inv.cur, inv.conn, inv.far, fun _ => hj⟩,
        ⟨fun _ => Or.inl rfl, Nat.le_refl _, fun h => absurd h (Nat.lt_irrefl _),
          fun _ => rfl, fun h => (by cases h), fun _ _ => rfl⟩,
        rfl, rfl, fun _ => rfl, fun _ => hj⟩
    · rw [if_neg hd] at h1
      subst h1
      exact ⟨inv, Advance.refl m _, rfl, rfl, fun h => absurd h hres, fun h => absurd h hres⟩
  generalize hst1 : (if position = destination then
    { st with result := true, finished := true } else st) = st1
  obtain ⟨inv1, adv1, hgen1, hdist1, hrf1, hj1⟩ := key st1 hst1.symm
  have hstuck1 : st1.result = false → st1 = st := fun h => adv1.same h hdist1
  dsimp only
  by_cases h1 : position.distanceSquared destination ≥ st1.distance
  · rw [if_pos h1]
    exact ⟨inv1, adv1, fun _ _ _ _ => by rw [← hdist1]; exact h1⟩
  rw [if_neg h1]
  by_cases h2 : st1.gen.isBlocked position = true
  · rw [if_pos h2]
    refine ⟨inv1, adv1, fun _ _ hp _ => ?_⟩
    rw [hgen1] at h2
    simp [MapGenerator.isBlocked, hp] at h2
  rw [if_neg h2]
  by_cases h3 : st1.gen.getZoneId position ≠ z.id
  · rw [if_pos h3]
    refine ⟨inv1, adv1, fun _ _ _ hz => ?_⟩
    rw [inv1.getZoneId] at h3
    exact absurd hz h3
  rw [if_neg h3]
  have hz : m.getZoneId position = z.id := by
    rw [inv1.getZoneId] at h3
    exact not_not.1 h3
  by_cases h4 : st1.gen.isPossible position = true
  · rw [if_pos h4]
    have hposs : st1.gen.tiles position = TileType.Possible := by
      simpa [MapGenerator.isPossible] using h4
    have hlt : position.distanceSquared destination < st.distance := by
      rw [← hdist1]; omega
    refine ⟨?_, ?_, ?_⟩
    · refine CrunchInv.free_tile inv base position hbase hn (hgen1 ▸ hposs) hz _ ?_ rfl
        (Nat.le_of_lt hlt) (Nat.le_refl _) (fun h => hj1 h)
      show st1.gen.setOccupied position TileType.Free = _
      rw [hgen1]
    · refine ⟨?_, Nat.le_of_lt hlt, fun _ => ⟨position, hmap, hgen1 ▸ hposs, ?_⟩,
        fun h => absurd h hres, ?_, fun _ h => hrf1 h⟩
      · intro t
        by_cases ht : t = position
        · subst ht
          exact Or.inr ⟨hgen1 ▸ hposs, by simp [MapGenerator.setOccupied], hmap⟩
        · left
          show (st1.gen.setOccupied position TileType.Free).tiles t = _
          rw [hgen1]
          simp [MapGenerator.setOccupied, ht]
      · simp [MapGenerator.setOccupied]
      · intro _ hd
        have : position.distanceSquared destination = st.distance := hd
        omega
    · intro _ hd
      have : position.distanceSquared destination = st.distance := hd
      omega
  rw [if_neg h4]
  by_cases h5 : st1.gen.isFree position = true
  · rw [if_pos h5]
    have hfree : st.gen.tiles position = TileType.Free := by
      rw [← hgen1]
      simpa [MapGenerator.isFree] using h5
    have hlt : position.distanceSquared destination < st.distance := by
      rw [← hdist1]; omega
    have hmfree : m.tiles position = TileType.Free := by
      rcases inv.frame position with h | ⟨h, _⟩
      · rw [← h]; exact hfree
      · have := inv.far position (Or.inr h)
        omega
    have hj : Joined m st.gen os source destination :=
      ⟨base, hbase, Or.inr (Or.inr ⟨position, hn, hmfree⟩)⟩
    refine ⟨⟨inv1.gen_eq, inv1.frame, inv1.cur, inv1.conn, inv1.far, fun _ => ?_⟩,
      ⟨adv1.tiles, adv1.dist_le, adv1.dist_lt, fun _ => rfl, fun h => (by cases h),
        fun _ _ => rfl⟩,
      fun h => by cases h⟩
    rw [hgen1]
    exact hj
  · rw [if_neg h5]
    refine ⟨inv1, adv1, fun _ _ hp _ => ?_⟩
    rw [hgen1] at h4
    simp [MapGenerator.isPossible, hp] at h4

theorem Advance.free_mono {m : MapGenerator} {st st1 : CrunchState} (h : Advance m st st1)
    (t : Position) (ht : st.gen.tiles t = TileType.Free) : st1.gen.tiles t = TileType.Free := by
  rcases h.tiles t with h1 | ⟨h1, _, _⟩
  · exact h1.trans ht
  · rw [ht] at h1; cases h1

theorem Advance.result_false {m : MapGenerator} {st st1 : CrunchState} (h : Advance m st st1)
    (hres : st1.result = false) : st.result = false := by
  cases hr : st.result with
  | false => rfl
  | true => rw [h.result hr] at hres; cases hres

theorem visitLoop_spec {m : MapGenerator} {z : TemplateZone} {source destination : Position}
    {os : Bool} (start : Position) :
    ∀ (l : List Position), (∀ direction ∈ l, direction ∈ MapGenerator.neighborOffsets os) →
    ∀ (st : CrunchState), CrunchInv m z source destination os st →
      Corridor m st.gen source start →
      CrunchInv m z source destination os
        (l.foldl
          (fun s direction =>
            let position := (if s.gen.aliasesPosition then s.currentPosition else start) + direction
            if s.gen.isInTheMap position then processNeighbors z destination s position else s)
          st) ∧
      Advance m st
        (l.foldl
          (fun s direction =>
            let position := (if s.gen.aliasesPosition then s.currentPosition else start) + direction
            if s.gen.isInTheMap position then processNeighbors z destination s position else s)
          st) ∧
      ((l.foldl
          (fun s direction =>
            let position := (if s.gen.aliasesPosition then s.currentPosition else start) + direction
            if s.gen.isInTheMap position then processNeighbors z destination s position else s)
          st).result = false →
        (l.foldl
          (fun s direction =>
            let position := (if s.gen.aliasesPosition then s.currentPosition else start) + direction
            if s.gen.isInTheMap position then processNeighbors z destination s position else s)
          st).distance = st.distance →
        ∀ direction ∈ l,
          m.isInTheMap
            ((if st.gen.aliasesPosition then st.currentPosition else start) + direction) = true →
          st.gen.tiles ((if st.gen.aliasesPosition then st.currentPosition else start) + direction)
            = TileType.Possible →
          m.getZoneId ((if st.gen.aliasesPosition then st.currentPosition else start) + direction)
            = z.id →
          st.distance ≤
            ((if st.gen.aliasesPosition then st.currentPosition else start) + direction).distanceSquared
              destination) := by
  intro l
  induction l with
  | nil =>
    intro _ st inv _
    exact ⟨inv, Advance.refl m st, fun _ _ d hd => by cases hd⟩
  | cons a rest ih =>
    intro hl st inv hstart
    rw [List.foldl_cons]
    have hbase : Corridor m st.gen source
        (if st.gen.aliasesPosition then st.currentPosition else start) := by
      split
      · exact inv.cur
      · exact hstart
    -- the state after the first direction
    have h1 : ∃ s1, s1 = (if st.gen.isInTheMap
          ((if st.gen.aliasesPosition then st.currentPosition else start) + a)
        then processNeighbors z destination st
          ((if st.gen.aliasesPosition then st.currentPosition else start) + a) else st) ∧
        CrunchInv m z source destination os s1 ∧ Advance m st s1 ∧
        (s1.result = false → s1.distance = st.distance →
          m.isInTheMap ((if st.gen.aliasesPosition then st.currentPosition else start) + a)
            = true →
          st.gen.tiles ((if st.gen.aliasesPosition then st.currentPosition else start) + a)
            = TileType.Possible →
          m.getZoneId ((if st.gen.aliasesPosition then st.currentPosition else start) + a)
            = z.id →
          st.distance ≤
            ((if st.gen.aliasesPosition then st.currentPosition else start) + a).distanceSquared
              destination) := by
      refine ⟨_, rfl, ?_⟩
      by_cases hin : st.gen.isInTheMap
          ((if st.gen.aliasesPosition then st.currentPosition else start) + a) = true
      · rw [if_pos hin]
        have hn : (if st.gen.aliasesPosition then st.currentPosition else start) + a ∈
            m.neighbors os (if st.gen.aliasesPosition then st.currentPosition else start) := by
          rw [MapGenerator.mem_neighbors_iff]
          exact ⟨a, hl a (List.mem_cons_self _ _), rfl, by rw [← inv.isInTheMap]; exact hin⟩
        obtain ⟨i1, a1, s1⟩ := processNeighbors_spec inv _ _ hbase hn
        exact ⟨i1, a1, fun hr hd _ hp hz => s1 hr hd hp hz⟩
      · rw [if_neg hin]
        refine ⟨inv, Advance.refl m st, fun _ _ hmap _ _ => ?_⟩
        rw [inv.isInTheMap] at hin
        exact absurd hmap hin
    obtain ⟨s1, hs1, inv1, adv1, stuck1⟩ := h1
    have hstart1 : Corridor m s1.gen source start := corridor_mono adv1.free_mono hstart
    obtain ⟨inv2, adv2, stuck2⟩ :=
      ih (fun d hd => hl d (List.mem_cons_of_mem _ hd)) s1 inv1 hstart1
    dsimp only at hs1 ⊢
    rw [← hs1]
    refine ⟨inv2, adv1.trans adv2, ?_⟩
    intro hres hdist d hd
    have hr1 : s1.result = false := adv2.result_false hres
    have hd1 : s1.distance = st.distance := by
      have h5 : st.distance ≤ s1.distance := by
        rw [← hdist]
        exact adv2.dist_le
      exact Nat.le_antisymm adv1.dist_le h5
    have heq : s1 = st := adv1.same hr1 hd1
    rcases List.mem_cons.1 hd with h | h
    · subst h
      exact stuck1 hr1 hd1
    · have := stuck2 hres (by rw [hdist, hd1]) d h
      rw [heq] at this
      exact this

theorem visitNeighbors_spec {m : MapGenerator} {z : TemplateZone}
    {source destination : Position} {os : Bool} {st : CrunchState}
    (inv : CrunchInv m z source destination os st) :
    CrunchInv m z source destination os
      (visitNeighbors z destination os st.currentPosition st) ∧
    Advance m st (visitNeighbors z destination os st.currentPosition st) ∧
    ((visitNeighbors z destination os st.currentPosition st).result = false →
      (visitNeighbors z destination os st.currentPosition st).distance = st.distance →
      ∀ n ∈ m.neighbors os st.currentPosition, st.gen.tiles n = TileType.Possible →
        m.getZoneId n = z.id → st.distance ≤ n.distanceSquared destination) := by
  obtain ⟨h1, h2, h3⟩ := visitLoop_spec st.currentPosition (MapGenerator.neighborOffsets os)
    (fun _ h => h) st inv inv.cur
  refine ⟨h1, h2, ?_⟩
  intro hres hdist n hn hp hz
  rw [MapGenerator.mem_neighbors_iff] at hn
  obtain ⟨d, hd, rfl, hmap⟩ := hn
  have := h3 hres hdist d hd
  simp only [ite_self] at this
  exact this hmap hp hz

theorem fallbackLoop_spec (g : MapGenerator) (z : TemplateZone)
    (destination currentPosition : Position) :
    ∀ (l : List Position) (fb : FallbackState),
      l.foldl (crunchFallback g z destination currentPosition) fb = fb ∨
      ((l.foldl (crunchFallback g z destination currentPosition) fb).anotherPosition ∈ l ∧
        g.getZoneId (l.foldl (crunchFallback g z destination currentPosition) fb).anotherPosition
          = z.id ∧
        g.isPossible (l.foldl (crunchFallback g z destination currentPosition) fb).anotherPosition
          = true) := by
  intro l
  induction l with
  | nil => intro fb; exact Or.inl rfl
  | cons a rest ih =>
    intro fb
    rw [List.foldl_cons]
    rcases ih (crunchFallback g z destination currentPosition fb a) with h | ⟨h1, h2, h3⟩
    · rw [h]
      unfold crunchFallback
      split
      · exact Or.inl rfl
      · split
        · exact Or.inl rfl
        · split
          · exact Or.inl rfl
          · rename_i hz hp
            right
            refine ⟨List.mem_cons_self _ _, not_not.1 hz, ?_⟩
            simpa using hp
    · exact Or.inr ⟨List.mem_cons_of_mem _ h1, h2, h3⟩

/-- One pass through the body of the loop of `crunchPath`, entered with `result` false, keeps
the invariant, changes tiles only from Possible to Free, and when it runs to the end of the
body with `end` still false it has turned a Possible tile of the map Free. -/
theorem crunchPathIteration_spec {m : MapGenerator} {z : TemplateZone}
    {source destination : Position} {os : Bool} {st : CrunchState}
    (inv : CrunchInv m z source destination os st) (hres : st.result = false) :
    CrunchInv m z source destination os (crunchPathIteration z destination os st).1 ∧
    (∀ t, (crunchPathIteration z destination os st).1.gen.tiles t = st.gen.tiles t ∨
      (st.gen.tiles t = TileType.Possible ∧
        (crunchPathIteration z destination os st).1.gen.tiles t = TileType.Free ∧
        m.isInTheMap t = true)) ∧
    ((crunchPathIteration z destination os st).2 = true →
      (crunchPathIteration z destination os st).1.result = true →
      (crunchPathIteration z destination os st).1.finished = true) ∧
    ((crunchPathIteration z destination os st).2 = true →
      (crunchPathIteration z destination os st).1.finished = false →
      ∃ t, m.isInTheMap t = true ∧ st.gen.tiles t = TileType.Possible ∧
        (crunchPathIteration z destination os st).1.gen.tiles t = TileType.Free) := by
  unfold crunchPathIteration
  by_cases hd : st.currentPosition = destination
  · rw [if_pos hd]
    refine ⟨⟨inv.gen_eq, inv.frame, inv.cur, inv.conn, inv.far, fun _ => ?_⟩,
      fun _ => Or.inl rfl, fun h => (by cases h), fun h => (by cases h)⟩
    exact ⟨st.currentPosition, inv.cur, Or.inl hd⟩
  rw [if_neg hd]
  obtain ⟨inv1, adv1, stuck1⟩ := visitNeighbors_spec inv
  generalize visitNeighbors z destination os st.currentPosition st = st1 at inv1 adv1 stuck1
  have hrf1 : st1.result = true → st1.finished = true :=
    adv1.res_fin (fun h => by rw [hres] at h; cases h)
  dsimp only
  by_cases hadv : (!(st1.result || decide (st1.distance < st.distance))) = true
  · rw [if_pos hadv]
    simp only [Bool.not_eq_true', Bool.or_eq_false_iff, decide_eq_false_iff_not] at hadv
    obtain ⟨hr1, hnlt⟩ := hadv
    have hd1 : st1.distance = st.distance := by
      have := adv1.dist_le
      omega
    have heq : st1 = st := adv1.same hr1 hd1
    subst heq
    rcases fallbackLoop_spec st1.gen z destination st1.currentPosition
        (st1.gen.neighbors os st1.currentPosition)
        { lastDistance := 2 * st1.distance, anotherPosition := invalidPosition,
          clearedTiles := st1.clearedTiles } with h | ⟨h1, h2, h3⟩
    · rw [h]
      have hv : (if invalidPosition.isValid = true then
            (({ st1 with
                clearedTiles := insertCleared st1.clearedTiles invalidPosition
                gen := st1.gen.setOccupied invalidPosition TileType.Free
                currentPosition := invalidPosition } : CrunchState), true)
          else ({ st1 with clearedTiles := st1.clearedTiles }, false)) = (st1, false) := rfl
      rw [hv]
      exact ⟨inv, fun _ => Or.inl rfl, fun h => (by cases h), fun h => (by cases h)⟩
    · generalize (st1.gen.neighbors os st1.currentPosition).foldl
        (crunchFallback st1.gen z destination st1.currentPosition)
        { lastDistance := 2 * st1.distance, anotherPosition := invalidPosition,
          clearedTiles := st1.clearedTiles } = fb at h1 h2 h3
      rw [inv.neighbors] at h1
      have hmap := m.isInTheMap_of_mem_neighbors os _ _ h1
      have hposs : st1.gen.tiles fb.anotherPosition = TileType.Possible := by
        simpa [MapGenerator.isPossible] using h3
      rw [inv.getZoneId] at h2
      rw [if_pos (Position.isValid_of_isInTheMap m _ hmap)]
      refine ⟨?_, ?_, fun _ h => ?_, fun _ _ => ⟨fb.anotherPosition, hmap, hposs, ?_⟩⟩
      · exact CrunchInv.free_tile inv st1.currentPosition fb.anotherPosition inv.cur h1 hposs h2
          _ rfl rfl (Nat.le_refl _) (stuck1 hr1 rfl _ h1 hposs h2)
          (fun h => by rw [hr1] at h; cases h)
      · intro t
        by_cases ht : t = fb.anotherPosition
        · subst ht
          exact Or.inr ⟨hposs, by simp [MapGenerator.setOccupied], hmap⟩
        · left
          simp [MapGenerator.setOccupied, ht]
      · rw [hr1] at h
        cases h
      · simp [MapGenerator.setOccupied]
  · rw [if_neg hadv]
    refine ⟨inv1, adv1.tiles, fun _ => hrf1, fun _ hfin => ?_⟩
    have hr1 : st1.result = false := by
      cases h : st1.result with
      | false => rfl
      | true => rw [hrf1 h] at hfin; cases hfin
    simp only [hr1, Bool.false_or, Bool.not_eq_true', decide_eq_false_iff_not, not_not] at hadv
    exact adv1.dist_lt hadv

theorem possibleCount_lt {m g g1 : MapGenerator}
    (hmono : ∀ t, g1.tiles t = g.tiles t ∨
      (g.tiles t = TileType.Possible ∧ g1.tiles t = TileType.Free ∧ m.isInTheMap t = true))
    (t : Position) (hmap : m.isInTheMap t = true) (hp : g.tiles t = TileType.Possible)
    (hf : g1.tiles t = TileType.Free) : possibleCount m g1 < possibleCount m g := by
  unfold possibleCount
  refine length_filter_lt_of_imp _ _ _ ?_ t (m.mem_allTiles t hmap) ?_ ?_
  · intro x _ hx
    simp only [MapGenerator.isPossible, decide_eq_true_eq] at hx ⊢
    rcases hmono x with h | ⟨_, h, _⟩
    · rw [← h]; exact hx
    · rw [h] at hx; cases hx
  · simp [MapGenerator.isPossible, hp]
  · simp [MapGenerator.isPossible, hf]

theorem possibleCount_le (m g : MapGenerator) : possibleCount m g ≤ m.width * m.height := by
  unfold possibleCount
  rw [← m.length_allTiles]
  exact List.length_filter_le _ _

/-- The loop of `crunchPath` returns when the fuel exceeds the number of Possible tiles by two,
and the state it returns satisfies the invariant. -/
theorem crunchPathLoop_spec {m : MapGenerator} {z : TemplateZone}
    {source destination : Position} {os : Bool} :
    ∀ (fuel : Nat) (st : CrunchState), CrunchInv m z source destination os st →
      (st.result = true → st.finished = true) →
      (if st.finished = true then 1 ≤ fuel else possibleCount m st.gen + 2 ≤ fuel) →
      ∃ r, crunchPathLoop z destination os fuel st = some r ∧
        CrunchInv m z source destination os r ∧
        ∀ t, r.gen.tiles t = st.gen.tiles t ∨
          (st.gen.tiles t = TileType.Possible ∧ r.gen.tiles t = TileType.Free ∧
            m.isInTheMap t = true) := by
  intro fuel
  induction fuel with
  | zero =>
    intro st _ _ h
    split at h <;> omega
  | succ fuel ih =>
    intro st inv hrf hfuel
    unfold crunchPathLoop
    by_cases hfin : st.finished = true
    · rw [if_pos hfin]
      exact ⟨st, rfl, inv, fun _ => Or.inl rfl⟩
    rw [if_neg hfin]
    rw [if_neg hfin] at hfuel
    have hres : st.result = false := by
      cases h : st.result with
      | false => rfl
      | true => exact absurd (hrf h) hfin
    obtain ⟨inv1, mono1, hrf1, prog1⟩ := crunchPathIteration_spec inv hres
    dsimp only
    by_cases hcont : (crunchPathIteration z destination os st).2 = true
    · rw [if_pos hcont]
      have hfuel1 : if (crunchPathIteration z destination os st).1.finished = true then 1 ≤ fuel
          else possibleCount m (crunchPathIteration z destination os st).1.gen + 2 ≤ fuel := by
        split
        · omega
        · rename_i hnf
          have hnf2 : (crunchPathIteration z destination os st).1.finished = false := by
            cases h : (crunchPathIteration z destination os st).1.finished with
            | false => rfl
            | true => exact absurd h hnf
          obtain ⟨t, hmap, hp, hf⟩ := prog1 hcont hnf2
          have := possibleCount_lt mono1 t hmap hp hf
          omega
      obtain ⟨r, hr, invr, monor⟩ := ih _ inv1 (hrf1 hcont) hfuel1
      refine ⟨r, hr, invr, ?_⟩
      intro t
      rcases mono1 t with h1 | ⟨h1, h2, h3⟩
      · rcases monor t with h4 | ⟨h4, h5, h6⟩
        · exact Or.inl (h4.trans h1)
        · exact Or.inr ⟨h1 ▸ h4, h5, h6⟩
      · rcases monor t with h4 | ⟨h4, _, _⟩
        · exact Or.inr ⟨h1, h4.trans h2, h3⟩
        · rw [h2] at h4; cases h4
    · rw [if_neg hcont]
      exact ⟨_, rfl, inv1, mono1⟩

theorem crunchPathInit_inv (m : MapGenerator) (z : TemplateZone) (source destination : Position)
    (os : Bool) (clearedTiles : Option (List Position)) :
    CrunchInv m z source destination os (crunchPathInit m source destination clearedTiles) := by
  refine ⟨rfl, fun _ => Or.inl rfl, Or.inl rfl, ?_, ?_, fun h => (by cases h)⟩
  · intro t ht
    rcases ht with h | h
    · rw [h]
    · have h1 := h.1
      have h2 : m.tiles t = TileType.Free := h.2
      rw [h1] at h2
      cases h2
  · intro t ht
    rcases ht with h | h
    · rw [h]
      exact Nat.le_refl _
    · have h1 := h.1
      have h2 : m.tiles t = TileType.Free := h.2
      rw [h1] at h2
      cases h2

/-- What a call of `crunchPath` does: it returns; the grid it leaves differs from the grid
before in tile states only, and only in tiles of the zone inside the map that were Possible and
are now Free; every such tile is linked to the source by steps inside the corridor; and when the
result is true the corridor has joined the destination or a tile that was Free before. -/
theorem crunchPath_spec (m : MapGenerator) (z : TemplateZone) (source destination : Position)
    (os : Bool) (clearedTiles : Option (List Position)) :
    ∃ r, crunchPath m z source destination os clearedTiles = some r ∧
      r.gen = { m with tiles := r.gen.tiles } ∧
      (∀ t, r.gen.tiles t = m.tiles t ∨
        (Freed m r.gen t ∧ m.isInTheMap t = true ∧ m.getZoneId t = z.id)) ∧
      (∀ t, Corridor m r.gen source t →
        Relation.ReflTransGen (CorridorStep m r.gen os source) source t) ∧
      (r.result = true → Joined m r.gen os source destination) := by
  have hfuel : if (crunchPathInit m source destination clearedTiles).finished = true then
        1 ≤ m.width * m.height + 2
      else possibleCount m (crunchPathInit m source destination clearedTiles).gen + 2 ≤
        m.width * m.height + 2 := by
    rw [if_neg (by simp [crunchPathInit])]
    have := possibleCount_le m (crunchPathInit m source destination clearedTiles).gen
    omega
  obtain ⟨r, hr, inv, _⟩ := crunchPathLoop_spec (m.width * m.height + 2) _
    (crunchPathInit_inv m z source destination os clearedTiles) (fun h => (by cases h)) hfuel
  refine ⟨{ result := r.result, gen := r.gen, clearedTiles := r.clearedTiles }, ?_, inv.gen_eq,
    inv.frame, inv.conn, inv.joined⟩
  unfold crunchPath
  rw [hr]
  rfl

/-! ## The corridor carver `crunchPath` (C19, C20) -/

/-- The states in which the loop of `crunchPath` is entered satisfy the invariant, and `result`
is false in them unless `end` is true. -/
theorem crunchTurn_reach_inv {m : MapGenerator} {z : TemplateZone}
    {source destination : Position} {os : Bool} {clearedTiles : Option (List Position)}
    {st : CrunchState}
    (h : Relation.ReflTransGen (CrunchTurn z destination os)
      (crunchPathInit m source destination clearedTiles) st) :
    CrunchInv m z source destination os st ∧ (st.result = true → st.finished = true) := by
  induction h with
  | refl =>
    exact ⟨crunchPathInit_inv m z source destination os clearedTiles, fun h => (by cases h)⟩
  | @tail a b _ hstep ih =>
    obtain ⟨hfin, hit⟩ := hstep
    have hres : a.result = false := by
      cases h : a.result with
      | false => rfl
      | true => rw [ih.2 h] at hfin; cases hfin
    obtain ⟨inv1, _, hrf1, _⟩ := crunchPathIteration_spec ih.1 hres
    rw [hit] at inv1 hrf1
    exact ⟨inv1, hrf1 rfl⟩

/-- C19: `crunchPath` returns for every grid, zone, source, destination, neighbour mode and
sink, and its loop makes progress: whenever a turn of the loop, entered in a state the loop
reaches from the initial one, runs to the end of the body and leaves `end` false, so that the
loop goes on, some tile of the map that was Possible before the turn is Free after it. -/
theorem crunchPath_terminates_and_progresses (m : MapGenerator) (z : TemplateZone)
    (source destination : Position) (onlyStraight : Bool)
    (clearedTiles : Option (List Position)) :
    (∃ r, crunchPath m z source destination onlyStraight clearedTiles = some r) ∧
    ∀ st st1,
      Relation.ReflTransGen (CrunchTurn z destination onlyStraight)
        (crunchPathInit m source destination clearedTiles) st →
      CrunchTurn z destination onlyStraight st st1 → st1.finished = false →
      ∃ t, m.isInTheMap t = true ∧ st.gen.tiles t = TileType.Possible ∧
        st1.gen.tiles t = TileType.Free := by
  refine ⟨?_, ?_⟩
  · obtain ⟨r, hr, _⟩ := crunchPath_spec m z source destination onlyStraight clearedTiles
    exact ⟨r, hr⟩
  · intro st st1 hreach hturn hfin
    obtain ⟨inv, hrf⟩ := crunchTurn_reach_inv hreach
    obtain ⟨hnf, hit⟩ := hturn
    have hres : st.result = false := by
      cases h : st.result with
      | false => rfl
      | true => rw [hrf h] at hnf; cases hnf
    obtain ⟨_, _, _, prog⟩ := crunchPathIteration_spec inv hres
    rw [hit] at prog
    exact prog rfl hfin

/-- Witness for C19: the first turn of the loop on a row of three Possible tiles, from (0,0)
towards (2,0), frees a tile and the loop goes on. -/
theorem crunchPath_terminates_and_progresses_witness :
    ∃ t, (blankGen 3 1).isInTheMap t = true ∧
      (crunchPathInit (blankGen 3 1) ⟨0, 0⟩ ⟨2, 0⟩ none).gen.tiles t = TileType.Possible ∧
      (crunchPathIteration (rowZone 3) ⟨2, 0⟩ true
        (crunchPathInit (blankGen 3 1) ⟨0, 0⟩ ⟨2, 0⟩ none)).1.gen.tiles t = TileType.Free :=
  (crunchPath_terminates_and_progresses (blankGen 3 1) (rowZone 3) ⟨0, 0⟩ ⟨2, 0⟩ true none).2
    _ _ Relation.ReflTransGen.refl ⟨rfl, rfl⟩ rfl

/-- C20: whenever `crunchPath` returns true, every tile of the set made of the source and the
tiles the call turned Free is reached from the source by steps to a neighbour, in the neighbour
mode in use, that belongs to the set, and the set contains the destination, or a tile adjacent
to the destination, or a tile adjacent to a tile that was Free before the call. -/
theorem crunchPath_true_joined (m : MapGenerator) (z : TemplateZone)
    (source destination : Position) (onlyStraight : Bool)
    (clearedTiles : Option (List Position)) (r : CrunchResult)
    (h : crunchPath m z source destination onlyStraight clearedTiles = some r)
    (hres : r.result = true) :
    (∀ t, Corridor m r.gen source t →
      Relation.ReflTransGen (CorridorStep m r.gen onlyStraight source) source t) ∧
    Joined m r.gen onlyStraight source destination := by
  obtain ⟨r1, hr1, _, _, hconn, hjoin⟩ :=
    crunchPath_spec m z source destination onlyStraight clearedTiles
  rw [h] at hr1
  cases hr1
  exact ⟨hconn, hjoin hres⟩

/-- Witness for C20: on a row of three Possible tiles the call from (0,0) to (2,0) returns true
after it has freed (1,0) and (2,0). -/
theorem crunchPath_true_joined_witness :
    ∃ r, crunchPath (blankGen 3 1) (rowZone 3) ⟨0, 0⟩ ⟨2, 0⟩ true none = some r ∧
      r.result = true ∧ r.gen.tiles ⟨1, 0⟩ = TileType.Free ∧ r.gen.tiles ⟨2, 0⟩ = TileType.Free ∧
      (∀ t, Corridor (blankGen 3 1) r.gen ⟨0, 0⟩ t →
        Relation.ReflTransGen (CorridorStep (blankGen 3 1) r.gen true ⟨0, 0⟩) ⟨0, 0⟩ t) ∧
      Joined (blankGen 3 1) r.gen true ⟨0, 0⟩ ⟨2, 0⟩ :=
  ⟨_, rfl, rfl, rfl, rfl,
    crunchPath_true_joined (blankGen 3 1) (rowZone 3) ⟨0, 0⟩ ⟨2, 0⟩ true none _ rfl rfl⟩

/-! ## Lemmas: `fractalize` -/

theorem closestClearedScan_far (tile : Position) :
    ∀ (clearedTiles : List Position) (currentDistance : Option Nat),
      farEnough currentDistance = true →
      (farEnough (closestClearedScan tile clearedTiles currentDistance).1 = true ↔
        ∀ c ∈ clearedTiles, 75 < tile.distanceSquared c) := by
  intro clearedTiles
  induction clearedTiles with
  | nil =>
    intro cur hcur
    simp [closestClearedScan, hcur]
  | cons a rest ih =>
    have step : ∀ current : Nat, (current ≤ 75 ↔ tile.distanceSquared a ≤ 75) →
        (farEnough (if current ≤ 75 then ((some current, true) : Option Nat × Bool)
          else closestClearedScan tile rest (some current)).1 = true ↔
        ∀ c ∈ a :: rest, 75 < tile.distanceSquared c) := by
      intro current h1
      by_cases hle : current ≤ 75
      · rw [if_pos hle]
        simp only [farEnough, decide_eq_true_eq, List.mem_cons, forall_eq_or_imp]
        constructor
        · intro h; omega
        · intro h
          have := h1.1 hle
          omega
      · rw [if_neg hle]
        rw [ih (some current) (by simp only [farEnough, decide_eq_true_eq]; omega)]
        simp only [List.mem_cons, forall_eq_or_imp]
        constructor
        · intro h
          exact ⟨by omega, h⟩
        · intro h
          exact h.2
    intro cur hcur
    cases cur with
    | none =>
      unfold closestClearedScan
      exact step _ Iff.rfl
    | some c0 =>
      simp only [farEnough, decide_eq_true_eq] at hcur
      unfold closestClearedScan
      dsimp only
      apply step
      split <;> omega

theorem farEnough_scan_iff (tile : Position) (clearedTiles : List Position) :
    farEnough (closestClearedScan tile clearedTiles none).1 = true ↔
      ∀ c ∈ clearedTiles, 75 < tile.distanceSquared c :=
  closestClearedScan_far tile clearedTiles none rfl

theorem findNode_some (clearedTiles : List Position) :
    ∀ (tiles tilesToIgnore : List Position) (node : Position),
      (findNode clearedTiles tiles tilesToIgnore).1 = some node →
      node ∈ tiles ∧ farEnough (closestClearedScan node clearedTiles none).1 = true := by
  intro tiles
  induction tiles with
  | nil =>
    intro ign node h
    simp [findNode] at h
  | cons a rest ih =>
    intro ign node h
    unfold findNode at h
    dsimp only at h
    by_cases hfar : farEnough (closestClearedScan a clearedTiles none).1 = true
    · rw [if_pos hfar] at h
      cases h
      exact ⟨List.mem_cons_self _ _, hfar⟩
    · rw [if_neg hfar] at h
      obtain ⟨h1, h2⟩ := ih _ node h
      exact ⟨List.mem_cons_of_mem _ h1, h2⟩

theorem eraseLoop_sublist :
    ∀ (ign s : List Position), (ign.foldl eraseIfPresent s).Sublist s := by
  intro ign
  induction ign with
  | nil => intro s; exact List.Sublist.refl s
  | cons a rest ih =>
    intro s
    rw [List.foldl_cons]
    exact (ih _).trans (List.filter_sublist _)

theorem distanceSquared_self (p : Position) : p.distanceSquared p = 0 := by
  simp [Position.distanceSquared]

/-- The node selection loop of `fractalize` returns when the fuel exceeds the number of far
tiles, provided every shuffle returns tiles of its argument only. -/
theorem selectNodes_total (randomShuffle : Nat → List Position → List Position)
    (hshuffle : ∀ k l, ∀ x ∈ randomShuffle k l, x ∈ l) :
    ∀ (fuel k : Nat) (possibleTiles clearedTiles nodes : List Position),
      farCount clearedTiles possibleTiles + 1 ≤ fuel →
      ∃ r, selectNodes randomShuffle fuel k possibleTiles clearedTiles nodes = some r := by
  intro fuel
  induction fuel with
  | zero => intro _ _ _ _ h; omega
  | succ fuel ih =>
    intro k possibleTiles clearedTiles nodes hfuel
    unfold selectNodes
    split
    · exact ⟨_, rfl⟩
    · dsimp only
      cases hfound : (findNode clearedTiles (randomShuffle k possibleTiles) []).1 with
      | none => exact ⟨_, rfl⟩
      | some node =>
        dsimp only
        split
        · exact ⟨_, rfl⟩
        · obtain ⟨hmem, hfar⟩ := findNode_some clearedTiles _ _ node hfound
          have hin : node ∈ possibleTiles := hshuffle k possibleTiles node hmem
          apply ih
          have h1 : farCount (clearedTiles ++ [node])
              ((findNode clearedTiles (randomShuffle k possibleTiles) []).2.foldl eraseIfPresent
                possibleTiles) ≤ farCount (clearedTiles ++ [node]) possibleTiles := by
            unfold farCount
            exact ((eraseLoop_sublist _ _).filter _).length_le
          have h2 : farCount (clearedTiles ++ [node]) possibleTiles <
              farCount clearedTiles possibleTiles := by
            unfold farCount
            refine length_filter_lt_of_imp _ _ _ ?_ node hin hfar ?_
            · intro x _ hx
              rw [farEnough_scan_iff] at hx ⊢
              intro c hc
              exact hx c (List.mem_append_left _ hc)
            · cases h : farEnough (closestClearedScan node (clearedTiles ++ [node]) none).1 with
              | false => rfl
              | true =>
                rw [farEnough_scan_iff] at h
                have := h node (by simp)
                rw [distanceSquared_self] at this
                omega
          omega

theorem insertLoop_length :
    ∀ (l acc : List Position), (l.foldl setInsert acc).length ≤ acc.length + l.length := by
  intro l
  induction l with
  | nil => intro acc; simp
  | cons a rest ih =>
    intro acc
    rw [List.foldl_cons]
    have h1 := ih (setInsert acc a)
    have h2 : (setInsert acc a).length ≤ acc.length + 1 := by
      unfold setInsert
      split <;> simp
    simp only [List.length_cons]
    omega

/-- The node selection of `fractalize` returns, provided every shuffle returns tiles of its
argument only. -/
theorem fractalizeNodes_total (randomShuffle : Nat → List Position → List Position)
    (hshuffle : ∀ k l, ∀ x ∈ randomShuffle k l, x ∈ l) (m : MapGenerator) (z : TemplateZone) :
    ∃ nodes, fractalizeNodes randomShuffle m z = some nodes := by
  unfold fractalizeNodes
  split
  · have hfuel : farCount (collectFreePaths m z)
        ((z.tileInfo.filter m.isPossible).foldl setInsert []) + 1 ≤ z.tileInfo.length + 1 := by
      have h1 : farCount (collectFreePaths m z)
          ((z.tileInfo.filter m.isPossible).foldl setInsert []) ≤
          ((z.tileInfo.filter m.isPossible).foldl setInsert []).length := by
        unfold farCount
        exact List.length_filter_le _ _
      have h2 := insertLoop_length (z.tileInfo.filter m.isPossible) []
      have h3 : (z.tileInfo.filter m.isPossible).length ≤ z.tileInfo.length :=
        List.length_filter_le _ _
      simp only [List.length_nil] at h2
      omega
    obtain ⟨r, hr⟩ := selectNodes_total randomShuffle hshuffle _ 0 _ _ [] hfuel
    rw [hr]
    exact ⟨_, rfl⟩
  · exact ⟨_, rfl⟩

/-! ## Lemmas: the corridors of `fractalize` -/

theorem CarveInv.init (m : MapGenerator) (nodes : List Position) : CarveInv m nodes m :=
  ⟨rfl, fun _ => Or.inl rfl, fun t ht => ⟨t, Or.inl ht, Relation.ReflTransGen.refl⟩⟩

theorem CarveInv.crunch {m : MapGenerator} {nodes : List Position} {g : MapGenerator}
    (inv : CarveInv m nodes g) (z : TemplateZone) (node : Position) (hnode : node ∈ nodes)
    (destination : Position) (clearedTiles : Option (List Position)) :
    ∃ r, crunchPath g z node destination true clearedTiles = some r ∧
      CarveInv m nodes r.gen := by
  obtain ⟨r, hr, hgen, hframe, hconn, _⟩ :=
    crunchPath_spec g z node destination true clearedTiles
  have hmono : ∀ t, g.tiles t = TileType.Free → r.gen.tiles t = TileType.Free := by
    intro t ht
    rcases hframe t with h | ⟨h, _⟩
    · exact h.trans ht
    · have := h.1
      rw [ht] at this
      cases this
  have hnb : ∀ a, g.neighbors true a = m.directNeighbors a := by
    intro a
    rw [inv.gen_eq]
    rfl
  refine ⟨r, hr, ?_, ?_, ?_⟩
  · conv_lhs => rw [hgen, inv.gen_eq]
  · intro t
    rcases hframe t with h | ⟨h, _⟩
    · rcases inv.frame t with h1 | h1
      · exact Or.inl (h.trans h1)
      · exact Or.inr ⟨h1.1, h.trans h1.2⟩
    · rcases inv.frame t with h1 | h1
      · exact Or.inr ⟨h1 ▸ h.1, h.2⟩
      · have := h.1
        rw [h1.2] at this
        cases this
  · intro t ht
    rcases hframe t with h | ⟨h, _⟩
    · obtain ⟨s, hs, hreach⟩ := inv.reach t (h ▸ ht)
      refine ⟨s, hs, Relation.ReflTransGen.mono ?_ hreach⟩
      intro a b hab
      rcases hab.2 with h1 | h1
      · exact ⟨hab.1, Or.inl (hmono b h1)⟩
      · exact ⟨hab.1, Or.inr h1⟩
    · refine ⟨node, Or.inr hnode, Relation.ReflTransGen.mono ?_ (hconn t (Or.inr h))⟩
      intro a b hab
      refine ⟨hnb a ▸ hab.1, ?_⟩
      rcases hab.2 with h1 | h1
      · exact Or.inr (h1 ▸ hnode)
      · exact Or.inl h1.2

theorem CarveInv.nearby {m : MapGenerator} {nodes : List Position} (z : TemplateZone)
    (node : Position) (hnode : node ∈ nodes) :
    ∀ (nearbyNodes : List Position) (g : MapGenerator) (paths : List Position),
      CarveInv m nodes g →
      ∃ g1 paths1,
        nearbyNodes.foldl
          (fun acc nearbyNode =>
            match acc with
            | none => none
            | some (g1, paths) =>
              match crunchPath g1 z node nearbyNode true (some paths) with
              | none => none
              | some r1 => some (r1.gen, r1.clearedTiles.getD paths))
          (some (g, paths)) = some (g1, paths1) ∧
        CarveInv m nodes g1 := by
  intro nearbyNodes
  induction nearbyNodes with
  | nil =>
    intro g paths inv
    exact ⟨g, paths, rfl, inv⟩
  | cons a rest ih =>
    intro g paths inv
    rw [List.foldl_cons]
    obtain ⟨r, hr, inv1⟩ := inv.crunch z node hnode a (some paths)
    dsimp only
    rw [hr]
    exact ih r.gen _ inv1

theorem CarveInv.connectNode {m : MapGenerator} {nodes : List Position} {g : MapGenerator}
    (inv : CarveInv m nodes g) (z : TemplateZone) (allNodes : List Position)
    (freePaths : List Position) (node : Position) (hnode : node ∈ nodes) :
    ∃ g1 paths1, connectNode z allNodes g freePaths node = some (g1, paths1) ∧
      CarveInv m nodes g1 := by
  unfold D2RSG.connectNode
  obtain ⟨r, hr, inv1⟩ :=
    inv.crunch z node hnode (findClosestTile freePaths node) (some freePaths)
  dsimp only
  rw [hr]
  exact CarveInv.nearby z node hnode _ r.gen _ inv1

theorem CarveInv.carve {m : MapGenerator} {nodes : List Position} (z : TemplateZone)
    (allNodes : List Position) :
    ∀ (l : List Position), (∀ n ∈ l, n ∈ nodes) →
    ∀ (g : MapGenerator) (paths : List Position), CarveInv m nodes g →
      ∃ g1 paths1,
        l.foldl
          (fun acc node =>
            match acc with
            | none => none
            | some (g, paths) => D2RSG.connectNode z allNodes g paths node)
          (some (g, paths)) = some (g1, paths1) ∧
        CarveInv m nodes g1 := by
  intro l
  induction l with
  | nil =>
    intro _ g paths inv
    exact ⟨g, paths, rfl, inv⟩
  | cons a rest ih =>
    intro hl g paths inv
    rw [List.foldl_cons]
    obtain ⟨g1, p1, h1, inv1⟩ :=
      inv.connectNode z allNodes paths a (hl a (List.mem_cons_self _ _))
    dsimp only
    rw [h1]
    exact ih (fun n hn => hl n (List.mem_cons_of_mem _ hn)) g1 p1 inv1

/-- The corridor loop of `fractalize` returns, and the grid it leaves satisfies the invariant. -/
theorem carveCorridors_spec (z : TemplateZone) (nodes : List Position) (m : MapGenerator)
    (freePaths : List Position) :
    ∃ g paths, carveCorridors z nodes m freePaths = some (g, paths) ∧ CarveInv m nodes g :=
  CarveInv.carve z nodes nodes (fun _ h => h) m freePaths (CarveInv.init m nodes)

theorem clearNodes_tiles :
    ∀ (nodes : List Position) (g : MapGenerator) (t : Position),
      (clearNodes nodes g).tiles t = if t ∈ nodes then TileType.Free else g.tiles t := by
  intro nodes
  induction nodes with
  | nil => intro g t; simp [clearNodes]
  | cons a rest ih =>
    intro g t
    have hstep : clearNodes (a :: rest) g = clearNodes rest (g.setOccupied a TileType.Free) := rfl
    rw [hstep, ih]
    by_cases hta : t = a
    · subst hta
      simp [MapGenerator.setOccupied]
    · simp [MapGenerator.setOccupied, hta]

/-- The tiles the last loop of `fractalize` blocks: the Possible tiles of the zone outside the
free paths that have no free path at squared distance 18 or less. -/
theorem blockDistantTiles_tiles (freePaths : List Position) :
    ∀ (tiles : List Position) (g : MapGenerator) (t : Position),
      (tiles.foldl
        (fun g tile =>
          if !g.isPossible tile then g
          else if tile ∈ freePaths then g
          else if freePaths.any fun clearTile => decide (tile.distanceSquared clearTile ≤ 18)
          then g
          else g.setOccupied tile TileType.Blocked)
        g).tiles t =
      if t ∈ tiles ∧ g.tiles t = TileType.Possible ∧ t ∉ freePaths ∧
          ∀ c ∈ freePaths, 18 < t.distanceSquared c then TileType.Blocked
      else g.tiles t := by
  intro tiles
  induction tiles with
  | nil => intro g t; simp
  | cons a rest ih =>
    intro g t
    rw [List.foldl_cons, ih]
    by_cases hp : g.isPossible a = true
    · have hpa : g.tiles a = TileType.Possible := by
        simpa [MapGenerator.isPossible] using hp
      simp only [hp, Bool.not_true, Bool.false_eq_true, if_false]
      by_cases hin : a ∈ freePaths
      · rw [if_pos hin]
        by_cases hta : t = a
        · subst hta
          simp [hin]
        · simp [hta]
      · rw [if_neg hin]
        by_cases hany : (freePaths.any fun clearTile =>
            decide (a.distanceSquared clearTile ≤ 18)) = true
        · rw [if_pos hany]
          by_cases hta : t = a
          · subst hta
            have : ¬ ∀ c ∈ freePaths, 18 < t.distanceSquared c := by
              simp only [List.any_eq_true, decide_eq_true_eq] at hany
              obtain ⟨c, hc, hle⟩ := hany
              intro h
              have := h c hc
              omega
            simp [this]
          · simp [hta]
        · rw [if_neg hany]
          have hfar : ∀ c ∈ freePaths, 18 < a.distanceSquared c := by
            intro c hc
            simp only [List.any_eq_true, decide_eq_true_eq, not_exists, not_and] at hany
            have := hany c hc
            omega
          by_cases hta : t = a
          · subst hta
            simp only [MapGenerator.setOccupied, hpa, hin, if_true, List.mem_cons, true_or,
              not_false_eq_true, true_and, reduceCtorEq, false_and, and_false, if_false]
            rw [if_pos hfar]
          · simp [MapGenerator.setOccupied, hta]
    · have hpa : g.tiles a ≠ TileType.Possible := by
        simpa [MapGenerator.isPossible] using hp
      have hp2 : g.isPossible a = false := by
        cases h : g.isPossible a
        · rfl
        · exact absurd h hp
      simp only [hp2, Bool.not_false, if_true]
      by_cases hta : t = a
      · subst hta
        simp [hpa]
      · simp [hta]

/-! ## The corridors of `fractalize` (C17, C18) -/

/-- On a map of one row whose tile (5,0) is not Free, a chain of Free tiles that starts at (0,0)
and steps to neighbours, diagonal ones included, stays left of (5,0). -/
theorem row_wall_unreachable (g : MapGenerator) (hheight : g.height = 1)
    (hwall : g.tiles ⟨5, 0⟩ ≠ TileType.Free) (t : Position)
    (h : Relation.ReflTransGen (fun a b => b ∈ g.allNeighbors a ∧ g.tiles b = TileType.Free)
      ⟨0, 0⟩ t) : t.x ≤ 4 := by
  induction h with
  | refl => decide
  | @tail a b _ hstep ih =>
    obtain ⟨hn, hfree⟩ := hstep
    have hn2 : b ∈ g.neighbors false a := hn
    rw [MapGenerator.mem_neighbors_iff] at hn2
    obtain ⟨d, hd, hb, hmap⟩ := hn2
    have hdx : d.x ≤ 1 := by
      simp only [MapGenerator.neighborOffsets, MapGenerator.directOffsets,
        MapGenerator.diagonalOffsets, Bool.false_eq_true, if_false, List.cons_append,
        List.nil_append, List.mem_cons, List.mem_singleton, List.not_mem_nil, or_false] at hd
      rcases hd with h | h | h | h | h | h | h | h <;> rw [h] <;> decide
    have hbx : b.x = a.x + d.x := by rw [hb]; rfl
    simp only [MapGenerator.isInTheMap, Bool.and_eq_true, decide_eq_true_eq, hheight] at hmap
    by_contra hgt
    have hx5 : b.x = 5 := by omega
    have hy0 : b.y = 0 := by omega
    have hb5 : b = ⟨5, 0⟩ := by
      cases b
      simp only at hx5 hy0
      rw [hx5, hy0]
    rw [hb5] at hfree
    exact hwall hfree

/-- C17, the code at the failing input: on the row of ten tiles with the seed (0,0) Free and the
tile (5,0) Blocked, `fractalize` on the zone of kind Treasure selects the node (9,0); the call
of `crunchPath` from the node towards the closest free path, the seed, frees (8,0), (7,0) and
(6,0), stops at the Blocked tile and returns false; `fractalize` does not read that result and
sets the node Free all the same, so that no chain of Free neighbouring tiles links the seed
(0,0) to the Free zone tile (9,0).  This is so whether or not the enumeration of the neighbours
follows the moved position. -/
theorem fractalize_leaves_island :
    (rowZone 10).type ≠ TemplateZoneType.Junction ∧
    (∀ t ∈ (rowZone 10).tileInfo, (wallRowGen false).tiles t = TileType.Free → t = ⟨0, 0⟩) ∧
    (⟨9, 0⟩ : Position) ∈ (rowZone 10).tileInfo ∧
    (fractalizeNodes plainCollaborators.randomShuffle (wallRowGen false) (rowZone 10)
        = some [⟨9, 0⟩] ∧
      (∃ c, crunchPath (wallRowGen false) (rowZone 10) ⟨9, 0⟩
          (findClosestTile (collectFreePaths (wallRowGen false) (rowZone 10)) ⟨9, 0⟩) true
          (some (collectFreePaths (wallRowGen false) (rowZone 10))) = some c ∧
        c.result = false ∧ c.clearedTiles = some [⟨0, 0⟩, ⟨8, 0⟩, ⟨7, 0⟩, ⟨6, 0⟩]) ∧
      ∃ r, fractalize plainCollaborators.randomShuffle (wallRowGen false) (rowZone 10)
          = some (Except.ok r) ∧
        r.1.tiles ⟨9, 0⟩ = TileType.Free ∧ r.1.tiles ⟨6, 0⟩ = TileType.Free ∧
        r.1.tiles ⟨5, 0⟩ = TileType.Blocked ∧
        ¬ Relation.ReflTransGen
          (fun a b => b ∈ r.1.allNeighbors a ∧ r.1.tiles b = TileType.Free) ⟨0, 0⟩ ⟨9, 0⟩) ∧
    (fractalizeNodes plainCollaborators.randomShuffle (wallRowGen true) (rowZone 10)
        = some [⟨9, 0⟩] ∧
      (∃ c, crunchPath (wallRowGen true) (rowZone 10) ⟨9, 0⟩
          (findClosestTile (collectFreePaths (wallRowGen true) (rowZone 10)) ⟨9, 0⟩) true
          (some (collectFreePaths (wallRowGen true) (rowZone 10))) = some c ∧
        c.result = false ∧ c.clearedTiles = some [⟨0, 0⟩, ⟨8, 0⟩, ⟨7, 0⟩, ⟨6, 0⟩]) ∧
      ∃ r, fractalize plainCollaborators.randomShuffle (wallRowGen true) (rowZone 10)
          = some (Except.ok r) ∧
        r.1.tiles ⟨9, 0⟩ = TileType.Free ∧ r.1.tiles ⟨6, 0⟩ = TileType.Free ∧
        r.1.tiles ⟨5, 0⟩ = TileType.Blocked ∧
        ¬ Relation.ReflTransGen
          (fun a b => b ∈ r.1.allNeighbors a ∧ r.1.tiles b = TileType.Free) ⟨0, 0⟩ ⟨9, 0⟩) := by
  refine ⟨by decide, by decide, by decide,
    ⟨rfl, ⟨_, rfl, rfl, rfl⟩, _, rfl, rfl, rfl, rfl, ?_⟩,
    ⟨rfl, ⟨_, rfl, rfl, rfl⟩, _, rfl, rfl, rfl, rfl, ?_⟩⟩
  · intro h
    have := row_wall_unreachable _ rfl (by decide) _ h
    exact absurd this (by decide)
  · intro h
    have := row_wall_unreachable _ rfl (by decide) _ h
    exact absurd this (by decide)

/-- What the corridors of `fractalize` give whatever `crunchPath` returns: when the zone has a
free path and every shuffle returns tiles of its argument only, `fractalize` returns normally,
and every tile that is Free afterwards is linked, by a chain of steps to direct neighbours that
are Free afterwards, to a tile that is Free afterwards and either was Free before the call or is
one of the selected nodes. -/
theorem fractalize_free_reachable (randomShuffle : Nat → List Position → List Position)
    (m : MapGenerator) (z : TemplateZone)
    (hshuffle : ∀ k l, ∀ x ∈ randomShuffle k l, x ∈ l)
    (hfree : (collectFreePaths m z).isEmpty = false) :
    ∃ nodes r, fractalizeNodes randomShuffle m z = some nodes ∧
      fractalize randomShuffle m z = some (Except.ok r) ∧
      ∀ t, r.1.tiles t = TileType.Free →
        ∃ s, (m.tiles s = TileType.Free ∨ s ∈ nodes) ∧ r.1.tiles s = TileType.Free ∧
          Relation.ReflTransGen
            (fun a b => b ∈ m.directNeighbors a ∧ r.1.tiles b = TileType.Free) s t := by
  obtain ⟨nodes, hnodes⟩ := fractalizeNodes_total randomShuffle hshuffle m z
  obtain ⟨g, paths, hcarve, inv⟩ := carveCorridors_spec z nodes m (collectFreePaths m z)
  have hfin : ∀ t, (blockDistantTiles z paths (clearNodes nodes g)).tiles t = TileType.Free ↔
      (t ∈ nodes ∨ g.tiles t = TileType.Free) := by
    intro t
    unfold blockDistantTiles
    rw [blockDistantTiles_tiles, clearNodes_tiles]
    by_cases hn : t ∈ nodes
    · simp [hn]
    · simp only [hn, if_false, false_or]
      split
      · rename_i hc
        rw [hc.2.1]
        simp
      · rfl
  refine ⟨nodes, (blockDistantTiles z paths (clearNodes nodes g), { z with freePaths := paths }),
    hnodes, ?_, ?_⟩
  · unfold fractalize
    dsimp only
    rw [hfree, hnodes]
    dsimp only
    rw [hcarve]
    rfl
  · intro t ht
    have hkeep : ∀ s, m.tiles s = TileType.Free → g.tiles s = TileType.Free := by
      intro s hs
      rcases inv.frame s with h | h
      · exact h.trans hs
      · have := h.1
        rw [hs] at this
        cases this
    rcases (hfin t).1 ht with h | h
    · exact ⟨t, Or.inr h, ht, Relation.ReflTransGen.refl⟩
    · obtain ⟨s, hs, hreach⟩ := inv.reach t h
      refine ⟨s, hs, ?_, Relation.ReflTransGen.mono ?_ hreach⟩
      · rcases hs with h1 | h1
        · exact (hfin s).2 (Or.inr (hkeep s h1))
        · exact (hfin s).2 (Or.inl h1)
      · intro a b hab
        refine ⟨hab.1, (hfin b).2 ?_⟩
        rcases hab.2 with h1 | h1
        · exact Or.inr h1
        · exact Or.inl h1

/-- The row of ten tiles without the Blocked tile, where the corridor from the node (9,0) reaches
the seed, meets the hypotheses of `fractalize_free_reachable`. -/
theorem fractalize_free_reachable_witness :
    (∀ k l, ∀ x ∈ plainCollaborators.randomShuffle k l, x ∈ l) ∧
    (collectFreePaths openRowGen (rowZone 10)).isEmpty = false ∧
    ∃ nodes r, fractalizeNodes plainCollaborators.randomShuffle openRowGen (rowZone 10)
        = some nodes ∧
      fractalize plainCollaborators.randomShuffle openRowGen (rowZone 10)
        = some (Except.ok r) ∧
      ∀ t, r.1.tiles t = TileType.Free →
        ∃ s, (openRowGen.tiles s = TileType.Free ∨ s ∈ nodes) ∧ r.1.tiles s = TileType.Free ∧
          Relation.ReflTransGen
            (fun a b => b ∈ openRowGen.directNeighbors a ∧ r.1.tiles b = TileType.Free) s t :=
  ⟨fun _ _ _ h => h, rfl,
    fractalize_free_reachable plainCollaborators.randomShuffle openRowGen (rowZone 10)
      (fun _ _ _ h => h) rfl⟩

/-- C18 fails as stated: on the 2x1 corridor map the junction zone has the Possible tile (0,0)
next to the Free tile (1,0), and after `fractalize` the tile (0,0) is still Possible, not
Blocked. -/
theorem fractalize_junction_keeps_possible :
    junctionZone.type = TemplateZoneType.Junction ∧
    (⟨0, 0⟩ : Position) ∈ junctionZone.tileInfo ∧
    corridorGen.tiles ⟨0, 0⟩ = TileType.Possible ∧
    ∃ r, fractalize plainCollaborators.randomShuffle corridorGen junctionZone
        = some (Except.ok r) ∧
      r.1.tiles ⟨0, 0⟩ = TileType.Possible :=
  ⟨rfl, by decide, rfl, _, rfl, rfl⟩

/-- C18 (amended): for a zone of type Junction that has a free path, `fractalize` selects no
node and returns normally; the free-path set becomes the one collected at the start, no tile
turns Free, and the tiles that change are exactly the Possible tiles of the zone outside the
free-path set that have no free-path tile at squared distance 18 or less: they become Blocked,
while every other tile, a Possible tile near a free path included, keeps its state. -/
theorem fractalize_junction_blocks_far (randomShuffle : Nat → List Position → List Position)
    (m : MapGenerator) (z : TemplateZone) (hjunction : z.type = TemplateZoneType.Junction)
    (hfree : (collectFreePaths m z).isEmpty = false) :
    fractalizeNodes randomShuffle m z = some [] ∧
    ∃ r, fractalize randomShuffle m z = some (Except.ok r) ∧
      r.2 = { z with freePaths := collectFreePaths m z } ∧
      ∀ t, r.1.tiles t =
        if t ∈ z.tileInfo ∧ m.tiles t = TileType.Possible ∧ t ∉ collectFreePaths m z ∧
            ∀ c ∈ collectFreePaths m z, 18 < t.distanceSquared c then TileType.Blocked
        else m.tiles t := by
  have hnodes : fractalizeNodes randomShuffle m z = some [] := by
    unfold fractalizeNodes
    rw [if_neg (by simp [hjunction])]
  refine ⟨hnodes, (blockDistantTiles z (collectFreePaths m z) m,
    { z with freePaths := collectFreePaths m z }), ?_, rfl, ?_⟩
  · unfold fractalize
    dsimp only
    rw [hfree, hnodes]
    rfl
  · intro t
    unfold blockDistantTiles
    exact blockDistantTiles_tiles _ _ _ _

/-- Witness for C18, amended: the junction zone of the 2x1 corridor map. -/
theorem fractalize_junction_blocks_far_witness :
    junctionZone.type = TemplateZoneType.Junction ∧
    (collectFreePaths corridorGen junctionZone).isEmpty = false ∧
    fractalizeNodes plainCollaborators.randomShuffle corridorGen junctionZone = some [] :=
  ⟨rfl, rfl,
    (fractalize_junction_blocks_far plainCollaborators.randomShuffle corridorGen junctionZone
      rfl rfl).1⟩

/-! ## Seeds and nodes of `fractalize` (C27, C29) -/

theorem mem_insertLoop :
    ∀ (l acc : List Position) (x : Position),
      x ∈ l.foldl setInsert acc ↔ x ∈ acc ∨ x ∈ l := by
  intro l
  induction l with
  | nil => intro acc x; simp
  | cons a rest ih =>
    intro acc x
    rw [List.foldl_cons, ih, mem_setInsert]
    simp only [List.mem_cons]
    constructor
    · rintro ((h | h) | h)
      · exact Or.inl h
      · exact Or.inr (Or.inl h)
      · exact Or.inr (Or.inr h)
    · rintro (h | h | h)
      · exact Or.inl (Or.inl h)
      · exact Or.inl (Or.inr h)
      · exact Or.inr h

theorem mem_collectFreePaths (m : MapGenerator) (z : TemplateZone) (x : Position) :
    x ∈ collectFreePaths m z ↔ x ∈ z.freePaths ∨ (x ∈ z.tileInfo ∧ m.tiles x = TileType.Free) := by
  unfold collectFreePaths
  rw [mem_insertLoop]
  simp [MapGenerator.isFree]

theorem distanceSquared_comm (a b : Position) : a.distanceSquared b = b.distanceSquared a := by
  unfold Position.distanceSquared
  congr 1
  ring

/-- Invariant of the node selection loop of `fractalize`: the cleared tiles are the seeds
followed by the nodes, and every node is farther than the minimal distance from every seed and
from every other node. -/
theorem selectNodes_far (randomShuffle : Nat → List Position → List Position)
    (seeds : List Position) :
    ∀ (fuel k : Nat) (possibleTiles clearedTiles nodes : List Position)
      (r : List Position × List Position),
      selectNodes randomShuffle fuel k possibleTiles clearedTiles nodes = some r →
      clearedTiles = seeds ++ nodes →
      nodes.Pairwise (fun a b => 75 < a.distanceSquared b) →
      (∀ n ∈ nodes, ∀ c ∈ seeds, 75 < n.distanceSquared c) →
      r.1.Pairwise (fun a b => 75 < a.distanceSquared b) ∧
      (∀ n ∈ r.1, ∀ c ∈ seeds, 75 < n.distanceSquared c) := by
  intro fuel
  induction fuel with
  | zero =>
    intro k poss cleared nodes r h
    simp [selectNodes] at h
  | succ fuel ih =>
    intro k poss cleared nodes r h hcl hpair hseed
    unfold selectNodes at h
    split at h
    · cases h
      exact ⟨hpair, hseed⟩
    · dsimp only at h
      cases hfound : (findNode cleared (randomShuffle k poss) []).1 with
      | none =>
        rw [hfound] at h
        cases h
        exact ⟨hpair, hseed⟩
      | some node =>
        rw [hfound] at h
        dsimp only at h
        obtain ⟨_, hfar⟩ := findNode_some cleared _ _ node hfound
        rw [farEnough_scan_iff, hcl] at hfar
        have hpair1 : (nodes ++ [node]).Pairwise (fun a b => 75 < a.distanceSquared b) := by
          rw [List.pairwise_append]
          refine ⟨hpair, List.pairwise_singleton _ _, ?_⟩
          intro a ha b hb
          simp only [List.mem_singleton] at hb
          subst hb
          rw [distanceSquared_comm]
          exact hfar a (List.mem_append_right _ ha)
        have hseed1 : ∀ n ∈ nodes ++ [node], ∀ c ∈ seeds, 75 < n.distanceSquared c := by
          intro n hn c hc
          rcases List.mem_append.1 hn with h1 | h1
          · exact hseed n h1 c hc
          · simp only [List.mem_singleton] at h1
            subst h1
            exact hfar c (List.mem_append_left _ hc)
        split at h
        · cases h
          exact ⟨hpair1, hseed1⟩
        · exact ih _ _ _ _ r h (by rw [hcl, List.append_assoc]) hpair1 hseed1

/-- C27: every node `fractalize` selects lies at squared distance greater than 75 from every
seed of the cleared set, that is from every tile of the free-path set of the zone and from every
tile of the zone that was Free when `fractalize` started, and from every other selected node. -/
theorem fractalizeNodes_far_apart (randomShuffle : Nat → List Position → List Position)
    (m : MapGenerator) (z : TemplateZone) (nodes : List Position)
    (h : fractalizeNodes randomShuffle m z = some nodes) :
    (∀ n ∈ nodes, ∀ t ∈ z.tileInfo, m.tiles t = TileType.Free → 75 < n.distanceSquared t) ∧
    (∀ n ∈ nodes, ∀ c ∈ z.freePaths, 75 < n.distanceSquared c) ∧
    nodes.Pairwise (fun a b => 75 < a.distanceSquared b) := by
  have key : nodes.Pairwise (fun a b => 75 < a.distanceSquared b) ∧
      ∀ n ∈ nodes, ∀ c ∈ collectFreePaths m z, 75 < n.distanceSquared c := by
    unfold fractalizeNodes at h
    split at h
    · cases hsel : selectNodes randomShuffle (z.tileInfo.length + 1) 0
          ((z.tileInfo.filter m.isPossible).foldl setInsert []) (collectFreePaths m z) [] with
      | none => rw [hsel] at h; cases h
      | some r =>
        rw [hsel] at h
        cases h
        exact selectNodes_far randomShuffle (collectFreePaths m z) _ _ _ _ _ r hsel (by simp)
          List.Pairwise.nil (fun _ hn => (by cases hn))
    · cases h
      exact ⟨List.Pairwise.nil, fun _ hn => (by cases hn)⟩
  refine ⟨fun n hn t ht hfree => ?_, fun n hn c hc => ?_, key.1⟩
  · exact key.2 n hn t ((mem_collectFreePaths m z t).2 (Or.inr ⟨ht, hfree⟩))
  · exact key.2 n hn c ((mem_collectFreePaths m z c).2 (Or.inl hc))

/-- Witness for C27: on the row of ten tiles with the seed (0,0) the only node is (9,0), at
squared distance 81 from the seed. -/
theorem fractalizeNodes_far_apart_witness :
    fractalizeNodes plainCollaborators.randomShuffle openRowGen (rowZone 10) = some [⟨9, 0⟩] ∧
    (∀ n ∈ [(⟨9, 0⟩ : Position)], ∀ t ∈ (rowZone 10).tileInfo,
      openRowGen.tiles t = TileType.Free → 75 < n.distanceSquared t) :=
  ⟨rfl, (fractalizeNodes_far_apart plainCollaborators.randomShuffle openRowGen (rowZone 10)
    [⟨9, 0⟩] rfl).1⟩

/-- C29: after `initFreeTiles` the free-path set of the zone is not empty, the centre of the
zone having been made Free and inserted when the set was empty; the seed set of a `fractalize`
call that follows, as in `fill`, is then not empty, and that call does not end in the failure of
the assertion `!clearedTiles.empty()`, the only error it can raise. -/
theorem initFreeTiles_seeds_fractalize (randomShuffle : Nat → List Position → List Position)
    (m : MapGenerator) (z : TemplateZone) :
    (initFreeTiles m z).2.freePaths ≠ [] ∧
    (z.freePaths = [] →
      z.pos ∈ (initFreeTiles m z).2.freePaths ∧
      (initFreeTiles m z).1.tiles z.pos = TileType.Free) ∧
    (collectFreePaths (initFreeTiles m z).1 (initFreeTiles m z).2).isEmpty = false ∧
    ∀ e, fractalize randomShuffle (initFreeTiles m z).1 (initFreeTiles m z).2 ≠
      some (Except.error e) := by
  have h1 : (initFreeTiles m z).2.freePaths ≠ [] ∧
      (z.freePaths = [] →
        z.pos ∈ (initFreeTiles m z).2.freePaths ∧
        (initFreeTiles m z).1.tiles z.pos = TileType.Free) := by
    unfold initFreeTiles
    dsimp only
    cases hfp : z.freePaths with
    | nil =>
      simp [addFreePath, setInsert, MapGenerator.setOccupied]
    | cons a rest =>
      simp [hfp]
  have h2 : (collectFreePaths (initFreeTiles m z).1 (initFreeTiles m z).2).isEmpty = false := by
    cases hp : (initFreeTiles m z).2.freePaths with
    | nil => exact absurd hp h1.1
    | cons a rest =>
      have hmem : a ∈ collectFreePaths (initFreeTiles m z).1 (initFreeTiles m z).2 := by
        rw [mem_collectFreePaths, hp]
        exact Or.inl (List.mem_cons_self _ _)
      cases hc : collectFreePaths (initFreeTiles m z).1 (initFreeTiles m z).2 with
      | nil => rw [hc] at hmem; cases hmem
      | cons b l => rfl
  refine ⟨h1.1, h1.2, h2, ?_⟩
  intro e h
  unfold fractalize at h
  dsimp only at h
  rw [h2] at h
  simp only [Bool.false_eq_true, if_false] at h
  split at h
  · cases h
  · split at h
    · cases h
    · cases h

/-! ## Lemmas: the sink of `crunchPath` and the free paths of `fractalize` -/

theorem insertCleared_free (g : MapGenerator) (cleared : Option (List Position))
    (position : Position)
    (h : ∀ c, cleared = some c → ∀ t ∈ c, g.tiles t = TileType.Free) :
    ∀ c, insertCleared cleared position = some c →
      ∀ t ∈ c, (g.setOccupied position TileType.Free).tiles t = TileType.Free := by
  intro c hc t ht
  cases cleared with
  | none => simp [insertCleared] at hc
  | some c0 =>
    simp only [insertCleared, Option.map_some', Option.some.injEq] at hc
    subst hc
    rw [mem_setInsert] at ht
    simp only [MapGenerator.setOccupied]
    split
    · rfl
    · rcases ht with h1 | h1
      · exact h c0 rfl t h1
      · rename_i hne; exact absurd h1 hne

theorem processNeighbors_sink (z : TemplateZone) (destination : Position) (st : CrunchState)
    (position : Position) (h : SinkFree st) :
    SinkFree (processNeighbors z destination st position) := by
  unfold processNeighbors
  split
  · exact h
  · have h1 : SinkFree (if position = destination then
        { st with result := true, finished := true } else st) := by
      split
      · exact h
      · exact h
    generalize (if position = destination then
        ({ st with result := true, finished := true } : CrunchState) else st) = st1 at h1
    dsimp only
    split
    · exact h1
    · split
      · exact h1
      · split
        · exact h1
        · split
          · exact insertCleared_free st1.gen st1.clearedTiles position h1
          · split
            · exact h1
            · exact h1

theorem visitNeighbors_sink (z : TemplateZone) (destination : Position) (os : Bool)
    (start : Position) (st : CrunchState) (h : SinkFree st) :
    SinkFree (visitNeighbors z destination os start st) := by
  unfold visitNeighbors
  generalize MapGenerator.neighborOffsets os = l
  induction l generalizing st with
  | nil => exact h
  | cons a rest ih =>
    rw [List.foldl_cons]
    apply ih
    dsimp only
    split
    · split
      · exact processNeighbors_sink z destination st _ h
      · exact h
    · split
      · exact processNeighbors_sink z destination st _ h
      · exact h

/-- The second lambda of `crunchPath` accepts at most one tile: the scan leaves its state as
it was, or it has taken the first neighbour of the zone that is Possible. -/
theorem fallbackLoop_first (g : MapGenerator) (z : TemplateZone)
    (destination currentPosition : Position) :
    ∀ (l : List Position) (fb : FallbackState),
      l.foldl (crunchFallback g z destination currentPosition) fb = fb ∨
      ∃ before p after, l = before ++ p :: after ∧
        (∀ q ∈ before, ¬ (g.getZoneId q = z.id ∧ g.isPossible q = true)) ∧
        g.getZoneId p = z.id ∧ g.isPossible p = true ∧
        currentPosition.distanceSquared destination < fb.lastDistance ∧
        l.foldl (crunchFallback g z destination currentPosition) fb =
          { lastDistance := currentPosition.distanceSquared destination
            anotherPosition := p
            clearedTiles := insertCleared fb.clearedTiles p } := by
  have hstop : ∀ (l : List Position) (fb : FallbackState),
      currentPosition.distanceSquared destination ≥ fb.lastDistance →
      l.foldl (crunchFallback g z destination currentPosition) fb = fb := by
    intro l
    induction l with
    | nil => intro fb _; rfl
    | cons a rest ih =>
      intro fb hge
      rw [List.foldl_cons]
      have : crunchFallback g z destination currentPosition fb a = fb := by
        unfold crunchFallback
        rw [if_pos hge]
      rw [this]
      exact ih fb hge
  intro l
  induction l with
  | nil => intro fb; exact Or.inl rfl
  | cons a rest ih =>
    intro fb
    rw [List.foldl_cons]
    by_cases hge : currentPosition.distanceSquared destination ≥ fb.lastDistance
    · left
      have : crunchFallback g z destination currentPosition fb a = fb := by
        unfold crunchFallback
        rw [if_pos hge]
      rw [this]
      exact hstop rest fb hge
    · by_cases hz : g.getZoneId a ≠ z.id
      · have hstep : crunchFallback g z destination currentPosition fb a = fb := by
          unfold crunchFallback
          rw [if_neg hge, if_pos hz]
        rw [hstep]
        rcases ih fb with h | ⟨before, p, after, hl, hb, hpz, hpp, hlt, hres⟩
        · exact Or.inl h
        · right
          refine ⟨a :: before, p, after, by rw [hl]; rfl, ?_, hpz, hpp, hlt, hres⟩
          intro q hq
          rcases List.mem_cons.1 hq with h1 | h1
          · subst h1
            exact fun h => hz h.1
          · exact hb q h1
      · by_cases hp : g.isPossible a = true
        · right
          have hstep : crunchFallback g z destination currentPosition fb a =
              { lastDistance := currentPosition.distanceSquared destination
                anotherPosition := a
                clearedTiles := insertCleared fb.clearedTiles a } := by
            unfold crunchFallback
            rw [if_neg hge, if_neg hz]
            simp [hp]
          rw [hstep]
          refine ⟨[], a, rest, rfl, fun q hq => (by cases hq), not_not.1 hz, hp, by omega, ?_⟩
          exact hstop rest _ (Nat.le_refl _)
        · have hstep : crunchFallback g z destination currentPosition fb a = fb := by
            unfold crunchFallback
            rw [if_neg hge, if_neg hz]
            simp [hp]
          rw [hstep]
          rcases ih fb with h | ⟨before, p, after, hl, hb, hpz, hpp, hlt, hres⟩
          · exact Or.inl h
          · right
            refine ⟨a :: before, p, after, by rw [hl]; rfl, ?_, hpz, hpp, hlt, hres⟩
            intro q hq
            rcases List.mem_cons.1 hq with h1 | h1
            · subst h1
              exact fun h => hp h.2
            · exact hb q h1

theorem crunchPathIteration_sink (z : TemplateZone) (destination : Position) (os : Bool)
    (st : CrunchState) (h : SinkFree st) :
    SinkFree (crunchPathIteration z destination os st).1 := by
  unfold crunchPathIteration
  split
  · exact h
  · have h1 := visitNeighbors_sink z destination os st.currentPosition st h
    generalize visitNeighbors z destination os st.currentPosition st = st1 at h1
    dsimp only
    split
    · rcases fallbackLoop_first st1.gen z destination st1.currentPosition
          (st1.gen.neighbors os st1.currentPosition)
          { lastDistance := 2 * st1.distance, anotherPosition := invalidPosition,
            clearedTiles := st1.clearedTiles } with hfb | ⟨_, p, _, hl, _, _, _, _, hfb⟩
      · rw [hfb]
        dsimp only
        split
        · exact insertCleared_free st1.gen st1.clearedTiles invalidPosition h1
        · exact h1
      · rw [hfb]
        dsimp only
        split
        · intro c hc t ht
          cases hcl : st1.clearedTiles with
          | none => simp [insertCleared, hcl] at hc
          | some c0 =>
            simp only [insertCleared, hcl, Option.map_some', Option.some.injEq] at hc
            subst hc
            rw [mem_setInsert, mem_setInsert] at ht
            simp only [MapGenerator.setOccupied]
            split
            · rfl
            · rename_i hne
              rcases ht with (h2 | h2) | h2
              · exact h1 c0 hcl t h2
              · exact absurd h2 hne
              · exact absurd h2 hne
        · rename_i hnv
          have hmem : p ∈ st1.gen.neighbors os st1.currentPosition := by
            rw [hl]
            simp
          exact absurd (Position.isValid_of_isInTheMap st1.gen p
            (st1.gen.isInTheMap_of_mem_neighbors os _ p hmem)) hnv
    · exact h1

theorem crunchPathLoop_sink (z : TemplateZone) (destination : Position) (os : Bool) :
    ∀ (fuel : Nat) (st r : CrunchState), SinkFree st →
      crunchPathLoop z destination os fuel st = some r → SinkFree r := by
  intro fuel
  induction fuel with
  | zero => intro st r _ h; simp [crunchPathLoop] at h
  | succ fuel ih =>
    intro st r hst h
    unfold crunchPathLoop at h
    split at h
    · cases h
      exact hst
    · dsimp only at h
      have h1 := crunchPathIteration_sink z destination os st hst
      split at h
      · exact ih _ r h1 h
      · cases h
        exact h1

/-- The sink of a `crunchPath` call whose tiles are Free before the call holds Free tiles only
after it, and the call sets no tile to a state other than Free. -/
theorem crunchPath_sink (m : MapGenerator) (z : TemplateZone) (source destination : Position)
    (os : Bool) (paths : List Position) (r : CrunchResult)
    (hfree : ∀ t ∈ paths, m.tiles t = TileType.Free)
    (h : crunchPath m z source destination os (some paths) = some r) :
    ∀ t ∈ r.clearedTiles.getD paths, r.gen.tiles t = TileType.Free := by
  unfold crunchPath at h
  cases hl : crunchPathLoop z destination os (m.width * m.height + 2)
      (crunchPathInit m source destination (some paths)) with
  | none => rw [hl] at h; cases h
  | some st =>
    rw [hl] at h
    cases h
    have hinit : SinkFree (crunchPathInit m source destination (some paths)) := by
      intro c hc t ht
      simp only [crunchPathInit, Option.some.injEq] at hc
      subst hc
      exact hfree t ht
    have hst := crunchPathLoop_sink z destination os _ _ st hinit hl
    intro t ht
    dsimp only at ht ⊢
    cases hc : st.clearedTiles with
    | none =>
      rw [hc] at ht
      simp only [Option.getD_none] at ht
      obtain ⟨r1, hr1, _, hframe, _, _⟩ := crunchPath_spec m z source destination os (some paths)
      have : r1.gen = st.gen := by
        unfold crunchPath at hr1
        rw [hl] at hr1
        cases hr1
        rfl
      rcases hframe t with h1 | ⟨h1, _⟩
      · rw [← this, h1]
        exact hfree t ht
      · rw [← this]
        exact h1.2
    | some c =>
      rw [hc] at ht
      exact hst c hc t ht

theorem nearbyLoop_paths_free (z : TemplateZone) (node : Position) :
    ∀ (nearbyNodes : List Position) (g : MapGenerator) (paths : List Position)
      (g1 : MapGenerator) (paths1 : List Position),
      (∀ t ∈ paths, g.tiles t = TileType.Free) →
      nearbyNodes.foldl
        (fun acc nearbyNode =>
          match acc with
          | none => none
          | some (g1, paths) =>
            match crunchPath g1 z node nearbyNode true (some paths) with
            | none => none
            | some r1 => some (r1.gen, r1.clearedTiles.getD paths))
        (some (g, paths)) = some (g1, paths1) →
      ∀ t ∈ paths1, g1.tiles t = TileType.Free := by
  intro nearbyNodes
  induction nearbyNodes with
  | nil =>
    intro g paths g1 paths1 hfree h
    simp only [List.foldl_nil, Option.some.injEq, Prod.mk.injEq] at h
    obtain ⟨rfl, rfl⟩ := h
    exact hfree
  | cons a rest ih =>
    intro g paths g1 paths1 hfree h
    rw [List.foldl_cons] at h
    dsimp only at h
    cases hc : crunchPath g z node a true (some paths) with
    | none =>
      rw [hc] at h
      have hnone : ∀ l : List Position, l.foldl
          (fun acc nearbyNode =>
            match acc with
            | none => none
            | some (g1, paths) =>
              match crunchPath g1 z node nearbyNode true (some paths) with
              | none => none
              | some r1 => some (r1.gen, r1.clearedTiles.getD paths))
          (none : Option (MapGenerator × List Position)) = none := by
        intro l
        induction l with
        | nil => rfl
        | cons b l ihl => rw [List.foldl_cons]; exact ihl
      rw [hnone] at h
      cases h
    | some r =>
      rw [hc] at h
      exact ih r.gen _ g1 paths1 (crunchPath_sink g z node a true paths r hfree hc) h

theorem connectNode_paths_free (z : TemplateZone) (nodes : List Position) (g : MapGenerator)
    (paths : List Position) (node : Position) (g1 : MapGenerator) (paths1 : List Position)
    (hfree : ∀ t ∈ paths, g.tiles t = TileType.Free)
    (h : connectNode z nodes g paths node = some (g1, paths1)) :
    ∀ t ∈ paths1, g1.tiles t = TileType.Free := by
  unfold connectNode at h
  dsimp only at h
  cases hc : crunchPath g z node (findClosestTile paths node) true (some paths) with
  | none => rw [hc] at h; cases h
  | some r =>
    rw [hc] at h
    exact nearbyLoop_paths_free z node _ r.gen _ g1 paths1
      (crunchPath_sink g z node _ true paths r hfree hc) h

theorem carveCorridors_paths_free (z : TemplateZone) (allNodes : List Position) :
    ∀ (l : List Position) (g : MapGenerator) (paths : List Position)
      (g1 : MapGenerator) (paths1 : List Position),
      (∀ t ∈ paths, g.tiles t = TileType.Free) →
      l.foldl
        (fun acc node =>
          match acc with
          | none => none
          | some (g, paths) => connectNode z allNodes g paths node)
        (some (g, paths)) = some (g1, paths1) →
      ∀ t ∈ paths1, g1.tiles t = TileType.Free := by
  intro l
  induction l with
  | nil =>
    intro g paths g1 paths1 hfree h
    simp only [List.foldl_nil, Option.some.injEq, Prod.mk.injEq] at h
    obtain ⟨rfl, rfl⟩ := h
    exact hfree
  | cons a rest ih =>
    intro g paths g1 paths1 hfree h
    rw [List.foldl_cons] at h
    dsimp only at h
    cases hc : connectNode z allNodes g paths a with
    | none =>
      rw [hc] at h
      have hnone : ∀ l : List Position, l.foldl
          (fun acc node =>
            match acc with
            | none => none
            | some (g, paths) => connectNode z allNodes g paths node)
          (none : Option (MapGenerator × List Position)) = none := by
        intro l
        induction l with
        | nil => rfl
        | cons b l ihl => rw [List.foldl_cons]; exact ihl
      rw [hnone] at h
      cases h
    | some r =>
      rw [hc] at h
      exact ih r.1 r.2 g1 paths1 (connectNode_paths_free z allNodes g paths a r.1 r.2 hfree hc) h

/-! ## The blocking pass of `fractalize` (C28) -/

/-- C28: after `fractalize` on a zone whose free paths are Free tiles, every tile of the zone
that was Possible when the corridors had been carved and the nodes cleared, and that lies at
squared distance greater than 18, that is of at least 18.75, from every Free tile, is Blocked;
and every tile of the zone that is still Possible has a Free tile at squared distance 18 or
less, that is below 18.75. -/
theorem fractalize_blocks_distant (randomShuffle : Nat → List Position → List Position)
    (m : MapGenerator) (z : TemplateZone) (r : MapGenerator × TemplateZone)
    (hpaths : ∀ t ∈ z.freePaths, m.tiles t = TileType.Free)
    (h : fractalize randomShuffle m z = some (Except.ok r)) :
    ∃ nodes carved paths, fractalizeNodes randomShuffle m z = some nodes ∧
      carveCorridors z nodes m (collectFreePaths m z) = some (carved, paths) ∧
      (∀ t ∈ z.tileInfo, (clearNodes nodes carved).tiles t = TileType.Possible →
        (∀ f, r.1.tiles f = TileType.Free → 18 < t.distanceSquared f) →
        r.1.tiles t = TileType.Blocked) ∧
      (∀ t ∈ z.tileInfo, r.1.tiles t = TileType.Possible →
        ∃ f, r.1.tiles f = TileType.Free ∧ t.distanceSquared f ≤ 18) := by
  unfold fractalize at h
  dsimp only at h
  split at h
  · cases h
  · cases hn : fractalizeNodes randomShuffle m z with
    | none => rw [hn] at h; cases h
    | some nodes =>
      rw [hn] at h
      dsimp only at h
      cases hc : carveCorridors z nodes m (collectFreePaths m z) with
      | none => rw [hc] at h; cases h
      | some gp =>
        obtain ⟨carved, paths⟩ := gp
        rw [hc] at h
        simp only [Option.some.injEq, Except.ok.injEq] at h
        subst h
        have hseed : ∀ t ∈ collectFreePaths m z, m.tiles t = TileType.Free := by
          intro t ht
          rcases (mem_collectFreePaths m z t).1 ht with h1 | h1
          · exact hpaths t h1
          · exact h1.2
        have hfree : ∀ t ∈ paths, carved.tiles t = TileType.Free := by
          have hc1 := hc
          unfold carveCorridors at hc1
          exact carveCorridors_paths_free z nodes nodes m _ carved paths hseed hc1
        have hcleared : ∀ t ∈ paths, (clearNodes nodes carved).tiles t = TileType.Free := by
          intro t ht
          rw [clearNodes_tiles]
          split
          · rfl
          · exact hfree t ht
        have hfinal : ∀ t, (blockDistantTiles z paths (clearNodes nodes carved)).tiles t =
            if t ∈ z.tileInfo ∧ (clearNodes nodes carved).tiles t = TileType.Possible ∧
                t ∉ paths ∧ ∀ c ∈ paths, 18 < t.distanceSquared c then TileType.Blocked
            else (clearNodes nodes carved).tiles t := by
          intro t
          unfold blockDistantTiles
          exact blockDistantTiles_tiles _ _ _ _
        have hkeep : ∀ t ∈ paths,
            (blockDistantTiles z paths (clearNodes nodes carved)).tiles t = TileType.Free := by
          intro t ht
          rw [hfinal, if_neg (fun hc => hc.2.2.1 ht)]
          exact hcleared t ht
        refine ⟨nodes, carved, paths, rfl, hc, ?_, ?_⟩
        · intro t ht hposs hfar
          dsimp only at hfar ⊢
          rw [hfinal, if_pos]
          refine ⟨ht, hposs, ?_, fun c hc => hfar c (hkeep c hc)⟩
          intro hin
          have := hcleared t hin
          rw [hposs] at this
          cases this
        · intro t ht hposs
          dsimp only at hposs ⊢
          rw [hfinal] at hposs
          split at hposs
          · cases hposs
          · rename_i hcond
            by_cases hin : t ∈ paths
            · have := hcleared t hin
              rw [hposs] at this
              cases this
            · have hex : ∃ c ∈ paths, t.distanceSquared c ≤ 18 := by
                by_contra hno
                apply hcond
                refine ⟨ht, hposs, hin, ?_⟩
                intro c hc
                by_contra hle
                exact hno ⟨c, hc, by omega⟩
              obtain ⟨c, hc, hle⟩ := hex
              exact ⟨c, hkeep c hc, hle⟩

/-- Witness for C28: the row of ten tiles with the seed (0,0) and the Blocked tile (5,0), where
the tiles (1,0) to (4,0) stay Possible next to the seed. -/
theorem fractalize_blocks_distant_witness :
    ∃ r, fractalize plainCollaborators.randomShuffle (wallRowGen false) (rowZone 10)
        = some (Except.ok r) ∧
      r.1.tiles ⟨4, 0⟩ = TileType.Possible ∧
      ∀ t ∈ (rowZone 10).tileInfo, r.1.tiles t = TileType.Possible →
        ∃ f, r.1.tiles f = TileType.Free ∧ t.distanceSquared f ≤ 18 :=
  ⟨_, rfl, rfl,
    (fractalize_blocks_distant plainCollaborators.randomShuffle (wallRowGen false) (rowZone 10)
      _ (fun _ h => (by cases h)) rfl).elim
      fun _ h1 => h1.elim fun _ h2 => h2.elim fun _ h3 => h3.2.2.2⟩

/-! ## The fallback of `crunchPath` (C30) -/

/-- C30 fails on the code: on the row of six tiles `crunchPath` from (2,0) towards (0,0) finds
the closer neighbour (1,0) Blocked, takes the fallback step to (3,0) without refreshing
`distance`, and in the next turn gives up at (3,0) with result false, although the neighbour
(4,0) of (3,0) is a Possible tile of the zone: the fallback compares the distance of the
current position, 9, with twice the stale `distance`, 8, and never looks at the distance of a
neighbour. -/
theorem crunchPath_gives_up_beside_possible :
    ∃ st, crunchPathLoop (rowZone 6) ⟨0, 0⟩ true ((detourGen false).width *
        (detourGen false).height + 2) (crunchPathInit (detourGen false) ⟨2, 0⟩ ⟨0, 0⟩ none)
        = some st ∧
      st.result = false ∧ st.currentPosition = ⟨3, 0⟩ ∧ st.distance = 4 ∧
      (⟨3, 0⟩ : Position).distanceSquared ⟨0, 0⟩ = 9 ∧
      st.gen.tiles ⟨3, 0⟩ = TileType.Free ∧
      (⟨4, 0⟩ : Position) ∈ st.gen.neighbors true ⟨3, 0⟩ ∧
      st.gen.isPossible ⟨4, 0⟩ = true ∧ st.gen.getZoneId ⟨4, 0⟩ = (rowZone 6).id ∧
      (∃ r, crunchPath (detourGen false) (rowZone 6) ⟨2, 0⟩ ⟨0, 0⟩ true none = some r ∧
        r.result = false) ∧
      ∃ r, crunchPath (detourGen true) (rowZone 6) ⟨2, 0⟩ ⟨0, 0⟩ true none = some r ∧
        r.result = false ∧ r.gen.tiles ⟨3, 0⟩ = TileType.Free ∧
        r.gen.tiles ⟨4, 0⟩ = TileType.Possible :=
  ⟨_, rfl, rfl, rfl, rfl, rfl, rfl, by decide, rfl, rfl, ⟨_, rfl, rfl⟩, _, rfl, rfl, rfl, rfl⟩

/-! ## Lemmas: weighted searches -/

theorem searchInit_weighted (m : MapGenerator) (maxCost : Nat)
    (edge : Position → Position → Nat → Prop) (source : Position) :
    WeightedInv m maxCost edge source (searchInit source) := by
  refine ⟨by simp [searchInit], by simp [searchInit], Or.inr ⟨rfl, rfl, ?_⟩, ?_, ?_, ?_,
    List.nodup_nil, ?_, ?_, ?_, ?_⟩
  · intro p hp
    simp [searchInit, hp]
  · intro e he
    simp only [searchInit, PriorityQueue.push, List.nil_append, List.mem_singleton] at he
    subst he
    exact ⟨0, by simp [searchInit], Nat.le_refl _⟩
  · intro p d hd
    right
    by_cases hp : p = source
    · subst hp
      simp only [searchInit, if_true, Option.some.injEq] at hd
      subst hd
      simp [searchInit, PriorityQueue.push]
    · simp [searchInit, hp] at hd
  · intro c hc
    simp [searchInit] at hc
  · intro p d hd
    by_cases hp : p = source
    · exact Or.inl hp
    · simp [searchInit, hp] at hd
  · intro p d hd hp
    simp [searchInit, hp] at hd
  · intro e he
    simp only [searchInit, PriorityQueue.push, List.nil_append, List.mem_singleton] at he
    subst he
    exact Nat.zero_le _
  · intro p d hd
    by_cases hp : p = source
    · subst hp
      simp only [searchInit, if_true, Option.some.injEq] at hd
      subst hd
      exact Nat.zero_le _
    · simp [searchInit, hp] at hd

theorem closedOthers_setInsert_le (st : SearchState) (c p : Position) :
    closedOthers st p ≤ closedOthers (closeTop st c) p := by
  unfold closedOthers closeTop setInsert
  dsimp only
  split
  · exact Nat.le_refl _
  · rw [List.filter_append, List.length_append]
    exact Nat.le_add_right _ _

theorem closedOthers_of_not_mem (st : SearchState) (p : Position) (h : p ∉ st.closed) :
    closedOthers st p = st.closed.length := by
  unfold closedOthers
  rw [List.filter_eq_self.2]
  intro c hc
  simp only [decide_eq_true_eq]
  intro hcp
  exact h (hcp ▸ hc)

theorem closedOthers_of_mem (st : SearchState) (p : Position) (h : p ∈ st.closed)
    (hnd : st.closed.Nodup) : closedOthers st p + 1 = st.closed.length := by
  unfold closedOthers
  generalize st.closed = l at h hnd
  induction l with
  | nil => cases h
  | cons a rest ih =>
    rw [List.nodup_cons] at hnd
    rw [List.filter_cons]
    by_cases hap : a = p
    · subst hap
      simp only [ne_eq, not_true_eq_false, decide_False, Bool.false_eq_true, if_false,
        List.length_cons]
      rw [List.filter_eq_self.2]
      intro c hc
      simp only [decide_eq_true_eq]
      intro hca
      exact hnd.1 (hca ▸ hc)
    · have hp : p ∈ rest := by
        rcases List.mem_cons.1 h with h1 | h1
        · exact absurd h1.symm hap
        · exact h1
      have := ih hp hnd.2
      simp only [ne_eq] at this
      simp only [ne_eq, hap, not_false_eq_true, decide_True, if_true, List.length_cons]
      omega

theorem improves_lt {distance : Nat} {best : Option Nat} (h : improves distance best = true)
    (d : Nat) (hd : best = some d) : distance < d := by
  subst hd
  simpa [improves] using h

/-- The invariant of a weighted search survives `queue.pop()` and `closed.insert`, and the
popped entry obeys the bounds of the invariant. -/
theorem WeightedInv.closeTop_inv {m : MapGenerator} {maxCost : Nat}
    {edge : Position → Position → Nat → Prop} {source : Position} {st : SearchState}
    (inv : WeightedInv m maxCost edge source st) {node : Position × Nat}
    (htop : PriorityQueue.top st.queue = some node) :
    WeightedInv m maxCost edge source (closeTop st node.1) ∧
    node.1 ∈ (closeTop st node.1).closed ∧ source ∈ (closeTop st node.1).closed ∧
    (∃ d, (closeTop st node.1).distances node.1 = some d ∧ d ≤ node.2) ∧
    node.2 ≤ maxCost * closedOthers (closeTop st node.1) node.1 := by
  have hmem := PriorityQueue.top_mem htop
  have hcl : ∀ c, c ∈ st.closed → c ∈ (closeTop st node.1).closed := by
    intro c hc
    simp only [closeTop, mem_setInsert]
    exact Or.inl hc
  have hnode : node.1 ∈ (closeTop st node.1).closed :=
    (mem_setInsert st.closed node.1 node.1).2 (Or.inr rfl)
  have hsrc : source ∈ (closeTop st node.1).closed := by
    rcases inv.started with h | ⟨_, hq, _⟩
    · exact hcl _ h
    · rw [hq] at hmem
      simp only [List.mem_singleton] at hmem
      rw [hmem]
      simp [closeTop, mem_setInsert]
  refine ⟨⟨inv.src_dist, inv.src_from, Or.inl hsrc, ?_, ?_, ?_, ?_, inv.in_map, ?_, ?_, ?_⟩,
    hnode, hsrc, inv.queue_dist node hmem,
    Nat.le_trans (inv.key_bound node hmem)
      (Nat.mul_le_mul_left _ (closedOthers_setInsert_le st node.1 node.1))⟩
  · intro e he
    exact inv.queue_dist e (PriorityQueue.mem_pop he)
  · intro p d hd
    rcases inv.covered p d hd with h | h
    · exact Or.inl (hcl _ h)
    · rcases PriorityQueue.mem_top_or_pop htop h with h1 | h1
      · left
        have : p = node.1 := by rw [← h1]
        rw [this]
        exact hnode
      · exact Or.inr h1
  · intro c hc
    simp only [closeTop, mem_setInsert] at hc
    rcases hc with h | h
    · exact inv.closed_dist c h
    · obtain ⟨d, hd, _⟩ := inv.queue_dist node hmem
      exact ⟨d, h ▸ hd⟩
  · simp only [closeTop, setInsert]
    split
    · exact inv.nodup
    · rename_i hnot
      rw [List.nodup_append]
      refine ⟨inv.nodup, List.nodup_singleton _, ?_⟩
      intro a ha hb
      simp only [List.mem_singleton] at hb
      exact hnot (hb ▸ ha)
  · intro p d hd hp
    obtain ⟨par, w, dpar, h1, h2, h3⟩ := inv.parent p d hd hp
    exact ⟨par, w, dpar, h1, hcl _ h2, h3⟩
  · intro e he
    exact Nat.le_trans (inv.key_bound e (PriorityQueue.mem_pop he))
      (Nat.mul_le_mul_left _ (closedOthers_setInsert_le st node.1 e.1))
  · intro p d hd
    exact Nat.le_trans (inv.dist_bound p d hd)
      (Nat.mul_le_mul_left _ (closedOthers_setInsert_le st node.1 p))

/-- The invariant of a weighted search survives the visit of a neighbour that improves it. -/
theorem WeightedInv.relaxTile_inv {m : MapGenerator} {maxCost : Nat}
    {edge : Position → Position → Nat → Prop} {source : Position} {st : SearchState}
    (spec : EdgeSpec m maxCost edge) (inv : WeightedInv m maxCost edge source st)
    {cur p : Position} {dc base w : Nat}
    (hsrc : source ∈ st.closed) (hcur : cur ∈ st.closed)
    (hdc : st.distances cur = some dc) (hbase : dc ≤ base)
    (hbound : base ≤ maxCost * closedOthers st cur)
    (hp : p ∉ st.closed) (hedge : edge cur p w)
    (hbetter : improves (base + w) (st.distances p) = true) :
    WeightedInv m maxCost edge source (relaxTile st cur p (base + w)) := by
  have hps : p ≠ source := fun h => hp (h ▸ hsrc)
  have hpc : p ≠ cur := fun h => hp (h ▸ hcur)
  have hkey : base + w ≤ maxCost * closedOthers st p := by
    rw [closedOthers_of_not_mem st p hp]
    have h1 := closedOthers_of_mem st cur hcur inv.nodup
    have h2 := spec.le_max _ _ _ hedge
    calc base + w ≤ maxCost * closedOthers st cur + maxCost := Nat.add_le_add hbound h2
      _ = maxCost * (closedOthers st cur + 1) := by rw [Nat.mul_add, Nat.mul_one]
      _ = maxCost * st.closed.length := by rw [h1]
  refine ⟨?_, ?_, Or.inl hsrc, ?_, ?_, ?_, inv.nodup, ?_, ?_, ?_, ?_⟩
  · simp only [relaxTile, if_neg (Ne.symm hps)]
    exact inv.src_dist
  · simp only [relaxTile, if_neg (Ne.symm hps)]
    exact inv.src_from
  · intro e he
    simp only [relaxTile, PriorityQueue.push, List.mem_append, List.mem_singleton] at he ⊢
    by_cases hep : e.1 = p
    · rw [if_pos hep]
      refine ⟨base + w, rfl, ?_⟩
      rcases he with h | h
      · obtain ⟨d, hd, hle⟩ := inv.queue_dist e h
        rw [hep] at hd
        have := improves_lt hbetter d hd
        omega
      · rw [h]
    · rw [if_neg hep]
      rcases he with h | h
      · exact inv.queue_dist e h
      · rw [h] at hep
        exact absurd rfl hep
  · intro q d hd
    simp only [relaxTile, PriorityQueue.push, List.mem_append, List.mem_singleton] at hd ⊢
    by_cases hqp : q = p
    · rw [if_pos hqp] at hd
      cases hd
      exact Or.inr (Or.inr (by rw [hqp]))
    · rw [if_neg hqp] at hd
      rcases inv.covered q d hd with h | h
      · exact Or.inl h
      · exact Or.inr (Or.inl h)
  · intro c hc
    have hcp : c ≠ p := fun h => hp (h ▸ hc)
    simp only [relaxTile, if_neg hcp]
    exact inv.closed_dist c hc
  · intro q d hd
    simp only [relaxTile] at hd
    by_cases hqp : q = p
    · right
      rw [hqp]
      exact spec.in_map _ _ _ hedge
    · rw [if_neg hqp] at hd
      exact inv.in_map q d hd
  · intro q d hd hq
    simp only [relaxTile] at hd ⊢
    by_cases hqp : q = p
    · rw [if_pos hqp] at hd
      cases hd
      refine ⟨cur, w, dc, by rw [if_pos hqp], hcur, ?_, hqp ▸ hedge, by omega⟩
      rw [if_neg (Ne.symm hpc)]
      exact hdc
    · rw [if_neg hqp] at hd
      obtain ⟨par, w1, dpar, h1, h2, h3, h4⟩ := inv.parent q d hd hq
      have hparp : par ≠ p := fun h => hp (h ▸ h2)
      refine ⟨par, w1, dpar, by rw [if_neg hqp]; exact h1, h2, ?_, h4⟩
      rw [if_neg hparp]
      exact h3
  · intro e he
    simp only [relaxTile, PriorityQueue.push, List.mem_append, List.mem_singleton] at he
    rcases he with h | h
    · exact inv.key_bound e h
    · rw [h]
      exact hkey
  · intro q d hd
    simp only [relaxTile] at hd
    by_cases hqp : q = p
    · rw [if_pos hqp] at hd
      cases hd
      rw [hqp]
      exact hkey
    · rw [if_neg hqp] at hd
      exact inv.dist_bound q d hd

theorem WeightedInv.closed_length {m : MapGenerator} {maxCost : Nat}
    {edge : Position → Position → Nat → Prop} {source : Position} {st : SearchState}
    (inv : WeightedInv m maxCost edge source st) :
    st.closed.length ≤ m.width * m.height + 1 := by
  have h1 : closedOthers st source ≤ m.width * m.height := by
    unfold closedOthers
    rw [← m.length_allTiles]
    apply List.Subperm.length_le
    apply List.subperm_of_subset (inv.nodup.filter _)
    intro c hc
    rw [List.mem_filter] at hc
    obtain ⟨d, hd⟩ := inv.closed_dist c hc.1
    rcases inv.in_map c d hd with h | h
    · simp [h] at hc
    · exact m.mem_allTiles c h
  by_cases hs : source ∈ st.closed
  · have := closedOthers_of_mem st source hs inv.nodup
    omega
  · have := closedOthers_of_not_mem st source hs
    omega

theorem closedOthers_le_length (st : SearchState) (p : Position) :
    closedOthers st p ≤ st.closed.length :=
  List.length_filter_le _ _

/-- No distance of a weighted search exceeds the largest cost of a step times the number of
tiles the search can close. -/
theorem WeightedInv.dist_le {m : MapGenerator} {maxCost : Nat}
    {edge : Position → Position → Nat → Prop} {source : Position} {st : SearchState}
    (inv : WeightedInv m maxCost edge source st) (p : Position) (d : Nat)
    (hd : st.distances p = some d) : d ≤ maxCost * (m.width * m.height + 1) :=
  Nat.le_trans (inv.dist_bound p d hd)
    (Nat.mul_le_mul_left _ (Nat.le_trans (closedOthers_le_length st p) inv.closed_length))

theorem sum_map_lt (l : List Position) (f g : Position → Nat) (hle : ∀ t ∈ l, g t ≤ f t)
    (p : Position) (hp : p ∈ l) (hlt : g p < f p) : (l.map g).sum < (l.map f).sum := by
  induction l with
  | nil => cases hp
  | cons a rest ih =>
    simp only [List.map_cons, List.sum_cons]
    have hrest : (rest.map g).sum ≤ (rest.map f).sum := by
      clear ih hp
      induction rest with
      | nil => simp
      | cons b rest ihr =>
        simp only [List.map_cons, List.sum_cons]
        have h1 := hle b (List.mem_cons_of_mem _ (List.mem_cons_self _ _))
        have h2 := ihr (fun t ht => by
          rcases List.mem_cons.1 ht with h | h
          · exact hle t (h ▸ List.mem_cons_self _ _)
          · exact hle t (List.mem_cons_of_mem _ (List.mem_cons_of_mem _ h)))
        omega
    have ha := hle a (List.mem_cons_self _ _)
    rcases List.mem_cons.1 hp with h | h
    · subst h
      omega
    · have := ih (fun t ht => hle t (List.mem_cons_of_mem _ ht)) h
      omega

/-- A visit that improves a tile does not raise the measure of a weighted search. -/
theorem searchPotential_relaxTile {m : MapGenerator} {maxCost : Nat}
    {edge : Position → Position → Nat → Prop} {source : Position} {st : SearchState}
    {cur p : Position} {distance : Nat}
    (hmap : m.isInTheMap p = true)
    (hinv : WeightedInv m maxCost edge source (relaxTile st cur p distance))
    (hbetter : improves distance (st.distances p) = true) :
    searchPotential m (maxCost * (m.width * m.height + 1)) (relaxTile st cur p distance) ≤
      searchPotential m (maxCost * (m.width * m.height + 1)) st := by
  have hd : distance ≤ maxCost * (m.width * m.height + 1) :=
    hinv.dist_le p distance (by simp [relaxTile])
  have hlt := sum_map_lt m.allTiles
    (fun t => tilePotential (maxCost * (m.width * m.height + 1)) (st.distances t))
    (fun t => tilePotential (maxCost * (m.width * m.height + 1))
      ((relaxTile st cur p distance).distances t))
    (by
      intro t _
      simp only [relaxTile]
      by_cases htp : t = p
      · rw [if_pos htp, htp]
        cases hdp : st.distances p with
        | none => simp only [tilePotential]; omega
        | some d0 =>
          have := improves_lt hbetter d0 hdp
          simp only [tilePotential]
          omega
      · rw [if_neg htp])
    p (m.mem_allTiles p hmap)
    (by
      simp only [relaxTile, if_true]
      cases hdp : st.distances p with
      | none => simp only [tilePotential]; omega
      | some d0 =>
        have := improves_lt hbetter d0 hdp
        simp only [tilePotential]
        omega)
  unfold searchPotential
  have hq : (relaxTile st cur p distance).queue.length = st.queue.length + 1 := by
    simp [relaxTile, PriorityQueue.push]
  rw [hq]
  omega

theorem searchPotential_closeTop (m : MapGenerator) (bound : Nat) (st : SearchState)
    {node : Position × Nat} (htop : PriorityQueue.top st.queue = some node) :
    searchPotential m bound (closeTop st node.1) + 1 = searchPotential m bound st := by
  unfold searchPotential
  have := PriorityQueue.length_pop htop
  simp only [closeTop]
  omega

theorem searchPotential_init (m : MapGenerator) (maxCost : Nat) (source : Position) :
    searchPotential m (maxCost * (m.width * m.height + 1)) (searchInit source) + 1 ≤
      searchFuel m maxCost := by
  unfold searchPotential searchFuel
  have hle : ∀ (l : List Position),
      (l.map fun t => tilePotential (maxCost * (m.width * m.height + 1))
        ((searchInit source).distances t)).sum ≤
        l.length * (maxCost * (m.width * m.height + 1) + 1) := by
    intro l
    induction l with
    | nil => simp
    | cons a rest ih =>
      simp only [List.map_cons, List.sum_cons, List.length_cons]
      have h1 : tilePotential (maxCost * (m.width * m.height + 1))
          ((searchInit source).distances a) ≤ maxCost * (m.width * m.height + 1) + 1 := by
        simp only [searchInit]
        split
        · simp [tilePotential]
        · simp [tilePotential]
      rw [Nat.succ_mul]
      omega
  have := hle m.allTiles
  rw [m.length_allTiles] at this
  simp only [searchInit, PriorityQueue.push, List.nil_append, List.length_singleton]
  simp only [searchInit] at this
  omega

/-! ## Lemmas: the search of `connectWithCenter` -/

theorem movementCost_range (m : MapGenerator) (ptb : Bool) (p : Position) (w : Nat)
    (h : movementCost m ptb p = some w) : 1 ≤ w ∧ w ≤ 3 := by
  unfold movementCost at h
  split at h
  · cases h; omega
  · split at h
    · cases h; omega
    · split at h
      · cases h; omega
      · cases h

theorem centerEdge_spec (m : MapGenerator) (z : TemplateZone) (os ptb : Bool) :
    EdgeSpec m 3 (centerEdge m z os ptb) :=
  ⟨fun a b _ h => m.isInTheMap_of_mem_neighbors os a b h.1,
    fun _ b w h => (movementCost_range m ptb b w h.2.2).1,
    fun _ b w h => (movementCost_range m ptb b w h.2.2).2⟩

/-- Every recorded distance of the search of `connectWithCenter` is the cost of a walk. -/
theorem CenterInv.walk {m : MapGenerator} {z : TemplateZone} {os ptb : Bool}
    {source : Position} {settled : Position → Position → Prop} {st : SearchState}
    (inv : CenterInv m z os ptb source settled st) :
    ∀ (d : Nat) (p : Position), st.distances p = some d →
      Walk (centerEdge m z os ptb) source p d := by
  intro d
  induction d using Nat.strong_induction_on with
  | _ d ih =>
    intro p hp
    by_cases hps : p = source
    · subst hps
      rw [inv.weighted.src_dist] at hp
      cases hp
      exact Walk.start
    · obtain ⟨par, w, dpar, _, _, hdpar, hedge, hd⟩ := inv.parent_eq p d hp hps
      have hw := (centerEdge_spec m z os ptb).positive _ _ _ hedge
      subst hd
      exact Walk.step (ih dpar (by omega) par hdpar) hedge

/-- The cases of one visit of the lambda of `connectWithCenter`. -/
theorem connectWithCenterVisit_cases (m : MapGenerator) (z : TemplateZone) (ptb : Bool)
    (cur : Position) (st : SearchState) (p : Position) :
    (connectWithCenterVisit m z ptb cur st p = st ∧
      (p ∈ st.closed ∨ m.getZoneId p ≠ z.id ∨ movementCost m ptb p = none ∨
        ∃ w, movementCost m ptb p = some w ∧
          improves ((st.distances cur).getD 0 + w) (st.distances p) = false)) ∨
    ∃ w, p ∉ st.closed ∧ m.getZoneId p = z.id ∧ movementCost m ptb p = some w ∧
      improves ((st.distances cur).getD 0 + w) (st.distances p) = true ∧
      connectWithCenterVisit m z ptb cur st p =
        relaxTile st cur p ((st.distances cur).getD 0 + w) := by
  unfold connectWithCenterVisit
  by_cases h1 : p ∈ st.closed
  · left
    rw [if_pos h1]
    exact ⟨rfl, Or.inl h1⟩
  rw [if_neg h1]
  by_cases h2 : m.getZoneId p ≠ z.id
  · left
    rw [if_pos h2]
    exact ⟨rfl, Or.inr (Or.inl h2)⟩
  rw [if_neg h2]
  cases hc : movementCost m ptb p with
  | none =>
    left
    exact ⟨rfl, Or.inr (Or.inr (Or.inl rfl))⟩
  | some w =>
    dsimp only
    cases hi : improves ((st.distances cur).getD 0 + w) (st.distances p) with
    | false =>
      left
      simp only [Bool.false_eq_true, if_false]
      exact ⟨trivial, Or.inr (Or.inr (Or.inr ⟨w, rfl, hi⟩))⟩
    | true =>
      right
      exact ⟨w, h1, not_not.1 h2, rfl, hi, rfl⟩

theorem improves_false {distance : Nat} {best : Option Nat}
    (h : improves distance best = false) : ∃ d, best = some d ∧ d ≤ distance := by
  cases best with
  | none => simp [improves] at h
  | some d =>
    refine ⟨d, rfl, ?_⟩
    simp only [improves, decide_eq_false_iff_not] at h
    omega

/-- One visit of the lambda of `connectWithCenter` keeps the invariant, settles the step to
the visited neighbour and does not raise the measure. -/
theorem CenterInv.visit {m : MapGenerator} {z : TemplateZone} {os ptb : Bool}
    {source : Position} {settled : Position → Position → Prop} {st : SearchState}
    (inv : CenterInv m z os ptb source settled st) {cur : Position} {dc : Nat}
    (hsrc : source ∈ st.closed) (hcur : cur ∈ st.closed) (hdc : st.distances cur = some dc)
    (p : Position) (hn : p ∈ m.neighbors os cur) :
    CenterInv m z os ptb source (fun c q => settled c q ∨ (c = cur ∧ q = p))
      (connectWithCenterVisit m z ptb cur st p) ∧
    (connectWithCenterVisit m z ptb cur st p).closed = st.closed ∧
    (connectWithCenterVisit m z ptb cur st p).distances cur = some dc ∧
    searchPotential m (3 * (m.width * m.height + 1)) (connectWithCenterVisit m z ptb cur st p) ≤
      searchPotential m (3 * (m.width * m.height + 1)) st := by
  have hgetD : (st.distances cur).getD 0 = dc := by rw [hdc]; rfl
  rcases connectWithCenterVisit_cases m z ptb cur st p with ⟨heq, hwhy⟩ | ⟨w, hp, hz, hw, hbetter, heq⟩
  · rw [heq]
    refine ⟨⟨inv.weighted, inv.parent_eq, inv.optimal, ?_⟩, rfl, hdc, Nat.le_refl _⟩
    intro c hc dcc hdcc q w hedge hs
    rcases hs with hs | ⟨hcc, hqp⟩
    · exact inv.relaxed c hc dcc hdcc q w hedge hs
    · subst hcc hqp
      rw [hdc] at hdcc
      cases hdcc
      rcases hwhy with h | h | h | ⟨w1, hw1, h⟩
      · obtain ⟨dq, hdq⟩ := inv.weighted.closed_dist q h
        refine ⟨dq, hdq, ?_⟩
        exact inv.optimal q h dq hdq _ (Walk.step (inv.walk dc c hdc) hedge)
      · exact absurd hedge.2.1 h
      · rw [hedge.2.2] at h
        cases h
      · rw [hedge.2.2] at hw1
        cases hw1
        rw [hgetD] at h
        exact improves_false h
  · rw [heq, hgetD]
    rw [hgetD] at hbetter
    have hedge : centerEdge m z os ptb cur p w := ⟨hn, hz, hw⟩
    have hpc : p ≠ cur := fun h => hp (h ▸ hcur)
    have hwinv := WeightedInv.relaxTile_inv (centerEdge_spec m z os ptb) inv.weighted hsrc hcur
      hdc (Nat.le_refl _) (inv.weighted.dist_bound cur dc hdc) hp hedge hbetter
    have hdist : ∀ q, q ≠ p → (relaxTile st cur p (dc + w)).distances q = st.distances q := by
      intro q hq
      simp only [relaxTile, if_neg hq]
    have hdistc : ∀ c ∈ st.closed, (relaxTile st cur p (dc + w)).distances c = st.distances c :=
      fun c hc => hdist c (fun h => hp (h ▸ hc))
    refine ⟨⟨hwinv, ?_, ?_, ?_⟩, rfl, ?_,
      searchPotential_relaxTile (m.isInTheMap_of_mem_neighbors os cur p hn) hwinv hbetter⟩
    · intro q d hd hq
      by_cases hqp : q = p
      · subst hqp
        simp only [relaxTile, if_true, Option.some.injEq] at hd
        subst hd
        refine ⟨cur, w, dc, by simp [relaxTile], hcur, ?_, hedge, rfl⟩
        rw [hdistc cur hcur]
        exact hdc
      · rw [hdist q hqp] at hd
        obtain ⟨par, w1, dpar, h1, h2, h3, h4⟩ := inv.parent_eq q d hd hq
        refine ⟨par, w1, dpar, by simp only [relaxTile, if_neg hqp]; exact h1, h2, ?_, h4⟩
        rw [hdistc par h2]
        exact h3
    · intro c hc d hd x hx
      rw [hdistc c hc] at hd
      exact inv.optimal c hc d hd x hx
    · intro c hc dcc hdcc q w1 hedge1 hs
      rw [hdistc c hc] at hdcc
      by_cases hqp : q = p
      · subst hqp
        refine ⟨dc + w, by simp [relaxTile], ?_⟩
        rcases hs with hs | ⟨hcc, _⟩
        · obtain ⟨dq, hdq, hle⟩ := inv.relaxed c hc dcc hdcc q w1 hedge1 hs
          have := improves_lt hbetter dq hdq
          omega
        · subst hcc
          rw [hdc] at hdcc
          cases hdcc
          have h1 := hedge1.2.2
          rw [hw] at h1
          cases h1
          exact Nat.le_refl _
      · rw [hdist q hqp]
        rcases hs with hs | ⟨_, hqp2⟩
        · exact inv.relaxed c hc dcc hdcc q w1 hedge1 hs
        · exact absurd hqp2 hqp
    · rw [hdist cur (Ne.symm hpc)]
      exact hdc

theorem CenterInv.mono {m : MapGenerator} {z : TemplateZone} {os ptb : Bool}
    {source : Position} {s1 s2 : Position → Position → Prop} {st : SearchState}
    (h : ∀ c q w, centerEdge m z os ptb c q w → s2 c q → s1 c q)
    (inv : CenterInv m z os ptb source s1 st) :
    CenterInv m z os ptb source s2 st :=
  ⟨inv.weighted, inv.parent_eq, inv.optimal,
    fun c hc dc hdc q w hedge hs => inv.relaxed c hc dc hdc q w hedge (h c q w hedge hs)⟩

/-- The visits of the neighbours of the current node keep the invariant and settle the steps
to all of them. -/
theorem CenterInv.expand {m : MapGenerator} {z : TemplateZone} {os ptb : Bool}
    {source : Position} {cur : Position} {dc : Nat} :
    ∀ (l : List Position), (∀ p ∈ l, p ∈ m.neighbors os cur) →
    ∀ (settled : Position → Position → Prop) (st : SearchState),
      CenterInv m z os ptb source settled st →
      source ∈ st.closed → cur ∈ st.closed → st.distances cur = some dc →
      CenterInv m z os ptb source (fun c q => settled c q ∨ (c = cur ∧ q ∈ l))
        (l.foldl (connectWithCenterVisit m z ptb cur) st) ∧
      (l.foldl (connectWithCenterVisit m z ptb cur) st).closed = st.closed ∧
      searchPotential m (3 * (m.width * m.height + 1))
          (l.foldl (connectWithCenterVisit m z ptb cur) st) ≤
        searchPotential m (3 * (m.width * m.height + 1)) st := by
  intro l
  induction l with
  | nil =>
    intro _ settled st inv _ _ _
    refine ⟨inv.mono ?_, rfl, Nat.le_refl _⟩
    intro c q _ _ h
    rcases h with h | ⟨_, h⟩
    · exact h
    · cases h
  | cons a rest ih =>
    intro hl settled st inv hsrc hcur hdc
    rw [List.foldl_cons]
    obtain ⟨inv1, hcl1, hdc1, hpot1⟩ :=
      inv.visit hsrc hcur hdc a (hl a (List.mem_cons_self _ _))
    obtain ⟨inv2, hcl2, hpot2⟩ := ih (fun p hp => hl p (List.mem_cons_of_mem _ hp)) _ _ inv1
      (hcl1 ▸ hsrc) (hcl1 ▸ hcur) hdc1
    refine ⟨inv2.mono ?_, hcl2.trans hcl1, Nat.le_trans hpot2 hpot1⟩
    intro c q _ _ h
    rcases h with h | ⟨h1, h2⟩
    · exact Or.inl (Or.inl h)
    · rcases List.mem_cons.1 h2 with h3 | h3
      · exact Or.inl (Or.inr ⟨h1, h3⟩)
      · exact Or.inr ⟨h1, h3⟩

/-- A walk from the source ends at a closed tile whose distance is at most its cost, or some
tile that is not closed has a distance of at most that cost. -/
theorem CenterInv.frontier {m : MapGenerator} {z : TemplateZone} {os ptb : Bool}
    {source : Position} {st : SearchState}
    (inv : CenterInv m z os ptb source (fun _ _ => True) st) {v : Position} {x : Nat}
    (hwalk : Walk (centerEdge m z os ptb) source v x) :
    (v ∈ st.closed ∧ ∃ dv, st.distances v = some dv ∧ dv ≤ x) ∨
    ∃ y dy, y ∉ st.closed ∧ st.distances y = some dy ∧ dy ≤ x := by
  induction hwalk with
  | start =>
    rcases inv.weighted.started with h | ⟨h, _, _⟩
    · exact Or.inl ⟨h, 0, inv.weighted.src_dist, Nat.le_refl _⟩
    · exact Or.inr ⟨source, 0, by rw [h]; simp, inv.weighted.src_dist, Nat.le_refl _⟩
  | @step b d c w _ hedge ih =>
    rcases ih with ⟨hb, db, hdb, hle⟩ | ⟨y, dy, hy, hdy, hle⟩
    · obtain ⟨dd, hdd, hle2⟩ := inv.relaxed b hb db hdb d w hedge trivial
      by_cases hd : d ∈ st.closed
      · exact Or.inl ⟨hd, dd, hdd, by omega⟩
      · exact Or.inr ⟨d, dd, hd, hdd, by omega⟩
    · exact Or.inr ⟨y, dy, hy, hdy, by omega⟩

/-- The invariant of the search of `connectWithCenter` survives `queue.pop()` and
`closed.insert`: the tile that gets closed has its least distance. -/
theorem CenterInv.pop {m : MapGenerator} {z : TemplateZone} {os ptb : Bool}
    {source : Position} {st : SearchState}
    (inv : CenterInv m z os ptb source (fun _ _ => True) st) {node : Position × Nat}
    (htop : PriorityQueue.top st.queue = some node) :
    CenterInv m z os ptb source (fun c _ => c ≠ node.1) (closeTop st node.1) ∧
    node.1 ∈ (closeTop st node.1).closed ∧ source ∈ (closeTop st node.1).closed ∧
    ∃ dc, (closeTop st node.1).distances node.1 = some dc := by
  obtain ⟨hw, hnode, hsrc, ⟨dc, hdc, hdcle⟩, _⟩ := inv.weighted.closeTop_inv htop
  have hcl : ∀ c, c ∈ (closeTop st node.1).closed → c ∈ st.closed ∨ c = node.1 := by
    intro c hc
    simpa only [closeTop, mem_setInsert] using hc
  refine ⟨⟨hw, ?_, ?_, ?_⟩, hnode, hsrc, dc, hdc⟩
  · intro p d hd hp
    obtain ⟨par, w, dpar, h1, h2, h3⟩ := inv.parent_eq p d hd hp
    exact ⟨par, w, dpar, h1, (mem_setInsert _ _ _).2 (Or.inl h2), h3⟩
  · intro c hc d hd x hx
    by_cases hold : c ∈ st.closed
    · exact inv.optimal c hold d hd x hx
    · have hcn : c = node.1 := by
        rcases hcl c hc with h | h
        · exact absurd h hold
        · exact h
      rcases inv.frontier hx with ⟨h, _⟩ | ⟨y, dy, hy, hdy, hle⟩
      · exact absurd h hold
      · have hq : (y, dy) ∈ st.queue := by
          rcases inv.weighted.covered y dy hdy with h | h
          · exact absurd h hy
          · exact h
        have h1 := PriorityQueue.top_le htop (y, dy) hq
        have h2 : d = dc := by
          have : (closeTop st node.1).distances c = st.distances c := rfl
          rw [hcn] at hd
          rw [hdc] at hd
          cases hd
          rfl
        simp only at h1
        omega
  · intro c hc dcc hdcc p w hedge hne
    have hold : c ∈ st.closed := by
      rcases hcl c hc with h | h
      · exact h
      · exact absurd h hne
    exact inv.relaxed c hold dcc hdcc p w hedge trivial

/-- The search loop of `connectWithCenter` returns when the fuel exceeds the measure, and its
outcome satisfies `CenterPost`. -/
theorem connectWithCenterLoop_spec {m : MapGenerator} {z : TemplateZone} {os ptb : Bool}
    {source : Position} :
    ∀ (fuel : Nat) (st : SearchState),
      CenterInv m z os ptb source (fun _ _ => True) st →
      searchPotential m (3 * (m.width * m.height + 1)) st + 1 ≤ fuel →
      ∃ out, connectWithCenterLoop m z os ptb fuel st = some out ∧
        CenterPost m z os ptb source out := by
  intro fuel
  induction fuel with
  | zero => intro st _ h; omega
  | succ fuel ih =>
    intro st inv hfuel
    unfold connectWithCenterLoop
    cases htop : PriorityQueue.top st.queue with
    | none => exact ⟨_, rfl, PriorityQueue.top_eq_none htop, inv⟩
    | some node =>
      dsimp only
      obtain ⟨inv1, hnode, hsrc, dc, hdc⟩ := inv.pop htop
      have hpot := searchPotential_closeTop m (3 * (m.width * m.height + 1)) st htop
      by_cases hgoal : node.1 = z.pos
      · rw [if_pos hgoal]
        exact ⟨_, rfl, hgoal, hnode, inv1⟩
      · rw [if_neg hgoal]
        obtain ⟨inv2, _, hpot2⟩ := CenterInv.expand (m.neighbors os node.1) (fun _ h => h) _ _
          inv1 hsrc hnode hdc
        change ∃ out, connectWithCenterLoop m z os ptb fuel
          ((m.neighbors os node.1).foldl (connectWithCenterVisit m z ptb node.1)
            (closeTop st node.1)) = some out ∧ _
        apply ih
        · refine inv2.mono ?_
          intro c q w hedge _
          by_cases hc : c = node.1
          · exact Or.inr ⟨hc, hc ▸ hedge.1⟩
          · exact Or.inl hc
        · have h3 : searchPotential m (3 * (m.width * m.height + 1))
              ((m.neighbors os node.1).foldl (connectWithCenterVisit m z ptb node.1)
                (closeTop st node.1)) ≤
              searchPotential m (3 * (m.width * m.height + 1)) (closeTop st node.1) := hpot2
          omega

/-! ## The way `connectWithCenter` frees (C24 to C26) -/

theorem enterCost_eq (m : MapGenerator) (z : TemplateZone) (ptb : Bool) (p : Position) :
    enterCost m z ptb p = if m.getZoneId p = z.id then movementCost m ptb p else none := by
  unfold enterCost movementCost MapGenerator.isFree MapGenerator.isPossible
  by_cases hz : m.getZoneId p = z.id
  · simp only [hz, ne_eq, not_true_eq_false, if_false, if_true, decide_eq_true_eq,
      Bool.and_eq_true]
  · simp [hz]

theorem centerEdge_iff (m : MapGenerator) (z : TemplateZone) (os ptb : Bool)
    (a b : Position) (w : Nat) :
    centerEdge m z os ptb a b w ↔ b ∈ m.neighbors os a ∧ enterCost m z ptb b = some w := by
  unfold centerEdge
  rw [enterCost_eq]
  by_cases hz : m.getZoneId b = z.id
  · simp [hz]
  · simp [hz]

theorem chainCost_cons (m : MapGenerator) (z : TemplateZone) (os ptb : Bool)
    (a b : Position) (rest : List Position) (c : Nat)
    (h : chainCost m z os ptb a (b :: rest) = some c) :
    ∃ w c1, centerEdge m z os ptb a b w ∧ chainCost m z os ptb b rest = some c1 ∧
      c = w + c1 := by
  unfold chainCost at h
  split_ifs at h with hn
  split at h
  · rename_i w c1 hw hc1
    cases h
    exact ⟨w, c1, (centerEdge_iff m z os ptb a b w).2 ⟨hn, hw⟩, hc1, rfl⟩
  · cases h

theorem chainCost_snoc (m : MapGenerator) (z : TemplateZone) (os ptb : Bool) (p : Position)
    (w : Nat) :
    ∀ (rest : List Position) (a : Position) (c : Nat),
      chainCost m z os ptb a rest = some c →
      centerEdge m z os ptb (chainEnd a rest) p w →
      chainCost m z os ptb a (rest ++ [p]) = some (c + w) ∧
        chainEnd a (rest ++ [p]) = p := by
  intro rest
  induction rest with
  | nil =>
    intro a c hc hedge
    have h := (centerEdge_iff m z os ptb a p w).1 hedge
    simp only [chainCost] at hc
    cases hc
    simp [chainCost, chainEnd, h.1, h.2]
  | cons b rest ih =>
    intro a c hc hedge
    obtain ⟨w1, c1, h1, h2, h3⟩ := chainCost_cons m z os ptb a b rest c hc
    obtain ⟨h4, h5⟩ := ih b c1 h2 hedge
    have h := (centerEdge_iff m z os ptb a b w1).1 h1
    refine ⟨?_, h5⟩
    rw [List.cons_append]
    unfold chainCost
    rw [if_pos h.1, h.2, h4, h3]
    simp only [Option.some.injEq]
    omega

/-- A chain that goes on from the end of a walk makes a walk to its own end. -/
theorem Walk.chain {m : MapGenerator} {z : TemplateZone} {os ptb : Bool} {source : Position} :
    ∀ (rest : List Position) (a : Position) (x c : Nat),
      Walk (centerEdge m z os ptb) source a x →
      chainCost m z os ptb a rest = some c →
      Walk (centerEdge m z os ptb) source (chainEnd a rest) (x + c) := by
  intro rest
  induction rest with
  | nil =>
    intro a x c hw hc
    simp only [chainCost] at hc
    cases hc
    exact hw
  | cons b rest ih =>
    intro a x c hw hc
    obtain ⟨w1, c1, h1, h2, h3⟩ := chainCost_cons m z os ptb a b rest c hc
    have h := ih b (x + w1) c1 (Walk.step hw h1) h2
    have he : x + w1 + c1 = x + c := by omega
    rw [he] at h
    exact h

/-- The backtracking loop of `connectWithCenter` returns, and the tiles it sets Free are those
of a chain from the source whose cost is the recorded distance. -/
theorem CenterInv.backtrack {m : MapGenerator} {z : TemplateZone} {os ptb : Bool}
    {source : Position} {settled : Position → Position → Prop} {st : SearchState}
    (inv : CenterInv m z os ptb source settled st) (hsrc : m.isInTheMap source = true) :
    ∀ (d : Nat) (p : Position) (fuel : Nat) (g : MapGenerator),
      st.distances p = some d → d + 1 ≤ fuel →
      ∃ rest g1, backtrackFree st.cameFrom fuel p g = some g1 ∧
        chainCost m z os ptb source rest = some d ∧ chainEnd source rest = p ∧
        ∀ t, g1.tiles t = if t ∈ rest then TileType.Free else g.tiles t := by
  intro d
  induction d using Nat.strong_induction_on with
  | _ d ih =>
    intro p fuel g hp hfuel
    obtain ⟨k, rfl⟩ : ∃ k, fuel = k + 1 := ⟨fuel - 1, by omega⟩
    by_cases hps : p = source
    · subst hps
      rw [inv.weighted.src_dist] at hp
      cases hp
      refine ⟨[], g, ?_, rfl, rfl, fun t => by simp⟩
      unfold backtrackFree
      rw [inv.weighted.src_from]
      simp [invalidPosition_not_valid]
    · obtain ⟨par, w, dpar, hfrom, hpar, hdpar, hedge, hd⟩ := inv.parent_eq p d hp hps
      have hw := (centerEdge_spec m z os ptb).positive _ _ _ hedge
      have hvalid : par.isValid = true := by
        rcases inv.weighted.in_map par dpar hdpar with h | h
        · rw [h]; exact Position.isValid_of_isInTheMap m source hsrc
        · exact Position.isValid_of_isInTheMap m par h
      obtain ⟨rest, g1, h1, h2, h3, h4⟩ :=
        ih dpar (by omega) par k (g.setOccupied p TileType.Free) hdpar (by omega)
      obtain ⟨h5, h6⟩ := chainCost_snoc m z os ptb p w rest source dpar h2 (h3 ▸ hedge)
      refine ⟨rest ++ [p], g1, ?_, hd ▸ h5, h6, ?_⟩
      · unfold backtrackFree
        rw [hfrom]
        simp only [hvalid, if_true]
        exact h1
      · intro t
        rw [h4 t]
        by_cases ht : t ∈ rest
        · simp [ht]
        · by_cases htp : t = p
          · simp [htp, MapGenerator.setOccupied]
          · simp [ht, htp, MapGenerator.setOccupied]

theorem searchInit_center (m : MapGenerator) (z : TemplateZone) (os ptb : Bool)
    (source : Position) :
    CenterInv m z os ptb source (fun _ _ => True) (searchInit source) := by
  refine ⟨searchInit_weighted m 3 _ source, ?_, ?_, ?_⟩
  · intro p d hd hp
    simp [searchInit, hp] at hd
  · intro c hc
    simp [searchInit] at hc
  · intro c hc
    simp [searchInit] at hc

/-- The search of `connectWithCenter` returns: its loop ends within the fuel it is given. -/
theorem connectWithCenter_search (m : MapGenerator) (z : TemplateZone) (position : Position)
    (os ptb : Bool) :
    ∃ out, connectWithCenterLoop m z os ptb (searchFuel m 3) (searchInit position) = some out ∧
      CenterPost m z os ptb position out :=
  connectWithCenterLoop_spec _ _ (searchInit_center m z os ptb position)
    (searchPotential_init m 3 position)

/-- C26: `connectWithCenter` returns, and whenever it returns true the tiles it turned Free are
those of a chain of neighbouring in-zone tiles from `position` to the centre of the zone whose
total cost (1 for entering a Free tile, 2 for a Possible one, 3 for a tile that should be blocked
when `passThroughBlocked` is set) is the least among all such chains. -/
theorem connectWithCenter_minimum_cost (m : MapGenerator) (z : TemplateZone)
    (position : Position) (onlyStraight passThroughBlocked : Bool)
    (hpos : m.isInTheMap position = true) :
    ∃ r, connectWithCenter m z position onlyStraight passThroughBlocked = some r ∧
      (r.result = true →
        ∃ rest c, chainCost m z onlyStraight passThroughBlocked position rest = some c ∧
          chainEnd position rest = z.pos ∧
          (∀ t, r.gen.tiles t = if t ∈ rest then TileType.Free else m.tiles t) ∧
          ∀ other c2, chainCost m z onlyStraight passThroughBlocked position other = some c2 →
            chainEnd position other = z.pos → c ≤ c2) := by
  obtain ⟨out, hout, hpost⟩ :=
    connectWithCenter_search m z position onlyStraight passThroughBlocked
  unfold connectWithCenter
  rw [hout]
  cases out with
  | exhausted st => exact ⟨_, rfl, fun h => by cases h⟩
  | reached node st =>
    obtain ⟨hnode, hclosed, inv⟩ := hpost
    obtain ⟨d, hd⟩ := inv.weighted.closed_dist node hclosed
    obtain ⟨rest, g1, h1, h2, h3, h4⟩ :=
      inv.backtrack hpos d node ((st.distances node).getD 0 + 1) m hd (by rw [hd]; simp)
    dsimp only
    rw [h1]
    refine ⟨_, rfl, fun _ => ⟨rest, d, h2, h3.trans hnode, h4, ?_⟩⟩
    intro other c2 hc2 hend
    have hwalk := Walk.chain other position 0 c2 Walk.start hc2
    rw [hend, ← hnode, Nat.zero_add] at hwalk
    exact inv.optimal node hclosed d hd c2 hwalk

/-- Witness for C26: the way from the corner (0,0) of the 3x3 map to its centre. -/
theorem connectWithCenter_minimum_cost_witness :
    (blankGen 3 3).isInTheMap ⟨0, 0⟩ = true ∧
    ∃ r, connectWithCenter (blankGen 3 3) squareZone ⟨0, 0⟩ false false = some r ∧
      (r.result = true →
        ∃ rest c, chainCost (blankGen 3 3) squareZone false false ⟨0, 0⟩ rest = some c ∧
          chainEnd ⟨0, 0⟩ rest = squareZone.pos ∧
          (∀ t, r.gen.tiles t = if t ∈ rest then TileType.Free else (blankGen 3 3).tiles t) ∧
          ∀ other c2, chainCost (blankGen 3 3) squareZone false false ⟨0, 0⟩ other = some c2 →
            chainEnd ⟨0, 0⟩ other = squareZone.pos → c ≤ c2) :=
  ⟨by decide, connectWithCenter_minimum_cost (blankGen 3 3) squareZone ⟨0, 0⟩ false false
    (by decide)⟩

/-- C24: on the row of three tiles whose middle tile is Blocked, with the centre of the zone at
(2,0), `connectWithCenter` from (0,0) empties its frontier and returns false; the tile (0,0),
which it expanded, is Possible before and after the call and stays in the possible-tile set of
the zone. -/
theorem connectWithCenter_false_seals_nothing :
    ∃ st r, connectWithCenterLoop barredRowGen barredRowZone true false
        (searchFuel barredRowGen 3) (searchInit ⟨0, 0⟩) = some (SearchOutcome.exhausted st) ∧
      (⟨0, 0⟩ : Position) ∈ st.closed ∧
      connectWithCenter barredRowGen barredRowZone ⟨0, 0⟩ true false = some r ∧
      r.result = false ∧
      barredRowGen.tiles ⟨0, 0⟩ = TileType.Possible ∧
      r.gen.tiles ⟨0, 0⟩ = TileType.Possible ∧
      (⟨0, 0⟩ : Position) ∈ r.zone.possibleTiles :=
  ⟨_, _, rfl, by decide, rfl, rfl, rfl, rfl, by decide⟩

/-! ## Used and Blocked tiles (C25) -/

/-- The backtracking loop changes tiles to Free only, and only tiles of the parent chain whose
parent is valid. -/
theorem backtrackFree_frame (cameFrom : Position → Option Position) (inTree good : Position → Prop)
    (hstep : ∀ p par, inTree p → cameFrom p = some par → par.isValid = true →
      good p ∧ inTree par) :
    ∀ (fuel : Nat) (p : Position) (g g1 : MapGenerator), inTree p →
      backtrackFree cameFrom fuel p g = some g1 →
      ∀ t, g1.tiles t = g.tiles t ∨ (g1.tiles t = TileType.Free ∧ good t) := by
  intro fuel
  induction fuel with
  | zero =>
    intro p g g1 _ h
    simp [backtrackFree] at h
  | succ fuel ih =>
    intro p g g1 hp h t
    unfold backtrackFree at h
    cases hfrom : cameFrom p with
    | none =>
      rw [hfrom] at h
      cases h
      exact Or.inl rfl
    | some par =>
      rw [hfrom] at h
      dsimp only at h
      by_cases hvalid : par.isValid = true
      · rw [if_pos hvalid] at h
        obtain ⟨hgood, hpar⟩ := hstep p par hp hfrom hvalid
        rcases ih par _ g1 hpar h t with h1 | h1
        · by_cases htp : t = p
          · right
            rw [h1, htp]
            exact ⟨by simp [MapGenerator.setOccupied], hgood⟩
          · left
            rw [h1]
            simp [MapGenerator.setOccupied, htp]
        · exact Or.inr h1
      · rw [if_neg hvalid] at h
        cases h
        exact Or.inl rfl

/-- A tile whose state `connectPath` changes was Possible. -/
theorem connectPath_frame (m : MapGenerator) (z : TemplateZone) (source : Position) (os : Bool)
    (r : ConnectResult) (h : connectPath m z source os = some r) (t : Position)
    (ht : r.gen.tiles t ≠ m.tiles t) : m.tiles t = TileType.Possible := by
  obtain ⟨out, hout, hpost⟩ := connectPathSearch_spec m z source os
  unfold connectPath at h
  rw [hout] at h
  cases out with
  | reached node st =>
    obtain ⟨_, ⟨k, hk⟩, htree⟩ := hpost
    dsimp only at h
    cases hback : backtrackFree st.cameFrom ((st.distances node).getD 0 + 1) node m with
    | none => rw [hback] at h; cases h
    | some g =>
      rw [hback] at h
      cases h
      have hframe := backtrackFree_frame st.cameFrom (fun p => ∃ k, st.distances p = some k)
        (fun p => passable m z p) (by
          intro p par ⟨j, hj⟩ hfrom hvalid
          by_cases hps : p = source
          · rw [hps, htree.src_from] at hfrom
            cases hfrom
            rw [invalidPosition_not_valid] at hvalid
            cases hvalid
          · obtain ⟨par1, h1, h2, _, _, h3⟩ := htree.parent p j hj hps
            rw [hfrom] at h1
            cases h1
            exact ⟨h3, _, h2⟩) _ node m g ⟨k, hk⟩ hback t
      rcases hframe with h1 | ⟨h1, h2⟩
      · exact absurd h1 ht
      · have hb := h2.1
        simp only [MapGenerator.isBlocked, Bool.or_eq_false_iff, decide_eq_false_iff_not] at hb
        cases hs : m.tiles t with
        | Free => exact absurd (h1.trans hs.symm) ht
        | Possible => rfl
        | Blocked => exact absurd hs hb.1
        | Used => exact absurd hs hb.2
  | exhausted st =>
    cases h
    simp only [sealTiles_tiles] at ht
    by_cases hc : t ∈ st.closed ∧ m.tiles t = TileType.Possible
    · exact hc.2
    · rw [if_neg hc] at ht
      exact absurd rfl ht

/-- A tile whose state `connectWithCenter` changes was Possible, or it should be blocked and
`passThroughBlocked` is set. -/
theorem connectWithCenter_frame (m : MapGenerator) (z : TemplateZone) (position : Position)
    (os ptb : Bool) (r : ConnectResult) (h : connectWithCenter m z position os ptb = some r)
    (t : Position) (ht : r.gen.tiles t ≠ m.tiles t) :
    m.tiles t = TileType.Possible ∨ (ptb = true ∧ m.shouldBeBlocked t = true) := by
  obtain ⟨out, hout, hpost⟩ := connectWithCenter_search m z position os ptb
  unfold connectWithCenter at h
  rw [hout] at h
  cases out with
  | exhausted st =>
    cases h
    exact absurd rfl ht
  | reached node st =>
    obtain ⟨_, hclosed, inv⟩ := hpost
    obtain ⟨d, hd⟩ := inv.weighted.closed_dist node hclosed
    dsimp only at h
    cases hback : backtrackFree st.cameFrom ((st.distances node).getD 0 + 1) node m with
    | none => rw [hback] at h; cases h
    | some g =>
      rw [hback] at h
      cases h
      have hframe := backtrackFree_frame st.cameFrom (fun p => ∃ k, st.distances p = some k)
        (fun p => ∃ w, movementCost m ptb p = some w) (by
          intro p par ⟨j, hj⟩ hfrom hvalid
          by_cases hps : p = position
          · rw [hps, inv.weighted.src_from] at hfrom
            cases hfrom
            rw [invalidPosition_not_valid] at hvalid
            cases hvalid
          · obtain ⟨par1, w, dpar, h1, _, h2, h3, _⟩ := inv.parent_eq p j hj hps
            rw [hfrom] at h1
            cases h1
            exact ⟨⟨w, h3.2.2⟩, _, h2⟩) _ node m g ⟨d, hd⟩ hback t
      rcases hframe with h1 | ⟨h1, w, h2⟩
      · exact absurd h1 ht
      · unfold movementCost MapGenerator.isFree MapGenerator.isPossible at h2
        split_ifs at h2 with hf hp hb
        · simp only [decide_eq_true_eq] at hf
          exact absurd (h1.trans hf.symm) ht
        · simp only [decide_eq_true_eq] at hp
          exact Or.inl hp
        · simp only [Bool.and_eq_true] at hb
          exact Or.inr hb

/-- A tile whose state `crunchPath` changes was Possible. -/
theorem crunchPath_frame (m : MapGenerator) (z : TemplateZone) (source destination : Position)
    (os : Bool) (clearedTiles : Option (List Position)) (r : CrunchResult)
    (h : crunchPath m z source destination os clearedTiles = some r) (t : Position)
    (ht : r.gen.tiles t ≠ m.tiles t) : m.tiles t = TileType.Possible := by
  obtain ⟨r1, hr1, _, hframe, _⟩ := crunchPath_spec m z source destination os clearedTiles
  rw [h] at hr1
  cases hr1
  rcases hframe t with h1 | ⟨h1, _⟩
  · exact absurd h1 ht
  · exact h1.1

/-- The nodes the selection loop of `fractalize` adds are tiles of its local set of possible
tiles. -/
theorem selectNodes_mem (randomShuffle : Nat → List Position → List Position)
    (hshuffle : ∀ k l, ∀ x ∈ randomShuffle k l, x ∈ l) (good : Position → Prop) :
    ∀ (fuel k : Nat) (possibleTiles clearedTiles nodes : List Position)
      (r : List Position × List Position),
      selectNodes randomShuffle fuel k possibleTiles clearedTiles nodes = some r →
      (∀ x ∈ possibleTiles, good x) → (∀ x ∈ nodes, good x) → ∀ x ∈ r.1, good x := by
  intro fuel
  induction fuel with
  | zero =>
    intro k poss cleared nodes r h
    simp [selectNodes] at h
  | succ fuel ih =>
    intro k poss cleared nodes r h hposs hnodes
    unfold selectNodes at h
    split_ifs at h with hempty
    · cases h; exact hnodes
    · dsimp only at h
      cases hfound : (findNode cleared (randomShuffle k poss) []).1 with
      | none =>
        rw [hfound] at h
        cases h
        exact hnodes
      | some nodeFound =>
        rw [hfound] at h
        dsimp only at h
        have hgood : good nodeFound :=
          hposs _ (hshuffle _ _ _ (findNode_some cleared _ _ nodeFound hfound).1)
        have hnodes1 : ∀ x ∈ nodes ++ [nodeFound], good x := by
          intro x hx
          rcases List.mem_append.1 hx with h1 | h1
          · exact hnodes x h1
          · rw [List.mem_singleton.1 h1]; exact hgood
        split_ifs at h with hvalid
        · cases h; exact hnodes1
        · exact ih _ _ _ _ r h
            (fun x hx => hposs x ((eraseLoop_sublist _ _).subset hx)) hnodes1

/-- The nodes of `fractalize` are Possible tiles. -/
theorem fractalizeNodes_possible (randomShuffle : Nat → List Position → List Position)
    (hshuffle : ∀ k l, ∀ x ∈ randomShuffle k l, x ∈ l) (m : MapGenerator) (z : TemplateZone)
    (nodes : List Position) (h : fractalizeNodes randomShuffle m z = some nodes) :
    ∀ x ∈ nodes, m.tiles x = TileType.Possible := by
  unfold fractalizeNodes at h
  split_ifs at h with hj
  · cases hsel : selectNodes randomShuffle (z.tileInfo.length + 1) 0
        ((z.tileInfo.filter m.isPossible).foldl setInsert []) (collectFreePaths m z) [] with
    | none => rw [hsel] at h; cases h
    | some r =>
      rw [hsel] at h
      cases h
      refine selectNodes_mem randomShuffle hshuffle _ _ _ _ _ _ r hsel ?_ (fun x hx => by cases hx)
      intro x hx
      rcases (mem_insertLoop _ _ x).1 hx with h1 | h1
      · cases h1
      · have := (List.mem_filter.1 h1).2
        simpa [MapGenerator.isPossible] using this
  · cases h
    intro x hx
    cases hx

/-- A tile whose state `fractalize` changes was Possible. -/
theorem fractalize_frame (randomShuffle : Nat → List Position → List Position)
    (hshuffle : ∀ k l, ∀ x ∈ randomShuffle k l, x ∈ l) (m : MapGenerator) (z : TemplateZone)
    (r : MapGenerator × TemplateZone) (h : fractalize randomShuffle m z = some (Except.ok r))
    (t : Position) (ht : r.1.tiles t ≠ m.tiles t) : m.tiles t = TileType.Possible := by
  unfold fractalize at h
  dsimp only at h
  split_ifs at h with hempty
  · cases h
  cases hnodes : fractalizeNodes randomShuffle m z with
  | none => rw [hnodes] at h; cases h
  | some nodes =>
    rw [hnodes] at h
    dsimp only at h
    obtain ⟨g, paths, hcarve, inv⟩ := carveCorridors_spec z nodes m (collectFreePaths m z)
    rw [hcarve] at h
    cases h
    have hposs := fractalizeNodes_possible randomShuffle hshuffle m z nodes hnodes
    have hclear : (clearNodes nodes g).tiles t ≠ m.tiles t → m.tiles t = TileType.Possible := by
      intro hne
      rw [clearNodes_tiles] at hne
      by_cases hn : t ∈ nodes
      · exact hposs t hn
      · rw [if_neg hn] at hne
        rcases inv.frame t with h1 | h1
        · exact absurd h1 hne
        · exact h1.1
    unfold blockDistantTiles at ht
    rw [blockDistantTiles_tiles] at ht
    split_ifs at ht with hb
    · by_contra hne
      apply hne
      apply hclear
      rw [hb.2.1]
      intro heq
      exact hne heq.symm
    · exact hclear ht

/-- A tile whose state `findPlaceForObject` changes was Possible. -/
theorem findPlace_frame (m : MapGenerator) (z : TemplateZone) (mapElement : MapElement)
    (minDistance : Int) (position : Position) (t : Position)
    (ht : (findPlaceForObject m z mapElement minDistance position).gen.tiles t ≠ m.tiles t) :
    m.tiles t = TileType.Possible := by
  have inv := findPlace_scan_inv m z mapElement minDistance position
  unfold findPlaceForObject at ht
  dsimp only at ht
  cases hr : (z.tileInfo.foldl (findPlaceStep m z mapElement minDistance)
      { bestDistance := some 0, position := position, result := false }).result with
  | true =>
    rw [hr] at ht
    simp only [if_true, MapGenerator.setOccupied] at ht
    have hq := (inv.selected hr).2.1
    simp only [qualifies, Bool.and_eq_true, MapGenerator.isPossible, decide_eq_true_eq] at hq
    split_ifs at ht with h1
    · rw [h1]; exact hq.1.1.2
    · exact absurd rfl ht
  | false =>
    rw [hr] at ht
    exact absurd rfl ht

/-- A tile whose state `tryToPlaceObjectAndConnectToPath` changes was Possible, or it is the
entrance or a tile of the footprint of the element and is Blocked afterwards. -/
theorem tryToPlace_frame (m : MapGenerator) (z : TemplateZone) (mapElement : MapElement)
    (position : Position) (r : PlacingOutcome)
    (h : tryToPlaceObjectAndConnectToPath m z mapElement position = some r) (t : Position)
    (ht : r.gen.tiles t ≠ m.tiles t) :
    m.tiles t = TileType.Possible ∨
    ((t = (mapElement.setPosition position).getEntrance ∨
        t ∈ (mapElement.setPosition position).getBlockedPositions) ∧
      r.gen.tiles t = TileType.Blocked) := by
  have hfoot := blockFootprint_tiles m (mapElement.setPosition position) t
  have hblock : ∀ g : MapGenerator,
      g.tiles t = (blockFootprint m (mapElement.setPosition position)).tiles t →
      g.tiles t ≠ m.tiles t →
      (t = (mapElement.setPosition position).getEntrance ∨
          t ∈ (mapElement.setPosition position).getBlockedPositions) ∧
        g.tiles t = TileType.Blocked := by
    intro g hg hne
    rw [hg, hfoot] at hne
    rw [hg, hfoot]
    split_ifs at hne with hc
    · rw [if_pos hc]
      rcases hc with hc | hc
      · exact ⟨Or.inl hc, rfl⟩
      · exact ⟨Or.inr hc.1, rfl⟩
    · exact absurd rfl hne
  have hpath : ∀ r1 : ConnectResult,
      connectPath (blockFootprint m (mapElement.setPosition position)) z
        (getAccessibleOffset (blockFootprint m (mapElement.setPosition position)) z
          (mapElement.setPosition position) position) true = some r1 →
      r1.gen.tiles t ≠ m.tiles t →
      m.tiles t = TileType.Possible ∨
      ((t = (mapElement.setPosition position).getEntrance ∨
          t ∈ (mapElement.setPosition position).getBlockedPositions) ∧
        r1.gen.tiles t = TileType.Blocked) := by
    intro r1 hr1 hne
    by_cases hsame : r1.gen.tiles t = (blockFootprint m (mapElement.setPosition position)).tiles t
    · exact Or.inr (hblock r1.gen hsame hne)
    · have hp := connectPath_frame _ z _ true r1 hr1 t hsame
      rw [hfoot] at hp
      split_ifs at hp with hc
      exact Or.inl hp
  unfold tryToPlaceObjectAndConnectToPath at h
  dsimp only at h
  split_ifs at h with hvalid
  · cases h
    exact Or.inr (hblock _ rfl ht)
  · cases hcp : connectPath (blockFootprint m (mapElement.setPosition position)) z
        (getAccessibleOffset (blockFootprint m (mapElement.setPosition position)) z
          (mapElement.setPosition position) position) true with
    | none => rw [hcp] at h; cases h
    | some r1 =>
      rw [hcp] at h
      dsimp only at h
      split_ifs at h <;> cases h <;> exact hpath r1 hcp ht

/-- A tile whose state one of the six calls changes was Possible, or the call passes through it
as a tile that should be blocked, or the call blocks it as part of the element it places. -/
theorem gridAfter_frame (m : MapGenerator) (z : TemplateZone) (call : GridCall)
    (hcall : shufflesWithin call) (g : MapGenerator) (h : gridAfter m z call = some g)
    (t : Position) (ht : g.tiles t ≠ m.tiles t) :
    m.tiles t = TileType.Possible ∨ passesThrough m t call ∨
      (blocksAnyway t call ∧ g.tiles t = TileType.Blocked) := by
  cases call with
  | connectPath source os =>
    simp only [gridAfter, Option.map_eq_some'] at h
    obtain ⟨r, hr, rfl⟩ := h
    exact Or.inl (connectPath_frame m z source os r hr t ht)
  | connectWithCenter position os ptb =>
    simp only [gridAfter, Option.map_eq_some'] at h
    obtain ⟨r, hr, rfl⟩ := h
    rcases connectWithCenter_frame m z position os ptb r hr t ht with h1 | h1
    · exact Or.inl h1
    · exact Or.inr (Or.inl h1)
  | crunchPath source destination os cleared =>
    simp only [gridAfter, Option.map_eq_some'] at h
    obtain ⟨r, hr, rfl⟩ := h
    exact Or.inl (crunchPath_frame m z source destination os cleared r hr t ht)
  | fractalize randomShuffle =>
    simp only [gridAfter] at h
    split at h
    · cases h
    · cases h
      exact absurd rfl ht
    · rename_i r hr
      cases h
      exact Or.inl (fractalize_frame randomShuffle hcall m z r hr t ht)
  | findPlaceForObject mapElement minDistance position =>
    simp only [gridAfter, Option.some.injEq] at h
    subst h
    exact Or.inl (findPlace_frame m z mapElement minDistance position t ht)
  | tryToPlaceObjectAndConnectToPath mapElement position =>
    simp only [gridAfter, Option.map_eq_some'] at h
    obtain ⟨r, hr, rfl⟩ := h
    rcases tryToPlace_frame m z mapElement position r hr t ht with h1 | h1
    · exact Or.inl h1
    · exact Or.inr (Or.inr h1)

/-- C25 fails as stated.  On the row of three tiles whose middle tile is Used,
`tryToPlaceObjectAndConnectToPath` with the one-tile element at (1,0) leaves that tile Blocked.
On the row of four Possible tiles, all of which should be blocked, `connectPath` from (0,0)
fails and seals (1,0) to Blocked, and `connectWithCenter` from (3,0) with `passThroughBlocked`
set then turns (1,0) Free. -/
theorem used_or_sealed_tile_changed :
    (∃ r, tryToPlaceObjectAndConnectToPath usedRowGen (rowZone 3) unitElement ⟨1, 0⟩ = some r ∧
      usedRowGen.tiles ⟨1, 0⟩ = TileType.Used ∧ r.gen.tiles ⟨1, 0⟩ = TileType.Blocked) ∧
    ∃ r1 r2, connectPath eligibleRowGen (rowZone 4) ⟨0, 0⟩ true = some r1 ∧
      r1.result = false ∧ eligibleRowGen.tiles ⟨1, 0⟩ = TileType.Possible ∧
      r1.gen.tiles ⟨1, 0⟩ = TileType.Blocked ∧
      connectWithCenter r1.gen r1.zone ⟨3, 0⟩ true true = some r2 ∧
      r2.result = true ∧ r2.gen.tiles ⟨1, 0⟩ = TileType.Free :=
  ⟨⟨_, rfl, rfl, rfl⟩, _, _, rfl, rfl, rfl, rfl, rfl, rfl, rfl⟩

/-- C25 (amended): a call of `connectPath`, `connectWithCenter`, `crunchPath`, `fractalize` (with
a shuffle that returns tiles of its list), `findPlaceForObject` or
`tryToPlaceObjectAndConnectToPath` leaves a Used tile Used, unless it is `connectWithCenter` with
`passThroughBlocked` set and the tile should be blocked, or it is
`tryToPlaceObjectAndConnectToPath` and the tile is the entrance or a footprint tile of the
element, which is Blocked afterwards; and it turns no Blocked tile Free or Possible, unless it is
`connectWithCenter` with `passThroughBlocked` set and the tile should be blocked. -/
theorem used_and_blocked_tiles_kept (m : MapGenerator) (z : TemplateZone) (call : GridCall)
    (hcall : shufflesWithin call) (g : MapGenerator) (h : gridAfter m z call = some g)
    (t : Position) :
    (m.tiles t = TileType.Used →
      g.tiles t = TileType.Used ∨ passesThrough m t call ∨
        (blocksAnyway t call ∧ g.tiles t = TileType.Blocked)) ∧
    (m.tiles t = TileType.Blocked →
      (g.tiles t ≠ TileType.Free ∧ g.tiles t ≠ TileType.Possible) ∨ passesThrough m t call) := by
  by_cases hsame : g.tiles t = m.tiles t
  · constructor
    · intro hu
      exact Or.inl (hsame.trans hu)
    · intro hb
      rw [hsame, hb]
      exact Or.inl ⟨by simp, by simp⟩
  · rcases gridAfter_frame m z call hcall g h t hsame with h1 | h1 | h1
    · constructor
      · intro hu
        rw [hu] at h1
        cases h1
      · intro hb
        rw [hb] at h1
        cases h1
    · exact ⟨fun _ => Or.inr (Or.inl h1), fun _ => Or.inr h1⟩
    · refine ⟨fun _ => Or.inr (Or.inr h1), fun _ => Or.inl ?_⟩
      rw [h1.2]
      exact ⟨by simp, by simp⟩

/-- Witness for C25, amended: `connectPath` from (0,0) on the row of three tiles whose middle
tile is Used. -/
theorem used_and_blocked_tiles_kept_witness :
    shufflesWithin (GridCall.connectPath ⟨0, 0⟩ true) ∧
    ∃ g, gridAfter usedRowGen (rowZone 3) (GridCall.connectPath ⟨0, 0⟩ true) = some g ∧
      usedRowGen.tiles ⟨1, 0⟩ = TileType.Used ∧
      (usedRowGen.tiles ⟨1, 0⟩ = TileType.Used →
        g.tiles ⟨1, 0⟩ = TileType.Used ∨
          passesThrough usedRowGen ⟨1, 0⟩ (GridCall.connectPath ⟨0, 0⟩ true) ∨
          (blocksAnyway ⟨1, 0⟩ (GridCall.connectPath ⟨0, 0⟩ true) ∧
            g.tiles ⟨1, 0⟩ = TileType.Blocked)) :=
  ⟨trivial, _, rfl, rfl,
    (used_and_blocked_tiles_kept usedRowGen (rowZone 3) (GridCall.connectPath ⟨0, 0⟩ true)
      trivial _ rfl ⟨1, 0⟩).1⟩

/-! ## Lemmas: the search of `createRoad` -/

theorem MapGenerator.mem_directNeighbors_map (m : MapGenerator) (a b : Position)
    (h : b ∈ m.directNeighbors a) : m.isInTheMap b = true := by
  unfold MapGenerator.directNeighbors at h
  exact (List.mem_filter.1 h).2

theorem MapGenerator.mem_diagonalNeighbors_map (m : MapGenerator) (a b : Position)
    (h : b ∈ m.diagonalNeighbors a) : m.isInTheMap b = true := by
  unfold MapGenerator.diagonalNeighbors at h
  exact (List.mem_filter.1 h).2

theorem roadEdge_spec (m : MapGenerator) (z : TemplateZone) (destination : Position) :
    EdgeSpec m 21 (roadEdge m z destination) := by
  refine ⟨?_, ?_, ?_⟩
  · intro a b w h
    rcases h.1 with h1 | h1
    · exact m.mem_directNeighbors_map a b h1.1
    · exact m.mem_diagonalNeighbors_map a b h1.1
  · intro a b w h
    rcases h.1 with h1 | h1 <;> omega
  · intro a b w h
    rcases h.1 with h1 | h1 <;> omega

theorem createRoadVisit_cases (m : MapGenerator) (z : TemplateZone)
    (destination cur : Position) (base w : Nat) (acc : SearchState × Bool) (p : Position) :
    (createRoadVisit m z destination cur base w acc p = acc ∧
      (p ∈ acc.1.closed ∨ improves (base + w) (acc.1.distances p) = false ∨
        roadMove m z destination cur p = false)) ∨
    (p ∉ acc.1.closed ∧ improves (base + w) (acc.1.distances p) = true ∧
      roadMove m z destination cur p = true ∧
      createRoadVisit m z destination cur base w acc p =
        (relaxTile acc.1 cur p (base + w), true)) := by
  unfold createRoadVisit
  by_cases h1 : p ∈ acc.1.closed
  · left
    rw [if_pos h1]
    exact ⟨rfl, Or.inl h1⟩
  rw [if_neg h1]
  dsimp only
  cases hi : improves (base + w) (acc.1.distances p) with
  | false =>
    left
    simp only [Bool.not_false, if_true]
    exact ⟨trivial, Or.inr (Or.inl trivial)⟩
  | true =>
    simp only [Bool.not_true, Bool.false_eq_true, if_false]
    by_cases h2 : ((m.isFree p && m.isFree cur) ||
        ((m.visitable p || m.visitable cur) && m.canMoveBetween cur p) ||
        decide (p = destination)) = true
    · rw [if_pos h2]
      by_cases h3 : (decide (m.getZoneId p = z.id) || decide (p = destination)) = true
      · rw [if_pos h3]
        right
        refine ⟨h1, trivial, ?_, rfl⟩
        unfold roadMove
        rw [h2, h3]
        rfl
      · rw [if_neg h3]
        left
        refine ⟨rfl, Or.inr (Or.inr ?_)⟩
        unfold roadMove
        simp only [Bool.not_eq_true] at h3
        rw [h3, Bool.and_false]
    · rw [if_neg h2]
      left
      refine ⟨rfl, Or.inr (Or.inr ?_)⟩
      unfold roadMove
      simp only [Bool.not_eq_true] at h2
      rw [h2, Bool.false_and]

/-- One visit of the lambda of `createRoad` keeps the invariant, settles the step it looked at
and does not raise the measure. -/
theorem RoadInv.road_visit {m : MapGenerator} {z : TemplateZone} {destination source : Position}
    {settled : Position → Position → Prop} {acc : SearchState × Bool}
    (inv : RoadInv m z destination source settled acc.1) {cur : Position} {dc base w : Nat}
    (hsrc : source ∈ acc.1.closed) (hcur : cur ∈ acc.1.closed)
    (hdc : acc.1.distances cur = some dc) (hbase : dc ≤ base)
    (hbound : base ≤ 21 * closedOthers acc.1 cur) (p : Position)
    (hn : (p ∈ m.directNeighbors cur ∧ w = 10) ∨ (p ∈ m.diagonalNeighbors cur ∧ w = 21)) :
    RoadInv m z destination source (fun c q => settled c q ∨ (c = cur ∧ q = p))
      (createRoadVisit m z destination cur base w acc p).1 ∧
    (createRoadVisit m z destination cur base w acc p).1.closed = acc.1.closed ∧
    (createRoadVisit m z destination cur base w acc p).1.distances cur = some dc ∧
    searchPotential m (21 * (m.width * m.height + 1))
        (createRoadVisit m z destination cur base w acc p).1 ≤
      searchPotential m (21 * (m.width * m.height + 1)) acc.1 := by
  rcases createRoadVisit_cases m z destination cur base w acc p with
    ⟨heq, hwhy⟩ | ⟨hp, hbetter, hmove, heq⟩
  · rw [heq]
    refine ⟨⟨inv.weighted, inv.not_goal, ?_⟩, rfl, hdc, Nat.le_refl _⟩
    intro c hc q hq hmv hs
    rcases hs with hs | ⟨hcc, hqp⟩
    · exact inv.expanded c hc q hq hmv hs
    · subst hcc hqp
      rcases hwhy with h | h | h
      · exact inv.weighted.closed_dist q h
      · cases hq2 : acc.1.distances q with
        | none => rw [hq2] at h; simp [improves] at h
        | some d => exact ⟨d, rfl⟩
      · rw [hmv] at h
        cases h
  · rw [heq]
    have hedge : roadEdge m z destination cur p w := ⟨hn, hmove⟩
    have hpc : p ≠ cur := fun h => hp (h ▸ hcur)
    have hwinv := WeightedInv.relaxTile_inv (roadEdge_spec m z destination) inv.weighted hsrc
      hcur hdc hbase hbound hp hedge hbetter
    have hmap := (roadEdge_spec m z destination).in_map _ _ _ hedge
    refine ⟨⟨hwinv, inv.not_goal, ?_⟩, rfl, ?_,
      searchPotential_relaxTile hmap hwinv hbetter⟩
    · intro c hc q hq hmv hs
      by_cases hqp : q = p
      · exact ⟨base + w, by simp [relaxTile, hqp]⟩
      · simp only [relaxTile, if_neg hqp]
        rcases hs with hs | ⟨_, hqp2⟩
        · exact inv.expanded c hc q hq hmv hs
        · exact absurd hqp2 hqp
    · simp only [relaxTile, if_neg (Ne.symm hpc)]
      exact hdc

theorem RoadInv.road_mono {m : MapGenerator} {z : TemplateZone} {destination source : Position}
    {s1 s2 : Position → Position → Prop} {st : SearchState}
    (h : ∀ c q, q ∈ m.directNeighbors c → s2 c q → s1 c q)
    (inv : RoadInv m z destination source s1 st) : RoadInv m z destination source s2 st :=
  ⟨inv.weighted, inv.not_goal, fun c hc q hq hmv hs => inv.expanded c hc q hq hmv (h c q hq hs)⟩

/-- A pass of the lambda of `createRoad` over neighbours of the current node keeps the
invariant and settles the steps to all of them. -/
theorem RoadInv.road_expand {m : MapGenerator} {z : TemplateZone} {destination source : Position}
    {cur : Position} {dc base w : Nat} (hbase : dc ≤ base) :
    ∀ (l : List Position),
    (∀ p ∈ l, (p ∈ m.directNeighbors cur ∧ w = 10) ∨ (p ∈ m.diagonalNeighbors cur ∧ w = 21)) →
    ∀ (settled : Position → Position → Prop) (acc : SearchState × Bool),
      RoadInv m z destination source settled acc.1 →
      source ∈ acc.1.closed → cur ∈ acc.1.closed → acc.1.distances cur = some dc →
      base ≤ 21 * closedOthers acc.1 cur →
      RoadInv m z destination source (fun c q => settled c q ∨ (c = cur ∧ q ∈ l))
        (l.foldl (createRoadVisit m z destination cur base w) acc).1 ∧
      (l.foldl (createRoadVisit m z destination cur base w) acc).1.closed = acc.1.closed ∧
      (l.foldl (createRoadVisit m z destination cur base w) acc).1.distances cur = some dc ∧
      searchPotential m (21 * (m.width * m.height + 1))
          (l.foldl (createRoadVisit m z destination cur base w) acc).1 ≤
        searchPotential m (21 * (m.width * m.height + 1)) acc.1 := by
  intro l
  induction l with
  | nil =>
    intro _ settled acc inv _ _ hdc _
    refine ⟨inv.road_mono ?_, rfl, hdc, Nat.le_refl _⟩
    intro c q _ h
    rcases h with h | ⟨_, h⟩
    · exact h
    · cases h
  | cons a rest ih =>
    intro hl settled acc inv hsrc hcur hdc hbound
    rw [List.foldl_cons]
    obtain ⟨inv1, hcl1, hdc1, hpot1⟩ :=
      inv.road_visit hsrc hcur hdc hbase hbound a (hl a (List.mem_cons_self _ _))
    have hbound1 : base ≤
        21 * closedOthers (createRoadVisit m z destination cur base w acc a).1 cur := by
      unfold closedOthers
      rw [hcl1]
      exact hbound
    obtain ⟨inv2, hcl2, hdc2, hpot2⟩ := ih (fun p hp => hl p (List.mem_cons_of_mem _ hp)) _ _
      inv1 (hcl1 ▸ hsrc) (hcl1 ▸ hcur) hdc1 hbound1
    refine ⟨inv2.road_mono ?_, hcl2.trans hcl1, hdc2, Nat.le_trans hpot2 hpot1⟩
    intro c q _ h
    rcases h with h | ⟨h1, h2⟩
    · exact Or.inl (Or.inl h)
    · rcases List.mem_cons.1 h2 with h3 | h3
      · exact Or.inl (Or.inr ⟨h1, h3⟩)
      · exact Or.inr ⟨h1, h3⟩

/-- The invariant of the search of `createRoad` survives `queue.pop()` and `closed.insert`
when the popped tile is not a goal. -/
theorem RoadInv.road_pop {m : MapGenerator} {z : TemplateZone} {destination source : Position}
    {st : SearchState} (inv : RoadInv m z destination source (fun _ _ => True) st)
    {node : Position × Nat} (htop : PriorityQueue.top st.queue = some node)
    (hgoal : ¬(node.1 = destination ∨ m.isRoad node.1 = true)) :
    RoadInv m z destination source (fun c _ => c ≠ node.1) (closeTop st node.1) := by
  obtain ⟨hw, _, _, _, _⟩ := inv.weighted.closeTop_inv htop
  have hcl : ∀ c, c ∈ (closeTop st node.1).closed → c ∈ st.closed ∨ c = node.1 := by
    intro c hc
    simpa only [closeTop, mem_setInsert] using hc
  refine ⟨hw, ?_, ?_⟩
  · intro c hc
    rcases hcl c hc with h | h
    · exact inv.not_goal c h
    · rw [h]
      refine ⟨fun h1 => hgoal (Or.inl h1), ?_⟩
      cases hr : m.isRoad node.1 with
      | false => rfl
      | true => exact absurd (Or.inr hr) hgoal
  · intro c hc p hp hmv hne
    rcases hcl c hc with h | h
    · exact inv.expanded c h p hp hmv trivial
    · exact absurd h hne

/-- The search loop of `createRoad` returns when the fuel exceeds the measure, and its outcome
satisfies `RoadPost`. -/
theorem createRoadLoop_spec {m : MapGenerator} {z : TemplateZone}
    {destination source : Position} :
    ∀ (fuel : Nat) (st : SearchState),
      RoadInv m z destination source (fun _ _ => True) st →
      searchPotential m (21 * (m.width * m.height + 1)) st + 1 ≤ fuel →
      ∃ out, createRoadLoop m z destination fuel st = some out ∧
        RoadPost m z destination source out := by
  intro fuel
  induction fuel with
  | zero => intro st _ h; omega
  | succ fuel ih =>
    intro st inv hfuel
    unfold createRoadLoop
    cases htop : PriorityQueue.top st.queue with
    | none => exact ⟨_, rfl, PriorityQueue.top_eq_none htop, inv⟩
    | some node =>
      dsimp only
      obtain ⟨hw, hnode, hsrc, ⟨dc, hdc, hdcle⟩, hkey⟩ := inv.weighted.closeTop_inv htop
      have hpot := searchPotential_closeTop m (21 * (m.width * m.height + 1)) st htop
      by_cases hgoal : node.1 = destination ∨ m.isRoad node.1 = true
      · rw [if_pos hgoal]
        exact ⟨_, rfl, hgoal, hnode, hw⟩
      · rw [if_neg hgoal]
        have inv1 := inv.road_pop htop hgoal
        obtain ⟨inv2, hcl2, hdc2, hpot2⟩ := RoadInv.road_expand hdcle (m.directNeighbors node.1)
          (fun p hp => Or.inl ⟨hp, rfl⟩) _ (closeTop st node.1, false) inv1 hsrc hnode hdc hkey
        replace hpot2 : searchPotential m (21 * (m.width * m.height + 1))
            ((m.directNeighbors node.1).foldl (createRoadVisit m z destination node.1 node.2 10)
              (closeTop st node.1, false)).1 ≤
            searchPotential m (21 * (m.width * m.height + 1)) (closeTop st node.1) := hpot2
        have inv2t : RoadInv m z destination source (fun _ _ => True)
            ((m.directNeighbors node.1).foldl (createRoadVisit m z destination node.1 node.2 10)
              (closeTop st node.1, false)).1 := by
          refine inv2.road_mono ?_
          intro c q hq _
          by_cases hc : c = node.1
          · exact Or.inr ⟨hc, hc ▸ hq⟩
          · exact Or.inl hc
        change ∃ out, createRoadLoop m z destination fuel
          (if ((m.directNeighbors node.1).foldl
              (createRoadVisit m z destination node.1 node.2 10) (closeTop st node.1, false)).2
            then ((m.directNeighbors node.1).foldl
              (createRoadVisit m z destination node.1 node.2 10) (closeTop st node.1, false)).1
            else ((m.diagonalNeighbors node.1).foldl
              (createRoadVisit m z destination node.1 node.2 21)
              ((m.directNeighbors node.1).foldl
                (createRoadVisit m z destination node.1 node.2 10)
                (closeTop st node.1, false))).1) = some out ∧ _
        split
        · exact ih _ inv2t (by omega)
        · have hbound2 : node.2 ≤ 21 * closedOthers
              ((m.directNeighbors node.1).foldl
                (createRoadVisit m z destination node.1 node.2 10)
                (closeTop st node.1, false)).1 node.1 := by
            unfold closedOthers
            rw [hcl2]
            exact hkey
          obtain ⟨inv3, _, _, hpot3⟩ := RoadInv.road_expand hdcle (m.diagonalNeighbors node.1)
            (fun p hp => Or.inr ⟨hp, rfl⟩) _ _ inv2t (hcl2 ▸ hsrc) (hcl2 ▸ hnode) hdc2 hbound2
          refine ih _ (inv3.road_mono fun _ _ _ _ => Or.inl trivial) ?_
          omega

theorem searchInit_road (m : MapGenerator) (z : TemplateZone) (destination source : Position) :
    RoadInv m z destination source (fun _ _ => True) (searchInit source) := by
  refine ⟨searchInit_weighted m 21 _ source, ?_, ?_⟩
  · intro c hc
    simp [searchInit] at hc
  · intro c hc
    simp [searchInit] at hc

/-- The search of `createRoad` returns: its loop ends within the fuel it is given. -/
theorem createRoad_search (m : MapGenerator) (z : TemplateZone) (source destination : Position) :
    ∃ out, createRoadLoop m z destination (searchFuel m 21) (searchInit source) = some out ∧
      RoadPost m z destination source out :=
  createRoadLoop_spec _ _ (searchInit_road m z destination source)
    (searchPotential_init m 21 source)

theorem chain_snoc {r : Position → Position → Prop} (p : Position) :
    ∀ (rest : List Position) (a : Position), List.Chain r a rest → r (chainEnd a rest) p →
      List.Chain r a (rest ++ [p]) ∧ chainEnd a (rest ++ [p]) = p := by
  intro rest
  induction rest with
  | nil =>
    intro a _ h
    exact ⟨List.Chain.cons h List.Chain.nil, rfl⟩
  | cons b rest ih =>
    intro a hc h
    cases hc with
    | cons hab hrest =>
      obtain ⟨h1, h2⟩ := ih b hrest h
      exact ⟨List.Chain.cons hab h1, h2⟩

/-- The backtracking loop of `createRoad` returns; the tiles it flags are those of a chain of
accepted steps from the source, the source itself left out. -/
theorem backtrackRoad_spec {m : MapGenerator} {z : TemplateZone}
    {destination source : Position} {st : SearchState}
    (inv : WeightedInv m 21 (roadEdge m z destination) source st)
    (hsrc : source.isValid = true) :
    ∀ (d : Nat) (p : Position) (fuel : Nat) (acc : MapGenerator × List Position),
      st.distances p = some d → d + 1 ≤ fuel →
      ∃ rest acc1, backtrackRoad st.cameFrom fuel p acc = some acc1 ∧
        List.Chain (fun a b => ∃ w, roadEdge m z destination a b w) source rest ∧
        chainEnd source rest = p ∧ (∀ t ∈ rest, t ≠ source) ∧
        acc1.1 = { acc.1 with roads := acc1.1.roads } ∧
        (∀ t, acc1.1.isRoad t = if t ∈ rest then true else acc.1.isRoad t) ∧
        ∀ t, t ∈ acc1.2 ↔ t ∈ acc.2 ∨ t ∈ rest := by
  intro d
  induction d using Nat.strong_induction_on with
  | _ d ih =>
    intro p fuel acc hp hfuel
    obtain ⟨k, rfl⟩ : ∃ k, fuel = k + 1 := ⟨fuel - 1, by omega⟩
    by_cases hps : p = source
    · subst hps
      refine ⟨[], acc, ?_, List.Chain.nil, rfl, fun t ht => (by cases ht), rfl,
        fun t => (by simp), fun t => (by simp)⟩
      unfold backtrackRoad
      rw [inv.src_from]
      simp [invalidPosition_not_valid]
    · obtain ⟨par, w, dpar, hfrom, hpar, hdpar, hedge, hd⟩ := inv.parent p d hp hps
      have hw := (roadEdge_spec m z destination).positive _ _ _ hedge
      have hvalid : par.isValid = true := by
        rcases inv.in_map par dpar hdpar with h | h
        · rw [h]; exact hsrc
        · exact Position.isValid_of_isInTheMap m par h
      obtain ⟨rest, acc1, h1, h2, h3, h4, h5, h6, h7⟩ :=
        ih dpar (by omega) par k (acc.1.setRoad p true, setInsert acc.2 p) hdpar (by omega)
      obtain ⟨h8, h9⟩ := chain_snoc p rest source h2 (h3.symm ▸ ⟨w, hedge⟩)
      refine ⟨rest ++ [p], acc1, ?_, h8, h9, ?_, ?_, ?_, ?_⟩
      · unfold backtrackRoad
        rw [hfrom]
        simp only [hvalid, if_true]
        exact h1
      · intro t ht
        rcases List.mem_append.1 ht with h | h
        · exact h4 t h
        · rw [List.mem_singleton.1 h]; exact hps
      · rw [h5]
        rfl
      · intro t
        rw [h6 t]
        by_cases ht : t ∈ rest
        · simp [ht]
        · by_cases htp : t = p
          · simp [htp, MapGenerator.setRoad, MapGenerator.isRoad]
          · simp [ht, htp, MapGenerator.setRoad, MapGenerator.isRoad]
      · intro t
        rw [h7 t, mem_setInsert]
        simp only [List.mem_append, List.mem_singleton]
        tauto

/-- When the search of `createRoad` empties its queue, the destination cannot be reached from
the source by accepted steps onto direct neighbours. -/
theorem RoadInv.unreachable {m : MapGenerator} {z : TemplateZone}
    {destination source : Position} {st : SearchState}
    (inv : RoadInv m z destination source (fun _ _ => True) st) (hq : st.queue = []) :
    ¬Relation.ReflTransGen (directRoadMove m z destination) source destination := by
  have hclosed : ∀ t, Relation.ReflTransGen (directRoadMove m z destination) source t →
      t ∈ st.closed := by
    intro t ht
    induction ht with
    | refl =>
      rcases inv.weighted.started with h | ⟨_, h, _⟩
      · exact h
      · rw [hq] at h
        cases h
    | tail _ hstep ih =>
      obtain ⟨d, hd⟩ := inv.expanded _ ih _ hstep.1 hstep.2 trivial
      rcases inv.weighted.covered _ d hd with h | h
      · exact h
      · rw [hq] at h
        cases h
  intro h
  exact (inv.not_goal destination (hclosed destination h)).1 rfl

/-- What a call of `createRoad` from a valid source does.  It returns.  When it returns false,
only the road flag of the source was cleared and the destination cannot be reached by accepted
direct steps.  When it returns true, the tiles of a chain of accepted steps from the source to
the destination or to a tile that was a road are flagged and have joined `roads`, the source
left out. -/
theorem createRoad_spec (m : MapGenerator) (z : TemplateZone) (source destination : Position)
    (hsrc : source.isValid = true) :
    ∃ r, createRoad m z source destination = some r ∧
      r.gen = { m with roads := r.gen.roads } ∧ r.zone = { z with roads := r.zone.roads } ∧
      (r.result = false →
        r.gen = m.setRoad source false ∧ r.zone = z ∧
        ¬Relation.ReflTransGen (directRoadMove m z destination) source destination) ∧
      (r.result = true →
        ∃ rest, List.Chain (fun a b => ∃ w, roadEdge m z destination a b w) source rest ∧
          (chainEnd source rest = destination ∨
            (m.isRoad (chainEnd source rest) = true ∧ chainEnd source rest ≠ source)) ∧
          (∀ t ∈ rest, t ≠ source) ∧
          (∀ t, r.gen.isRoad t =
            if t ∈ rest then true else if t = source then false else m.isRoad t) ∧
          ∀ t, t ∈ r.zone.roads ↔ t ∈ z.roads ∨ t ∈ rest) := by
  obtain ⟨out, hout, hpost⟩ := createRoad_search (m.setRoad source false) z source destination
  unfold createRoad
  dsimp only
  rw [hout]
  cases out with
  | exhausted st =>
    refine ⟨_, rfl, rfl, rfl, fun _ => ⟨rfl, rfl, ?_⟩, fun h => (by cases h)⟩
    have h := RoadInv.unreachable hpost.2 hpost.1
    exact h
  | reached node st =>
    obtain ⟨hgoal, hclosed, inv⟩ := hpost
    obtain ⟨d, hd⟩ := inv.closed_dist node hclosed
    obtain ⟨rest, acc1, h1, h2, h3, h4, h5, h6, h7⟩ :=
      backtrackRoad_spec inv hsrc d node ((st.distances node).getD 0 + 1)
        (m.setRoad source false, z.roads) hd (by rw [hd]; simp)
    dsimp only
    rw [h1]
    refine ⟨_, rfl, ?_, rfl, fun h => (by cases h), fun _ => ⟨rest, h2, ?_, h4, ?_, h7⟩⟩
    · rw [h5]
      rfl
    · rw [h3]
      rcases hgoal with h | h
      · exact Or.inl h
      · right
        simp only [MapGenerator.isRoad, MapGenerator.setRoad] at h
        split_ifs at h with hns
        exact ⟨h, hns⟩
    · intro t
      rw [h6 t]
      simp only [MapGenerator.isRoad, MapGenerator.setRoad]

theorem roadEdge_neighbor {m : MapGenerator} {z : TemplateZone} {destination a b : Position}
    {w : Nat} (h : roadEdge m z destination a b w) : b ∈ m.neighbors false a := by
  have hmem : b ∈ m.directNeighbors a ∨ b ∈ m.diagonalNeighbors a := by
    rcases h.1 with h1 | h1
    · exact Or.inl h1.1
    · exact Or.inr h1.1
  unfold MapGenerator.neighbors MapGenerator.allNeighbors
  unfold MapGenerator.directNeighbors MapGenerator.diagonalNeighbors at hmem
  simp only [Bool.false_eq_true, if_false, List.map_append, List.filter_append, List.mem_append]
  exact hmem

theorem roadMove_cases {m : MapGenerator} {z : TemplateZone} {destination a b : Position}
    (h : roadMove m z destination a b = true) :
    ((m.isFree a = true ∧ m.isFree b = true) ∨
      ((m.visitable a = true ∨ m.visitable b = true) ∧ m.canMoveBetween a b = true) ∨
      b = destination) ∧
    (m.getZoneId b = z.id ∨ b = destination) := by
  unfold roadMove at h
  simp only [Bool.and_eq_true, Bool.or_eq_true, decide_eq_true_eq] at h
  tauto

/-! ## The road `createRoad` builds (C22, C23) -/

/-- C22: `createRoad` from a source inside the map returns, and whenever it returns true there
is a chain of tiles that starts at the source, each an 8-neighbour of the one before it, whose
last tile is the destination or a tile that was flagged as road before the call, and every tile
of the chain other than the source is flagged as road and belongs to the road set of the zone
afterwards. -/
theorem createRoad_true_chain (m : MapGenerator) (z : TemplateZone)
    (source destination : Position) (hsrc : m.isInTheMap source = true) :
    ∃ r, createRoad m z source destination = some r ∧
      (r.result = true →
        ∃ rest, List.Chain (fun a b => b ∈ m.neighbors false a) source rest ∧
          (chainEnd source rest = destination ∨ m.isRoad (chainEnd source rest) = true) ∧
          ∀ t ∈ rest, r.gen.isRoad t = true ∧ t ∈ r.zone.roads) := by
  obtain ⟨r, hr, _, _, _, htrue⟩ := createRoad_spec m z source destination
    (Position.isValid_of_isInTheMap m source hsrc)
  refine ⟨r, hr, fun hres => ?_⟩
  obtain ⟨rest, h1, h2, _, h4, h5⟩ := htrue hres
  refine ⟨rest, h1.imp (fun _ _ h => h.elim fun _ hw => roadEdge_neighbor hw), ?_, ?_⟩
  · rcases h2 with h | h
    · exact Or.inl h
    · exact Or.inr h.1
  · intro t ht
    refine ⟨?_, (h5 t).2 (Or.inr ht)⟩
    rw [h4 t, if_pos ht]

/-- Witness for C22: the road from (0,0) to (1,0) on the row of two tiles. -/
theorem createRoad_true_chain_witness :
    (blankGen 2 1).isInTheMap ⟨0, 0⟩ = true ∧
    ∃ r, createRoad (blankGen 2 1) (rowZone 2) ⟨0, 0⟩ ⟨1, 0⟩ = some r ∧
      (r.result = true →
        ∃ rest, List.Chain (fun a b => b ∈ (blankGen 2 1).neighbors false a) ⟨0, 0⟩ rest ∧
          (chainEnd ⟨0, 0⟩ rest = ⟨1, 0⟩ ∨ (blankGen 2 1).isRoad (chainEnd ⟨0, 0⟩ rest) = true) ∧
          ∀ t ∈ rest, r.gen.isRoad t = true ∧ t ∈ r.zone.roads) :=
  ⟨by decide, createRoad_true_chain (blankGen 2 1) (rowZone 2) ⟨0, 0⟩ ⟨1, 0⟩ (by decide)⟩

/-- C23 fails as stated: on the row of two Possible tiles, neither of them visitable,
`createRoad` from (0,0) to (1,0) returns true and its road is the step from (0,0) onto (1,0). -/
theorem createRoad_enters_destination :
    ∃ r, createRoad (blankGen 2 1) (rowZone 2) ⟨0, 0⟩ ⟨1, 0⟩ = some r ∧
      r.result = true ∧ r.zone.roads = [⟨1, 0⟩] ∧ r.gen.isRoad ⟨1, 0⟩ = true ∧
      (blankGen 2 1).isFree ⟨0, 0⟩ = false ∧ (blankGen 2 1).isFree ⟨1, 0⟩ = false ∧
      (blankGen 2 1).visitable ⟨0, 0⟩ = false ∧ (blankGen 2 1).visitable ⟨1, 0⟩ = false :=
  ⟨_, rfl, rfl, rfl, rfl, rfl, rfl, rfl, rfl⟩

/-- C23 (amended): `createRoad` from a source inside the map returns, and when it returns true
the tiles it adds to the road set of the zone are those of a chain from the source in which
every step is a step between two Free tiles, or a step with a visitable tile at one end that the
map allows (`canMoveBetween`), or a step onto the destination. -/
theorem createRoad_steps_accepted (m : MapGenerator) (z : TemplateZone)
    (source destination : Position) (hsrc : m.isInTheMap source = true) :
    ∃ r, createRoad m z source destination = some r ∧
      (r.result = true →
        ∃ rest, (∀ t, t ∈ r.zone.roads ↔ t ∈ z.roads ∨ t ∈ rest) ∧
          List.Chain
            (fun a b => (m.isFree a = true ∧ m.isFree b = true) ∨
              ((m.visitable a = true ∨ m.visitable b = true) ∧ m.canMoveBetween a b = true) ∨
              b = destination)
            source rest) := by
  obtain ⟨r, hr, _, _, _, htrue⟩ := createRoad_spec m z source destination
    (Position.isValid_of_isInTheMap m source hsrc)
  refine ⟨r, hr, fun hres => ?_⟩
  obtain ⟨rest, h1, _, _, _, h5⟩ := htrue hres
  exact ⟨rest, h5, h1.imp (fun _ _ h => h.elim fun _ hw => (roadMove_cases hw.2).1)⟩

/-- Witness for C23, amended: the road from (0,0) to (1,0) on the row of two tiles. -/
theorem createRoad_steps_accepted_witness :
    (blankGen 2 1).isInTheMap ⟨0, 0⟩ = true ∧
    ∃ r, createRoad (blankGen 2 1) (rowZone 2) ⟨0, 0⟩ ⟨1, 0⟩ = some r ∧
      (r.result = true →
        ∃ rest, (∀ t, t ∈ r.zone.roads ↔ t ∈ (rowZone 2).roads ∨ t ∈ rest) ∧
          List.Chain
            (fun a b => ((blankGen 2 1).isFree a = true ∧ (blankGen 2 1).isFree b = true) ∨
              (((blankGen 2 1).visitable a = true ∨ (blankGen 2 1).visitable b = true) ∧
                (blankGen 2 1).canMoveBetween a b = true) ∨
              b = ⟨1, 0⟩)
            ⟨0, 0⟩ rest) :=
  ⟨by decide, createRoad_steps_accepted (blankGen 2 1) (rowZone 2) ⟨0, 0⟩ ⟨1, 0⟩ (by decide)⟩

/-! ## Lemmas: connected sets of road tiles -/

theorem Linked.symm {m : MapGenerator} {s : Position → Prop} {a b : Position}
    (h : Linked m s a b) : Linked m s b a := by
  have hsymm : Symmetric (fun x y => s x ∧ s y ∧ adjacent m x y) := by
    intro x y hxy
    exact ⟨hxy.2.1, hxy.1, hxy.2.2.symm⟩
  exact Relation.ReflTransGen.symmetric hsymm h

theorem Linked.widen {m : MapGenerator} {s s1 : Position → Prop} (hs : ∀ t, s t → s1 t)
    {a b : Position} (h : Linked m s a b) : Linked m s1 a b :=
  Relation.ReflTransGen.mono (fun _ _ hxy => ⟨hs _ hxy.1, hs _ hxy.2.1, hxy.2.2⟩) h

theorem chainEnd_mem : ∀ (rest : List Position) (a : Position), chainEnd a rest ∈ a :: rest := by
  intro rest
  induction rest with
  | nil => intro a; simp [chainEnd]
  | cons b rest ih =>
    intro a
    exact List.mem_cons_of_mem _ (ih b)

/-- The tiles of a chain of adjacent tiles of `s` are linked to its first tile inside `s`. -/
theorem chain_linked {m : MapGenerator} {s : Position → Prop} {r : Position → Position → Prop}
    (hr : ∀ x y, r x y → adjacent m x y) :
    ∀ (rest : List Position) (a : Position), List.Chain r a rest → (∀ t ∈ a :: rest, s t) →
      ∀ t ∈ a :: rest, Linked m s a t := by
  intro rest
  induction rest with
  | nil =>
    intro a _ _ t ht
    rw [List.mem_singleton.1 ht]
    exact Relation.ReflTransGen.refl
  | cons b rest ih =>
    intro a hc hs t ht
    cases hc with
    | cons hab hrest =>
      rcases List.mem_cons.1 ht with h | h
      · rw [h]
        exact Relation.ReflTransGen.refl
      · have hstep : Linked m s a b :=
          Relation.ReflTransGen.single
            ⟨hs a (List.mem_cons_self _ _), hs b (List.mem_cons_of_mem _ (List.mem_cons_self _ _)),
              hr a b hab⟩
        exact hstep.trans (ih b hrest (fun x hx => hs x (List.mem_cons_of_mem _ hx)) t h)

/-- A set all of whose tiles are linked to one of them is a single connected set. -/
theorem roadsJoined_of_hub {m : MapGenerator} {s : Position → Prop} (hub : Position)
    (h : ∀ x, s x → Linked m s x hub) : RoadsJoined m s :=
  fun a b ha hb => (h a ha).trans (h b hb).symm

theorem nearestNode_mem (node : Position) :
    ∀ (l : List Position), l ≠ [] → ∃ c, nearestNode node l = some c ∧ c ∈ l := by
  intro l hl
  cases l with
  | nil => exact absurd rfl hl
  | cons a rest =>
    refine ⟨_, rfl, ?_⟩
    have : ∀ (rest : List Position) (a : Position),
        rest.foldl (fun best c =>
          if node.distanceSquared c < node.distanceSquared best then c else best) a ∈
          a :: rest := by
      intro rest
      induction rest with
      | nil => intro a; simp
      | cons b rest ih =>
        intro a
        rw [List.foldl_cons]
        have h := ih (if node.distanceSquared b < node.distanceSquared a then b else a)
        rcases List.mem_cons.1 h with h1 | h1
        · rw [h1]
          split_ifs
          · exact List.mem_cons_of_mem _ (List.mem_cons_self _ _)
          · exact List.mem_cons_self _ _
        · exact List.mem_cons_of_mem _ (List.mem_cons_of_mem _ h1)
    exact this rest a

theorem length_eraseIfPresent_le (s : List Position) (p : Position) :
    (eraseIfPresent s p).length ≤ s.length := by
  unfold eraseIfPresent
  exact List.length_filter_le _ _

/-- One successful call of `createRoad` from `node` towards `cross` keeps the flagged tiles and
the processed nodes a single connected set. -/
theorem roadsJoined_step (m : MapGenerator) (node cross : Position)
    (processed rest : List Position) (before after : Position → Bool)
    (hchain : List.Chain (fun a b => adjacent m a b) node rest)
    (hgoal : chainEnd node rest = cross ∨
      (before (chainEnd node rest) = true ∧ chainEnd node rest ≠ node))
    (hafter : ∀ t, after t =
      if t ∈ rest then true else if t = node then false else before t)
    (hcross : processed ≠ [] → cross ∈ processed)
    (hempty : processed = [] → ∀ t, before t = false)
    (hjoined : RoadsJoined m (fun t => before t = true ∨ t ∈ processed)) :
    RoadsJoined m
      (fun t => after t = true ∨ t ∈ setInsert (setInsert processed cross) node) := by
  have hnode : after node = true ∨ node ∈ setInsert (setInsert processed cross) node :=
    Or.inr ((mem_setInsert _ _ _).2 (Or.inr rfl))
  have hcrossin : after cross = true ∨ cross ∈ setInsert (setInsert processed cross) node :=
    Or.inr ((mem_setInsert _ _ _).2 (Or.inl ((mem_setInsert _ _ _).2 (Or.inr rfl))))
  have hrest : ∀ t ∈ rest,
      after t = true ∨ t ∈ setInsert (setInsert processed cross) node := by
    intro t ht
    left
    rw [hafter t, if_pos ht]
  have hlink : ∀ t ∈ node :: rest,
      Linked m (fun t => after t = true ∨ t ∈ setInsert (setInsert processed cross) node)
        node t := chain_linked (fun _ _ h => h) rest node hchain (by
    intro t ht
    rcases List.mem_cons.1 ht with h | h
    · rw [h]; exact hnode
    · exact hrest t h)
  have hold : ∀ t, (before t = true ∨ t ∈ processed) →
      (after t = true ∨ t ∈ setInsert (setInsert processed cross) node) := by
    intro t ht
    rcases ht with h | h
    · by_cases htn : t = node
      · rw [htn]; exact hnode
      · left
        rw [hafter t]
        split_ifs
        · rfl
        · exact h
    · exact Or.inr ((mem_setInsert _ _ _).2 (Or.inl ((mem_setInsert _ _ _).2 (Or.inl h))))
  have hgoallink := hlink _ (chainEnd_mem rest node)
  apply roadsJoined_of_hub node
  intro x hx
  have hcases : x = node ∨ x ∈ rest ∨ x = cross ∨ (before x = true ∨ x ∈ processed) := by
    rcases hx with h | h
    · rw [hafter x] at h
      split_ifs at h with h1 h2
      · exact Or.inr (Or.inl h1)
      · exact Or.inr (Or.inr (Or.inr (Or.inl h)))
    · rcases (mem_setInsert _ _ _).1 h with h1 | h1
      · rcases (mem_setInsert _ _ _).1 h1 with h2 | h2
        · exact Or.inr (Or.inr (Or.inr (Or.inr h2)))
        · exact Or.inr (Or.inr (Or.inl h2))
      · exact Or.inl h1
  by_cases hp : processed = []
  · have hx2 : x = node ∨ x ∈ rest ∨ x = cross := by
      rcases hcases with h | h | h | h | h
      · exact Or.inl h
      · exact Or.inr (Or.inl h)
      · exact Or.inr (Or.inr h)
      · rw [hempty hp x] at h
        cases h
      · rw [hp] at h
        cases h
    rcases hx2 with h | h | h
    · rw [h]
      exact Relation.ReflTransGen.refl
    · exact (hlink x (List.mem_cons_of_mem _ h)).symm
    · rcases hgoal with hg | hg
      · rw [h]
        have h2 := hgoallink.symm
        rw [hg] at h2
        exact h2
      · rw [hempty hp _] at hg
        cases hg.1
  · have hgoalold : before (chainEnd node rest) = true ∨ chainEnd node rest ∈ processed := by
      rcases hgoal with hg | hg
      · rw [hg]; exact Or.inr (hcross hp)
      · exact Or.inl hg.1
    have holdlink : ∀ t, (before t = true ∨ t ∈ processed) →
        Linked m (fun t => after t = true ∨ t ∈ setInsert (setInsert processed cross) node)
          t node :=
      fun t ht => ((hjoined t _ ht hgoalold).widen hold).trans hgoallink.symm
    rcases hcases with h | h | h | h
    · rw [h]
      exact Relation.ReflTransGen.refl
    · exact (hlink x (List.mem_cons_of_mem _ h)).symm
    · rw [h]
      exact holdlink cross (Or.inr (hcross hp))
    · exact holdlink x h

/-- The loop of `connectRoads` returns and leaves the flagged tiles and the road nodes a single
connected set, when every call of `createRoad` it makes can reach its destination. -/
theorem connectRoadsLoop_spec (m : MapGenerator) (z : TemplateZone)
    (hmap : ∀ n ∈ z.roadNodes, m.isInTheMap n = true)
    (hpath : ∀ a ∈ z.roadNodes, ∀ b ∈ z.roadNodes,
      Relation.ReflTransGen (directRoadMove m z b) a b) :
    ∀ (fuel : Nat) (roadNodesCopy processed : List Position) (groads : Position → Bool)
      (zroads : List Position),
      roadNodesCopy.length + 1 ≤ fuel →
      (∀ n ∈ roadNodesCopy, n ∈ z.roadNodes) → (∀ n ∈ processed, n ∈ z.roadNodes) →
      (∀ n ∈ z.roadNodes, n ∈ roadNodesCopy ∨ n ∈ processed) →
      (processed = [] → ∀ t, groads t = false) →
      RoadsJoined m (fun t => groads t = true ∨ t ∈ processed) →
      ∃ r, connectRoadsLoop fuel roadNodesCopy processed
          ({ m with roads := groads }, { z with roads := zroads }) = some r ∧
        RoadsJoined m (fun t => r.1.isRoad t = true ∨ t ∈ z.roadNodes) := by
  intro fuel
  induction fuel with
  | zero => intro _ _ _ _ h; omega
  | succ fuel ih =>
    intro rnc processed groads zroads hfuel hrnc hproc hcover hempty hjoined
    unfold connectRoadsLoop
    cases rnc with
    | nil =>
      refine ⟨_, rfl, ?_⟩
      intro a b ha hb
      have hiff : ∀ t, (groads t = true ∨ t ∈ z.roadNodes) → (groads t = true ∨ t ∈ processed) := by
        intro t ht
        rcases ht with h | h
        · exact Or.inl h
        · rcases hcover t h with h1 | h1
          · cases h1
          · exact Or.inr h1
      refine (hjoined a b (hiff a ha) (hiff b hb)).widen ?_
      intro t ht
      rcases ht with h | h
      · exact Or.inl h
      · exact Or.inr (hproc t h)
    | cons node rest =>
      dsimp only
      have hnode : node ∈ z.roadNodes := hrnc node (List.mem_cons_self _ _)
      by_cases hboth : processed = [] ∧ rest = []
      · obtain ⟨hp, hr⟩ := hboth
        subst hp hr
        refine ⟨_, rfl, ?_⟩
        apply roadsJoined_of_hub node
        intro x hx
        rcases hx with h | h
        · have h2 : groads x = true := h
          rw [hempty rfl x] at h2
          cases h2
        · rcases hcover x h with h1 | h1
          · rw [List.mem_singleton.1 h1]
            exact Relation.ReflTransGen.refl
          · cases h1
      · obtain ⟨cross, hcross, hcrossmem, hcrossproc⟩ : ∃ cross,
            (if (!processed.isEmpty) = true then nearestNode node processed
              else if (!rest.isEmpty) = true then nearestNode node rest else none) = some cross ∧
            cross ∈ z.roadNodes ∧ (processed ≠ [] → cross ∈ processed) := by
          by_cases hp : processed = []
          · have hr : rest ≠ [] := fun h => hboth ⟨hp, h⟩
            obtain ⟨c, hc, hcm⟩ := nearestNode_mem node rest hr
            refine ⟨c, ?_, hrnc c (List.mem_cons_of_mem _ hcm), fun h => absurd hp h⟩
            rw [hp]
            cases rest with
            | nil => exact absurd rfl hr
            | cons _ _ => simpa using hc
          · obtain ⟨c, hc, hcm⟩ := nearestNode_mem node processed hp
            refine ⟨c, ?_, hproc c hcm, fun _ => hcm⟩
            cases processed with
            | nil => exact absurd rfl hp
            | cons _ _ => simpa using hc
        rw [hcross]
        dsimp only
        obtain ⟨r, hr, hgen, hzone, hfalse, htrue⟩ :=
          createRoad_spec { m with roads := groads } { z with roads := zroads } node cross
            (Position.isValid_of_isInTheMap m node (hmap node hnode))
        rw [hr]
        dsimp only
        cases hres : r.result with
        | false =>
          exact absurd (hpath node hnode cross hcrossmem) (hfalse hres).2.2
        | true =>
          simp only [if_true]
          obtain ⟨chain, hchain, hgoal, _, hafter, _⟩ := htrue hres
          have hpair : (r.gen, r.zone) =
              (({ m with roads := r.gen.roads } : MapGenerator),
                ({ z with roads := r.zone.roads } : TemplateZone)) := Prod.ext hgen hzone
          rw [hpair]
          apply ih
          · have := length_eraseIfPresent_le rest cross
            simp only [List.length_cons] at hfuel
            omega
          · intro n hn
            exact hrnc n (List.mem_cons_of_mem _ ((mem_eraseIfPresent rest cross n).1 hn).1)
          · intro n hn
            rcases (mem_setInsert _ _ _).1 hn with h1 | h1
            · rcases (mem_setInsert _ _ _).1 h1 with h2 | h2
              · exact hproc n h2
              · rw [h2]; exact hcrossmem
            · rw [h1]; exact hnode
          · intro n hn
            by_cases hnc : n = cross
            · right
              rw [hnc]
              exact (mem_setInsert _ _ _).2 (Or.inl ((mem_setInsert _ _ _).2 (Or.inr rfl)))
            · rcases hcover n hn with h1 | h1
              · rcases List.mem_cons.1 h1 with h2 | h2
                · right
                  rw [h2]
                  exact (mem_setInsert _ _ _).2 (Or.inr rfl)
                · left
                  exact (mem_eraseIfPresent rest cross n).2 ⟨h2, hnc⟩
              · right
                exact (mem_setInsert _ _ _).2 (Or.inl ((mem_setInsert _ _ _).2 (Or.inl h1)))
          · intro h
            have : node ∈ setInsert (setInsert processed cross) node :=
              (mem_setInsert _ _ _).2 (Or.inr rfl)
            rw [h] at this
            cases this
          · exact roadsJoined_step m node cross processed chain groads r.gen.roads
              (hchain.imp fun _ _ h => h.elim fun _ hw => Or.inl (roadEdge_neighbor hw))
              hgoal hafter hcrossproc hempty hjoined

/-- A set with two tiles one of which is adjacent to no tile of the set is not a single
connected set. -/
theorem not_roadsJoined_of_isolated {m : MapGenerator} {s : Position → Prop} (a b : Position)
    (ha : s a) (hb : s b) (hab : a ≠ b) (hisolated : ∀ y, s y → ¬adjacent m a y) :
    ¬RoadsJoined m s := by
  intro h
  rcases Relation.ReflTransGen.cases_head (h a b ha hb) with h1 | ⟨c, hstep, _⟩
  · exact hab h1
  · exact hisolated c hstep.2.1 hstep.2.2

theorem forall_pairs {p : Position → Position → Prop} (x y : Position) (hxx : p x x)
    (hxy : p x y) (hyx : p y x) (hyy : p y y) : ∀ a ∈ [x, y], ∀ b ∈ [x, y], p a b := by
  intro a ha b hb
  simp only [List.mem_cons, List.mem_singleton, List.not_mem_nil, or_false] at ha hb
  rcases ha with rfl | rfl <;> rcases hb with rfl | rfl <;> assumption

/-! ## The road network of a zone (C21) -/

/-- C21 fails as stated.  On the row of three Possible tiles with the road nodes (0,0) and
(2,0), which a path through non-Blocked tiles of the zone joins, `connectRoads` flags no tile
at all: (1,0) is neither Free nor visitable, so no step of `createRoad` is accepted.  On the row
of five Free tiles with the road nodes (1,0) and (4,0) and the tile (0,0) flagged as road
before the call, the road from (1,0) ends at (0,0), and (4,0) is left on its own. -/
theorem connectRoads_leaves_nodes_apart :
    (∃ r, connectRoads (blankGen 3 1) twoNodeZone = some r ∧
      (∀ a ∈ twoNodeZone.roadNodes, ∀ b ∈ twoNodeZone.roadNodes,
        Relation.ReflTransGen (openStep (blankGen 3 1) twoNodeZone) a b) ∧
      (∀ t, r.1.isRoad t = false) ∧
      ¬RoadsJoined (blankGen 3 1) (fun t => r.1.isRoad t = true ∨ t ∈ twoNodeZone.roadNodes)) ∧
    ∃ r, connectRoads (freeRowGen 5 fun p => decide (p = ⟨0, 0⟩)) farNodeZone = some r ∧
      (∀ a ∈ farNodeZone.roadNodes, ∀ b ∈ farNodeZone.roadNodes,
        Relation.ReflTransGen
          (openStep (freeRowGen 5 fun p => decide (p = ⟨0, 0⟩)) farNodeZone) a b) ∧
      (∀ t, r.1.isRoad t = true ↔ t = ⟨0, 0⟩) ∧
      ¬RoadsJoined (freeRowGen 5 fun p => decide (p = ⟨0, 0⟩))
        (fun t => r.1.isRoad t = true ∨ t ∈ farNodeZone.roadNodes) := by
  have hflag3 : ∀ t : Position,
      (if t = ⟨2, 0⟩ then false else if t = ⟨0, 0⟩ then false else false) = false := by
    intro t
    split_ifs <;> rfl
  have hflag5 : ∀ t : Position,
      (if t = ⟨0, 0⟩ then true else if t = ⟨1, 0⟩ then false else decide (t = ⟨0, 0⟩)) = true ↔
        t = ⟨0, 0⟩ := by
    intro t
    split_ifs with h1 h2
    · simp [h1]
    · simp [h1]
    · simp [h1]
  have step3 : ∀ a b : Position, b ∈ (blankGen 3 1).neighbors false a →
      openStep (blankGen 3 1) twoNodeZone a b :=
    fun a b h => ⟨h, by simp [blankGen], rfl⟩
  have step5 : ∀ a b : Position,
      b ∈ (freeRowGen 5 fun p => decide (p = ⟨0, 0⟩)).neighbors false a →
      openStep (freeRowGen 5 fun p => decide (p = ⟨0, 0⟩)) farNodeZone a b :=
    fun a b h => ⟨h, by simp [freeRowGen], rfl⟩
  refine ⟨⟨_, rfl, ?_, hflag3, ?_⟩, _, rfl, ?_, hflag5, ?_⟩
  · exact forall_pairs _ _ Relation.ReflTransGen.refl
      ((Relation.ReflTransGen.single (step3 ⟨0, 0⟩ ⟨1, 0⟩ (by decide))).tail
        (step3 ⟨1, 0⟩ ⟨2, 0⟩ (by decide)))
      ((Relation.ReflTransGen.single (step3 ⟨2, 0⟩ ⟨1, 0⟩ (by decide))).tail
        (step3 ⟨1, 0⟩ ⟨0, 0⟩ (by decide)))
      Relation.ReflTransGen.refl
  · refine not_roadsJoined_of_isolated ⟨0, 0⟩ ⟨2, 0⟩ (Or.inr (by decide)) (Or.inr (by decide))
      (by decide) ?_
    intro y hy
    rcases hy with h | h
    · have h2 := hflag3 y
      have h3 : (if y = ⟨2, 0⟩ then false else if y = ⟨0, 0⟩ then false else false) = true := h
      rw [h2] at h3
      cases h3
    · have h2 : y = ⟨0, 0⟩ ∨ y = ⟨2, 0⟩ := by simpa [twoNodeZone] using h
      rcases h2 with rfl | rfl
      · unfold adjacent; decide
      · unfold adjacent; decide
  · exact forall_pairs _ _ Relation.ReflTransGen.refl
      (((Relation.ReflTransGen.single (step5 ⟨1, 0⟩ ⟨2, 0⟩ (by decide))).tail
        (step5 ⟨2, 0⟩ ⟨3, 0⟩ (by decide))).tail (step5 ⟨3, 0⟩ ⟨4, 0⟩ (by decide)))
      (((Relation.ReflTransGen.single (step5 ⟨4, 0⟩ ⟨3, 0⟩ (by decide))).tail
        (step5 ⟨3, 0⟩ ⟨2, 0⟩ (by decide))).tail (step5 ⟨2, 0⟩ ⟨1, 0⟩ (by decide)))
      Relation.ReflTransGen.refl
  · refine not_roadsJoined_of_isolated ⟨4, 0⟩ ⟨1, 0⟩ (Or.inr (by decide)) (Or.inr (by decide))
      (by decide) ?_
    intro y hy
    have h2 : y = ⟨0, 0⟩ ∨ y = ⟨1, 0⟩ ∨ y = ⟨4, 0⟩ := by
      rcases hy with h | h
      · exact Or.inl ((hflag5 y).1 h)
      · exact Or.inr (by simpa [farNodeZone] using h)
    rcases h2 with rfl | rfl | rfl
    · unfold adjacent; decide
    · unfold adjacent; decide
    · unfold adjacent; decide

/-- C21 (amended): when the road nodes of the zone are tiles of the map, no tile is flagged as
road before the call, and between every pair of road nodes there is a path of steps onto direct
neighbours that `createRoad` towards the second node accepts, `connectRoads` returns and the
tiles flagged as road together with the road nodes form a single connected set. -/
theorem connectRoads_joins_nodes (m : MapGenerator) (z : TemplateZone)
    (hmap : ∀ n ∈ z.roadNodes, m.isInTheMap n = true) (hnone : ∀ t, m.isRoad t = false)
    (hpath : ∀ a ∈ z.roadNodes, ∀ b ∈ z.roadNodes,
      Relation.ReflTransGen (directRoadMove m z b) a b) :
    ∃ r, connectRoads m z = some r ∧
      RoadsJoined m (fun t => r.1.isRoad t = true ∨ t ∈ z.roadNodes) := by
  unfold connectRoads
  refine connectRoadsLoop_spec m z hmap hpath _ z.roadNodes [] m.roads z.roads (Nat.le_refl _)
    (fun _ h => h) (fun _ h => (by cases h)) (fun _ h => Or.inl h) (fun _ t => hnone t) ?_
  intro a b ha hb
  rcases ha with h | h
  · have h2 : m.isRoad a = true := h
    rw [hnone a] at h2
    cases h2
  · cases h

/-- Witness for C21, amended: the row of three Free tiles with the road nodes (0,0) and
(2,0). -/
theorem connectRoads_joins_nodes_witness :
    (∀ n ∈ twoNodeZone.roadNodes, (freeRowGen 3 fun _ => false).isInTheMap n = true) ∧
    (∀ t, (freeRowGen 3 fun _ => false).isRoad t = false) ∧
    (∀ a ∈ twoNodeZone.roadNodes, ∀ b ∈ twoNodeZone.roadNodes,
      Relation.ReflTransGen (directRoadMove (freeRowGen 3 fun _ => false) twoNodeZone b) a b) ∧
    ∃ r, connectRoads (freeRowGen 3 fun _ => false) twoNodeZone = some r ∧
      RoadsJoined (freeRowGen 3 fun _ => false)
        (fun t => r.1.isRoad t = true ∨ t ∈ twoNodeZone.roadNodes) :=
  have hpath : ∀ a ∈ twoNodeZone.roadNodes, ∀ b ∈ twoNodeZone.roadNodes,
      Relation.ReflTransGen (directRoadMove (freeRowGen 3 fun _ => false) twoNodeZone b) a b :=
    have s1 : directRoadMove (freeRowGen 3 fun _ => false) twoNodeZone ⟨2, 0⟩ ⟨0, 0⟩ ⟨1, 0⟩ :=
      ⟨by decide, rfl⟩
    have s2 : directRoadMove (freeRowGen 3 fun _ => false) twoNodeZone ⟨2, 0⟩ ⟨1, 0⟩ ⟨2, 0⟩ :=
      ⟨by decide, rfl⟩
    have s3 : directRoadMove (freeRowGen 3 fun _ => false) twoNodeZone ⟨0, 0⟩ ⟨2, 0⟩ ⟨1, 0⟩ :=
      ⟨by decide, rfl⟩
    have s4 : directRoadMove (freeRowGen 3 fun _ => false) twoNodeZone ⟨0, 0⟩ ⟨1, 0⟩ ⟨0, 0⟩ :=
      ⟨by decide, rfl⟩
    forall_pairs _ _ Relation.ReflTransGen.refl ((Relation.ReflTransGen.single s1).tail s2)
      ((Relation.ReflTransGen.single s3).tail s4) Relation.ReflTransGen.refl
  ⟨by decide, fun _ => rfl, hpath,
    connectRoads_joins_nodes (freeRowGen 3 fun _ => false) twoNodeZone (by decide)
      (fun _ => rfl) hpath⟩

/-! ## The frame of `crunchPath` (C34) -/

theorem insertCleared_added (before : List Position) (g : MapGenerator)
    (cleared : Option (List Position)) (position : Position)
    (h : ∀ c, cleared = some c → ∀ t ∈ c, t ∈ before ∨ g.tiles t = TileType.Free) :
    ∀ c, insertCleared cleared position = some c →
      ∀ t ∈ c, t ∈ before ∨ (g.setOccupied position TileType.Free).tiles t = TileType.Free := by
  intro c hc t ht
  cases cleared with
  | none => simp [insertCleared] at hc
  | some c0 =>
    simp only [insertCleared, Option.map_some', Option.some.injEq] at hc
    subst hc
    rw [mem_setInsert] at ht
    simp only [MapGenerator.setOccupied]
    by_cases htp : t = position
    · right
      rw [if_pos htp]
    · rw [if_neg htp]
      rcases ht with h1 | h1
      · exact h c0 rfl t h1
      · exact absurd h1 htp

theorem processNeighbors_added (before : List Position) (z : TemplateZone)
    (destination : Position) (st : CrunchState) (position : Position)
    (h : SinkAdded before st) :
    SinkAdded before (processNeighbors z destination st position) := by
  unfold processNeighbors
  split
  · exact h
  · have h1 : SinkAdded before (if position = destination then
        { st with result := true, finished := true } else st) := by
      split
      · exact h
      · exact h
    generalize (if position = destination then
        ({ st with result := true, finished := true } : CrunchState) else st) = st1 at h1
    dsimp only
    split
    · exact h1
    · split
      · exact h1
      · split
        · exact h1
        · split
          · exact insertCleared_added before st1.gen st1.clearedTiles position h1
          · split
            · exact h1
            · exact h1

theorem visitNeighbors_added (before : List Position) (z : TemplateZone)
    (destination : Position) (os : Bool) (start : Position) (st : CrunchState)
    (h : SinkAdded before st) :
    SinkAdded before (visitNeighbors z destination os start st) := by
  unfold visitNeighbors
  generalize MapGenerator.neighborOffsets os = l
  induction l generalizing st with
  | nil => exact h
  | cons a rest ih =>
    rw [List.foldl_cons]
    apply ih
    dsimp only
    split
    · split
      · exact processNeighbors_added before z destination st _ h
      · exact h
    · split
      · exact processNeighbors_added before z destination st _ h
      · exact h

theorem crunchPathIteration_added (before : List Position) (z : TemplateZone)
    (destination : Position) (os : Bool) (st : CrunchState) (h : SinkAdded before st) :
    SinkAdded before (crunchPathIteration z destination os st).1 := by
  unfold crunchPathIteration
  split
  · exact h
  · have h1 := visitNeighbors_added before z destination os st.currentPosition st h
    generalize visitNeighbors z destination os st.currentPosition st = st1 at h1
    dsimp only
    split
    · rcases fallbackLoop_first st1.gen z destination st1.currentPosition
          (st1.gen.neighbors os st1.currentPosition)
          { lastDistance := 2 * st1.distance, anotherPosition := invalidPosition,
            clearedTiles := st1.clearedTiles } with hfb | ⟨_, p, _, hl, _, _, _, _, hfb⟩
      · rw [hfb]
        dsimp only
        split
        · exact insertCleared_added before st1.gen st1.clearedTiles invalidPosition h1
        · exact h1
      · rw [hfb]
        dsimp only
        split
        · intro c hc t ht
          cases hcl : st1.clearedTiles with
          | none => simp [insertCleared, hcl] at hc
          | some c0 =>
            simp only [insertCleared, hcl, Option.map_some', Option.some.injEq] at hc
            subst hc
            rw [mem_setInsert, mem_setInsert] at ht
            simp only [MapGenerator.setOccupied]
            by_cases htp : t = p
            · right
              rw [if_pos htp]
            · rw [if_neg htp]
              rcases ht with (h2 | h2) | h2
              · exact h1 c0 hcl t h2
              · exact absurd h2 htp
              · exact absurd h2 htp
        · rename_i hnv
          have hmem : p ∈ st1.gen.neighbors os st1.currentPosition := by
            rw [hl]
            simp
          exact absurd (Position.isValid_of_isInTheMap st1.gen p
            (st1.gen.isInTheMap_of_mem_neighbors os _ p hmem)) hnv
    · exact h1

theorem crunchPathLoop_added (before : List Position) (z : TemplateZone)
    (destination : Position) (os : Bool) :
    ∀ (fuel : Nat) (st r : CrunchState), SinkAdded before st →
      crunchPathLoop z destination os fuel st = some r → SinkAdded before r := by
  intro fuel
  induction fuel with
  | zero => intro st r _ h; simp [crunchPathLoop] at h
  | succ fuel ih =>
    intro st r hst h
    unfold crunchPathLoop at h
    split at h
    · cases h
      exact hst
    · dsimp only at h
      have h1 := crunchPathIteration_added before z destination os st hst
      split at h
      · exact ih _ r h1 h
      · cases h
        exact h1

/-- C34: `crunchPath` returns; every tile whose state differs after the call was Possible and
of the zone before the call and is Free after it, and every tile the call has added to the sink
`clearedTiles` is Free after the call. -/
theorem crunchPath_frees_possible_only (m : MapGenerator) (z : TemplateZone)
    (source destination : Position) (onlyStraight : Bool)
    (clearedTiles : Option (List Position)) :
    ∃ r, crunchPath m z source destination onlyStraight clearedTiles = some r ∧
      (∀ t, r.gen.tiles t ≠ m.tiles t →
        m.tiles t = TileType.Possible ∧ m.getZoneId t = z.id ∧ r.gen.tiles t = TileType.Free) ∧
      (∀ before after, clearedTiles = some before → r.clearedTiles = some after →
        ∀ t ∈ after, t ∉ before → r.gen.tiles t = TileType.Free) := by
  obtain ⟨r, hr, _, hframe, _, _⟩ :=
    crunchPath_spec m z source destination onlyStraight clearedTiles
  refine ⟨r, hr, ?_, ?_⟩
  · intro t ht
    rcases hframe t with h1 | ⟨h1, _, h3⟩
    · exact absurd h1 ht
    · exact ⟨h1.1, h3, h1.2⟩
  · intro before after hb ha t ht hnot
    unfold crunchPath at hr
    cases hl : crunchPathLoop z destination onlyStraight (m.width * m.height + 2)
        (crunchPathInit m source destination clearedTiles) with
    | none => rw [hl] at hr; cases hr
    | some st =>
      rw [hl] at hr
      cases hr
      have hinit : SinkAdded before (crunchPathInit m source destination clearedTiles) := by
        intro c hc t ht
        simp only [crunchPathInit] at hc
        rw [hb] at hc
        cases hc
        exact Or.inl ht
      rcases crunchPathLoop_added before z destination onlyStraight _ _ st hinit hl after ha t ht
        with h | h
      · exact absurd h hnot
      · exact h

/-! ## The exceptions of `placeObject` (C39) -/

/-- The outcome of `placeObject` is the one its statements leave: the exception with the message
recorded, or the normal return with the grid and the zone reached. -/
theorem placeObject_eq_state (kind : PlaceableKind) (m : MapGenerator) (z : TemplateZone)
    (id : Nat) (element : MapElement) (position : Position) (updateDistance : Bool) :
    placeObject kind m z id element position updateDistance =
      match (placeObjectState kind m z id element position updateDistance).1 with
      | some message => Except.error message
      | none => Except.ok (placeObjectState kind m z id element position updateDistance).2 := by
  cases kind
  · simp only [placeObject, placeObjectState, placeFortification, placeFortificationState]
    split
    · rfl
    · split
      · rfl
      · rfl
  · simp only [placeObject, placeObjectState, placeStack, placeStackState]
    split
    · rfl
    · rfl
  · simp only [placeObject, placeObjectState, placeCrystal, placeCrystalState]
    split
    · rfl
    · rfl
  · simp only [placeObject, placeObjectState, placeRuin, placeRuinState]
    split
    · rfl
    · split
      · rfl
      · rfl

/-- C39: whenever an overload of `placeObject` throws, and all it throws are the out-of-map
errors for the position and for the entrance, the grid and the zone are those before the call:
no tile state, stored distance or road node has changed. -/
theorem placeObject_error_changes_nothing (kind : PlaceableKind) (m : MapGenerator)
    (z : TemplateZone) (id : Nat) (element : MapElement) (position : Position)
    (updateDistance : Bool) :
    (placeObject kind m z id element position updateDistance =
      match (placeObjectState kind m z id element position updateDistance).1 with
      | some message => Except.error message
      | none => Except.ok (placeObjectState kind m z id element position updateDistance).2) ∧
    ∀ message, placeObject kind m z id element position updateDistance = Except.error message →
      (m.isInTheMap position = false ∨
        m.isInTheMap (element.setPosition position).getEntrance = false) ∧
      (placeObjectState kind m z id element position updateDistance).2 = (m, z) := by
  refine ⟨placeObject_eq_state kind m z id element position updateDistance, ?_⟩
  intro message h
  by_cases hp : m.isInTheMap position = true
  · by_cases he : m.isInTheMap (element.setPosition position).getEntrance = true
    · cases kind <;>
        simp [placeObject, placeFortification, placeStack, placeCrystal, placeRuin, hp, he] at h
    · have he2 : m.isInTheMap (element.setPosition position).getEntrance = false := by
        simpa using he
      refine ⟨Or.inr he2, ?_⟩
      cases kind
      · simp [placeObjectState, placeFortificationState, hp, he2]
      · simp [placeObject, placeStack, hp] at h
      · simp [placeObject, placeCrystal, hp] at h
      · simp [placeObjectState, placeRuinState, hp, he2]
  · have hp2 : m.isInTheMap position = false := by simpa using hp
    refine ⟨Or.inl hp2, ?_⟩
    cases kind <;>
      simp [placeObjectState, placeFortificationState, placeStackState, placeCrystalState,
        placeRuinState, hp2]

/-! ## The tiles `createRoad` flags (C38) -/

/-- The backtracking loop of `createRoad` returns, whatever the source; every tile it flags or
adds to `roads` was entered by an accepted step of the search. -/
theorem backtrackRoad_frame {m : MapGenerator} {z : TemplateZone}
    {destination source : Position} {st : SearchState}
    (inv : WeightedInv m 21 (roadEdge m z destination) source st) :
    ∀ (d : Nat) (p : Position) (fuel : Nat) (acc : MapGenerator × List Position),
      st.distances p = some d → d + 1 ≤ fuel →
      ∃ acc1, backtrackRoad st.cameFrom fuel p acc = some acc1 ∧
        acc1.1 = { acc.1 with roads := acc1.1.roads } ∧
        (∀ t, acc1.1.isRoad t = acc.1.isRoad t ∨
          (acc1.1.isRoad t = true ∧ ∃ par w, roadEdge m z destination par t w)) ∧
        ∀ t ∈ acc1.2, t ∈ acc.2 ∨ ∃ par w, roadEdge m z destination par t w := by
  intro d
  induction d using Nat.strong_induction_on with
  | _ d ih =>
    intro p fuel acc hp hfuel
    obtain ⟨k, rfl⟩ : ∃ k, fuel = k + 1 := ⟨fuel - 1, by omega⟩
    by_cases hps : p = source
    · subst hps
      refine ⟨acc, ?_, rfl, fun t => Or.inl rfl, fun t ht => Or.inl ht⟩
      unfold backtrackRoad
      rw [inv.src_from]
      simp [invalidPosition_not_valid]
    · obtain ⟨par, w, dpar, hfrom, hpar, hdpar, hedge, hd⟩ := inv.parent p d hp hps
      have hw := (roadEdge_spec m z destination).positive _ _ _ hedge
      unfold backtrackRoad
      rw [hfrom]
      dsimp only
      by_cases hvalid : par.isValid = true
      · rw [if_pos hvalid]
        obtain ⟨acc1, h1, h2, h3, h4⟩ :=
          ih dpar (by omega) par k (acc.1.setRoad p true, setInsert acc.2 p) hdpar (by omega)
        refine ⟨acc1, h1, ?_, ?_, ?_⟩
        · rw [h2]
          rfl
        · intro t
          rcases h3 t with h | h
          · by_cases htp : t = p
            · right
              rw [h, htp]
              exact ⟨by simp [MapGenerator.setRoad, MapGenerator.isRoad], par, w, hedge⟩
            · left
              rw [h]
              simp [MapGenerator.setRoad, MapGenerator.isRoad, htp]
          · exact Or.inr h
        · intro t ht
          rcases h4 t ht with h | h
          · rcases (mem_setInsert _ _ _).1 h with h5 | h5
            · exact Or.inl h5
            · right
              rw [h5]
              exact ⟨par, w, hedge⟩
          · exact Or.inr h
      · rw [if_neg hvalid]
        exact ⟨acc, rfl, rfl, fun t => Or.inl rfl, fun t ht => Or.inl ht⟩

/-- C38: `createRoad` returns; every tile it has added to the road set of the zone and every
tile it has flagged as road belongs to the zone or is the destination; and when it returns false
the road set is the one before the call, the flag of the source is cleared and no other road
flag has changed. -/
theorem createRoad_flags_zone_tiles (m : MapGenerator) (z : TemplateZone)
    (source destination : Position) :
    ∃ r, createRoad m z source destination = some r ∧
      (∀ t ∈ r.zone.roads, t ∉ z.roads → m.getZoneId t = z.id ∨ t = destination) ∧
      (∀ t, r.gen.isRoad t = true → m.isRoad t = false →
        m.getZoneId t = z.id ∨ t = destination) ∧
      (r.result = false →
        r.zone.roads = z.roads ∧ r.gen.isRoad source = false ∧
        ∀ t, t ≠ source → r.gen.isRoad t = m.isRoad t) := by
  obtain ⟨out, hout, hpost⟩ := createRoad_search (m.setRoad source false) z source destination
  have hgood : ∀ t, (∃ par w, roadEdge (m.setRoad source false) z destination par t w) →
      m.getZoneId t = z.id ∨ t = destination := by
    rintro t ⟨par, w, h⟩
    exact (roadMove_cases h.2).2
  unfold createRoad
  dsimp only
  rw [hout]
  cases out with
  | exhausted st =>
    refine ⟨_, rfl, fun t ht hn => absurd ht hn, ?_, fun _ => ⟨rfl, ?_, ?_⟩⟩
    · intro t ht hm
      simp only [MapGenerator.isRoad, MapGenerator.setRoad] at ht hm
      split_ifs at ht
      rw [hm] at ht
      cases ht
    · simp [MapGenerator.isRoad, MapGenerator.setRoad]
    · intro t ht
      simp [MapGenerator.isRoad, MapGenerator.setRoad, ht]
  | reached node st =>
    obtain ⟨_, hclosed, inv⟩ := hpost
    obtain ⟨d, hd⟩ := inv.closed_dist node hclosed
    obtain ⟨acc1, h1, _, h3, h4⟩ :=
      backtrackRoad_frame inv d node ((st.distances node).getD 0 + 1)
        (m.setRoad source false, z.roads) hd (by rw [hd]; simp)
    dsimp only
    rw [h1]
    refine ⟨_, rfl, ?_, ?_, fun h => (by cases h)⟩
    · intro t ht hn
      rcases h4 t ht with h | h
      · exact absurd h hn
      · exact hgood t h
    · intro t ht hm
      rcases h3 t with h | h
      · have h5 : acc1.1.isRoad t = true := ht
        rw [h] at h5
        simp only [MapGenerator.isRoad, MapGenerator.setRoad] at h5 hm
        split_ifs at h5
        rw [hm] at h5
        cases h5
      · exact hgood t h.2

/-! ## The free paths of `fractalize` (C37) -/

/-- C37: when every tile of the free-path set of the zone is Free at the start of `fractalize`,
then at its end every tile of the free-path set, which the call has extended, is Free, every
tile that was Free at the start, those of the free-path set among them, is Free, and every
selected node is Free. -/
theorem fractalize_paths_and_nodes_free (randomShuffle : Nat → List Position → List Position)
    (m : MapGenerator) (z : TemplateZone) (r : MapGenerator × TemplateZone)
    (hpaths : ∀ t ∈ z.freePaths, m.tiles t = TileType.Free)
    (h : fractalize randomShuffle m z = some (Except.ok r)) :
    (∀ t ∈ r.2.freePaths, r.1.tiles t = TileType.Free) ∧
    (∀ t, m.tiles t = TileType.Free → r.1.tiles t = TileType.Free) ∧
    (∀ t ∈ z.freePaths, r.1.tiles t = TileType.Free) ∧
    ∃ nodes, fractalizeNodes randomShuffle m z = some nodes ∧
      ∀ n ∈ nodes, r.1.tiles n = TileType.Free := by
  unfold fractalize at h
  dsimp only at h
  split at h
  · cases h
  · cases hn : fractalizeNodes randomShuffle m z with
    | none => rw [hn] at h; cases h
    | some nodes =>
      rw [hn] at h
      dsimp only at h
      cases hc : carveCorridors z nodes m (collectFreePaths m z) with
      | none => rw [hc] at h; cases h
      | some gp =>
        obtain ⟨carved, paths⟩ := gp
        rw [hc] at h
        simp only [Option.some.injEq, Except.ok.injEq] at h
        subst h
        have hseed : ∀ t ∈ collectFreePaths m z, m.tiles t = TileType.Free := by
          intro t ht
          rcases (mem_collectFreePaths m z t).1 ht with h1 | h1
          · exact hpaths t h1
          · exact h1.2
        have hfree : ∀ t ∈ paths, carved.tiles t = TileType.Free := by
          have hc1 := hc
          unfold carveCorridors at hc1
          exact carveCorridors_paths_free z nodes nodes m _ carved paths hseed hc1
        have hfinal : ∀ t, (clearNodes nodes carved).tiles t = TileType.Free →
            (blockDistantTiles z paths (clearNodes nodes carved)).tiles t = TileType.Free := by
          intro t ht
          unfold blockDistantTiles
          rw [blockDistantTiles_tiles, if_neg]
          · exact ht
          · intro hcond
            rw [ht] at hcond
            cases hcond.2.1
        have hcarved : ∀ t, m.tiles t = TileType.Free → carved.tiles t = TileType.Free := by
          obtain ⟨g, paths1, hcarve, inv⟩ := carveCorridors_spec z nodes m (collectFreePaths m z)
          rw [hc] at hcarve
          cases hcarve
          intro t ht
          rcases inv.frame t with h1 | h1
          · rw [h1]; exact ht
          · exact h1.2
        have hkeep : ∀ t, m.tiles t = TileType.Free →
            (blockDistantTiles z paths (clearNodes nodes carved)).tiles t = TileType.Free := by
          intro t ht
          apply hfinal
          rw [clearNodes_tiles]
          split
          · rfl
          · exact hcarved t ht
        refine ⟨?_, hkeep, fun t ht => hkeep t (hpaths t ht), nodes, rfl, ?_⟩
        · intro t ht
          apply hfinal
          rw [clearNodes_tiles]
          split
          · rfl
          · exact hfree t ht
        · intro n hn1
          apply hfinal
          rw [clearNodes_tiles, if_pos hn1]

/-- Witness for C37: the row of ten tiles with the Free tile (0,0) and no free path recorded in
the zone. -/
theorem fractalize_paths_and_nodes_free_witness :
    (∀ t ∈ (rowZone 10).freePaths, openRowGen.tiles t = TileType.Free) ∧
    ∃ r, fractalize plainCollaborators.randomShuffle openRowGen (rowZone 10)
        = some (Except.ok r) ∧
      (∀ t ∈ r.2.freePaths, r.1.tiles t = TileType.Free) ∧
      ∃ nodes, fractalizeNodes plainCollaborators.randomShuffle openRowGen (rowZone 10)
          = some nodes ∧
        ∀ n ∈ nodes, r.1.tiles n = TileType.Free :=
  ⟨fun _ h => (by cases h), _, rfl,
    (fractalize_paths_and_nodes_free plainCollaborators.randomShuffle openRowGen (rowZone 10)
      _ (fun _ h => (by cases h)) rfl).1,
    (fractalize_paths_and_nodes_free plainCollaborators.randomShuffle openRowGen (rowZone 10)
      _ (fun _ h => (by cases h)) rfl).2.2.2⟩

/-! ## The expansion of a tile in `createRoad` (C31) -/

/-- A pass of the lambda of `createRoad` over a list of neighbours at one step cost: which
entries the queue holds afterwards, and when the flag `directNeighbourFound` is set. -/
theorem roadPass_spec (m : MapGenerator) (z : TemplateZone) (destination : Position)
    (node : Position × Nat) (cost : Nat) :
    ∀ (l : List Position) (acc : SearchState × Bool),
      (l.foldl (createRoadVisit m z destination node.1 node.2 cost) acc).1.closed =
        acc.1.closed ∧
      (∀ q, q ∉ l →
        (l.foldl (createRoadVisit m z destination node.1 node.2 cost) acc).1.distances q =
          acc.1.distances q) ∧
      (∀ e ∈ acc.1.queue,
        e ∈ (l.foldl (createRoadVisit m z destination node.1 node.2 cost) acc).1.queue) ∧
      (∀ e ∈ (l.foldl (createRoadVisit m z destination node.1 node.2 cost) acc).1.queue,
        e ∈ acc.1.queue ∨ (e.1 ∈ l ∧ e.2 = node.2 + cost)) ∧
      (∀ p ∈ l, roadAccepts m z destination node cost acc.1 p →
        (p, node.2 + cost) ∈
          (l.foldl (createRoadVisit m z destination node.1 node.2 cost) acc).1.queue) ∧
      ((l.foldl (createRoadVisit m z destination node.1 node.2 cost) acc).2 = true ↔
        acc.2 = true ∨ ∃ p ∈ l, roadAccepts m z destination node cost acc.1 p) ∧
      ((∀ p ∈ l, ¬roadAccepts m z destination node cost acc.1 p) →
        l.foldl (createRoadVisit m z destination node.1 node.2 cost) acc = acc) := by
  intro l
  induction l with
  | nil =>
    intro acc
    refine ⟨rfl, fun _ _ => rfl, fun e he => he, fun e he => Or.inl he,
      fun p hp => (by cases hp), ?_, fun _ => rfl⟩
    simp
  | cons a rest ih =>
    intro acc
    rw [List.foldl_cons]
    obtain ⟨h1, h2, h3, h4, h5, h6, h7⟩ :=
      ih (createRoadVisit m z destination node.1 node.2 cost acc a)
    rcases createRoadVisit_cases m z destination node.1 node.2 cost acc a with
      ⟨heq, hwhy⟩ | ⟨hp, hbetter, hmove, heq⟩
    · have hna : ¬roadAccepts m z destination node cost acc.1 a := by
        rintro ⟨ha1, ha2, ha3⟩
        rcases hwhy with h | h | h
        · exact ha1 h
        · rw [ha2] at h; cases h
        · rw [ha3] at h; cases h
      rw [heq] at h1 h2 h3 h4 h5 h6 h7 ⊢
      refine ⟨h1, fun q hq => h2 q (fun h => hq (List.mem_cons_of_mem _ h)), h3, ?_, ?_, ?_, ?_⟩
      · intro e he
        rcases h4 e he with h | h
        · exact Or.inl h
        · exact Or.inr ⟨List.mem_cons_of_mem _ h.1, h.2⟩
      · intro p hp hacc
        rcases List.mem_cons.1 hp with h | h
        · rw [h] at hacc
          exact absurd hacc hna
        · exact h5 p h hacc
      · rw [h6]
        constructor
        · rintro (h | ⟨p, hp, hacc⟩)
          · exact Or.inl h
          · exact Or.inr ⟨p, List.mem_cons_of_mem _ hp, hacc⟩
        · rintro (h | ⟨p, hp, hacc⟩)
          · exact Or.inl h
          · rcases List.mem_cons.1 hp with h | h
            · rw [h] at hacc
              exact absurd hacc hna
            · exact Or.inr ⟨p, h, hacc⟩
      · intro hnone
        exact h7 fun p hp => hnone p (List.mem_cons_of_mem _ hp)
    · have hacc : roadAccepts m z destination node cost acc.1 a := ⟨hp, hbetter, hmove⟩
      rw [heq] at h1 h2 h3 h4 h5 h6 h7 ⊢
      have hpush : (a, node.2 + cost) ∈ (relaxTile acc.1 node.1 a (node.2 + cost)).queue := by
        simp [relaxTile, PriorityQueue.push]
      refine ⟨h1, ?_, ?_, ?_, ?_, ?_, ?_⟩
      · intro q hq
        rw [h2 q (fun h => hq (List.mem_cons_of_mem _ h))]
        have hqa : q ≠ a := fun h => hq (h ▸ List.mem_cons_self _ _)
        simp [relaxTile, hqa]
      · intro e he
        apply h3
        simp only [relaxTile, PriorityQueue.push, List.mem_append]
        exact Or.inl he
      · intro e he
        rcases h4 e he with h | h
        · simp only [relaxTile, PriorityQueue.push, List.mem_append, List.mem_singleton] at h
          rcases h with h | h
          · exact Or.inl h
          · rw [h]
            exact Or.inr ⟨List.mem_cons_self _ _, rfl⟩
        · exact Or.inr ⟨List.mem_cons_of_mem _ h.1, h.2⟩
      · intro p hp1 hacc1
        by_cases hpa : p = a
        · rw [hpa]
          exact h3 _ hpush
        · rcases List.mem_cons.1 hp1 with h | h
          · exact absurd h hpa
          · apply h5 p h
            refine ⟨hacc1.1, ?_, hacc1.2.2⟩
            simp only [relaxTile, if_neg hpa]
            exact hacc1.2.1
      · rw [h6]
        constructor
        · intro _
          exact Or.inr ⟨a, List.mem_cons_self _ _, hacc⟩
        · intro _
          exact Or.inl rfl
      · intro hnone
        exact absurd hacc (hnone a (List.mem_cons_self _ _))

/-- C31: the expansion of a tile in `createRoad`.  A turn of the loop that pops an entry whose
tile is not a goal goes on with the expanded state.  Every direct neighbour the lambda accepts
is enqueued at the cost of the popped entry plus 1.0; when the lambda accepts no direct
neighbour, every diagonal neighbour it accepts is enqueued at that cost plus 2.1; and every
entry the expansion has added to the queue is a direct neighbour at plus 1.0, or a diagonal
neighbour at plus 2.1 of a tile no direct neighbour of which was accepted.  Costs are counted in
tenths. -/
theorem createRoad_diagonal_only_without_direct (m : MapGenerator) (z : TemplateZone)
    (destination : Position) (node : Position × Nat) (st1 : SearchState) :
    (∀ fuel st, PriorityQueue.top st.queue = some node →
      ¬(node.1 = destination ∨ m.isRoad node.1 = true) →
      createRoadLoop m z destination (fuel + 1) st =
        createRoadLoop m z destination fuel
          (expandRoadNode m z destination node (closeTop st node.1))) ∧
    (∀ p ∈ m.directNeighbors node.1, roadAccepts m z destination node 10 st1 p →
      (p, node.2 + 10) ∈ (expandRoadNode m z destination node st1).queue) ∧
    ((∀ p ∈ m.directNeighbors node.1, ¬roadAccepts m z destination node 10 st1 p) →
      ∀ p ∈ m.diagonalNeighbors node.1, roadAccepts m z destination node 21 st1 p →
        (p, node.2 + 21) ∈ (expandRoadNode m z destination node st1).queue) ∧
    ∀ e ∈ (expandRoadNode m z destination node st1).queue,
      e ∈ st1.queue ∨
      (e.1 ∈ m.directNeighbors node.1 ∧ e.2 = node.2 + 10) ∨
      (e.1 ∈ m.diagonalNeighbors node.1 ∧ e.2 = node.2 + 21 ∧
        ∀ p ∈ m.directNeighbors node.1, ¬roadAccepts m z destination node 10 st1 p) := by
  obtain ⟨_, _, d3, d4, d5, d6, d7⟩ :=
    roadPass_spec m z destination node 10 (m.directNeighbors node.1) (st1, false)
  refine ⟨?_, ?_, ?_, ?_⟩
  · intro fuel st htop hgoal
    conv_lhs => unfold createRoadLoop
    rw [htop]
    dsimp only
    rw [if_neg hgoal]
    rfl
  · intro p hp hacc
    have hflag := d6.2 (Or.inr ⟨p, hp, hacc⟩)
    unfold expandRoadNode
    dsimp only
    rw [if_pos hflag]
    exact d5 p hp hacc
  · intro hnone p hp hacc
    have hsame := d7 hnone
    unfold expandRoadNode
    dsimp only
    rw [hsame]
    simp only [Bool.false_eq_true, if_false]
    exact (roadPass_spec m z destination node 21 (m.diagonalNeighbors node.1)
      (st1, false)).2.2.2.2.1 p hp hacc
  · intro e he
    unfold expandRoadNode at he
    dsimp only at he
    by_cases hflag : ((m.directNeighbors node.1).foldl
        (createRoadVisit m z destination node.1 node.2 10) (st1, false)).2 = true
    · rw [if_pos hflag] at he
      rcases d4 e he with h | h
      · exact Or.inl h
      · exact Or.inr (Or.inl h)
    · rw [if_neg hflag] at he
      have hnone : ∀ p ∈ m.directNeighbors node.1,
          ¬roadAccepts m z destination node 10 st1 p := by
        intro p hp hacc
        exact hflag (d6.2 (Or.inr ⟨p, hp, hacc⟩))
      rw [d7 hnone] at he
      rcases (roadPass_spec m z destination node 21 (m.diagonalNeighbors node.1)
        (st1, false)).2.2.2.1 e he with h | h
      · exact Or.inl h
      · exact Or.inr (Or.inr ⟨h.1, h.2, hnone⟩)

/-! ## The rounds of `connectRoads` (C32) -/

theorem nearestNode_min (node : Position) :
    ∀ (l : List Position) (c : Position), nearestNode node l = some c →
      c ∈ l ∧ ∀ x ∈ l, node.distanceSquared c ≤ node.distanceSquared x := by
  have hfold : ∀ (rest : List Position) (a : Position),
      rest.foldl (fun best c =>
        if node.distanceSquared c < node.distanceSquared best then c else best) a ∈ a :: rest ∧
      ∀ x ∈ a :: rest, node.distanceSquared (rest.foldl (fun best c =>
        if node.distanceSquared c < node.distanceSquared best then c else best) a) ≤
        node.distanceSquared x := by
    intro rest
    induction rest with
    | nil =>
      intro a
      simp
    | cons b rest ih =>
      intro a
      rw [List.foldl_cons]
      obtain ⟨h1, h2⟩ := ih (if node.distanceSquared b < node.distanceSquared a then b else a)
      by_cases hlt : node.distanceSquared b < node.distanceSquared a
      · rw [if_pos hlt] at h1 h2 ⊢
        have hbest := h2 b (List.mem_cons_self _ _)
        constructor
        · exact List.mem_cons_of_mem _ h1
        · intro x hx
          rcases List.mem_cons.1 hx with h | h
          · rw [h]
            omega
          · exact h2 x h
      · rw [if_neg hlt] at h1 h2 ⊢
        have hbest := h2 a (List.mem_cons_self _ _)
        constructor
        · rcases List.mem_cons.1 h1 with h | h
          · rw [h]
            exact List.mem_cons_self _ _
          · exact List.mem_cons_of_mem _ (List.mem_cons_of_mem _ h)
        · intro x hx
          rcases List.mem_cons.1 hx with h | h
          · rw [h]
            exact hbest
          · rcases List.mem_cons.1 h with h3 | h3
            · rw [h3]
              omega
            · exact h2 x (List.mem_cons_of_mem _ h3)
  intro l c h
  cases l with
  | nil => simp [nearestNode] at h
  | cons a rest =>
    simp only [nearestNode, Option.some.injEq] at h
    subst h
    exact hfold rest a

/-- C32: a round of `connectRoads` on the taken node `node`.  When no node has been processed
and no other node is left, the loop ends.  Otherwise the target is a node of the processed set,
or of the remaining unprocessed set when the processed set is empty, at the least squared
distance from the taken node; and when `createRoad` builds the road, the loop goes on with both
the taken node and the target in the processed set and neither of them left unprocessed. -/
theorem connectRoads_round_targets_nearest (fuel : Nat) (node : Position)
    (rest processed : List Position) (acc : MapGenerator × TemplateZone)
    (hnodup : (node :: rest).Nodup) :
    (processed = [] ∧ rest = [] ∧
      connectRoadsLoop (fuel + 1) (node :: rest) processed acc = some acc) ∨
    ∃ cross, cross ∈ roadCandidates processed rest ∧
      (∀ c ∈ roadCandidates processed rest,
        node.distanceSquared cross ≤ node.distanceSquared c) ∧
      ∀ r, createRoad acc.1 acc.2 node cross = some r → r.result = true →
        connectRoadsLoop (fuel + 1) (node :: rest) processed acc =
          connectRoadsLoop fuel (eraseIfPresent rest cross)
            (setInsert (setInsert processed cross) node) (r.gen, r.zone) ∧
        node ∈ setInsert (setInsert processed cross) node ∧
        cross ∈ setInsert (setInsert processed cross) node ∧
        node ∉ eraseIfPresent rest cross ∧ cross ∉ eraseIfPresent rest cross := by
  have hnotin : node ∉ rest := (List.nodup_cons.1 hnodup).1
  have hround : ∀ cross,
      (if (!processed.isEmpty) = true then nearestNode node processed
        else if (!rest.isEmpty) = true then nearestNode node rest else none) = some cross →
      ∀ r, createRoad acc.1 acc.2 node cross = some r → r.result = true →
        connectRoadsLoop (fuel + 1) (node :: rest) processed acc =
          connectRoadsLoop fuel (eraseIfPresent rest cross)
            (setInsert (setInsert processed cross) node) (r.gen, r.zone) ∧
        node ∈ setInsert (setInsert processed cross) node ∧
        cross ∈ setInsert (setInsert processed cross) node ∧
        node ∉ eraseIfPresent rest cross ∧ cross ∉ eraseIfPresent rest cross := by
    intro cross hcross r hr hres
    refine ⟨?_, (mem_setInsert _ _ _).2 (Or.inr rfl),
      (mem_setInsert _ _ _).2 (Or.inl ((mem_setInsert _ _ _).2 (Or.inr rfl))), ?_, ?_⟩
    · conv_lhs => unfold connectRoadsLoop
      dsimp only
      rw [hcross]
      dsimp only
      rw [hr]
      dsimp only
      rw [if_pos hres]
    · intro h
      exact hnotin ((mem_eraseIfPresent rest cross node).1 h).1
    · intro h
      exact ((mem_eraseIfPresent rest cross cross).1 h).2 rfl
  by_cases hp : processed = []
  · by_cases hr : rest = []
    · left
      refine ⟨hp, hr, ?_⟩
      subst hp hr
      rfl
    · right
      obtain ⟨c, hc, _⟩ := nearestNode_mem node rest hr
      obtain ⟨hmem, hmin⟩ := nearestNode_min node rest c hc
      refine ⟨c, ?_, ?_, hround c ?_⟩
      · simp only [roadCandidates, hp, if_true]
        exact hmem
      · simp only [roadCandidates, hp, if_true]
        exact hmin
      · rw [hp]
        cases rest with
        | nil => exact absurd rfl hr
        | cons _ _ => simpa using hc
  · right
    obtain ⟨c, hc, _⟩ := nearestNode_mem node processed hp
    obtain ⟨hmem, hmin⟩ := nearestNode_min node processed c hc
    refine ⟨c, ?_, ?_, hround c ?_⟩
    · simp only [roadCandidates, hp, if_false]
      exact hmem
    · simp only [roadCandidates, hp, if_false]
      exact hmin
    · cases processed with
      | nil => exact absurd rfl hp
      | cons _ _ => simpa using hc

/-- Witness for C32: the first round on the road nodes (0,0) and (2,0), nothing processed
yet. -/
theorem connectRoads_round_targets_nearest_witness :
    ([⟨0, 0⟩, ⟨2, 0⟩] : List Position).Nodup ∧
    ((([] : List Position) = [] ∧ ([⟨2, 0⟩] : List Position) = [] ∧
      connectRoadsLoop (2 + 1) [⟨0, 0⟩, ⟨2, 0⟩] []
        (freeRowGen 3 fun _ => false, twoNodeZone) =
        some (freeRowGen 3 fun _ => false, twoNodeZone)) ∨
    ∃ cross, cross ∈ roadCandidates [] [⟨2, 0⟩] ∧
      (∀ c ∈ roadCandidates [] [⟨2, 0⟩],
        (⟨0, 0⟩ : Position).distanceSquared cross ≤ (⟨0, 0⟩ : Position).distanceSquared c) ∧
      ∀ r, createRoad (freeRowGen 3 fun _ => false) twoNodeZone ⟨0, 0⟩ cross = some r →
        r.result = true →
        connectRoadsLoop (2 + 1) [⟨0, 0⟩, ⟨2, 0⟩] []
            (freeRowGen 3 fun _ => false, twoNodeZone) =
          connectRoadsLoop 2 (eraseIfPresent [⟨2, 0⟩] cross)
            (setInsert (setInsert [] cross) ⟨0, 0⟩) (r.gen, r.zone) ∧
        (⟨0, 0⟩ : Position) ∈ setInsert (setInsert [] cross) ⟨0, 0⟩ ∧
        cross ∈ setInsert (setInsert [] cross) ⟨0, 0⟩ ∧
        (⟨0, 0⟩ : Position) ∉ eraseIfPresent [⟨2, 0⟩] cross ∧
        cross ∉ eraseIfPresent [⟨2, 0⟩] cross) :=
  ⟨by decide,
    connectRoads_round_targets_nearest 2 ⟨0, 0⟩ [⟨2, 0⟩] []
      (freeRowGen 3 fun _ => false, twoNodeZone) (by decide)⟩

/-! ## The retry loop of `createRequiredObjects` (C35) -/

/-- When `findPlaceForObject` returns true it has selected a Possible tile of the zone and set
it Blocked; when it returns false the grid is the one before the call. -/
theorem findPlace_selected (m : MapGenerator) (z : TemplateZone) (mapElement : MapElement)
    (minDistance : Int) (position : Position) :
    ((findPlaceForObject m z mapElement minDistance position).result = true →
      (findPlaceForObject m z mapElement minDistance position).position ∈ z.tileInfo ∧
      m.tiles (findPlaceForObject m z mapElement minDistance position).position =
        TileType.Possible ∧
      (findPlaceForObject m z mapElement minDistance position).gen =
        m.setOccupied (findPlaceForObject m z mapElement minDistance position).position
          TileType.Blocked) ∧
    ((findPlaceForObject m z mapElement minDistance position).result = false →
      (findPlaceForObject m z mapElement minDistance position).gen = m) := by
  have inv := findPlace_scan_inv m z mapElement minDistance position
  unfold findPlaceForObject
  dsimp only
  cases hr : (z.tileInfo.foldl (findPlaceStep m z mapElement minDistance)
      { bestDistance := some 0, position := position, result := false }).result with
  | true =>
    simp only [if_true, true_implies]
    obtain ⟨h1, hq, _⟩ := inv.selected hr
    simp only [qualifies, Bool.and_eq_true, MapGenerator.isPossible, decide_eq_true_eq] at hq
    exact ⟨⟨h1, hq.1.1.2, trivial⟩, fun h => (by cases h)⟩
  | false =>
    simp only [Bool.false_eq_true, if_false, true_implies, false_implies, true_and]

theorem tryToPlace_total (m : MapGenerator) (z : TemplateZone) (mapElement : MapElement)
    (position : Position) :
    ∃ out, tryToPlaceObjectAndConnectToPath m z mapElement position = some out := by
  obtain ⟨r, hr⟩ := connectPath_total (blockFootprint m (mapElement.setPosition position)) z
    (getAccessibleOffset (blockFootprint m (mapElement.setPosition position)) z
      (mapElement.setPosition position) position) true
  unfold tryToPlaceObjectAndConnectToPath
  simp only [hr]
  split
  · exact ⟨_, rfl⟩
  · split
    · exact ⟨_, rfl⟩
    · exact ⟨_, rfl⟩

theorem connectPath_tileInfo (m : MapGenerator) (z : TemplateZone) (source : Position)
    (os : Bool) (r : ConnectResult) (h : connectPath m z source os = some r) :
    r.zone.tileInfo = z.tileInfo := by
  unfold connectPath at h
  split at h
  · cases h
  · split at h
    · cases h
    · cases h
      rfl
  · cases h
    rfl

theorem tryToPlace_tileInfo (m : MapGenerator) (z : TemplateZone) (mapElement : MapElement)
    (position : Position) (out : PlacingOutcome)
    (h : tryToPlaceObjectAndConnectToPath m z mapElement position = some out) :
    out.zone.tileInfo = z.tileInfo := by
  unfold tryToPlaceObjectAndConnectToPath at h
  dsimp only at h
  split at h
  · cases h
    rfl
  · split at h
    · cases h
    · rename_i r hr
      have := connectPath_tileInfo _ _ _ _ r hr
      split at h <;> cases h <;> exact this

/-- No tile is Possible after `tryToPlaceObjectAndConnectToPath` that was not Possible before
it. -/
theorem tryToPlace_possible (m : MapGenerator) (z : TemplateZone) (mapElement : MapElement)
    (position : Position) (out : PlacingOutcome)
    (h : tryToPlaceObjectAndConnectToPath m z mapElement position = some out) (t : Position)
    (ht : out.gen.tiles t = TileType.Possible) : m.tiles t = TileType.Possible := by
  by_cases hsame : out.gen.tiles t = m.tiles t
  · rw [← hsame]
    exact ht
  · rcases tryToPlace_frame m z mapElement position out h t hsame with h1 | h1
    · exact h1
    · rw [h1.2] at ht
      cases ht

/-- A turn of the retry loop in which `findPlaceForObject` has selected a tile leaves fewer
Possible tiles in the zone, whatever `tryToPlaceObjectAndConnectToPath` returns. -/
theorem retry_decreases (m : MapGenerator) (z : TemplateZone) (mapElement : MapElement)
    (minDistance : Int) (position : Position) (out : PlacingOutcome)
    (hfound : (findPlaceForObject m z mapElement minDistance position).result = true)
    (hout : tryToPlaceObjectAndConnectToPath
      (findPlaceForObject m z mapElement minDistance position).gen z mapElement
      (findPlaceForObject m z mapElement minDistance position).position = some out) :
    out.zone.tileInfo = z.tileInfo ∧ zonePossible out.gen out.zone < zonePossible m z ∧
    ∀ t, out.gen.tiles t = TileType.Possible → m.tiles t = TileType.Possible := by
  obtain ⟨hmem, hposs, hgen⟩ := (findPlace_selected m z mapElement minDistance position).1 hfound
  have hinfo := tryToPlace_tileInfo _ _ _ _ out hout
  have hback : ∀ t, out.gen.tiles t = TileType.Possible →
      m.tiles t = TileType.Possible ∧
      t ≠ (findPlaceForObject m z mapElement minDistance position).position := by
    intro t ht
    have h1 := tryToPlace_possible _ _ _ _ out hout t ht
    rw [hgen] at h1
    simp only [MapGenerator.setOccupied] at h1
    split_ifs at h1 with h2
    exact ⟨h1, h2⟩
  refine ⟨hinfo, ?_, fun t ht => (hback t ht).1⟩
  unfold zonePossible
  rw [hinfo]
  refine length_filter_lt_of_imp z.tileInfo m.isPossible out.gen.isPossible ?_ _ hmem ?_ ?_
  · intro x _ hx
    simp only [MapGenerator.isPossible, decide_eq_true_eq] at hx ⊢
    exact (hback x hx).1
  · simp only [MapGenerator.isPossible, decide_eq_true_eq]
    exact hposs
  · cases hp : out.gen.isPossible
        (findPlaceForObject m z mapElement minDistance position).position with
    | false => rfl
    | true =>
      simp only [MapGenerator.isPossible, decide_eq_true_eq] at hp
      exact absurd rfl (hback _ hp).2

/-- The retry loop of `createRequiredObjects` returns when the fuel exceeds the number of
Possible tiles of the zone. -/
theorem placeRequiredLoop_total (object : ScenarioObject) :
    ∀ (fuel : Nat) (mapElement : MapElement) (position : Position) (m : MapGenerator)
      (z : TemplateZone), zonePossible m z + 1 ≤ fuel →
      ∃ r, placeRequiredLoop object fuel mapElement position m z = some r := by
  intro fuel
  induction fuel with
  | zero => intro _ _ _ _ h; omega
  | succ fuel ih =>
    intro mapElement position m z hfuel
    unfold placeRequiredLoop
    dsimp only
    cases hfound : (findPlaceForObject m z mapElement (mapElement.getSize.x * 2) position).result
      with
    | false => exact ⟨_, rfl⟩
    | true =>
      simp only [Bool.not_true, Bool.false_eq_true, if_false]
      obtain ⟨out, hout⟩ := tryToPlace_total
        (findPlaceForObject m z mapElement (mapElement.getSize.x * 2) position).gen z mapElement
        (findPlaceForObject m z mapElement (mapElement.getSize.x * 2) position).position
      rw [hout]
      dsimp only
      split
      · split
        · exact ⟨_, rfl⟩
        · exact ⟨_, rfl⟩
      · obtain ⟨_, hlt, _⟩ := retry_decreases m z mapElement _ position out hfound hout
        apply ih
        omega

/-- C35: the retry loop of `createRequiredObjects` for one required object.  A turn in which
`findPlaceForObject` finds no tile returns false for lack of space and leaves the grid as it
is; a turn that ends in Success places the object; every other turn goes on with the next turn
in a state where the zone has strictly fewer Possible tiles and no tile has become Possible; and
the loop returns within the fuel the model gives it, the number of tiles of the zone plus
one. -/
theorem placeRequiredLoop_terminates (object : ScenarioObject) (mapElement : MapElement)
    (position : Position) (m : MapGenerator) (z : TemplateZone) :
    ((findPlaceForObject m z mapElement (mapElement.getSize.x * 2) position).result = false →
      ∀ fuel, placeRequiredLoop object (fuel + 1) mapElement position m z =
        some (Except.ok { proceed := false, gen := m, zone := z })) ∧
    ((findPlaceForObject m z mapElement (mapElement.getSize.x * 2) position).result = true →
      ∃ out, tryToPlaceObjectAndConnectToPath
          (findPlaceForObject m z mapElement (mapElement.getSize.x * 2) position).gen z
          mapElement
          (findPlaceForObject m z mapElement (mapElement.getSize.x * 2) position).position =
          some out ∧
        (out.result = ObjectPlacingResult.Success →
          ∀ fuel, placeRequiredLoop object (fuel + 1) mapElement position m z =
            some ((placeScenarioObject out.gen out.zone
              { object with mapElement := some out.element }
              (findPlaceForObject m z mapElement (mapElement.getSize.x * 2)
                position).position).map
              fun r => { proceed := true, gen := r.1, zone := r.2 })) ∧
        (out.result ≠ ObjectPlacingResult.Success →
          (∀ fuel, placeRequiredLoop object (fuel + 1) mapElement position m z =
            placeRequiredLoop object fuel out.element
              (findPlaceForObject m z mapElement (mapElement.getSize.x * 2) position).position
              out.gen out.zone) ∧
          out.zone.tileInfo = z.tileInfo ∧
          zonePossible out.gen out.zone < zonePossible m z ∧
          ∀ t, out.gen.tiles t = TileType.Possible → m.tiles t = TileType.Possible)) ∧
    zonePossible m z ≤ z.tileInfo.length ∧
    ∃ r, placeRequiredLoop object (z.tileInfo.length + 1) mapElement position m z = some r := by
  have hle : zonePossible m z ≤ z.tileInfo.length := List.length_filter_le _ _
  refine ⟨?_, ?_, hle, placeRequiredLoop_total object _ mapElement position m z (by omega)⟩
  · intro hfound fuel
    have hgen := (findPlace_selected m z mapElement _ position).2 hfound
    conv_lhs => unfold placeRequiredLoop
    dsimp only
    rw [hfound, hgen]
    rfl
  · intro hfound
    obtain ⟨out, hout⟩ := tryToPlace_total
      (findPlaceForObject m z mapElement (mapElement.getSize.x * 2) position).gen z mapElement
      (findPlaceForObject m z mapElement (mapElement.getSize.x * 2) position).position
    refine ⟨out, hout, ?_, ?_⟩
    · intro hs fuel
      conv_lhs => unfold placeRequiredLoop
      dsimp only
      rw [hfound, hout]
      simp only [Bool.not_true, Bool.false_eq_true, if_false, hs, if_true]
      cases placeScenarioObject out.gen out.zone { object with mapElement := some out.element }
        (findPlaceForObject m z mapElement (mapElement.getSize.x * 2) position).position <;> rfl
    · intro hs
      refine ⟨?_, retry_decreases m z mapElement _ position out hfound hout⟩
      intro fuel
      conv_lhs => unfold placeRequiredLoop
      dsimp only
      rw [hfound, hout]
      simp only [Bool.not_true, Bool.false_eq_true, if_false, hs]

/-! ## The coverage of the node selection of `fractalize` (C36) -/

theorem closestClearedScan_flag (tile : Position) :
    ∀ (clearedTiles : List Position) (currentDistance : Option Nat),
      (closestClearedScan tile clearedTiles currentDistance).2 = true →
      farEnough (closestClearedScan tile clearedTiles currentDistance).1 = false := by
  intro clearedTiles
  induction clearedTiles with
  | nil =>
    intro cur h
    simp [closestClearedScan] at h
  | cons a rest ih =>
    intro cur h
    unfold closestClearedScan at h ⊢
    dsimp only at h ⊢
    split at h
    · rename_i hle
      rw [if_pos hle]
      simp only [farEnough, decide_eq_false_iff_not]
      omega
    · rename_i hle
      rw [if_neg hle]
      exact ih _ h

/-- A tile that is not far enough from the cleared tiles has one of them at squared distance 75
or less. -/
theorem near_of_not_farEnough (tile : Position) (clearedTiles : List Position)
    (h : farEnough (closestClearedScan tile clearedTiles none).1 = false) :
    ∃ c ∈ clearedTiles, tile.distanceSquared c ≤ 75 := by
  by_contra hno
  have hall : ∀ c ∈ clearedTiles, 75 < tile.distanceSquared c := by
    intro c hc
    by_contra hle
    exact hno ⟨c, hc, by omega⟩
  rw [(farEnough_scan_iff tile clearedTiles).2 hall] at h
  cases h

theorem findNode_ignored (clearedTiles : List Position) :
    ∀ (tiles tilesToIgnore : List Position),
      ∀ x ∈ (findNode clearedTiles tiles tilesToIgnore).2,
        x ∈ tilesToIgnore ∨ farEnough (closestClearedScan x clearedTiles none).1 = false := by
  intro tiles
  induction tiles with
  | nil =>
    intro ign x hx
    exact Or.inl hx
  | cons a rest ih =>
    intro ign x hx
    unfold findNode at hx
    dsimp only at hx
    have hign : ∀ y ∈ (if (closestClearedScan a clearedTiles none).2 = true then
        setInsert ign a else ign),
        y ∈ ign ∨ farEnough (closestClearedScan y clearedTiles none).1 = false := by
      intro y hy
      split at hy
      · rename_i hflag
        rcases (mem_setInsert _ _ _).1 hy with h | h
        · exact Or.inl h
        · rw [h]
          exact Or.inr (closestClearedScan_flag a clearedTiles none hflag)
      · exact Or.inl hy
    split at hx
    · exact hign x hx
    · rcases ih _ x hx with h | h
      · exact hign x h
      · exact Or.inr h

theorem findNode_none (clearedTiles : List Position) :
    ∀ (tiles tilesToIgnore : List Position),
      (findNode clearedTiles tiles tilesToIgnore).1 = none →
      ∀ x ∈ tiles, farEnough (closestClearedScan x clearedTiles none).1 = false := by
  intro tiles
  induction tiles with
  | nil =>
    intro _ _ x hx
    cases hx
  | cons a rest ih =>
    intro ign h x hx
    unfold findNode at h
    dsimp only at h
    split at h
    · cases h
    · rename_i hfar
      rcases List.mem_cons.1 hx with h1 | h1
      · rw [h1]
        simpa using hfar
      · exact ih _ h x h1

/-- When the node selection loop of `fractalize` ends, every tile that was in its set of
possible tiles, or near a cleared tile already, has a cleared tile at squared distance 75 or
less; the cleared tiles are the seeds followed by the nodes. -/
theorem selectNodes_cover (randomShuffle : Nat → List Position → List Position)
    (hshuffle : ∀ k l x, x ∈ randomShuffle k l ↔ x ∈ l) (seeds : List Position) :
    ∀ (fuel k : Nat) (possibleTiles clearedTiles nodes : List Position)
      (r : List Position × List Position),
      selectNodes randomShuffle fuel k possibleTiles clearedTiles nodes = some r →
      (∀ x ∈ possibleTiles, x.isValid = true) →
      clearedTiles = seeds ++ nodes →
      r.2 = seeds ++ r.1 ∧
      ∀ t, (t ∈ possibleTiles ∨ ∃ c ∈ clearedTiles, t.distanceSquared c ≤ 75) →
        ∃ c ∈ r.2, t.distanceSquared c ≤ 75 := by
  intro fuel
  induction fuel with
  | zero =>
    intro k poss cleared nodes r h
    simp [selectNodes] at h
  | succ fuel ih =>
    intro k poss cleared nodes r h hvalid hcleared
    unfold selectNodes at h
    split at h
    · rename_i hempty
      cases h
      refine ⟨hcleared, ?_⟩
      intro t ht
      rcases ht with h1 | h1
      · have : poss = [] := by simpa using hempty
        rw [this] at h1
        cases h1
      · exact h1
    · dsimp only at h
      cases hfound : (findNode cleared (randomShuffle k poss) []).1 with
      | none =>
        rw [hfound] at h
        cases h
        refine ⟨hcleared, ?_⟩
        intro t ht
        rcases ht with h1 | h1
        · exact near_of_not_farEnough t cleared
            (findNode_none cleared _ _ hfound t ((hshuffle k poss t).2 h1))
        · exact h1
      | some nodeFound =>
        rw [hfound] at h
        dsimp only at h
        have hin : nodeFound ∈ poss :=
          (hshuffle k poss nodeFound).1 (findNode_some cleared _ _ nodeFound hfound).1
        rw [if_neg (by simp [hvalid nodeFound hin])] at h
        obtain ⟨h1, h2⟩ := ih _ _ _ _ r h
          (fun x hx => hvalid x ((eraseLoop_sublist _ _).subset hx))
          (by rw [hcleared, List.append_assoc])
        refine ⟨h1, ?_⟩
        intro t ht
        apply h2
        have hnear : (∃ c ∈ cleared, t.distanceSquared c ≤ 75) →
            ∃ c ∈ cleared ++ [nodeFound], t.distanceSquared c ≤ 75 := by
          rintro ⟨c, hc, hle⟩
          exact ⟨c, List.mem_append_left _ hc, hle⟩
        rcases ht with h3 | h3
        · by_cases hstill : t ∈ (findNode cleared (randomShuffle k poss) []).2.foldl
              eraseIfPresent poss
          · exact Or.inl hstill
          · right
            apply hnear
            have hign : t ∈ (findNode cleared (randomShuffle k poss) []).2 := by
              by_contra hnot
              exact hstill ((mem_sealPossible _ _ t).2 ⟨h3, hnot⟩)
            rcases findNode_ignored cleared _ _ t hign with h4 | h4
            · cases h4
            · exact near_of_not_farEnough t cleared h4
        · exact Or.inr (hnear h3)

/-- C36: on a zone that is not a junction, whose tiles are tiles of the map and whose free paths
are Free, and with a shuffle that permutes, the node selection loop of `fractalize` returns, and
every tile of the zone that was Possible at the start lies at squared distance 75 or less from a
tile that was Free at the start or from a selected node. -/
theorem fractalizeNodes_cover_possible (randomShuffle : Nat → List Position → List Position)
    (m : MapGenerator) (z : TemplateZone)
    (hshuffle : ∀ k l x, x ∈ randomShuffle k l ↔ x ∈ l)
    (hjunction : z.type ≠ TemplateZoneType.Junction)
    (hzone : ∀ t ∈ z.tileInfo, m.isInTheMap t = true)
    (hpaths : ∀ t ∈ z.freePaths, m.tiles t = TileType.Free) :
    ∃ r, selectNodes randomShuffle (z.tileInfo.length + 1) 0
        ((z.tileInfo.filter m.isPossible).foldl setInsert []) (collectFreePaths m z) [] =
        some r ∧
      fractalizeNodes randomShuffle m z = some r.1 ∧
      ∀ t ∈ z.tileInfo, m.tiles t = TileType.Possible →
        ∃ c, (m.tiles c = TileType.Free ∨ c ∈ r.1) ∧ t.distanceSquared c ≤ 75 := by
  obtain ⟨nodes, hnodes⟩ := fractalizeNodes_total randomShuffle
    (fun k l x hx => (hshuffle k l x).1 hx) m z
  unfold fractalizeNodes at hnodes ⊢
  rw [if_pos hjunction] at hnodes ⊢
  cases hsel : selectNodes randomShuffle (z.tileInfo.length + 1) 0
      ((z.tileInfo.filter m.isPossible).foldl setInsert []) (collectFreePaths m z) [] with
  | none =>
    rw [hsel] at hnodes
    cases hnodes
  | some r =>
    refine ⟨r, rfl, rfl, ?_⟩
    obtain ⟨h1, h2⟩ := selectNodes_cover randomShuffle hshuffle (collectFreePaths m z) _ _ _ _ _
      r hsel (by
        intro x hx
        rcases (mem_insertLoop _ _ x).1 hx with h | h
        · cases h
        · exact Position.isValid_of_isInTheMap m x (hzone x (List.mem_filter.1 h).1))
      (by simp)
    intro t ht hposs
    obtain ⟨c, hc, hle⟩ := h2 t (Or.inl ((mem_insertLoop _ _ t).2
      (Or.inr (List.mem_filter.2 ⟨ht, by simp [MapGenerator.isPossible, hposs]⟩))))
    refine ⟨c, ?_, hle⟩
    rw [h1] at hc
    rcases List.mem_append.1 hc with h | h
    · left
      rcases (mem_collectFreePaths m z c).1 h with h3 | h3
      · exact hpaths c h3
      · exact h3.2
    · exact Or.inr h

/-- Witness for C36: the row of ten tiles with the Free tile (0,0), the shuffle that moves no
tile. -/
theorem fractalizeNodes_cover_possible_witness :
    (∀ k l x, x ∈ plainCollaborators.randomShuffle k l ↔ x ∈ l) ∧
    (rowZone 10).type ≠ TemplateZoneType.Junction ∧
    (∀ t ∈ (rowZone 10).tileInfo, openRowGen.isInTheMap t = true) ∧
    (∀ t ∈ (rowZone 10).freePaths, openRowGen.tiles t = TileType.Free) ∧
    ∃ r, selectNodes plainCollaborators.randomShuffle ((rowZone 10).tileInfo.length + 1) 0
        (((rowZone 10).tileInfo.filter openRowGen.isPossible).foldl setInsert [])
        (collectFreePaths openRowGen (rowZone 10)) [] = some r ∧
      fractalizeNodes plainCollaborators.randomShuffle openRowGen (rowZone 10) = some r.1 ∧
      ∀ t ∈ (rowZone 10).tileInfo, openRowGen.tiles t = TileType.Possible →
        ∃ c, (openRowGen.tiles c = TileType.Free ∨ c ∈ r.1) ∧ t.distanceSquared c ≤ 75 :=
  ⟨fun _ _ _ => Iff.rfl, by decide, by decide, fun _ h => (by cases h),
    fractalizeNodes_cover_possible plainCollaborators.randomShuffle openRowGen (rowZone 10)
      (fun _ _ _ => Iff.rfl) (by decide) (by decide) (fun _ h => (by cases h))⟩

/-! ## Lemmas: searches that close tiles at their least cost -/

theorem LeastInv.least_walk {m : MapGenerator} {maxCost : Nat}
    {edge : Position → Position → Nat → Prop} {source : Position}
    {settled : Position → Position → Prop} {st : SearchState}
    (spec : EdgeSpec m maxCost edge) (inv : LeastInv m maxCost edge source settled st) :
    ∀ (d : Nat) (p : Position), st.distances p = some d → Walk edge source p d := by
  intro d
  induction d using Nat.strong_induction_on with
  | _ d ih =>
    intro p hp
    by_cases hps : p = source
    · subst hps
      rw [inv.weighted.src_dist] at hp
      cases hp
      exact Walk.start
    · obtain ⟨par, w, dpar, _, _, hdpar, hedge, hd⟩ := inv.parent_eq p d hp hps
      have hw := spec.positive _ _ _ hedge
      subst hd
      exact Walk.step (ih dpar (by omega) par hdpar) hedge

theorem LeastInv.least_mono {m : MapGenerator} {maxCost : Nat}
    {edge : Position → Position → Nat → Prop} {source : Position}
    {s1 s2 : Position → Position → Prop} {st : SearchState}
    (h : ∀ c q w, edge c q w → s2 c q → s1 c q)
    (inv : LeastInv m maxCost edge source s1 st) : LeastInv m maxCost edge source s2 st :=
  ⟨inv.weighted, inv.parent_eq, inv.optimal,
    fun c hc dc hdc q w hedge hs => inv.relaxed c hc dc hdc q w hedge (h c q w hedge hs)⟩

/-- A visit that leaves the state as it is settles the step it looked at, when the target is
closed or has a distance that the step would not improve. -/
theorem LeastInv.skip {m : MapGenerator} {maxCost : Nat}
    {edge : Position → Position → Nat → Prop} {source : Position}
    {settled : Position → Position → Prop} {st : SearchState}
    (spec : EdgeSpec m maxCost edge) (inv : LeastInv m maxCost edge source settled st)
    {cur : Position} {dc : Nat} (hdc : st.distances cur = some dc) (p : Position)
    (hwhy : p ∈ st.closed ∨
      ∀ w, edge cur p w → ∃ dp, st.distances p = some dp ∧ dp ≤ dc + w) :
    LeastInv m maxCost edge source (fun c q => settled c q ∨ (c = cur ∧ q = p)) st := by
  refine ⟨inv.weighted, inv.parent_eq, inv.optimal, ?_⟩
  intro c hc dcc hdcc q w hedge hs
  rcases hs with hs | ⟨hcc, hqp⟩
  · exact inv.relaxed c hc dcc hdcc q w hedge hs
  · subst hcc hqp
    rw [hdc] at hdcc
    cases hdcc
    rcases hwhy with h | h
    · obtain ⟨dq, hdq⟩ := inv.weighted.closed_dist q h
      exact ⟨dq, hdq, inv.optimal q h dq hdq _ (Walk.step (inv.least_walk spec dc c hdc) hedge)⟩
    · exact h w hedge

/-- A visit that improves the distance of its target keeps the invariant and settles the
step. -/
theorem LeastInv.relax {m : MapGenerator} {maxCost : Nat}
    {edge : Position → Position → Nat → Prop} {source : Position}
    {settled : Position → Position → Prop} {st : SearchState}
    (spec : EdgeSpec m maxCost edge) (inv : LeastInv m maxCost edge source settled st)
    {cur p : Position} {dc w : Nat}
    (hsrc : source ∈ st.closed) (hcur : cur ∈ st.closed) (hdc : st.distances cur = some dc)
    (hp : p ∉ st.closed) (hedge : edge cur p w) (hmin : ∀ w1, edge cur p w1 → w ≤ w1)
    (hbetter : improves (dc + w) (st.distances p) = true) :
    LeastInv m maxCost edge source (fun c q => settled c q ∨ (c = cur ∧ q = p))
      (relaxTile st cur p (dc + w)) := by
  have hpc : p ≠ cur := fun h => hp (h ▸ hcur)
  have hwinv := WeightedInv.relaxTile_inv spec inv.weighted hsrc hcur
    hdc (Nat.le_refl _) (inv.weighted.dist_bound cur dc hdc) hp hedge hbetter
  have hdist : ∀ q, q ≠ p → (relaxTile st cur p (dc + w)).distances q = st.distances q := by
    intro q hq
    simp only [relaxTile, if_neg hq]
  have hdistc : ∀ c ∈ st.closed, (relaxTile st cur p (dc + w)).distances c = st.distances c :=
    fun c hc => hdist c (fun h => hp (h ▸ hc))
  refine ⟨hwinv, ?_, ?_, ?_⟩
  · intro q d hd hq
    by_cases hqp : q = p
    · subst hqp
      simp only [relaxTile, if_true, Option.some.injEq] at hd
      subst hd
      refine ⟨cur, w, dc, by simp [relaxTile], hcur, ?_, hedge, rfl⟩
      rw [hdistc cur hcur]
      exact hdc
    · rw [hdist q hqp] at hd
      obtain ⟨par, w1, dpar, h1, h2, h3, h4⟩ := inv.parent_eq q d hd hq
      refine ⟨par, w1, dpar, by simp only [relaxTile, if_neg hqp]; exact h1, h2, ?_, h4⟩
      rw [hdistc par h2]
      exact h3
  · intro c hc d hd x hx
    rw [hdistc c hc] at hd
    exact inv.optimal c hc d hd x hx
  · intro c hc dcc hdcc q w1 hedge1 hs
    rw [hdistc c hc] at hdcc
    by_cases hqp : q = p
    · subst hqp
      refine ⟨dc + w, by simp [relaxTile], ?_⟩
      rcases hs with hs | ⟨hcc, _⟩
      · obtain ⟨dq, hdq, hle⟩ := inv.relaxed c hc dcc hdcc q w1 hedge1 hs
        have := improves_lt hbetter dq hdq
        omega
      · subst hcc
        rw [hdc] at hdcc
        cases hdcc
        have := hmin w1 hedge1
        omega
    · rw [hdist q hqp]
      rcases hs with hs | ⟨_, hqp2⟩
      · exact inv.relaxed c hc dcc hdcc q w1 hedge1 hs
      · exact absurd hqp2 hqp

/-- A walk from the source ends at a closed tile whose distance is at most its cost, or some
tile that is not closed has a distance of at most that cost. -/
theorem LeastInv.border {m : MapGenerator} {maxCost : Nat}
    {edge : Position → Position → Nat → Prop} {source : Position} {st : SearchState}
    (inv : LeastInv m maxCost edge source (fun _ _ => True) st) {v : Position} {x : Nat}
    (hwalk : Walk edge source v x) :
    (v ∈ st.closed ∧ ∃ dv, st.distances v = some dv ∧ dv ≤ x) ∨
    ∃ y dy, y ∉ st.closed ∧ st.distances y = some dy ∧ dy ≤ x := by
  induction hwalk with
  | start =>
    rcases inv.weighted.started with h | ⟨h, _, _⟩
    · exact Or.inl ⟨h, 0, inv.weighted.src_dist, Nat.le_refl _⟩
    · exact Or.inr ⟨source, 0, by rw [h]; simp, inv.weighted.src_dist, Nat.le_refl _⟩
  | @step b d c w _ hedge ih =>
    rcases ih with ⟨hb, db, hdb, hle⟩ | ⟨y, dy, hy, hdy, hle⟩
    · obtain ⟨dd, hdd, hle2⟩ := inv.relaxed b hb db hdb d w hedge trivial
      by_cases hd : d ∈ st.closed
      · exact Or.inl ⟨hd, dd, hdd, by omega⟩
      · exact Or.inr ⟨d, dd, hd, hdd, by omega⟩
    · exact Or.inr ⟨y, dy, hy, hdy, by omega⟩

/-- The popped entry is at most as costly as any walk to a tile that is not closed. -/
theorem LeastInv.top_least {m : MapGenerator} {maxCost : Nat}
    {edge : Position → Position → Nat → Prop} {source : Position} {st : SearchState}
    (inv : LeastInv m maxCost edge source (fun _ _ => True) st) {node : Position × Nat}
    (htop : PriorityQueue.top st.queue = some node) {v : Position} {x : Nat}
    (hwalk : Walk edge source v x) (hv : v ∉ st.closed) : node.2 ≤ x := by
  rcases inv.border hwalk with ⟨h, _⟩ | ⟨y, dy, hy, hdy, hle⟩
  · exact absurd h hv
  · have hq : (y, dy) ∈ st.queue := by
      rcases inv.weighted.covered y dy hdy with h | h
      · exact absurd h hy
      · exact h
    have h1 := PriorityQueue.top_le htop (y, dy) hq
    simp only at h1
    omega

/-- The invariant survives `queue.pop()` and `closed.insert`: the tile that gets closed has its
least distance. -/
theorem LeastInv.close {m : MapGenerator} {maxCost : Nat}
    {edge : Position → Position → Nat → Prop} {source : Position} {st : SearchState}
    (inv : LeastInv m maxCost edge source (fun _ _ => True) st) {node : Position × Nat}
    (htop : PriorityQueue.top st.queue = some node) :
    LeastInv m maxCost edge source (fun c _ => c ≠ node.1) (closeTop st node.1) ∧
    node.1 ∈ (closeTop st node.1).closed ∧ source ∈ (closeTop st node.1).closed ∧
    ∃ dc, (closeTop st node.1).distances node.1 = some dc ∧ dc ≤ node.2 := by
  obtain ⟨hw, hnode, hsrc, ⟨dc, hdc, hdcle⟩, _⟩ := inv.weighted.closeTop_inv htop
  have hcl : ∀ c, c ∈ (closeTop st node.1).closed → c ∈ st.closed ∨ c = node.1 := by
    intro c hc
    simpa only [closeTop, mem_setInsert] using hc
  refine ⟨⟨hw, ?_, ?_, ?_⟩, hnode, hsrc, dc, hdc, hdcle⟩
  · intro p d hd hp
    obtain ⟨par, w, dpar, h1, h2, h3⟩ := inv.parent_eq p d hd hp
    exact ⟨par, w, dpar, h1, (mem_setInsert _ _ _).2 (Or.inl h2), h3⟩
  · intro c hc d hd x hx
    by_cases hold : c ∈ st.closed
    · exact inv.optimal c hold d hd x hx
    · have hcn : c = node.1 := by
        rcases hcl c hc with h | h
        · exact absurd h hold
        · exact h
      have h1 := inv.top_least htop hx hold
      have h2 : d = dc := by
        rw [hcn] at hd
        rw [hdc] at hd
        cases hd
        rfl
      omega
  · intro c hc dcc hdcc p w hedge hne
    have hold : c ∈ st.closed := by
      rcases hcl c hc with h | h
      · exact h
      · exact absurd h hne
    exact inv.relaxed c hold dcc hdcc p w hedge trivial

theorem searchInit_least (m : MapGenerator) (maxCost : Nat)
    (edge : Position → Position → Nat → Prop) (source : Position) :
    LeastInv m maxCost edge source (fun _ _ => True) (searchInit source) := by
  refine ⟨searchInit_weighted m maxCost edge source, ?_, ?_, ?_⟩
  · intro p d hd hp
    simp [searchInit, hp] at hd
  · intro c hc
    simp [searchInit] at hc
  · intro c hc
    simp [searchInit] at hc

/-! ## Lemmas: `connectPath` reaches a nearest Free tile -/

theorem pathEdge_spec (m : MapGenerator) (z : TemplateZone) (os : Bool) :
    EdgeSpec m 1 (pathEdge m z os) :=
  ⟨fun a b _ h => m.isInTheMap_of_mem_neighbors os a b h.1,
    fun _ _ w h => by have := h.2.2; omega,
    fun _ _ w h => by have := h.2.2; omega⟩

/-- What one call of the lambda of `connectPath` does: nothing, when the neighbour is closed,
not passable or not reached sooner; otherwise it records the neighbour one step after the
current tile. -/
theorem connectPathVisit_step (m : MapGenerator) (z : TemplateZone) (cur : Position)
    (st : SearchState) (p : Position) :
    (connectPathVisit m z cur st p = st ∧
      (p ∈ st.closed ∨ ¬ passable m z p ∨
        improves ((st.distances cur).getD 0 + 1) (st.distances p) = false)) ∨
    (p ∉ st.closed ∧ passable m z p ∧
      improves ((st.distances cur).getD 0 + 1) (st.distances p) = true ∧
      connectPathVisit m z cur st p = relaxTile st cur p ((st.distances cur).getD 0 + 1)) := by
  by_cases hc : p ∈ st.closed
  · left
    exact ⟨by simp only [connectPathVisit, if_pos hc], Or.inl hc⟩
  · by_cases hb : (m.isBlocked p || decide (m.getZoneId p ≠ z.id)) = true
    · left
      refine ⟨by simp only [connectPathVisit, if_neg hc, if_pos hb], Or.inr (Or.inl ?_)⟩
      intro hp
      simp [hp.1, hp.2] at hb
    · have hp : passable m z p := by
        simpa [passable] using hb
      have hval : connectPathVisit m z cur st p =
          if improves ((st.distances cur).getD 0 + 1) (st.distances p) = true then
            relaxTile st cur p ((st.distances cur).getD 0 + 1)
          else st := by
        simp only [connectPathVisit, if_neg hc, if_neg hb]
        rfl
      cases hi : improves ((st.distances cur).getD 0 + 1) (st.distances p) with
      | false =>
        left
        rw [hval, hi]
        exact ⟨by simp, Or.inr (Or.inr rfl)⟩
      | true =>
        right
        rw [hval, hi]
        exact ⟨hc, hp, rfl, by simp⟩

/-- One call of the lambda of `connectPath` keeps the invariant and settles the step to the
neighbour it was called for. -/
theorem connectPathVisit_least {m : MapGenerator} {z : TemplateZone} {os : Bool}
    {source : Position} {settled : Position → Position → Prop} {st : SearchState}
    (inv : LeastInv m 1 (pathEdge m z os) source settled st) {cur : Position} {dc : Nat}
    (hsrc : source ∈ st.closed) (hcur : cur ∈ st.closed) (hdc : st.distances cur = some dc)
    (p : Position) (hn : p ∈ m.neighbors os cur) :
    LeastInv m 1 (pathEdge m z os) source (fun c q => settled c q ∨ (c = cur ∧ q = p))
        (connectPathVisit m z cur st p) ∧
      (connectPathVisit m z cur st p).closed = st.closed ∧
      (connectPathVisit m z cur st p).distances cur = some dc := by
  rcases connectPathVisit_step m z cur st p with ⟨heq, hwhy⟩ | ⟨hp, hpass, hbetter, heq⟩
  · rw [heq]
    refine ⟨inv.skip (pathEdge_spec m z os) hdc p ?_, rfl, hdc⟩
    rcases hwhy with h | h | h
    · exact Or.inl h
    · exact Or.inr fun w hedge => absurd hedge.2.1 h
    · right
      intro w hedge
      obtain ⟨dp, hdp, hle⟩ := improves_false h
      rw [hdc] at hle
      have := hedge.2.2
      simp only [Option.getD_some] at hle
      exact ⟨dp, hdp, by omega⟩
  · rw [heq]
    rw [hdc] at hbetter ⊢
    simp only [Option.getD_some] at hbetter ⊢
    refine ⟨inv.relax (pathEdge_spec m z os) hsrc hcur hdc hp ⟨hn, hpass, rfl⟩
      (fun w1 h1 => by have := h1.2.2; omega) hbetter, rfl, ?_⟩
    have hne : cur ≠ p := fun h => hp (h ▸ hcur)
    simp only [relaxTile, if_neg hne]
    exact hdc

/-- The visits of the neighbours of the current tile keep the invariant and settle the steps
out of it. -/
theorem connectPathFold_least {m : MapGenerator} {z : TemplateZone} {os : Bool}
    {source cur : Position} {dc : Nat} :
    ∀ (l : List Position) (settled : Position → Position → Prop) (st : SearchState),
      LeastInv m 1 (pathEdge m z os) source settled st → source ∈ st.closed →
      cur ∈ st.closed → st.distances cur = some dc → (∀ p ∈ l, p ∈ m.neighbors os cur) →
      LeastInv m 1 (pathEdge m z os) source (fun c q => settled c q ∨ (c = cur ∧ q ∈ l))
          (l.foldl (connectPathVisit m z cur) st) ∧
        (l.foldl (connectPathVisit m z cur) st).closed = st.closed := by
  intro l
  induction l with
  | nil =>
    intro settled st inv _ _ _ _
    refine ⟨inv.least_mono ?_, rfl⟩
    intro c q w _ h
    rcases h with h | ⟨_, h⟩
    · exact h
    · cases h
  | cons a l ih =>
    intro settled st inv hsrc hcur hdc hl
    obtain ⟨h1, h2, h3⟩ :=
      connectPathVisit_least inv hsrc hcur hdc a (hl a (List.mem_cons_self _ _))
    obtain ⟨h4, h5⟩ := ih _ _ h1 (h2 ▸ hsrc) (h2 ▸ hcur) h3
      (fun p hp => hl p (List.mem_cons_of_mem _ hp))
    refine ⟨h4.least_mono ?_, by rw [List.foldl_cons, h5, h2]⟩
    intro c q w _ h
    rcases h with h | ⟨hc, hq⟩
    · exact Or.inl (Or.inl h)
    · rcases List.mem_cons.1 hq with hq | hq
      · exact Or.inl (Or.inr ⟨hc, hq⟩)
      · exact Or.inr ⟨hc, hq⟩

/-- The tile at which the search of `connectPath` stops has a recorded distance that is at most
the number of steps of every walk from the source to a Free tile. -/
theorem connectPathLoop_nearest (m : MapGenerator) (z : TemplateZone) (os : Bool)
    (source : Position) :
    ∀ (fuel : Nat) (st : SearchState) (node : Position) (st1 : SearchState),
      LeastInv m 1 (pathEdge m z os) source (fun _ _ => True) st →
      (∀ c ∈ st.closed, m.isFree c = false) →
      connectPathLoop m z os fuel st = some (SearchOutcome.reached node st1) →
      ∃ settled, LeastInv m 1 (pathEdge m z os) source settled st1 ∧
        ∃ d, st1.distances node = some d ∧
          ∀ f x, m.isFree f = true → Walk (pathEdge m z os) source f x → d ≤ x := by
  intro fuel
  induction fuel with
  | zero =>
    intro st node st1 _ _ h
    simp [connectPathLoop] at h
  | succ fuel ih =>
    intro st node st1 inv hnot h
    unfold connectPathLoop at h
    cases htop : PriorityQueue.top st.queue with
    | none =>
      rw [htop] at h
      cases h
    | some top =>
      rw [htop] at h
      simp only [] at h
      obtain ⟨hinv, hnode, hsrc, dc, hdc, hle⟩ := inv.close htop
      by_cases hfree : m.isFree top.1 = true
      · rw [if_pos hfree] at h
        cases h
        refine ⟨_, hinv, dc, hdc, ?_⟩
        intro f x hf hwalk
        have hv : f ∉ st.closed := by
          intro hc
          rw [hnot f hc] at hf
          cases hf
        have := inv.top_least htop hwalk hv
        omega
      · rw [if_neg hfree] at h
        obtain ⟨h1, h2⟩ := connectPathFold_least (m.neighbors os top.1) _ (closeTop st top.1)
          hinv hsrc hnode hdc (fun p hp => hp)
        refine ih _ node st1 (h1.least_mono ?_) ?_ h
        · intro c q w hedge _
          by_cases hc : c = top.1
          · exact Or.inr ⟨hc, hc ▸ hedge.1⟩
          · exact Or.inl hc
        · intro c hc
          have hc2 : c ∈ (closeTop st top.1).closed := h2 ▸ hc
          simp only [closeTop, mem_setInsert] at hc2
          rcases hc2 with hc2 | hc2
          · exact hnot c hc2
          · rw [hc2]
            simpa using hfree

/-- The backtracking loop of `connectPath` returns; the tiles it turns Free are those of a
chain of steps of the search from the source, the source itself left out, and the chain has as
many steps as the recorded distance of the tile it starts from. -/
theorem backtrackFree_steps {m : MapGenerator} {z : TemplateZone} {os : Bool}
    {source : Position} {settled : Position → Position → Prop} {st : SearchState}
    (inv : LeastInv m 1 (pathEdge m z os) source settled st) (hsrc : source.isValid = true) :
    ∀ (d : Nat) (p : Position) (fuel : Nat) (g : MapGenerator),
      st.distances p = some d → d + 1 ≤ fuel →
      ∃ rest g1, backtrackFree st.cameFrom fuel p g = some g1 ∧
        List.Chain (canStep m z os) source rest ∧ chainEnd source rest = p ∧
        rest.length = d ∧
        ∀ t, g1.tiles t = if t ∈ rest then TileType.Free else g.tiles t := by
  intro d
  induction d using Nat.strong_induction_on with
  | _ d ih =>
    intro p fuel g hp hfuel
    obtain ⟨k, rfl⟩ : ∃ k, fuel = k + 1 := ⟨fuel - 1, by omega⟩
    by_cases hps : p = source
    · subst hps
      rw [inv.weighted.src_dist] at hp
      cases hp
      refine ⟨[], g, ?_, List.Chain.nil, rfl, rfl, fun t => by simp⟩
      unfold backtrackFree
      rw [inv.weighted.src_from]
      simp [invalidPosition_not_valid]
    · obtain ⟨par, w, dpar, hfrom, hpar, hdpar, hedge, hd⟩ := inv.parent_eq p d hp hps
      have hw := hedge.2.2
      have hvalid : par.isValid = true := by
        rcases inv.weighted.in_map par dpar hdpar with h | h
        · rw [h]; exact hsrc
        · exact Position.isValid_of_isInTheMap m par h
      obtain ⟨rest, g1, h1, h2, h3, hlen, h4⟩ :=
        ih dpar (by omega) par k (g.setOccupied p TileType.Free) hdpar (by omega)
      have hstep : canStep m z os (chainEnd source rest) p := by
        rw [h3]
        exact ⟨hedge.1, hedge.2.1⟩
      obtain ⟨h5, h6⟩ := chain_snoc p rest source h2 hstep
      refine ⟨rest ++ [p], g1, ?_, h5, h6, ?_, ?_⟩
      · unfold backtrackFree
        rw [hfrom]
        simp only [hvalid, if_true]
        exact h1
      · rw [List.length_append, hlen, hd, hw]
        rfl
      · intro t
        rw [h4 t]
        by_cases ht : t ∈ rest
        · simp [ht]
        · by_cases htp : t = p
          · simp [htp, MapGenerator.setOccupied]
          · simp [ht, htp, MapGenerator.setOccupied]

/-- A chain of steps of the search is a walk with as many steps as it has tiles. -/
theorem walk_of_chain (m : MapGenerator) (z : TemplateZone) (os : Bool) (source : Position) :
    ∀ (rest : List Position) (a : Position) (x : Nat),
      Walk (pathEdge m z os) source a x → List.Chain (canStep m z os) a rest →
      Walk (pathEdge m z os) source (chainEnd a rest) (x + rest.length) := by
  intro rest
  induction rest with
  | nil =>
    intro a x hw _
    exact hw
  | cons b rest ih =>
    intro a x hw hc
    cases hc with
    | cons hab hrest =>
      have h1 : Walk (pathEdge m z os) source b (x + 1) := Walk.step hw ⟨hab.1, hab.2, rfl⟩
      have h2 := ih b (x + 1) h1 hrest
      have h3 : x + 1 + rest.length = x + (b :: rest).length := by
        simp only [List.length_cons]
        omega
      rw [h3] at h2
      exact h2

/-! ## C33: `connectPath` joins the network at a nearest Free tile -/

/-- C33: `connectPath` returns, and whenever it returns true from a valid source the tiles it
turned Free are those of a chain of neighbouring, in-zone, non-blocked tiles from the source
to a Free tile, and no chain of such tiles from the source to a Free tile has fewer steps. -/
theorem connectPath_joins_nearest_free (m : MapGenerator) (z : TemplateZone)
    (source : Position) (onlyStraight : Bool) (hsrc : source.isValid = true) :
    ∃ r, connectPath m z source onlyStraight = some r ∧
      (r.result = true →
        ∃ rest, List.Chain (canStep m z onlyStraight) source rest ∧
          m.isFree (chainEnd source rest) = true ∧
          (∀ t, r.gen.tiles t = if t ∈ rest then TileType.Free else m.tiles t) ∧
          ∀ other, List.Chain (canStep m z onlyStraight) source other →
            m.isFree (chainEnd source other) = true → rest.length ≤ other.length) := by
  obtain ⟨out, hout, hpost⟩ := connectPathSearch_spec m z source onlyStraight
  unfold connectPath
  rw [hout]
  cases out with
  | reached node st =>
    have hfree : m.isFree node = true := hpost.1
    have hinit : LeastInv m 1 (pathEdge m z onlyStraight) source (fun _ _ => True)
        (connectPathInit source) := searchInit_least m 1 _ source
    obtain ⟨settled, inv, d, hd, hnear⟩ :=
      connectPathLoop_nearest m z onlyStraight source _ _ node st hinit
        (fun c hc => by simp [connectPathInit] at hc) hout
    obtain ⟨rest, g1, h1, h2, h3, hlen, h4⟩ :=
      backtrackFree_steps inv hsrc d node (d + 1) m hd (Nat.le_refl _)
    simp only [hd, Option.getD_some, h1]
    refine ⟨_, rfl, fun _ => ⟨rest, h2, h3 ▸ hfree, h4, ?_⟩⟩
    intro other hc hf
    have hw := walk_of_chain m z onlyStraight source other source 0 Walk.start hc
    have := hnear _ _ hf hw
    omega
  | exhausted st =>
    exact ⟨_, rfl, fun h => by simp at h⟩

/-- Witness for C33: the Possible tile (0,0) of the 2x1 corridor map, next to the Free tile
(1,0). -/
theorem connectPath_joins_nearest_free_witness :
    (⟨0, 0⟩ : Position).isValid = true ∧
    ∃ r, connectPath corridorGen corridorZone ⟨0, 0⟩ true = some r ∧
      (r.result = true →
        ∃ rest, List.Chain (canStep corridorGen corridorZone true) ⟨0, 0⟩ rest ∧
          corridorGen.isFree (chainEnd ⟨0, 0⟩ rest) = true ∧
          (∀ t, r.gen.tiles t = if t ∈ rest then TileType.Free else corridorGen.tiles t) ∧
          ∀ other, List.Chain (canStep corridorGen corridorZone true) ⟨0, 0⟩ other →
            corridorGen.isFree (chainEnd ⟨0, 0⟩ other) = true → rest.length ≤ other.length) :=
  ⟨by decide, connectPath_joins_nearest_free corridorGen corridorZone ⟨0, 0⟩ true (by decide)⟩

end D2RSG
